import Mathlib

/-!
# memory-mcp: storage and session layer

A shallow embedding of the storage/session core of `memory-mcp`
(`internal/models`, `internal/storage`, `internal/session`) together with the
properties proved about it.

Conventions of the embedding.

* A SQLite database is the list of rows of each of its tables, in rowid order.
  The triggers of `schema.go` are run by the statements that fire them.
* Every call of the database engine or of the operating system is one *step* of
  the call being modelled.  Steps are numbered from `0` inside each call and an
  environment `Env` says, for each step, what `datetime('now')` reads, which
  value `uuid.New()` draws and whether the engine fails there (I/O errors, lock
  timeouts, engine limits).  Constraint violations are not faults: they are
  computed from the rows.
* Go slices are lists; a Go `error` is the chain of its `fmt.Errorf` frames.
* A deferred `tx.Rollback()` is the return of the database the call started with.
-/

set_option autoImplicit false

namespace MemoryCloud

/-! ## Go runtime -/

/-- One `fmt.Errorf` (or `errors.New`) call: the format string exactly as the
source writes it and the values of its non-error verbs. -/
structure ErrFrame where
  format : String
  args : List String
deriving DecidableEq, Repr

/-- A Go error: its frames from the outermost `%w` wrap down to the root cause. -/
abbrev GoError := List ErrFrame

/-- Go `fmt.Errorf(format, args...)` without a wrapped error. -/
def errorf (format : String) (args : List String) : GoError :=
  [⟨format, args⟩]

/-- Go `fmt.Errorf(format, args..., err)` where the format ends in `%w`. -/
def wrapf (format : String) (args : List String) (err : GoError) : GoError :=
  ⟨format, args⟩ :: err

/-- The sentinel `sql.ErrNoRows`. -/
def ErrNoRows : GoError :=
  errorf "sql: no rows in result set" []

/-- The environment of one call: the clock, the random source and the faults of
the engine, each indexed by the step of the call that consults it. -/
structure Env where
  now : Nat → String
  uuid : Nat → Nat
  fault : Nat → Option GoError

/-- An environment in which the engine never fails. -/
def Env.FaultFree (env : Env) : Prop :=
  ∀ k, env.fault k = none

/-- The environment seen by a callee that starts at step `k` of its caller. -/
def Env.shift (env : Env) (k : Nat) : Env :=
  ⟨fun i => env.now (k + i), fun i => env.uuid (k + i), fun i => env.fault (k + i)⟩

/-! ### `github.com/google/uuid` -/

/-- One lower-case hexadecimal digit. -/
def hexDigit (n : Nat) : Char :=
  if n % 16 < 10 then Char.ofNat (48 + n % 16) else Char.ofNat (87 + n % 16)

/-- The two hexadecimal digits of a byte. -/
def hexByte (b : Nat) : List Char :=
  [hexDigit (b / 16), hexDigit b]

/-- Byte `i` (0 is the most significant) of a 128-bit value. -/
def uuidByte (u i : Nat) : Nat :=
  (u / 256 ^ (15 - i)) % 256

/-- The characters of `UUID.String()`: 32 hexadecimal digits in groups of
8-4-4-4-12 separated by dashes. -/
def uuidChars (u : Nat) : List Char :=
  (List.range 16).flatMap fun i =>
    (if i = 4 ∨ i = 6 ∨ i = 8 ∨ i = 10 then ['-'] else []) ++ hexByte (uuidByte u i)

/-- Go `uuid.UUID.String()` of the 128-bit value `u`. -/
def UUID.String (u : Nat) : String :=
  String.mk (uuidChars u)

/-! ### `path/filepath` -/

/-- Go `filepath.Join` of two elements on a slash-separated system: empty
elements are skipped.  The lexical cleaning `filepath.Clean` applies afterwards
is not modelled; paths are compared as they are built. -/
def filepath.Join (a b : String) : String :=
  if a = "" then b else if b = "" then a else a ++ "/" ++ b

/-- The characters of a path without its trailing slashes. -/
def filepath.stripTrailing (cs : List Char) : List Char :=
  (cs.reverse.dropWhile fun c => c = '/').reverse

/-- The characters after the last slash of a path. -/
def filepath.lastElement (cs : List Char) : List Char :=
  (cs.reverse.takeWhile fun c => c ≠ '/').reverse

/-- Go `filepath.Base`: the last element of a path; `.` for the empty path and
`/` for a path of slashes only. -/
def filepath.Base (path : String) : String :=
  if path = "" then "."
  else
    let e := filepath.lastElement (filepath.stripTrailing path.data)
    if e = [] then "/" else String.mk e

/-! ## `internal/models` -/

/-- Go `models.Project`: a row of the `projects` table of `_meta.db`. -/
structure Project where
  ID : String
  Name : String
  Description : String
  DBPath : String
  Status : String
  CreatedAt : String
  UpdatedAt : String
deriving DecidableEq, Repr

/-- Go `models.Observation`. -/
structure Observation where
  ID : String
  EntityID : String
  Content : String
  CreatedAt : String
deriving DecidableEq, Repr

/-- Go `models.Relation`. -/
structure Relation where
  ID : String
  FromEntity : String
  ToEntity : String
  RelationType : String
  CreatedAt : String
deriving DecidableEq, Repr

/-- Go `models.Entity`. -/
structure Entity where
  ID : String
  Name : String
  EntityType : String
  Observations : List Observation
  Relations : List Relation
  CreatedAt : String
  UpdatedAt : String
deriving DecidableEq, Repr

/-- Go `models.KnowledgeGraph`. -/
structure KnowledgeGraph where
  Entities : List Entity
  Relations : List Relation
deriving DecidableEq, Repr

/-! ## `schema.go`: the per-project database -/

/-- A row of table `entities`. -/
structure EntityRow where
  rowid : Nat
  id : String
  name : String
  entity_type : String
  created_at : String
  updated_at : String
  deleted_at : Option String
deriving DecidableEq, Repr

/-- A row of table `observations`. -/
structure ObservationRow where
  rowid : Nat
  id : String
  entity_id : String
  content : String
  created_at : String
  deleted_at : Option String
deriving DecidableEq, Repr

/-- A row of table `relations`. -/
structure RelationRow where
  rowid : Nat
  id : String
  from_entity : String
  to_entity : String
  relation_type : String
  created_at : String
  deleted_at : Option String
deriving DecidableEq, Repr

/-- An entry of the external-content FTS5 table `entities_fts`. -/
structure EntityFts where
  rowid : Nat
  name : String
  entity_type : String
deriving DecidableEq, Repr

/-- An entry of the external-content FTS5 table `observations_fts`. -/
structure ObservationFts where
  rowid : Nat
  content : String
deriving DecidableEq, Repr

/-- The contents of one project database file.  `schema` is false for a file
that the engine created on open and that `initProjectDB` never provisioned:
every statement on it fails with `no such table`. -/
structure DB where
  schema : Bool
  entities : List EntityRow
  observations : List ObservationRow
  relations : List RelationRow
  entities_fts : List EntityFts
  observations_fts : List ObservationFts
deriving DecidableEq, Repr

/-- The database file the engine creates when it opens a path that does not exist. -/
def DB.blank : DB :=
  ⟨false, [], [], [], [], []⟩

/-- The database `initProjectDB` provisions: `ProjectSchema` and
`ProjectTriggers` on an empty file. -/
def DB.fresh : DB :=
  ⟨true, [], [], [], [], []⟩

/-- A row is active when its tombstone `deleted_at` is NULL. -/
def EntityRow.active (e : EntityRow) : Bool :=
  e.deleted_at.isNone

/-- A row is active when its tombstone `deleted_at` is NULL. -/
def ObservationRow.active (o : ObservationRow) : Bool :=
  o.deleted_at.isNone

/-- A row is active when its tombstone `deleted_at` is NULL. -/
def RelationRow.active (r : RelationRow) : Bool :=
  r.deleted_at.isNone

/-- Order of two byte strings under SQLite's `BINARY` collation, on the code
points of their characters (UTF-8 keeps that order). -/
def lexLe : List Nat → List Nat → Bool
  | [], _ => true
  | _ :: _, [] => false
  | a :: as, b :: bs => a < b || (a == b && lexLe as bs)

/-- Order of two TEXT values in an index and in an `ORDER BY`. -/
def textLe (a b : String) : Bool :=
  lexLe (a.data.map Char.toNat) (b.data.map Char.toNat)

/-- The rows of the partial index `idx_entities_active ON entities(name,
entity_type) WHERE deleted_at IS NULL`, in the order of the index: the active
rows by name, those of one name by type, those of one name and type by rowid,
which is their order in the table.  The engine answers from this index the
lookups of entities by name and the listing `ORDER BY name`. -/
def idx_entities_active (entities : List EntityRow) : List EntityRow :=
  ((entities.filter fun e => e.active).insertionSort
    fun a b => textLe a.entity_type b.entity_type = true).insertionSort
    fun a b => textLe a.name b.name = true

/-- The rows of the partial index `idx_relations_type ON
relations(relation_type) WHERE deleted_at IS NULL`, in the order of the index:
the active rows by type, those of one type by rowid, which is their order in
the table.  The engine scans this index for the two queries that read active
relations, and sorts what it finds. -/
def idx_relations_type (relations : List RelationRow) : List RelationRow :=
  (relations.filter fun r => r.active).insertionSort
    fun a b => textLe a.relation_type b.relation_type = true

/-- The rowid SQLite gives to a new row: one more than the largest in the table. -/
def nextRowid (rowids : List Nat) : Nat :=
  rowids.foldr max 0 + 1

/-- The index entry the triggers write for an entity row. -/
def EntityRow.fts (e : EntityRow) : EntityFts :=
  ⟨e.rowid, e.name, e.entity_type⟩

/-- The index entry the triggers write for an observation row. -/
def ObservationRow.fts (o : ObservationRow) : ObservationFts :=
  ⟨o.rowid, o.content⟩

/-- Trigger `entities_au`, fired once per updated row: the FTS5 `delete` command
for the old values, then the insertion of the new ones. -/
def entities_au (idx : List EntityFts) (old new : EntityRow) : List EntityFts :=
  idx.erase old.fts ++ [new.fts]

/-- Trigger `observations_au`, fired once per updated row. -/
def observations_au (idx : List ObservationFts) (old new : ObservationRow) :
    List ObservationFts :=
  idx.erase old.fts ++ [new.fts]

/-- Engine error for a violated PRIMARY KEY or UNIQUE constraint. -/
def errUnique (column : String) : GoError :=
  errorf "UNIQUE constraint failed: %s" [column]

/-- Engine error for a violated FOREIGN KEY constraint. -/
def errForeignKey : GoError :=
  errorf "FOREIGN KEY constraint failed" []

/-- Engine error of a statement on a file without the schema. -/
def errNoSuchTable : GoError :=
  errorf "no such table" []

/-! ### Statements

Each statement is a function of the database it runs on; it returns the value
the driver hands back and the database after the statement and its triggers. -/

/-- The result of a statement: an engine error, or a value and the new database. -/
abbrev Stmt (α : Type) := DB → Except GoError (α × DB)

/-- Statement `INSERT INTO entities (id, name, entity_type) VALUES (?, ?, ?)`;
`created_at` and `updated_at` default to `datetime('now')`; fires `entities_ai`. -/
def insertEntity (now id name entity_type : String) : Stmt Unit := fun db =>
  if id ∈ db.entities.map EntityRow.id then .error (errUnique "entities.id")
  else
    let row : EntityRow :=
      ⟨nextRowid (db.entities.map EntityRow.rowid), id, name, entity_type, now, now, none⟩
    .ok ((), { db with
      entities := db.entities ++ [row]
      entities_fts := db.entities_fts ++ [row.fts] })

/-- Statement `INSERT INTO observations (id, entity_id, content) VALUES (?, ?, ?)`;
`entity_id` references `entities(id)`; fires `observations_ai`. -/
def insertObservation (now id entity_id content : String) : Stmt Unit := fun db =>
  if id ∈ db.observations.map ObservationRow.id then .error (errUnique "observations.id")
  else if entity_id ∉ db.entities.map EntityRow.id then .error errForeignKey
  else
    let row : ObservationRow :=
      ⟨nextRowid (db.observations.map ObservationRow.rowid), id, entity_id, content, now, none⟩
    .ok ((), { db with
      observations := db.observations ++ [row]
      observations_fts := db.observations_fts ++ [row.fts] })

/-- Statement `INSERT INTO relations (id, from_entity, to_entity, relation_type)
VALUES (?, ?, ?, ?)`; both endpoints reference `entities(id)`. -/
def insertRelation (now id from_entity to_entity relation_type : String) : Stmt Unit :=
  fun db =>
  if id ∈ db.relations.map RelationRow.id then .error (errUnique "relations.id")
  else if from_entity ∉ db.entities.map EntityRow.id then .error errForeignKey
  else if to_entity ∉ db.entities.map EntityRow.id then .error errForeignKey
  else
    let row : RelationRow :=
      ⟨nextRowid (db.relations.map RelationRow.rowid), id, from_entity, to_entity,
        relation_type, now, none⟩
    .ok ((), { db with relations := db.relations ++ [row] })

/-- Query `SELECT id FROM entities WHERE name = ? AND deleted_at IS NULL` read
with `QueryRow(...).Scan(&id)`: the id of the first matching row, `sql.ErrNoRows`
when there is none.  The engine searches `idx_entities_active`, so of several
active entities of the name the first is the one of least type. -/
def selectEntityID (name : String) : Stmt String := fun db =>
  match (idx_entities_active db.entities).find? fun e => e.name = name with
  | some e => .ok (e.id, db)
  | none => .error ErrNoRows

/-- Query `SELECT id FROM entities WHERE name IN (?,...) AND deleted_at IS NULL`,
all rows scanned; they come in the order of `idx_entities_active`. -/
def selectEntityIDs (names : List String) : Stmt (List String) := fun db =>
  .ok ((((idx_entities_active db.entities).filter fun e => e.name ∈ names).map
    EntityRow.id), db)

/-- An `UPDATE entities SET ... WHERE ...` statement: `hit` is the WHERE clause
and `set` the assignment; trigger `entities_au` fires for each updated row.  The
value is `RowsAffected`. -/
def updateEntities (hit : EntityRow → Bool) (set : EntityRow → EntityRow) : Stmt Nat :=
  fun db =>
  .ok (db.entities.countP hit, { db with
    entities := db.entities.map fun e => if hit e then set e else e
    entities_fts := db.entities.foldl
      (fun idx e => if hit e then entities_au idx e (set e) else idx) db.entities_fts })

/-- An `UPDATE observations SET ... WHERE ...` statement; trigger
`observations_au` fires for each updated row. -/
def updateObservations (hit : ObservationRow → Bool) (set : ObservationRow → ObservationRow) :
    Stmt Nat := fun db =>
  .ok (db.observations.countP hit, { db with
    observations := db.observations.map fun o => if hit o then set o else o
    observations_fts := db.observations.foldl
      (fun idx o => if hit o then observations_au idx o (set o) else idx) db.observations_fts })

/-- An `UPDATE relations SET ... WHERE ...` statement (the table has no trigger). -/
def updateRelations (hit : RelationRow → Bool) (set : RelationRow → RelationRow) :
    Stmt Nat := fun db =>
  .ok (db.relations.countP hit, { db with
    relations := db.relations.map fun r => if hit r then set r else r })

/-- Assignment `SET deleted_at = datetime('now'), updated_at = datetime('now')`. -/
def EntityRow.tombstone (now : String) (e : EntityRow) : EntityRow :=
  { e with deleted_at := some now, updated_at := now }

/-- Assignment `SET deleted_at = datetime('now')`. -/
def ObservationRow.tombstone (now : String) (o : ObservationRow) : ObservationRow :=
  { o with deleted_at := some now }

/-- Assignment `SET deleted_at = datetime('now')`. -/
def RelationRow.tombstone (now : String) (r : RelationRow) : RelationRow :=
  { r with deleted_at := some now }

/-! ### Running statements -/

/-- The engine during one call: the current contents of the database and the
number of steps the call has made so far. -/
structure Tx where
  db : DB
  n : Nat

/-- One statement run at the current step: it fails when the engine faults there
or the file has no schema, otherwise it does what the statement does.  A failed
statement changes nothing; the step is consumed either way. -/
def Tx.run {α : Type} (env : Env) (stmt : Stmt α) (tx : Tx) : Except GoError α × Tx :=
  match env.fault tx.n with
  | some e => (.error e, ⟨tx.db, tx.n + 1⟩)
  | none =>
    if tx.db.schema then
      match stmt tx.db with
      | .error e => (.error e, ⟨tx.db, tx.n + 1⟩)
      | .ok (a, db) => (.ok a, ⟨db, tx.n + 1⟩)
    else (.error errNoSuchTable, ⟨tx.db, tx.n + 1⟩)

/-- Engine calls `db.Begin()` and `tx.Commit()`: one step each, failing only on a
fault. -/
def Tx.control (env : Env) (tx : Tx) : Except GoError Unit × Tx :=
  match env.fault tx.n with
  | some e => (.error e, ⟨tx.db, tx.n + 1⟩)
  | none => (.ok (), ⟨tx.db, tx.n + 1⟩)

/-! ## `project.go`: the graph store

`ProjectStore` wraps the `*sql.DB` of one project file.  Its methods are
functions of the contents `db : DB` of that file; a mutating method returns its
Go result together with the contents it leaves. -/

/-- The anonymous struct of `CreateEntities`. -/
structure EntityInput where
  Name : String
  EntityType : String
  Observations : List String
deriving DecidableEq, Repr

/-- The anonymous struct of `CreateRelations` and `DeleteRelations`. -/
structure RelationInput where
  From : String
  To : String
  RelationType : String
deriving DecidableEq, Repr

/-- Query `SELECT created_at, updated_at FROM entities WHERE id = ?`. -/
def selectEntityStamps (id : String) : Stmt (String × String) := fun db =>
  match db.entities.find? fun e => e.id = id with
  | some e => .ok ((e.created_at, e.updated_at), db)
  | none => .error ErrNoRows

/-- Query `SELECT created_at FROM observations WHERE id = ?`. -/
def selectObservationStamp (id : String) : Stmt String := fun db =>
  match db.observations.find? fun o => o.id = id with
  | some o => .ok (o.created_at, db)
  | none => .error ErrNoRows

/-- Query `SELECT created_at FROM relations WHERE id = ?`. -/
def selectRelationStamp (id : String) : Stmt String := fun db =>
  match db.relations.find? fun r => r.id = id with
  | some r => .ok (r.created_at, db)
  | none => .error ErrNoRows

/-- The inner loop of `CreateEntities` over `e.Observations`. -/
def ProjectStore.CreateEntities.observations (env : Env) (entityID name : String) :
    List String → Tx → Except GoError (List Observation) × Tx
  | [], tx => (.ok [], tx)
  | obsContent :: rest, tx =>
    let obsID := UUID.String (env.uuid tx.n)
    match tx.run env (insertObservation (env.now tx.n) obsID entityID obsContent) with
    | (.error err, tx1) => (.error (wrapf "insert observation for %q: %w" [name] err), tx1)
    | (.ok _, tx1) =>
      match ProjectStore.CreateEntities.observations env entityID name rest tx1 with
      | (.error err, tx2) => (.error err, tx2)
      | (.ok obs, tx2) => (.ok (⟨obsID, entityID, obsContent, ""⟩ :: obs), tx2)

/-- The loop of `CreateEntities` over its input.  The re-read of the timestamps
ignores its error: the fields then keep their zero value. -/
def ProjectStore.CreateEntities.loop (env : Env) :
    List EntityInput → Tx → Except GoError (List Entity) × Tx
  | [], tx => (.ok [], tx)
  | e :: rest, tx =>
    let entityID := UUID.String (env.uuid tx.n)
    match tx.run env (insertEntity (env.now tx.n) entityID e.Name e.EntityType) with
    | (.error err, tx1) => (.error (wrapf "insert entity %q: %w" [e.Name] err), tx1)
    | (.ok _, tx1) =>
      match ProjectStore.CreateEntities.observations env entityID e.Name e.Observations tx1 with
      | (.error err, tx2) => (.error err, tx2)
      | (.ok obs, tx2) =>
        let read := tx2.run env (selectEntityStamps entityID)
        let entity : Entity :=
          match read.1 with
          | .ok (c, u) => ⟨entityID, e.Name, e.EntityType, obs, [], c, u⟩
          | .error _ => ⟨entityID, e.Name, e.EntityType, obs, [], "", ""⟩
        match ProjectStore.CreateEntities.loop env rest read.2 with
        | (.error err, tx4) => (.error err, tx4)
        | (.ok created, tx4) => (.ok (entity :: created), tx4)

/-- Go `(*ProjectStore).CreateEntities`. -/
def ProjectStore.CreateEntities (env : Env) (db : DB) (entities : List EntityInput) :
    Except GoError (List Entity) × DB :=
  match Tx.control env ⟨db, 0⟩ with
  | (.error err, _) => (.error (wrapf "begin tx: %w" [] err), db)
  | (.ok _, tx) =>
    match ProjectStore.CreateEntities.loop env entities tx with
    | (.error err, _) => (.error err, db)
    | (.ok created, tx1) =>
      match Tx.control env tx1 with
      | (.error err, _) => (.error (wrapf "commit: %w" [] err), db)
      | (.ok _, tx2) => (.ok created, tx2.db)

/-- The insertion loop of `AddObservations`. -/
def ProjectStore.AddObservations.loop (env : Env) (entityID : String) :
    List String → Tx → Except GoError (List Observation) × Tx
  | [], tx => (.ok [], tx)
  | content :: rest, tx =>
    let obsID := UUID.String (env.uuid tx.n)
    match tx.run env (insertObservation (env.now tx.n) obsID entityID content) with
    | (.error err, tx1) => (.error (wrapf "insert observation: %w" [] err), tx1)
    | (.ok _, tx1) =>
      match ProjectStore.AddObservations.loop env entityID rest tx1 with
      | (.error err, tx2) => (.error err, tx2)
      | (.ok created, tx2) => (.ok (⟨obsID, entityID, content, ""⟩ :: created), tx2)

/-- The loop of `AddObservations` that re-reads `created_at` after the commit;
a failed read is ignored. -/
def ProjectStore.AddObservations.stamps (env : Env) :
    List Observation → Tx → List Observation
  | [], _ => []
  | obs :: rest, tx =>
    let read := tx.run env (selectObservationStamp obs.ID)
    (match read.1 with
      | .ok c => { obs with CreatedAt := c }
      | .error _ => obs) :: ProjectStore.AddObservations.stamps env rest read.2

/-- Go `(*ProjectStore).AddObservations`. -/
def ProjectStore.AddObservations (env : Env) (db : DB) (entityName : String)
    (contents : List String) : Except GoError (List Observation) × DB :=
  match Tx.run env (selectEntityID entityName) ⟨db, 0⟩ with
  | (.error err, _) =>
    if err = ErrNoRows then (.error (errorf "entity %q not found" [entityName]), db)
    else (.error (wrapf "lookup entity %q: %w" [entityName] err), db)
  | (.ok entityID, tx) =>
    match Tx.control env tx with
    | (.error err, _) => (.error (wrapf "begin tx: %w" [] err), db)
    | (.ok _, tx1) =>
      match ProjectStore.AddObservations.loop env entityID contents tx1 with
      | (.error err, _) => (.error err, db)
      | (.ok created, tx2) =>
        match Tx.control env tx2 with
        | (.error err, _) => (.error (wrapf "commit: %w" [] err), db)
        | (.ok _, tx3) => (.ok (ProjectStore.AddObservations.stamps env created tx3), tx3.db)

/-- The loop of `CreateRelations` over its input. -/
def ProjectStore.CreateRelations.loop (env : Env) :
    List RelationInput → Tx → Except GoError (List Relation) × Tx
  | [], tx => (.ok [], tx)
  | r :: rest, tx =>
    match tx.run env (selectEntityID r.From) with
    | (.error err, tx1) => (.error (wrapf "from entity %q not found: %w" [r.From] err), tx1)
    | (.ok fromID, tx1) =>
      match tx1.run env (selectEntityID r.To) with
      | (.error err, tx2) => (.error (wrapf "to entity %q not found: %w" [r.To] err), tx2)
      | (.ok toID, tx2) =>
        let relID := UUID.String (env.uuid tx2.n)
        match tx2.run env (insertRelation (env.now tx2.n) relID fromID toID r.RelationType) with
        | (.error err, tx3) => (.error (wrapf "insert relation: %w" [] err), tx3)
        | (.ok _, tx3) =>
          match ProjectStore.CreateRelations.loop env rest tx3 with
          | (.error err, tx4) => (.error err, tx4)
          | (.ok created, tx4) => (.ok (⟨relID, fromID, toID, r.RelationType, ""⟩ :: created), tx4)

/-- The loop of `CreateRelations` that re-reads `created_at` after the commit;
a failed read is ignored. -/
def ProjectStore.CreateRelations.stamps (env : Env) :
    List Relation → Tx → List Relation
  | [], _ => []
  | rel :: rest, tx =>
    let read := tx.run env (selectRelationStamp rel.ID)
    (match read.1 with
      | .ok c => { rel with CreatedAt := c }
      | .error _ => rel) :: ProjectStore.CreateRelations.stamps env rest read.2

/-- Go `(*ProjectStore).CreateRelations`. -/
def ProjectStore.CreateRelations (env : Env) (db : DB) (relations : List RelationInput) :
    Except GoError (List Relation) × DB :=
  match Tx.control env ⟨db, 0⟩ with
  | (.error err, _) => (.error (wrapf "begin tx: %w" [] err), db)
  | (.ok _, tx) =>
    match ProjectStore.CreateRelations.loop env relations tx with
    | (.error err, _) => (.error err, db)
    | (.ok created, tx1) =>
      match Tx.control env tx1 with
      | (.error err, _) => (.error (wrapf "commit: %w" [] err), db)
      | (.ok _, tx2) => (.ok (ProjectStore.CreateRelations.stamps env created tx2), tx2.db)

/-- The loop of `DeleteEntities` that tombstones the relations of each matched
entity id: one `UPDATE relations ... WHERE (from_entity = ? OR to_entity = ?)
AND deleted_at IS NULL` per id. -/
def ProjectStore.DeleteEntities.relations (env : Env) :
    List String → Tx → Except GoError Unit × Tx
  | [], tx => (.ok (), tx)
  | eid :: rest, tx =>
    match tx.run env (updateRelations
        (fun r => (r.from_entity = eid ∨ r.to_entity = eid) ∧ r.active)
        (RelationRow.tombstone (env.now tx.n))) with
    | (.error err, tx1) => (.error (wrapf "soft-delete relations: %w" [] err), tx1)
    | (.ok _, tx1) => ProjectStore.DeleteEntities.relations env rest tx1

/-- Go `(*ProjectStore).DeleteEntities`; the value is `RowsAffected` of the
last `UPDATE entities`. -/
def ProjectStore.DeleteEntities (env : Env) (db : DB) (names : List String) :
    Except GoError Nat × DB :=
  if names.length = 0 then (.ok 0, db)
  else
    match Tx.control env ⟨db, 0⟩ with
    | (.error err, _) => (.error (wrapf "begin tx: %w" [] err), db)
    | (.ok _, tx) =>
      match tx.run env (selectEntityIDs names) with
      | (.error err, _) => (.error (wrapf "query entities: %w" [] err), db)
      | (.ok entityIDs, tx1) =>
        if entityIDs.length = 0 then (.ok 0, db)
        else
          match tx1.run env (updateObservations
              (fun o => o.entity_id ∈ entityIDs ∧ o.active)
              (ObservationRow.tombstone (env.now tx1.n))) with
          | (.error err, _) => (.error (wrapf "soft-delete observations: %w" [] err), db)
          | (.ok _, tx2) =>
            match ProjectStore.DeleteEntities.relations env entityIDs tx2 with
            | (.error err, _) => (.error err, db)
            | (.ok _, tx3) =>
              match tx3.run env (updateEntities
                  (fun e => e.name ∈ names ∧ e.active)
                  (EntityRow.tombstone (env.now tx3.n))) with
              | (.error err, _) => (.error (wrapf "soft-delete entities: %w" [] err), db)
              | (.ok count, tx4) =>
                match Tx.control env tx4 with
                | (.error err, _) => (.error (wrapf "commit: %w" [] err), db)
                | (.ok _, tx5) => (.ok count, tx5.db)

/-- The loop of `DeleteObservations` over the content strings. -/
def ProjectStore.DeleteObservations.loop (env : Env) (entityID : String) :
    List String → Tx → Except GoError Nat × Tx
  | [], tx => (.ok 0, tx)
  | content :: rest, tx =>
    match tx.run env (updateObservations
        (fun o => o.entity_id = entityID ∧ o.content = content ∧ o.active)
        (ObservationRow.tombstone (env.now tx.n))) with
    | (.error err, tx1) => (.error (wrapf "soft-delete observation: %w" [] err), tx1)
    | (.ok n, tx1) =>
      match ProjectStore.DeleteObservations.loop env entityID rest tx1 with
      | (.error err, tx2) => (.error err, tx2)
      | (.ok total, tx2) => (.ok (n + total), tx2)

/-- Go `(*ProjectStore).DeleteObservations`. -/
def ProjectStore.DeleteObservations (env : Env) (db : DB) (entityName : String)
    (contents : List String) : Except GoError Nat × DB :=
  match Tx.run env (selectEntityID entityName) ⟨db, 0⟩ with
  | (.error err, _) =>
    if err = ErrNoRows then (.error (errorf "entity %q not found" [entityName]), db)
    else (.error (wrapf "lookup entity: %w" [] err), db)
  | (.ok entityID, tx) =>
    match Tx.control env tx with
    | (.error err, _) => (.error (wrapf "begin tx: %w" [] err), db)
    | (.ok _, tx1) =>
      match ProjectStore.DeleteObservations.loop env entityID contents tx1 with
      | (.error err, _) => (.error err, db)
      | (.ok total, tx2) =>
        match Tx.control env tx2 with
        | (.error err, _) => (.error (wrapf "commit: %w" [] err), db)
        | (.ok _, tx3) => (.ok total, tx3.db)

/-- The loop of `DeleteRelations`: an item whose endpoint lookup fails is
skipped (`continue`). -/
def ProjectStore.DeleteRelations.loop (env : Env) :
    List RelationInput → Tx → Except GoError Nat × Tx
  | [], tx => (.ok 0, tx)
  | r :: rest, tx =>
    match tx.run env (selectEntityID r.From) with
    | (.error _, tx1) => ProjectStore.DeleteRelations.loop env rest tx1
    | (.ok fromID, tx1) =>
      match tx1.run env (selectEntityID r.To) with
      | (.error _, tx2) => ProjectStore.DeleteRelations.loop env rest tx2
      | (.ok toID, tx2) =>
        match tx2.run env (updateRelations
            (fun x => x.from_entity = fromID ∧ x.to_entity = toID ∧
              x.relation_type = r.RelationType ∧ x.active)
            (RelationRow.tombstone (env.now tx2.n))) with
        | (.error err, tx3) => (.error (wrapf "soft-delete relation: %w" [] err), tx3)
        | (.ok n, tx3) =>
          match ProjectStore.DeleteRelations.loop env rest tx3 with
          | (.error err, tx4) => (.error err, tx4)
          | (.ok total, tx4) => (.ok (n + total), tx4)

/-- Go `(*ProjectStore).DeleteRelations`. -/
def ProjectStore.DeleteRelations (env : Env) (db : DB) (relations : List RelationInput) :
    Except GoError Nat × DB :=
  match Tx.control env ⟨db, 0⟩ with
  | (.error err, _) => (.error (wrapf "begin tx: %w" [] err), db)
  | (.ok _, tx) =>
    match ProjectStore.DeleteRelations.loop env relations tx with
    | (.error err, _) => (.error err, db)
    | (.ok total, tx1) =>
      match Tx.control env tx1 with
      | (.error err, _) => (.error (wrapf "commit: %w" [] err), db)
      | (.ok _, tx2) => (.ok total, tx2.db)

/-! ### Reading -/

/-- The Go value scanned from an observation row. -/
def ObservationRow.toModel (o : ObservationRow) : Observation :=
  ⟨o.id, o.entity_id, o.content, o.created_at⟩

/-- The Go value scanned from a relation row. -/
def RelationRow.toModel (r : RelationRow) : Relation :=
  ⟨r.id, r.from_entity, r.to_entity, r.relation_type, r.created_at⟩

/-- The Go value scanned from an entity row by `ReadGraph` and `GetEntities`. -/
def EntityRow.toModel (e : EntityRow) : Entity :=
  ⟨e.id, e.name, e.entity_type, [], [], e.created_at, e.updated_at⟩

/-- Query `SELECT id, entity_id, content, created_at FROM observations WHERE
entity_id = ? AND deleted_at IS NULL ORDER BY created_at`: the engine searches
`idx_observations_entity`, which holds the active rows of one entity by rowid,
their order in the table, and sorts them on `created_at`; rows with equal keys
keep that order. -/
def selectObservations (entityID : String) : Stmt (List Observation) := fun db =>
  .ok ((((db.observations.filter fun o => o.entity_id = entityID ∧ o.active).insertionSort
    fun a b => textLe a.created_at b.created_at = true).map ObservationRow.toModel), db)

/-- Query `SELECT id, name, entity_type, created_at, updated_at FROM entities
WHERE deleted_at IS NULL ORDER BY name`: the engine scans `idx_entities_active`,
whose order is by name. -/
def selectActiveEntities : Stmt (List Entity) := fun db =>
  .ok (((idx_entities_active db.entities).map EntityRow.toModel), db)

/-- Query `SELECT r.id, r.from_entity, r.to_entity, r.relation_type, r.created_at
FROM relations r WHERE r.deleted_at IS NULL ORDER BY r.created_at`: the engine
scans `idx_relations_type` and sorts the rows on `created_at`; rows with equal
keys keep the order of the scan. -/
def selectActiveRelations : Stmt (List Relation) := fun db =>
  .ok ((((idx_relations_type db.relations).insertionSort
    fun a b => textLe a.created_at b.created_at = true).map RelationRow.toModel), db)

/-- Go `(*ProjectStore).getObservations`. -/
def ProjectStore.getObservations (env : Env) (entityID : String) (tx : Tx) :
    Except GoError (List Observation) × Tx :=
  match tx.run env (selectObservations entityID) with
  | (.error err, tx1) => (.error (wrapf "query observations: %w" [] err), tx1)
  | (.ok obs, tx1) => (.ok obs, tx1)

/-- The loop of `ReadGraph` that loads the observations of each entity. -/
def ProjectStore.ReadGraph.observations (env : Env) :
    List Entity → Tx → Except GoError (List Entity) × Tx
  | [], tx => (.ok [], tx)
  | e :: rest, tx =>
    match ProjectStore.getObservations env e.ID tx with
    | (.error err, tx1) => (.error err, tx1)
    | (.ok obs, tx1) =>
      match ProjectStore.ReadGraph.observations env rest tx1 with
      | (.error err, tx2) => (.error err, tx2)
      | (.ok entities, tx2) => (.ok ({ e with Observations := obs } :: entities), tx2)

/-- Go `(*ProjectStore).ReadGraph`. -/
def ProjectStore.ReadGraph (env : Env) (db : DB) : Except GoError KnowledgeGraph :=
  match Tx.run env selectActiveEntities ⟨db, 0⟩ with
  | (.error err, _) => .error (wrapf "query entities: %w" [] err)
  | (.ok entities, tx) =>
    match ProjectStore.ReadGraph.observations env entities tx with
    | (.error err, _) => .error err
    | (.ok entities, tx1) =>
      match tx1.run env selectActiveRelations with
      | (.error err, _) => .error (wrapf "query relations: %w" [] err)
      | (.ok relations, _) => .ok ⟨entities, relations⟩

/-! ### The cascade of `DeleteEntities`, as specified -/

/-- The entity ids `DeleteEntities(names)` enumerates: the ids of the active
entities whose name is in `names`, in the order of `idx_entities_active`. -/
def matchedIDs (db : DB) (names : List String) : List String :=
  ((idx_entities_active db.entities).filter fun e => e.name ∈ names).map EntityRow.id

/-- The cascade as the specification words it: the matched entity ids are
enumerated once, and that one id set drives one tombstone pass over the
observations and one over the relations; the matched entities are tombstoned
too.  `tO`, `tR` and `tE` are the timestamps written; the index entries of the
updated rows are rewritten by the triggers. -/
def cascadeOnce (tO : String) (tR : RelationRow → String) (tE : String) (db : DB)
    (names : List String) : DB :=
  { db with
    entities := db.entities.map (fun e =>
      if e.name ∈ names ∧ e.active then EntityRow.tombstone tE e else e)
    observations := db.observations.map (fun o =>
      if o.entity_id ∈ matchedIDs db names ∧ o.active then ObservationRow.tombstone tO o else o)
    relations := db.relations.map (fun r =>
      if (r.from_entity ∈ matchedIDs db names ∨ r.to_entity ∈ matchedIDs db names) ∧ r.active then
        RelationRow.tombstone (tR r) r
      else r)
    entities_fts := db.entities.foldl (fun idx e =>
      if e.name ∈ names ∧ e.active then entities_au idx e (EntityRow.tombstone tE e) else idx)
      db.entities_fts
    observations_fts := db.observations.foldl (fun idx o =>
      if o.entity_id ∈ matchedIDs db names ∧ o.active then
        observations_au idx o (ObservationRow.tombstone tO o)
      else idx) db.observations_fts }

/-- The time at which the relation loop of `DeleteEntities` stamps a relation:
the clock of the pass of the first id the relation touches. -/
def cascadeStamp (env : Env) : List String → Nat → RelationRow → String
  | [], _, _ => ""
  | eid :: rest, n, r =>
    if r.from_entity = eid ∨ r.to_entity = eid then env.now n else cascadeStamp env rest (n + 1) r

/-! ### Sample data -/

/-- A sample environment: a fixed clock, the step number as random draw, no fault. -/
def sampleEnv : Env :=
  ⟨fun _ => "2024-05-01 10:00:00", fun k => k, fun _ => none⟩

/-- A sample store: entities `X` (two observations) and `Y`, and a relation
from `X` to `Y`. -/
def sampleDB : DB :=
  (ProjectStore.CreateRelations sampleEnv
    (ProjectStore.CreateEntities sampleEnv DB.fresh
      [⟨"X", "thing", ["a", "b"]⟩, ⟨"Y", "thing", []⟩]).2
    [⟨"X", "Y", "uses"⟩]).2

deriving instance DecidableEq for Except

/-! ## The file system -/

/-- The database files on disk: each path with the contents of the file there. -/
structure Disk where
  files : List (String × DB)
deriving DecidableEq, Repr

/-- The contents of the file at `path`, if there is one. -/
def Disk.read (disk : Disk) (path : String) : Option DB :=
  (disk.files.find? fun f => f.1 = path).map Prod.snd

/-- The disk without the file at `path`. -/
def Disk.remove (disk : Disk) (path : String) : Disk :=
  ⟨disk.files.filter fun f => f.1 ≠ path⟩

/-- The files after `path` is given the contents `db`: in place when the file exists. -/
def Disk.writeFiles (path : String) (db : DB) : List (String × DB) → List (String × DB)
  | [] => [(path, db)]
  | f :: rest => if f.1 = path then (path, db) :: rest else f :: Disk.writeFiles path db rest

/-- The disk after the file at `path` is given the contents `db`. -/
def Disk.write (disk : Disk) (path : String) (db : DB) : Disk :=
  ⟨Disk.writeFiles path db disk.files⟩

/-- Error `ENOENT` of the operating system. -/
def errNotExist : GoError :=
  errorf "no such file or directory" []

/-- Go `os.Rename(oldpath, newpath)`: one step; it fails on a fault or when
`oldpath` does not exist, and replaces whatever is at `newpath`. -/
def osRename (env : Env) (disk : Disk) (oldpath newpath : String) : Except GoError Unit × Disk :=
  match env.fault 0 with
  | some err => (.error err, disk)
  | none =>
    match disk.read oldpath with
    | none => (.error errNotExist, disk)
    | some db => (.ok (), (disk.remove oldpath).write newpath db)

/-- Go `os.Remove(path)` with its error ignored: one step; on a fault the file stays. -/
def osRemove (env : Env) (disk : Disk) (path : String) : Disk :=
  match env.fault 0 with
  | some _ => disk
  | none => disk.remove path

/-- The handle `*ProjectStore`: the `*sql.DB` inside it, identified by the path
of the file it is open on. -/
structure ProjectStore where
  path : String
deriving DecidableEq, Repr

/-- Go `storage.OpenProject(dbPath)`: `sql.Open` is step 0 and `db.Ping()` step 1.
The engine creates the file, without schema, when it does not exist. -/
def OpenProject (env : Env) (disk : Disk) (dbPath : String) :
    Except GoError ProjectStore × Disk :=
  match env.fault 0 with
  | some err => (.error (wrapf "open project db: %w" [] err), disk)
  | none =>
    match env.fault 1 with
    | some err => (.error (wrapf "ping project db: %w" [] err), disk)
    | none =>
      match disk.read dbPath with
      | some _ => (.ok ⟨dbPath⟩, disk)
      | none => (.ok ⟨dbPath⟩, disk.write dbPath DB.blank)

/-- Error of the engine on a handle whose file is gone. -/
def errNoFile : GoError :=
  errorf "unable to open database file" []

/-- A method of the store run through the handle `p`: it acts on the file the
handle is open on. -/
def ProjectStore.on {α : Type} (p : ProjectStore) (disk : Disk)
    (method : DB → Except GoError α × DB) : Except GoError α × Disk :=
  match disk.read p.path with
  | none => (.error errNoFile, disk)
  | some db => ((method db).1, disk.write p.path (method db).2)

/-! ## `meta.go`: the registry -/

/-- The registry `*MetaStore`: the rows of table `projects` of `_meta.db`, in
rowid order, and the data directory. -/
structure MetaStore where
  projects : List Project
  dataDir : String
deriving DecidableEq, Repr

/-- Go `storage.OpenMeta(dataDir)` on a data directory that has no `_meta.db`
yet: three `os.MkdirAll`, `sql.Open` and the migration `MetaSchema`, one step
each; the registry starts without rows. -/
def OpenMeta (env : Env) (dataDir : String) : Except GoError MetaStore :=
  match env.fault 0 with
  | some err => .error (wrapf "create data dir: %w" [] err)
  | none =>
    match env.fault 1 with
    | some err => .error (wrapf "create projects dir: %w" [] err)
    | none =>
      match env.fault 2 with
      | some err => .error (wrapf "create archive dir: %w" [] err)
      | none =>
        match env.fault 3 with
        | some err => .error (wrapf "open meta db: %w" [] err)
        | none =>
          match env.fault 4 with
          | some err => .error (wrapf "migrate meta db: %w" [] err)
          | none => .ok ⟨[], dataDir⟩

/-- Go `scanProject` on the row of a `QueryRow`: `rows` are the rows the query
selects; one step. -/
def scanProject (env : Env) (rows : List Project) : Except GoError Project :=
  match env.fault 0 with
  | some err =>
    if err = ErrNoRows then .error (errorf "project not found" [])
    else .error (wrapf "scan project: %w" [] err)
  | none =>
    match rows with
    | [] => .error (errorf "project not found" [])
    | p :: _ => .ok p

/-- Go `(*MetaStore).GetProjectByName`. -/
def MetaStore.GetProjectByName (env : Env) (m : MetaStore) (name : String) :
    Except GoError Project :=
  scanProject env (m.projects.filter fun p => p.Name = name)

/-- Go `(*MetaStore).GetProjectByID`. -/
def MetaStore.GetProjectByID (env : Env) (m : MetaStore) (id : String) :
    Except GoError Project :=
  scanProject env (m.projects.filter fun p => p.ID = id)

/-- Go `(*MetaStore).ProjectDBPath`. -/
def MetaStore.ProjectDBPath (m : MetaStore) (proj : Project) : String :=
  filepath.Join m.dataDir proj.DBPath

/-- Go `initProjectDB(dbPath)`: `sql.Open`, `Exec(ProjectSchema)` and
`Exec(ProjectTriggers)` are steps 0, 1 and 2.  The statements are
`IF NOT EXISTS`: rows of an existing file are kept.  What a failed provisioning
leaves on disk is not modelled: the disk is then as it was. -/
def initProjectDB (env : Env) (disk : Disk) (dbPath : String) : Except GoError Unit × Disk :=
  match env.fault 0 with
  | some err => (.error err, disk)
  | none =>
    match env.fault 1 with
    | some err => (.error (wrapf "create project schema: %w" [] err), disk)
    | none =>
      match env.fault 2 with
      | some err => (.error (wrapf "create project triggers: %w" [] err), disk)
      | none =>
        match disk.read dbPath with
        | none => (.ok (), disk.write dbPath DB.fresh)
        | some db => (.ok (), disk.write dbPath { db with schema := true })

/-- Statement `INSERT INTO projects (id, name, description, db_path, status)
VALUES (?, ?, ?, ?, 'active')`: `id` is the primary key and `name` is UNIQUE. -/
def insertProject (now id name description dbPath : String) (rows : List Project) :
    Except GoError (List Project) :=
  if id ∈ rows.map Project.ID then .error (errUnique "projects.id")
  else if name ∈ rows.map Project.Name then .error (errUnique "projects.name")
  else .ok (rows ++ [⟨id, name, description, dbPath, "active", now, now⟩])

/-- Go `(*MetaStore).CreateProject`: the INSERT is step 0, `initProjectDB` steps
1 to 3, then either the DELETE that undoes the INSERT (its error is ignored) or
`GetProjectByName`, at step 4. -/
def MetaStore.CreateProject (env : Env) (m : MetaStore) (disk : Disk)
    (name description : String) : Except GoError Project × MetaStore × Disk :=
  let id := UUID.String (env.uuid 0)
  let dbPath := filepath.Join "projects" (id ++ ".db")
  let inserted : Except GoError (List Project) :=
    match env.fault 0 with
    | some err => .error err
    | none => insertProject (env.now 0) id name description dbPath m.projects
  match inserted with
  | .error err => (.error (wrapf "insert project: %w" [] err), m, disk)
  | .ok rows =>
    let m1 : MetaStore := { m with projects := rows }
    let absDBPath := filepath.Join m.dataDir dbPath
    match initProjectDB (env.shift 1) disk absDBPath with
    | (.error err, disk1) =>
      let m2 : MetaStore :=
        match env.fault 4 with
        | some _ => m1
        | none => { m1 with projects := m1.projects.filter fun p => p.ID ≠ id }
      (.error (wrapf "init project db: %w" [] err), m2, disk1)
    | (.ok _, disk1) => (m1.GetProjectByName (env.shift 4) name, m1, disk1)

/-- Engine error for a violated CHECK constraint. -/
def errCheck : GoError :=
  errorf "CHECK constraint failed: %s" ["status IN ('active', 'archived')"]

/-- Go `(*MetaStore).UpdateProjectStatus`: the UPDATE is step 0 and
`GetProjectByName` step 1.  The CHECK on `status` is evaluated for the rows the
UPDATE touches. -/
def MetaStore.UpdateProjectStatus (env : Env) (m : MetaStore) (name status : String) :
    Except GoError Project × MetaStore :=
  match env.fault 0 with
  | some err => (.error (wrapf "update project status: %w" [] err), m)
  | none =>
    let n := m.projects.countP fun p => p.Name = name
    if n = 0 then (.error (errorf "project %q not found" [name]), m)
    else if status ≠ "active" ∧ status ≠ "archived" then
      (.error (wrapf "update project status: %w" [] errCheck), m)
    else
      let m1 : MetaStore := { m with projects := m.projects.map fun p =>
        if p.Name = name then { p with Status := status, UpdatedAt := env.now 0 } else p }
      (m1.GetProjectByName (env.shift 1) name, m1)

/-- The statement `UPDATE projects SET status = ?, db_path = ?, updated_at =
datetime('now') WHERE name = ?` of `ArchiveProject` and `RestoreProject`. -/
def relocateProject (now status dbPath name : String) (rows : List Project) : List Project :=
  rows.map fun p =>
    if p.Name = name then { p with Status := status, DBPath := dbPath, UpdatedAt := now } else p

/-- Go `(*MetaStore).ArchiveProject`: `GetProjectByName` is step 0, `os.Rename`
step 1, the UPDATE step 2, then either the `os.Rename` back (its error is
ignored) or `GetProjectByName`, at step 3. -/
def MetaStore.ArchiveProject (env : Env) (m : MetaStore) (disk : Disk) (name : String) :
    Except GoError Project × MetaStore × Disk :=
  match m.GetProjectByName env name with
  | .error err => (.error err, m, disk)
  | .ok proj =>
    if proj.Status = "archived" then
      (.error (errorf "project %q is already archived" [name]), m, disk)
    else
      let oldPath := filepath.Join m.dataDir proj.DBPath
      let newRelPath := filepath.Join "archive" (filepath.Base proj.DBPath)
      let newPath := filepath.Join m.dataDir newRelPath
      match osRename (env.shift 1) disk oldPath newPath with
      | (.error err, disk1) => (.error (wrapf "move project db to archive: %w" [] err), m, disk1)
      | (.ok _, disk1) =>
        match env.fault 2 with
        | some err =>
          (.error (wrapf "update project status: %w" [] err), m,
            (osRename (env.shift 3) disk1 newPath oldPath).2)
        | none =>
          let m1 : MetaStore :=
            { m with projects := relocateProject (env.now 2) "archived" newRelPath name m.projects }
          (m1.GetProjectByName (env.shift 3) name, m1, disk1)

/-- Go `(*MetaStore).RestoreProject`: the steps are those of `ArchiveProject`. -/
def MetaStore.RestoreProject (env : Env) (m : MetaStore) (disk : Disk) (name : String) :
    Except GoError Project × MetaStore × Disk :=
  match m.GetProjectByName env name with
  | .error err => (.error err, m, disk)
  | .ok proj =>
    if proj.Status ≠ "archived" then
      (.error (errorf "project %q is not archived" [name]), m, disk)
    else
      let oldPath := filepath.Join m.dataDir proj.DBPath
      let newRelPath := filepath.Join "projects" (filepath.Base proj.DBPath)
      let newPath := filepath.Join m.dataDir newRelPath
      match osRename (env.shift 1) disk oldPath newPath with
      | (.error err, disk1) =>
        (.error (wrapf "move project db from archive: %w" [] err), m, disk1)
      | (.ok _, disk1) =>
        match env.fault 2 with
        | some err =>
          (.error (wrapf "update project status: %w" [] err), m,
            (osRename (env.shift 3) disk1 newPath oldPath).2)
        | none =>
          let m1 : MetaStore :=
            { m with projects := relocateProject (env.now 2) "active" newRelPath name m.projects }
          (m1.GetProjectByName (env.shift 3) name, m1, disk1)

/-- Go `(*MetaStore).DeleteProject`: `GetProjectByName` is step 0, the three
`os.Remove` steps 1 to 3 and the DELETE step 4. -/
def MetaStore.DeleteProject (env : Env) (m : MetaStore) (disk : Disk) (name : String) :
    Except GoError Unit × MetaStore × Disk :=
  match m.GetProjectByName env name with
  | .error err => (.error err, m, disk)
  | .ok proj =>
    let absDBPath := filepath.Join m.dataDir proj.DBPath
    let disk1 := osRemove (env.shift 1) disk absDBPath
    let disk2 := osRemove (env.shift 2) disk1 (absDBPath ++ "-wal")
    let disk3 := osRemove (env.shift 3) disk2 (absDBPath ++ "-shm")
    match env.fault 4 with
    | some err => (.error (wrapf "delete project record: %w" [] err), m, disk3)
    | none => (.ok (), { m with projects := m.projects.filter fun p => p.Name ≠ name }, disk3)

/-- The registry states the mutating operations of `MetaStore` can produce from
a registry opened on a new data directory, whatever the environment and the
disk each call meets. -/
inductive MetaStore.Reachable : MetaStore → Prop
  | opened (dataDir : String) : MetaStore.Reachable ⟨[], dataDir⟩
  | createProject (env : Env) (m : MetaStore) (disk : Disk) (name description : String) :
      MetaStore.Reachable m →
      MetaStore.Reachable (m.CreateProject env disk name description).2.1
  | updateProjectStatus (env : Env) (m : MetaStore) (name status : String) :
      MetaStore.Reachable m →
      MetaStore.Reachable (m.UpdateProjectStatus env name status).2
  | archiveProject (env : Env) (m : MetaStore) (disk : Disk) (name : String) :
      MetaStore.Reachable m →
      MetaStore.Reachable (m.ArchiveProject env disk name).2.1
  | restoreProject (env : Env) (m : MetaStore) (disk : Disk) (name : String) :
      MetaStore.Reachable m →
      MetaStore.Reachable (m.RestoreProject env disk name).2.1
  | deleteProject (env : Env) (m : MetaStore) (disk : Disk) (name : String) :
      MetaStore.Reachable m →
      MetaStore.Reachable (m.DeleteProject env disk name).2.1

/-! ## `session.go` -/

/-- Go `session.Session` (its mutex apart: every method runs as one step of the
session). -/
structure Session where
  currentProjectID : String
  currentProjectName : String
  projectDB : Option ProjectStore
deriving DecidableEq, Repr

/-- What a method of the session does to a store handle, in the order it does it. -/
inductive StoreEvent
  | closed (p : ProjectStore)
  | opened (p : ProjectStore)
deriving DecidableEq, Repr

/-- Go `session.New`. -/
def Session.New : Session :=
  ⟨"", "", none⟩

/-- The block `if s.projectDB != nil ...` of `SwitchProject` and `Clear`: the
handle is closed (the error of `Close` is ignored) and the field set to nil. -/
def Session.closeCurrent (s : Session) : Session × List StoreEvent :=
  match s.projectDB with
  | some p => ({ s with projectDB := none }, [StoreEvent.closed p])
  | none => (s, [])

/-- Go `(*Session).SwitchProject`: `GetProjectByName` is step 0 and
`OpenProject` steps 1 and 2.  The value carries the session and the disk the
call leaves and the store events of the call. -/
def Session.SwitchProject (env : Env) (s : Session) (m : MetaStore) (disk : Disk)
    (name : String) : Except GoError Project × Session × Disk × List StoreEvent :=
  match m.GetProjectByName env name with
  | .error err => (.error err, s, disk, [])
  | .ok proj =>
    if proj.Status = "archived" then
      (.error (errorf "project %q is archived — restore it first" [name]), s, disk, [])
    else
      let s1 := s.closeCurrent
      let dbPath := m.ProjectDBPath proj
      match OpenProject (env.shift 1) disk dbPath with
      | (.error err, disk1) => (.error (wrapf "open project db: %w" [] err), s1.1, disk1, s1.2)
      | (.ok pdb, disk1) =>
        (.ok proj, ⟨proj.ID, proj.Name, some pdb⟩, disk1, s1.2 ++ [StoreEvent.opened pdb])

/-- Go `(*Session).GetCurrent`. -/
def Session.GetCurrent (s : Session) : String × String × Bool :=
  match s.projectDB with
  | none => ("", "", false)
  | some _ => (s.currentProjectID, s.currentProjectName, true)

/-- Go `(*Session).ProjectStore`. -/
def Session.ProjectStore (s : Session) : Option ProjectStore :=
  s.projectDB

/-- Go `(*Session).Clear`. -/
def Session.Clear (s : Session) : Session × List StoreEvent :=
  ({ s.closeCurrent.1 with currentProjectID := "", currentProjectName := "" }, s.closeCurrent.2)

/-- Go `(*Session).Close`. -/
def Session.Close (s : Session) : Session × List StoreEvent :=
  s.Clear

/-- The stores a session holds open after a sequence of store events, starting
from the stores `held`. -/
def heldAfter (held : List ProjectStore) : List StoreEvent → List ProjectStore
  | [] => held
  | StoreEvent.closed p :: rest => heldAfter (held.erase p) rest
  | StoreEvent.opened p :: rest => heldAfter (p :: held) rest

/-! ### Graph mutations through a handle -/

/-- A call of one of the six mutating methods of `ProjectStore`. -/
inductive Mutation
  | createEntities (entities : List EntityInput)
  | addObservations (entityName : String) (contents : List String)
  | createRelations (relations : List RelationInput)
  | deleteEntities (names : List String)
  | deleteObservations (entityName : String) (contents : List String)
  | deleteRelations (relations : List RelationInput)
deriving DecidableEq, Repr

/-- The store a mutating call leaves. -/
def Mutation.run (env : Env) (db : DB) : Mutation → DB
  | .createEntities entities => (ProjectStore.CreateEntities env db entities).2
  | .addObservations entityName contents =>
    (ProjectStore.AddObservations env db entityName contents).2
  | .createRelations relations => (ProjectStore.CreateRelations env db relations).2
  | .deleteEntities names => (ProjectStore.DeleteEntities env db names).2
  | .deleteObservations entityName contents =>
    (ProjectStore.DeleteObservations env db entityName contents).2
  | .deleteRelations relations => (ProjectStore.DeleteRelations env db relations).2

/-- The disk a mutating call through the handle `p` leaves. -/
def ProjectStore.mutate (p : ProjectStore) (env : Env) (disk : Disk) (mu : Mutation) : Disk :=
  (p.on disk fun db => (Except.ok (), mu.run env db)).2

/-- Go `ReadGraph` through the handle `p`. -/
def ProjectStore.readGraph (p : ProjectStore) (env : Env) (disk : Disk) :
    Except GoError KnowledgeGraph :=
  match disk.read p.path with
  | none => .error errNoFile
  | some db => ProjectStore.ReadGraph env db

/-! ### Well-formed registries -/

/-- A file name: non-empty and without a slash. -/
def IsFileName (f : String) : Prop :=
  f.data ≠ [] ∧ ∀ c ∈ f.data, c ≠ '/'

/-- The placement `CreateProject`, `ArchiveProject` and `RestoreProject` give a
project: the id is a rendered UUID and the store is the file `<id>.db` of the
active area `projects/` or of the archive area `archive/`. -/
def Project.Placed (p : Project) : Prop :=
  ∃ u, p.ID = UUID.String u ∧
    (p.DBPath = filepath.Join "projects" (p.ID ++ ".db") ∨
      p.DBPath = filepath.Join "archive" (p.ID ++ ".db"))

/-- The constraints of table `projects` (`id` PRIMARY KEY, `name` UNIQUE)
together with the placement of every project. -/
structure MetaStore.WellFormed (m : MetaStore) : Prop where
  names : (m.projects.map Project.Name).Nodup
  ids : (m.projects.map Project.ID).Nodup
  placed : ∀ p ∈ m.projects, p.Placed

/-- A sample registry: the data directory `/data` after `CreateProject("alpha")`
and `CreateProject("beta")`. -/
def sampleRegistry : MetaStore × Disk :=
  let w1 := (MetaStore.CreateProject sampleEnv ⟨[], "/data"⟩ ⟨[]⟩ "alpha" "first").2
  (MetaStore.CreateProject ⟨sampleEnv.now, fun k => k + 7, sampleEnv.fault⟩ w1.1 w1.2
    "beta" "second").2

/-- A sample session: a new session after `SwitchProject("alpha")` on the
sample registry. -/
def sampleSession : Session :=
  (Session.SwitchProject sampleEnv Session.New sampleRegistry.1 sampleRegistry.2 "alpha").2.1

/-- A sample environment in which the engine cannot open a database file: step
1 fails. -/
def brokenEnv : Env :=
  ⟨sampleEnv.now, sampleEnv.uuid, fun k => if k = 1 then some errNoFile else none⟩

/-- The row of project `alpha` in the sample registry. -/
def sampleAlpha : Project :=
  ⟨"00000000-0000-0000-0000-000000000000", "alpha", "first",
    "projects/00000000-0000-0000-0000-000000000000.db", "active",
    "2024-05-01 10:00:00", "2024-05-01 10:00:00"⟩

/-- The sample disk with the sample store as the file of project `alpha`. -/
def sampleDisk : Disk :=
  sampleRegistry.2.write "/data/projects/00000000-0000-0000-0000-000000000000.db" sampleDB

/-! ### Reachable stores -/

/-- The store states the six mutating methods can produce from a newly
provisioned store, whatever the environment of each call. -/
inductive DB.Reachable : DB → Prop
  | fresh : DB.Reachable DB.fresh
  | step (env : Env) (db : DB) (mu : Mutation) :
      DB.Reachable db → DB.Reachable (mu.run env db)

/-- A statement keeps the property `I` of the database. -/
def StmtPreserves {α : Type} (I : DB → Prop) (stmt : Stmt α) : Prop :=
  ∀ db a db1, I db → stmt db = .ok (a, db1) → I db1

/-- The property `I` is kept by every writing statement the store issues: the
three INSERTs and the three tombstoning UPDATEs, whatever their WHERE clause. -/
structure Preserved (I : DB → Prop) : Prop where
  insertEntity : ∀ now id name entity_type,
    StmtPreserves I (insertEntity now id name entity_type)
  insertObservation : ∀ now id entity_id content,
    StmtPreserves I (insertObservation now id entity_id content)
  insertRelation : ∀ now id from_entity to_entity relation_type,
    StmtPreserves I (insertRelation now id from_entity to_entity relation_type)
  tombstoneEntities : ∀ hit now, StmtPreserves I (updateEntities hit (EntityRow.tombstone now))
  tombstoneObservations : ∀ hit now,
    StmtPreserves I (updateObservations hit (ObservationRow.tombstone now))
  tombstoneRelations : ∀ hit now,
    StmtPreserves I (updateRelations hit (RelationRow.tombstone now))

/-- The index entries agree with the rows: `entities_fts` holds, up to order,
one entry per row of `entities`, tombstoned rows included, and likewise
`observations_fts` for `observations`. -/
def DB.IndexInSync (db : DB) : Prop :=
  db.entities_fts.Perm (db.entities.map EntityRow.fts) ∧
    db.observations_fts.Perm (db.observations.map ObservationRow.fts)

/-! ### Name resolution -/

/-- The name resolves to the id: some active entity of the table bears the name
and has that id. -/
def ResolvesTo (entities : List EntityRow) (name id : String) : Prop :=
  ∃ e ∈ entities, e.name = name ∧ e.active = true ∧ e.id = id

/-- The name resolves: some active entity of the table bears it. -/
def Resolves (entities : List EntityRow) (name : String) : Prop :=
  ∃ e ∈ entities, e.name = name ∧ e.active = true

/-- A second sample environment, drawing other ids than `sampleEnv`. -/
def laterEnv : Env :=
  ⟨sampleEnv.now, fun k => k + 256, sampleEnv.fault⟩

/-- A sample environment whose random source draws the same id at every step. -/
def collidingEnv : Env :=
  ⟨sampleEnv.now, fun _ => 1, sampleEnv.fault⟩

/-! ### `GetEntities` and `Search` -/

/-- Query `SELECT id, from_entity, to_entity, relation_type, created_at FROM
relations WHERE (from_entity = ? OR to_entity = ?) AND deleted_at IS NULL ORDER
BY created_at`: the engine scans `idx_relations_type` and sorts the rows it
keeps on `created_at`; rows with equal keys keep the order of the scan. -/
def selectRelationsOf (entityID : String) : Stmt (List Relation) := fun db =>
  .ok (((((idx_relations_type db.relations).filter fun r =>
    r.from_entity = entityID ∨ r.to_entity = entityID).insertionSort
    fun a b => textLe a.created_at b.created_at = true).map RelationRow.toModel), db)

/-- Go `(*ProjectStore).getRelations`. -/
def ProjectStore.getRelations (env : Env) (entityID : String) (tx : Tx) :
    Except GoError (List Relation) × Tx :=
  match tx.run env (selectRelationsOf entityID) with
  | (.error err, tx1) => (.error (wrapf "query relations: %w" [] err), tx1)
  | (.ok rels, tx1) => (.ok rels, tx1)

/-- Query `SELECT id, name, entity_type, created_at, updated_at FROM entities
WHERE name IN (?,...) AND deleted_at IS NULL`; the rows come in the order of
`idx_entities_active`. -/
def selectEntitiesNamed (names : List String) : Stmt (List Entity) := fun db =>
  .ok ((((idx_entities_active db.entities).filter fun e => e.name ∈ names).map
    EntityRow.toModel), db)

/-- The loop of `GetEntities` that loads the observations and the relations of
each entity. -/
def ProjectStore.GetEntities.load (env : Env) :
    List Entity → Tx → Except GoError (List Entity) × Tx
  | [], tx => (.ok [], tx)
  | e :: rest, tx =>
    match ProjectStore.getObservations env e.ID tx with
    | (.error err, tx1) => (.error err, tx1)
    | (.ok obs, tx1) =>
      match ProjectStore.getRelations env e.ID tx1 with
      | (.error err, tx2) => (.error err, tx2)
      | (.ok rels, tx2) =>
        match ProjectStore.GetEntities.load env rest tx2 with
        | (.error err, tx3) => (.error err, tx3)
        | (.ok entities, tx3) =>
          (.ok ({ e with Observations := obs, Relations := rels } :: entities), tx3)

/-- Go `(*ProjectStore).GetEntities`. -/
def ProjectStore.GetEntities (env : Env) (db : DB) (names : List String) :
    Except GoError (List Entity) :=
  if names.length = 0 then .ok []
  else
    match Tx.run env (selectEntitiesNamed names) ⟨db, 0⟩ with
    | (.error err, _) => .error (wrapf "query entities: %w" [] err)
    | (.ok entities, tx) => (ProjectStore.GetEntities.load env entities tx).1

/-- The matching of the FTS5 engine: a query that does not parse has no value;
a query that parses decides, for the column values of an index entry, whether
the entry matches. -/
abbrev Fts5 := String → Option (List String → Bool)

/-- Engine error of a `MATCH` whose query does not parse. -/
def errFts5Syntax : GoError :=
  errorf "fts5: syntax error" []

/-- Query `SELECT e.id FROM entities e JOIN entities_fts ON entities_fts.rowid =
e.rowid WHERE entities_fts MATCH ? AND e.deleted_at IS NULL`. -/
def searchEntitiesFts (fts : Fts5) (query : String) : Stmt (List String) := fun db =>
  match fts query with
  | none => .error errFts5Syntax
  | some hit =>
    .ok (((db.entities_fts.filter fun x => hit [x.name, x.entity_type]).flatMap fun x =>
      (db.entities.filter fun e => e.rowid = x.rowid ∧ e.active).map EntityRow.id), db)

/-- Query `SELECT DISTINCT o.entity_id FROM observations o JOIN observations_fts
ON observations_fts.rowid = o.rowid WHERE observations_fts MATCH ? AND
o.deleted_at IS NULL`. -/
def searchObservationsFts (fts : Fts5) (query : String) : Stmt (List String) := fun db =>
  match fts query with
  | none => .error errFts5Syntax
  | some hit =>
    .ok ((((db.observations_fts.filter fun x => hit [x.content]).flatMap fun x =>
      (db.observations.filter fun o => o.rowid = x.rowid ∧ o.active).map
        ObservationRow.entity_id).dedup), db)

/-- Query `SELECT id, name, entity_type, created_at, updated_at FROM entities
WHERE id = ? AND deleted_at IS NULL` read with `QueryRow(...).Scan`. -/
def selectActiveEntity (id : String) : Stmt Entity := fun db =>
  match db.entities.find? fun e => e.id = id ∧ e.active with
  | some e => .ok (e.toModel, db)
  | none => .error ErrNoRows

/-- The keys of a Go `map[string]bool` in the order a `range` visits them.  Go
leaves that order unspecified: `rank` stands for the order of one run. -/
def mapRange (rank : String → Nat) (keys : List String) : List String :=
  keys.dedup.insertionSort fun a b => rank a ≤ rank b

/-- The loop of `Search` over the matched ids: an id whose entity cannot be
read is skipped (`continue`). -/
def ProjectStore.Search.load (env : Env) :
    List String → Tx → Except GoError (List Entity) × Tx
  | [], tx => (.ok [], tx)
  | id :: rest, tx =>
    match tx.run env (selectActiveEntity id) with
    | (.error _, tx1) => ProjectStore.Search.load env rest tx1
    | (.ok e, tx1) =>
      match ProjectStore.getObservations env e.ID tx1 with
      | (.error err, tx2) => (.error err, tx2)
      | (.ok obs, tx2) =>
        match ProjectStore.getRelations env e.ID tx2 with
        | (.error err, tx3) => (.error err, tx3)
        | (.ok rels, tx3) =>
          match ProjectStore.Search.load env rest tx3 with
          | (.error err, tx4) => (.error err, tx4)
          | (.ok entities, tx4) =>
            (.ok ({ e with Observations := obs, Relations := rels } :: entities), tx4)

/-- Go `(*ProjectStore).Search`.  `fts` is the matching of the FTS5 engine and
`rank` the order in which this run ranges over the map `entityIDs`. -/
def ProjectStore.Search (env : Env) (fts : Fts5) (rank : String → Nat) (db : DB)
    (query : String) : Except GoError (List Entity) :=
  match Tx.run env (searchEntitiesFts fts query) ⟨db, 0⟩ with
  | (.error err, _) => .error (wrapf "search entities fts: %w" [] err)
  | (.ok ids1, tx) =>
    match tx.run env (searchObservationsFts fts query) with
    | (.error err, _) => .error (wrapf "search observations fts: %w" [] err)
    | (.ok ids2, tx1) =>
      if (ids1 ++ ids2).length = 0 then .ok []
      else (ProjectStore.Search.load env (mapRange rank (ids1 ++ ids2)) tx1).1

/-- Go `(*MetaStore).ListProjects`: one step. -/
def MetaStore.ListProjects (env : Env) (m : MetaStore) (status : String) :
    Except GoError (List Project) :=
  match env.fault 0 with
  | some err => .error (wrapf "list projects: %w" [] err)
  | none =>
    .ok ((if status = "all" then m.projects
      else m.projects.filter fun p => p.Status = status).insertionSort
        fun a b => textLe a.Name b.Name = true)

/-! ### What the read paths return -/

/-- The active observations of an entity, ordered by `created_at`: what
`getObservations` reads. -/
def DB.observationsOf (db : DB) (entityID : String) : List Observation :=
  ((db.observations.filter fun o => o.entity_id = entityID ∧ o.active).insertionSort
    fun a b => textLe a.created_at b.created_at = true).map ObservationRow.toModel

/-- The active relations an entity is the source or the target of, as
`getRelations` reads them: scanned in the order of `idx_relations_type` and
sorted on `created_at`. -/
def DB.relationsOf (db : DB) (entityID : String) : List Relation :=
  (((idx_relations_type db.relations).filter fun r =>
    r.from_entity = entityID ∨ r.to_entity = entityID).insertionSort
    fun a b => textLe a.created_at b.created_at = true).map RelationRow.toModel

/-- An entity row as `GetEntities` and `Search` return it: with its
observations and its relations loaded. -/
def DB.populated (db : DB) (e : EntityRow) : Entity :=
  { e.toModel with Observations := db.observationsOf e.id, Relations := db.relationsOf e.id }

/-- The keys of the store: the schema is there, rowids are unique in
`entities` and in `observations`, and ids are unique in each table (PRIMARY
KEY). -/
structure DB.Keyed (db : DB) : Prop where
  schema : db.schema = true
  entityRowids : (db.entities.map EntityRow.rowid).Nodup
  observationRowids : (db.observations.map ObservationRow.rowid).Nodup
  entityIDs : (db.entities.map EntityRow.id).Nodup
  observationIDs : (db.observations.map ObservationRow.id).Nodup
  relationIDs : (db.relations.map RelationRow.id).Nodup

/-! ### `Search`, as specified -/

/-- The entity row is one `Search` is specified to return under the matching
`hit`: it is active, and its name and type match or an active observation it
owns matches. -/
def DB.matched (db : DB) (hit : List String → Bool) (e : EntityRow) : Bool :=
  e.active && (hit [e.name, e.entity_type] ||
    db.observations.any fun o => o.active && (o.entity_id == e.id && hit [o.content]))

/-- A sample matching: the empty query does not parse, and a row matches a
query when one of its columns is the query. -/
def sampleFts : Fts5 := fun query =>
  if query = "" then none else some fun columns => decide (query ∈ columns)

/-! ### Deleting by name, as specified -/

/-- The id a name resolves to in the lookups `SELECT id FROM entities WHERE
name = ? AND deleted_at IS NULL` read with `QueryRow(...).Scan`: that of the
first active entity of the name in `idx_entities_active`. -/
def resolveName (entities : List EntityRow) (name : String) : Option String :=
  ((idx_entities_active entities).find? fun e => e.name = name).map EntityRow.id

/-- The relation row is one `DeleteRelations(items)` is specified to tombstone
when names resolve as `resolve` has it: the row is active and, for some item,
its source is the id the item's `From` resolves to, its target the id the
item's `To` resolves to, and its type the item's type. -/
def targeted (resolve : String → Option String) (items : List RelationInput)
    (r : RelationRow) : Bool :=
  items.any fun i =>
    resolve i.From == some r.from_entity &&
      (resolve i.To == some r.to_entity &&
        (r.relation_type == i.RelationType && r.active))

/-- The sample registry and disk after `ArchiveProject("alpha")`. -/
def archivedRegistry : MetaStore × Disk :=
  (sampleRegistry.1.ArchiveProject sampleEnv sampleDisk "alpha").2

/-- The row of project `alpha` in the registry `archivedRegistry`. -/
def archivedAlpha : Project :=
  { sampleAlpha with
    Status := "archived"
    DBPath := "archive/00000000-0000-0000-0000-000000000000.db" }

/-! ## Go slices -/

/-- A Go slice value: `nil`, or a non-nil slice with its elements.
`encoding/json` renders the nil slice as `null` and a non-nil slice, empty or
not, as an array. -/
inductive Slice (α : Type)
  | nil
  | items (l : List α)
deriving DecidableEq, Repr

/-- The slice a function holds after `var s []T` and one `append` per element
of `l`: it is still nil when nothing was appended. -/
def Slice.collected {α : Type} : List α → Slice α
  | [] => Slice.nil
  | a :: rest => Slice.items (a :: rest)

/-- The elements of a slice. -/
def Slice.toList {α : Type} : Slice α → List α
  | Slice.nil => []
  | Slice.items l => l

/-- The slice `(*MetaStore).ListProjects` returns on success: `var projects
[]models.Project` and one `append` per row. -/
def MetaStore.ListProjects.slice (env : Env) (m : MetaStore) (status : String) :
    Except GoError (Slice Project) :=
  (m.ListProjects env status).map Slice.collected

/-- The slice `(*ProjectStore).GetEntities` returns on success: `nil` for an
empty list of names (`return nil, nil`), otherwise `var entities
[]models.Entity` and one `append` per row. -/
def ProjectStore.GetEntities.slice (env : Env) (db : DB) (names : List String) :
    Except GoError (Slice Entity) :=
  if names.length = 0 then .ok Slice.nil
  else (ProjectStore.GetEntities env db names).map Slice.collected

/-- The slice `(*ProjectStore).Search` returns on success: `nil` when no id
matched (`return nil, nil`), otherwise `var entities []models.Entity` and one
`append` per entity loaded. -/
def ProjectStore.Search.slice (env : Env) (fts : Fts5) (rank : String → Nat) (db : DB)
    (query : String) : Except GoError (Slice Entity) :=
  (ProjectStore.Search env fts rank db query).map Slice.collected

/-- The two slices of the `KnowledgeGraph` that `(*ProjectStore).ReadGraph`
returns on success: each is a `var` slice with one `append` per row. -/
def ProjectStore.ReadGraph.slices (env : Env) (db : DB) :
    Except GoError (Slice Entity × Slice Relation) :=
  (ProjectStore.ReadGraph env db).map fun g =>
    (Slice.collected g.Entities, Slice.collected g.Relations)

/-! ## `internal/tools` -/

/-- An operand of a format string: a string (`%s`, `%q`), a count (`%d`) or an
error (`%v`). -/
inductive FmtArg
  | str (s : String)
  | int (n : Nat)
  | err (e : GoError)
deriving DecidableEq, Repr

/-- The Go value a handler gives to `toolJSON`. -/
inductive ToolValue
  | project (p : Project)
  | projects (ps : Slice Project)
  | entities (es : Slice Entity)
  | relations (rs : Slice Relation)
  | observations (created : Slice (Slice Observation))
  | graph (entities : Slice Entity) (relations : Slice Relation)
deriving DecidableEq, Repr

/-- The text of the single `TextContent` of a result: `fmt.Sprintf(format,
args...)`, or the JSON rendering `json.MarshalIndent` of a value. -/
inductive ToolContent
  | text (format : String) (args : List FmtArg)
  | json (v : ToolValue)
deriving DecidableEq, Repr

/-- Go `mcp.CallToolResult` as the helpers of the package build it. -/
structure CallToolResult where
  Content : ToolContent
  IsError : Bool
deriving DecidableEq, Repr

/-- Go `toolText`, applied to `fmt.Sprintf(format, args...)`. -/
def toolText (format : String) (args : List FmtArg) : CallToolResult :=
  ⟨ToolContent.text format args, false⟩

/-- Go `toolError`. -/
def toolError (format : String) (args : List FmtArg) : CallToolResult :=
  ⟨ToolContent.text format args, true⟩

/-- Go `toolJSON`; `json.MarshalIndent` does not fail on the values the
handlers give it. -/
def toolJSON (v : ToolValue) : CallToolResult :=
  ⟨ToolContent.json v, false⟩

/-- The environments of one request: that of its `n`-th call into `storage` or
`session`. -/
abbrev ToolEnv := Nat → Env

/-- Go `tools.ObservationInput`. -/
structure ObservationInput where
  EntityName : String
  Contents : List String
deriving DecidableEq, Repr

/-- Go `tools.DeleteObservationItem`. -/
structure DeleteObservationItem where
  EntityName : String
  Observations : List String
deriving DecidableEq, Repr

/-- Go `(*KnowledgeTools).requireProject`. -/
def KnowledgeTools.requireProject (s : Session) : Except CallToolResult ProjectStore :=
  match s.ProjectStore with
  | none => .error (toolError "No active project. Use switch_project to select one." [])
  | some ps => .ok ps

/-- Go `(*KnowledgeTools).CreateEntities`. -/
def KnowledgeTools.CreateEntities (envs : ToolEnv) (s : Session) (disk : Disk)
    (entities : List EntityInput) : CallToolResult × Disk :=
  match KnowledgeTools.requireProject s with
  | .error errResult => (errResult, disk)
  | .ok ps =>
    match ps.on disk fun db => ProjectStore.CreateEntities (envs 0) db entities with
    | (.error err, disk1) => (toolError "Failed to create entities: %v" [FmtArg.err err], disk1)
    | (.ok created, disk1) => (toolJSON (ToolValue.entities (Slice.collected created)), disk1)

/-- The loop of the handler `AddObservations`: one call of
`(*ProjectStore).AddObservations` per item, the `k`-th call of the request
first. -/
def KnowledgeTools.AddObservations.loop (envs : ToolEnv) (ps : ProjectStore) :
    List ObservationInput → Nat → Disk →
      Except CallToolResult (List (Slice Observation)) × Disk
  | [], _, disk => (.ok [], disk)
  | obs :: rest, k, disk =>
    match ps.on disk fun db =>
        ProjectStore.AddObservations (envs k) db obs.EntityName obs.Contents with
    | (.error err, disk1) =>
      (.error (toolError "Failed to add observations for %q: %v"
        [FmtArg.str obs.EntityName, FmtArg.err err]), disk1)
    | (.ok created, disk1) =>
      match KnowledgeTools.AddObservations.loop envs ps rest (k + 1) disk1 with
      | (.error errResult, disk2) => (.error errResult, disk2)
      | (.ok allCreated, disk2) => (.ok (Slice.collected created :: allCreated), disk2)

/-- Go `(*KnowledgeTools).AddObservations`. -/
def KnowledgeTools.AddObservations (envs : ToolEnv) (s : Session) (disk : Disk)
    (observations : List ObservationInput) : CallToolResult × Disk :=
  match KnowledgeTools.requireProject s with
  | .error errResult => (errResult, disk)
  | .ok ps =>
    match KnowledgeTools.AddObservations.loop envs ps observations 0 disk with
    | (.error errResult, disk1) => (errResult, disk1)
    | (.ok allCreated, disk1) =>
      (toolJSON (ToolValue.observations (Slice.collected allCreated)), disk1)

/-- Go `(*KnowledgeTools).CreateRelations`. -/
def KnowledgeTools.CreateRelations (envs : ToolEnv) (s : Session) (disk : Disk)
    (relations : List RelationInput) : CallToolResult × Disk :=
  match KnowledgeTools.requireProject s with
  | .error errResult => (errResult, disk)
  | .ok ps =>
    match ps.on disk fun db => ProjectStore.CreateRelations (envs 0) db relations with
    | (.error err, disk1) => (toolError "Failed to create relations: %v" [FmtArg.err err], disk1)
    | (.ok created, disk1) => (toolJSON (ToolValue.relations (Slice.collected created)), disk1)

/-- Go `(*KnowledgeTools).SearchNodes`. -/
def KnowledgeTools.SearchNodes (envs : ToolEnv) (fts : Fts5) (rank : String → Nat)
    (s : Session) (disk : Disk) (query : String) : CallToolResult × Disk :=
  match KnowledgeTools.requireProject s with
  | .error errResult => (errResult, disk)
  | .ok ps =>
    match ps.on disk fun db => (ProjectStore.Search.slice (envs 0) fts rank db query, db) with
    | (.error err, disk1) => (toolError "Search failed: %v" [FmtArg.err err], disk1)
    | (.ok entities, disk1) => (toolJSON (ToolValue.entities entities), disk1)

/-- Go `(*KnowledgeTools).OpenNodes`. -/
def KnowledgeTools.OpenNodes (envs : ToolEnv) (s : Session) (disk : Disk)
    (names : List String) : CallToolResult × Disk :=
  match KnowledgeTools.requireProject s with
  | .error errResult => (errResult, disk)
  | .ok ps =>
    match ps.on disk fun db => (ProjectStore.GetEntities.slice (envs 0) db names, db) with
    | (.error err, disk1) => (toolError "Failed to open nodes: %v" [FmtArg.err err], disk1)
    | (.ok entities, disk1) => (toolJSON (ToolValue.entities entities), disk1)

/-- Go `(*KnowledgeTools).ReadGraph`. -/
def KnowledgeTools.ReadGraph (envs : ToolEnv) (s : Session) (disk : Disk) :
    CallToolResult × Disk :=
  match KnowledgeTools.requireProject s with
  | .error errResult => (errResult, disk)
  | .ok ps =>
    match ps.on disk fun db => (ProjectStore.ReadGraph.slices (envs 0) db, db) with
    | (.error err, disk1) => (toolError "Failed to read graph: %v" [FmtArg.err err], disk1)
    | (.ok graph, disk1) => (toolJSON (ToolValue.graph graph.1 graph.2), disk1)

/-- Go `(*KnowledgeTools).DeleteEntities`. -/
def KnowledgeTools.DeleteEntities (envs : ToolEnv) (s : Session) (disk : Disk)
    (names : List String) : CallToolResult × Disk :=
  match KnowledgeTools.requireProject s with
  | .error errResult => (errResult, disk)
  | .ok ps =>
    match ps.on disk fun db => ProjectStore.DeleteEntities (envs 0) db names with
    | (.error err, disk1) => (toolError "Failed to delete entities: %v" [FmtArg.err err], disk1)
    | (.ok count, disk1) => (toolText "Deleted %d entities." [FmtArg.int count], disk1)

/-- The loop of the handler `DeleteObservations`: one call of
`(*ProjectStore).DeleteObservations` per item, the `k`-th call of the request
first. -/
def KnowledgeTools.DeleteObservations.loop (envs : ToolEnv) (ps : ProjectStore) :
    List DeleteObservationItem → Nat → Disk → Except CallToolResult Nat × Disk
  | [], _, disk => (.ok 0, disk)
  | d :: rest, k, disk =>
    match ps.on disk fun db =>
        ProjectStore.DeleteObservations (envs k) db d.EntityName d.Observations with
    | (.error err, disk1) =>
      (.error (toolError "Failed to delete observations for %q: %v"
        [FmtArg.str d.EntityName, FmtArg.err err]), disk1)
    | (.ok count, disk1) =>
      match KnowledgeTools.DeleteObservations.loop envs ps rest (k + 1) disk1 with
      | (.error errResult, disk2) => (.error errResult, disk2)
      | (.ok total, disk2) => (.ok (count + total), disk2)

/-- Go `(*KnowledgeTools).DeleteObservations`. -/
def KnowledgeTools.DeleteObservations (envs : ToolEnv) (s : Session) (disk : Disk)
    (deletions : List DeleteObservationItem) : CallToolResult × Disk :=
  match KnowledgeTools.requireProject s with
  | .error errResult => (errResult, disk)
  | .ok ps =>
    match KnowledgeTools.DeleteObservations.loop envs ps deletions 0 disk with
    | (.error errResult, disk1) => (errResult, disk1)
    | (.ok total, disk1) => (toolText "Deleted %d observations." [FmtArg.int total], disk1)

/-- Go `(*KnowledgeTools).DeleteRelations`. -/
def KnowledgeTools.DeleteRelations (envs : ToolEnv) (s : Session) (disk : Disk)
    (relations : List RelationInput) : CallToolResult × Disk :=
  match KnowledgeTools.requireProject s with
  | .error errResult => (errResult, disk)
  | .ok ps =>
    match ps.on disk fun db => ProjectStore.DeleteRelations (envs 0) db relations with
    | (.error err, disk1) => (toolError "Failed to delete relations: %v" [FmtArg.err err], disk1)
    | (.ok count, disk1) => (toolText "Deleted %d relations." [FmtArg.int count], disk1)

/-- Go `(*ProjectTools).ListProjects`. -/
def ProjectTools.ListProjects (envs : ToolEnv) (m : MetaStore) (status : String) :
    CallToolResult :=
  let status1 := if status = "" then "active" else status
  match MetaStore.ListProjects.slice (envs 0) m status1 with
  | .error err => toolError "Failed to list projects: %v" [FmtArg.err err]
  | .ok projects =>
    toolJSON (ToolValue.projects
      (match projects with
        | Slice.nil => Slice.items []
        | Slice.items l => Slice.items l))

/-- Go `(*ProjectTools).CreateProject`: `Meta.CreateProject` is call 0 of the
request and `Session.SwitchProject` call 1. -/
def ProjectTools.CreateProject (envs : ToolEnv) (m : MetaStore) (s : Session) (disk : Disk)
    (name description : String) : CallToolResult × MetaStore × Session × Disk :=
  if name = "" then (toolError "Project name is required" [], m, s, disk)
  else
    match m.CreateProject (envs 0) disk name description with
    | (.error err, m1, disk1) =>
      (toolError "Failed to create project: %v" [FmtArg.err err], m1, s, disk1)
    | (.ok proj, m1, disk1) =>
      match s.SwitchProject (envs 1) m1 disk1 proj.Name with
      | (.error err, s1, disk2, _) =>
        (toolError "Project created but failed to switch: %v" [FmtArg.err err], m1, s1, disk2)
      | (.ok _, s1, disk2, _) => (toolJSON (ToolValue.project proj), m1, s1, disk2)

/-- Go `(*ProjectTools).SwitchProject`. -/
def ProjectTools.SwitchProject (envs : ToolEnv) (m : MetaStore) (s : Session) (disk : Disk)
    (name : String) : CallToolResult × MetaStore × Session × Disk :=
  if name = "" then (toolError "Project name is required" [], m, s, disk)
  else
    match s.SwitchProject (envs 0) m disk name with
    | (.error err, s1, disk1, _) =>
      (toolError "Failed to switch project: %v" [FmtArg.err err], m, s1, disk1)
    | (.ok proj, s1, disk1, _) => (toolJSON (ToolValue.project proj), m, s1, disk1)

/-- Go `(*ProjectTools).GetCurrentProject`. -/
def ProjectTools.GetCurrentProject (envs : ToolEnv) (m : MetaStore) (s : Session) :
    CallToolResult :=
  if s.GetCurrent.2.2 = false then
    toolText "No project is currently active. Use switch_project to select one." []
  else
    match m.GetProjectByID (envs 0) s.GetCurrent.1 with
    | .error _ =>
      toolText "Active project: %s (details unavailable)" [FmtArg.str s.GetCurrent.2.1]
    | .ok proj => toolJSON (ToolValue.project proj)

/-- The block `if ok && currentName == input.Name { t.Session.Clear() }` of the
handlers `ArchiveProject` and `DeleteProject`. -/
def ProjectTools.clearIfCurrent (s : Session) (name : String) : Session :=
  if s.GetCurrent.2.2 = true ∧ s.GetCurrent.2.1 = name then s.Clear.1 else s

/-- Go `(*ProjectTools).ArchiveProject`. -/
def ProjectTools.ArchiveProject (envs : ToolEnv) (m : MetaStore) (s : Session) (disk : Disk)
    (name : String) : CallToolResult × MetaStore × Session × Disk :=
  if name = "" then (toolError "Project name is required" [], m, s, disk)
  else
    let s1 := ProjectTools.clearIfCurrent s name
    match m.ArchiveProject (envs 0) disk name with
    | (.error err, m1, disk1) =>
      (toolError "Failed to archive project: %v" [FmtArg.err err], m1, s1, disk1)
    | (.ok proj, m1, disk1) => (toolJSON (ToolValue.project proj), m1, s1, disk1)

/-- Go `(*ProjectTools).DeleteProject`. -/
def ProjectTools.DeleteProject (envs : ToolEnv) (m : MetaStore) (s : Session) (disk : Disk)
    (name : String) : CallToolResult × MetaStore × Session × Disk :=
  if name = "" then (toolError "Project name is required" [], m, s, disk)
  else
    let s1 := ProjectTools.clearIfCurrent s name
    match m.DeleteProject (envs 0) disk name with
    | (.error err, m1, disk1) =>
      (toolError "Failed to delete project: %v" [FmtArg.err err], m1, s1, disk1)
    | (.ok _, m1, disk1) =>
      (toolText "Project %q permanently deleted." [FmtArg.str name], m1, s1, disk1)

/-- Go `(*ProjectTools).RestoreProject`. -/
def ProjectTools.RestoreProject (envs : ToolEnv) (m : MetaStore) (s : Session) (disk : Disk)
    (name : String) : CallToolResult × MetaStore × Session × Disk :=
  if name = "" then (toolError "Project name is required" [], m, s, disk)
  else
    match m.RestoreProject (envs 0) disk name with
    | (.error err, m1, disk1) =>
      (toolError "Failed to restore project: %v" [FmtArg.err err], m1, s, disk1)
    | (.ok proj, m1, disk1) => (toolJSON (ToolValue.project proj), m1, s, disk1)

/-- A sample environment in which provisioning fails: the engine cannot open
the new database file (step 1); ids are drawn as in `laterEnv`. -/
def provisionFailEnv : Env :=
  ⟨sampleEnv.now, fun k => k + 256, fun k => if k = 1 then some errNoFile else none⟩

/-- A sample environment in which provisioning fails (step 1) and the DELETE
that undoes the INSERT fails too (step 4). -/
def rollbackFailEnv : Env :=
  ⟨sampleEnv.now, fun k => k + 256,
    fun k => if k = 1 ∨ k = 4 then some errNoFile else none⟩

/-! ### Placement by status -/

/-- The registry states the lifecycle operations `CreateProject`,
`ArchiveProject`, `RestoreProject` and `DeleteProject` can produce from a
registry opened on a new data directory, whatever the environment and the disk
each call meets. -/
inductive MetaStore.Lifecycle : MetaStore → Prop
  | opened (dataDir : String) : MetaStore.Lifecycle ⟨[], dataDir⟩
  | createProject (env : Env) (m : MetaStore) (disk : Disk) (name description : String) :
      MetaStore.Lifecycle m →
      MetaStore.Lifecycle (m.CreateProject env disk name description).2.1
  | archiveProject (env : Env) (m : MetaStore) (disk : Disk) (name : String) :
      MetaStore.Lifecycle m →
      MetaStore.Lifecycle (m.ArchiveProject env disk name).2.1
  | restoreProject (env : Env) (m : MetaStore) (disk : Disk) (name : String) :
      MetaStore.Lifecycle m →
      MetaStore.Lifecycle (m.RestoreProject env disk name).2.1
  | deleteProject (env : Env) (m : MetaStore) (disk : Disk) (name : String) :
      MetaStore.Lifecycle m →
      MetaStore.Lifecycle (m.DeleteProject env disk name).2.1

/-- The location of the project is the one its status selects: `projects/<id>.db`
for status `active`, `archive/<id>.db` for status `archived`. -/
def Project.Sited (p : Project) : Prop :=
  (p.Status = "active" ∧ p.DBPath = filepath.Join "projects" (p.ID ++ ".db")) ∨
    (p.Status = "archived" ∧ p.DBPath = filepath.Join "archive" (p.ID ++ ".db"))

/-! ### Soft deletion -/

/-- The entity row `e` is still stored, as `e1`: unchanged, or with a tombstone
written. -/
def EntityRow.KeptAs (e e1 : EntityRow) : Prop :=
  e1 = e ∨ ∃ t, e1 = e.tombstone t

/-- The observation row `o` is still stored, as `o1`: unchanged, or with a
tombstone written. -/
def ObservationRow.KeptAs (o o1 : ObservationRow) : Prop :=
  o1 = o ∨ ∃ t, o1 = o.tombstone t

/-- The relation row `r` is still stored, as `r1`: unchanged, or with a
tombstone written. -/
def RelationRow.KeptAs (r r1 : RelationRow) : Prop :=
  r1 = r ∨ ∃ t, r1 = r.tombstone t

/-- Every row of `db0` is still stored in `db`. -/
def DB.Extends (db0 db : DB) : Prop :=
  (∀ e ∈ db0.entities, ∃ e1 ∈ db.entities, e.KeptAs e1) ∧
  (∀ o ∈ db0.observations, ∃ o1 ∈ db.observations, o.KeptAs o1) ∧
  (∀ r ∈ db0.relations, ∃ r1 ∈ db.relations, r.KeptAs r1)

/-! ### Sequences of project handler calls -/

/-- A call of one of the project handlers that act on the registry or on the
session. -/
inductive ProjectCall
  | createProject (name description : String)
  | switchProject (name : String)
  | archiveProject (name : String)
  | restoreProject (name : String)
  | deleteProject (name : String)
deriving DecidableEq, Repr

/-- The result of a project handler call, with the registry, the session and
the disk it leaves. -/
def ProjectCall.run (envs : ToolEnv) (m : MetaStore) (s : Session) (disk : Disk) :
    ProjectCall → CallToolResult × MetaStore × Session × Disk
  | .createProject name description => ProjectTools.CreateProject envs m s disk name description
  | .switchProject name => ProjectTools.SwitchProject envs m s disk name
  | .archiveProject name => ProjectTools.ArchiveProject envs m s disk name
  | .restoreProject name => ProjectTools.RestoreProject envs m s disk name
  | .deleteProject name => ProjectTools.DeleteProject envs m s disk name

/-- The registries, sessions and disks one session can be in: a new session on
a registry that the lifecycle operations produced, then any sequence of project
handler calls, whatever the environment of each. -/
inductive Served : MetaStore → Session → Disk → Prop
  | start (m : MetaStore) (disk : Disk) : m.Lifecycle → Served m Session.New disk
  | call (envs : ToolEnv) (m : MetaStore) (s : Session) (disk : Disk) (c : ProjectCall) :
      Served m s disk →
      Served (c.run envs m s disk).2.1 (c.run envs m s disk).2.2.1 (c.run envs m s disk).2.2.2

/-- The session is Unbound, or it is bound to a registered project of status
`active`, whose id and name it holds, the name not being empty. -/
def Session.BoundIn (s : Session) (m : MetaStore) : Prop :=
  s.projectDB ≠ none →
    s.currentProjectName ≠ "" ∧
    ∃ p ∈ m.projects, p.ID = s.currentProjectID ∧ p.Name = s.currentProjectName ∧
      p.Status = "active"

/-! ### Tombstones and the read paths -/

/-- Every relation that is not tombstoned has a source and a target that are
not tombstoned. -/
def DB.Linked (db : DB) : Prop :=
  ∀ r ∈ db.relations, r.active = true →
    ∀ e ∈ db.entities, e.id = r.from_entity ∨ e.id = r.to_entity → e.active = true

/-- The store `d` has the entities of `db`, and its relations that are not
tombstoned are relations of `db`. -/
def DB.Thins (db d : DB) : Prop :=
  d.entities = db.entities ∧ ∀ r ∈ d.relations, r.active = true → r ∈ db.relations

/-- The relation is one the store holds, not tombstoned, between entities none
of which is tombstoned. -/
def DB.LiveRelation (db : DB) (r : Relation) : Prop :=
  (∃ row ∈ db.relations, row.toModel = r ∧ row.active = true) ∧
  (∀ row ∈ db.relations, row.id = r.ID → row.active = true) ∧
  ∀ e ∈ db.entities, e.id = r.FromEntity ∨ e.id = r.ToEntity → e.active = true

/-- The observation is one the store holds, not tombstoned, and its owner is
not tombstoned. -/
def DB.LiveObservation (db : DB) (o : Observation) : Prop :=
  (∃ row ∈ db.observations, row.toModel = o ∧ row.active = true) ∧
  (∀ row ∈ db.observations, row.id = o.ID → row.active = true) ∧
  (∃ e ∈ db.entities, e.id = o.EntityID ∧ e.active = true) ∧
  ∀ e ∈ db.entities, e.id = o.EntityID → e.active = true

/-- The entity is one the store holds, not tombstoned, and so are the
observations and the relations it carries. -/
def DB.LiveEntity (db : DB) (ent : Entity) : Prop :=
  (∃ row ∈ db.entities, row.id = ent.ID ∧ row.name = ent.Name ∧ row.active = true) ∧
  (∀ row ∈ db.entities, row.id = ent.ID → row.active = true) ∧
  (∀ o ∈ ent.Observations, db.LiveObservation o ∧ o.EntityID = ent.ID) ∧
  ∀ r ∈ ent.Relations, db.LiveRelation r

/-! ### Rows that the indexes reorder -/

/-- A sample store with the entities `X`, `Y` and `Z` and no relation. -/
def threeEntities : DB :=
  (ProjectStore.CreateEntities sampleEnv DB.fresh
    [⟨"X", "thing", []⟩, ⟨"Y", "thing", []⟩, ⟨"Z", "thing", []⟩]).2

/-- A sample store with two relations created by one call of
`CreateRelations`, within one second: first `uses` from `X` to `Y`, then
`backs` from `X` to `Z`. -/
def tiedDB : DB :=
  (ProjectStore.CreateRelations sampleEnv threeEntities
    [⟨"X", "Y", "uses"⟩, ⟨"X", "Z", "backs"⟩]).2

/-- A sample store with two active entities of one name: `X` of type `zebra`
and `Y` are created and related by `uses`, then a second `X`, of type `apple`,
is created and `CreateRelations` is asked again for `uses` from `X` to `Y`. -/
def homonymDB : DB :=
  (ProjectStore.CreateRelations laterEnv
    (ProjectStore.CreateEntities laterEnv
      (ProjectStore.CreateRelations sampleEnv
        (ProjectStore.CreateEntities sampleEnv DB.fresh
          [⟨"X", "zebra", []⟩, ⟨"Y", "thing", []⟩]).2
        [⟨"X", "Y", "uses"⟩]).2
      [⟨"X", "apple", []⟩]).2
    [⟨"X", "Y", "uses"⟩]).2

/-! # Properties -/

/-! ## The order of the indexes -/

theorem idx_entities_active_perm (entities : List EntityRow) :
    (idx_entities_active entities).Perm (entities.filter fun e => e.active) :=
  (List.perm_insertionSort _ _).trans (List.perm_insertionSort _ _)

theorem mem_idx_entities_active {entities : List EntityRow} {e : EntityRow} :
    e ∈ idx_entities_active entities ↔ e ∈ entities ∧ e.active = true := by
  rw [(idx_entities_active_perm entities).mem_iff, List.mem_filter]

theorem idx_relations_type_perm (relations : List RelationRow) :
    (idx_relations_type relations).Perm (relations.filter fun r => r.active) :=
  List.perm_insertionSort _ _

theorem mem_idx_relations_type {relations : List RelationRow} {r : RelationRow} :
    r ∈ idx_relations_type relations ↔ r ∈ relations ∧ r.active = true := by
  rw [(idx_relations_type_perm relations).mem_iff, List.mem_filter]

/-! ## Running statements -/


theorem Tx.run_ok {α : Type} (env : Env) (stmt : Stmt α) (tx : Tx)
    (hf : env.fault tx.n = none) (hs : tx.db.schema = true) :
    tx.run env stmt =
      match stmt tx.db with
      | .error e => (.error e, ⟨tx.db, tx.n + 1⟩)
      | .ok (a, db) => (.ok a, ⟨db, tx.n + 1⟩) := by
  simp [Tx.run, hf, hs]

theorem Tx.control_ok (env : Env) (tx : Tx) (hf : env.fault tx.n = none) :
    Tx.control env tx = (.ok (), ⟨tx.db, tx.n + 1⟩) := by
  simp [Tx.control, hf]

/-! ## Deleting entities -/

@[simp] theorem RelationRow.tombstone_active (t : String) (r : RelationRow) :
    (r.tombstone t).active = false := rfl

theorem deleteEntities_relations_ok (env : Env) (hf : env.FaultFree) :
    ∀ (ids : List String) (tx : Tx), tx.db.schema = true →
      ProjectStore.DeleteEntities.relations env ids tx =
        (.ok (), ⟨{ tx.db with relations := tx.db.relations.map (fun r =>
            if (r.from_entity ∈ ids ∨ r.to_entity ∈ ids) ∧ r.active then
              RelationRow.tombstone (cascadeStamp env ids tx.n r) r
            else r) }, tx.n + ids.length⟩) := by
  intro ids
  induction ids with
  | nil =>
    intro tx _
    simp [ProjectStore.DeleteEntities.relations]
  | cons eid rest ih =>
    intro tx hs
    rw [ProjectStore.DeleteEntities.relations, Tx.run_ok env _ tx (hf _) hs]
    simp only [updateRelations]
    rw [ih _ (by exact hs)]
    simp only [List.map_map, List.length_cons]
    congr 2
    · congr 1
      apply List.map_congr_left
      intro r _
      simp only [Function.comp, cascadeStamp, List.mem_cons]
      by_cases h2 : r.active = true
      · by_cases h1 : r.from_entity = eid ∨ r.to_entity = eid
        · have h3 : (r.from_entity = eid ∨ r.from_entity ∈ rest) ∨
              r.to_entity = eid ∨ r.to_entity ∈ rest := by tauto
          simp [h1, h2, h3]
        · have h1a : ¬ r.from_entity = eid := fun h => h1 (Or.inl h)
          have h1b : ¬ r.to_entity = eid := fun h => h1 (Or.inr h)
          simp [h1a, h1b]
      · simp [h2]
    · omega

theorem map_ite_of_forall_not {α : Type} (p : α → Bool) (f : α → α) (l : List α)
    (h : ∀ a ∈ l, p a = false) : (l.map fun a => if p a then f a else a) = l := by
  induction l with
  | nil => rfl
  | cons a l ih =>
    have ha : p a = false := h a (List.mem_cons_self _ _)
    simp only [List.map_cons, ha, Bool.false_eq_true, if_false]
    rw [ih fun b hb => h b (List.mem_cons_of_mem _ hb)]

theorem foldl_ite_of_forall_not {α β : Type} (p : α → Bool) (g : β → α → β) (l : List α)
    (b : β) (h : ∀ a ∈ l, p a = false) :
    (l.foldl (fun acc a => if p a then g acc a else acc) b) = b := by
  induction l generalizing b with
  | nil => rfl
  | cons a l ih =>
    have ha : p a = false := h a (List.mem_cons_self _ _)
    simp only [List.foldl_cons, ha, Bool.false_eq_true, if_false]
    exact ih b fun c hc => h c (List.mem_cons_of_mem _ hc)

theorem no_match_of_matchedIDs_nil {db : DB} {names : List String}
    (h : matchedIDs db names = []) :
    ∀ e ∈ db.entities, decide (e.name ∈ names ∧ e.active = true) = false := by
  intro e hmem
  rw [decide_eq_false_iff_not]
  rintro ⟨hn, ha⟩
  have := List.filter_eq_nil_iff.mp (List.map_eq_nil_iff.mp h) e
    (mem_idx_entities_active.mpr ⟨hmem, ha⟩)
  simp only [decide_eq_true_eq] at this
  exact this hn

theorem cascadeOnce_of_no_match (tO : String) (tR : RelationRow → String) (tE : String)
    (db : DB) (names : List String) (h : matchedIDs db names = []) :
    cascadeOnce tO tR tE db names = db := by
  have he := no_match_of_matchedIDs_nil h
  unfold cascadeOnce
  rw [h]
  have h1 := map_ite_of_forall_not (fun e : EntityRow => decide (e.name ∈ names ∧ e.active = true))
    (EntityRow.tombstone tE) db.entities he
  have h2 := foldl_ite_of_forall_not (fun e : EntityRow => decide (e.name ∈ names ∧ e.active = true))
    (fun idx e => entities_au idx e (EntityRow.tombstone tE e)) db.entities db.entities_fts he
  simp only [decide_eq_true_eq] at h1 h2
  rw [h1, h2]
  simp


theorem forall₂_map_ite {α : Type} (p : α → Prop) [DecidablePred p] (f : α → α)
    (R : α → α → Prop) (h1 : ∀ a, p a → R a (f a)) (h2 : ∀ a, ¬ p a → R a a) (l : List α) :
    List.Forall₂ R l (l.map fun a => if p a then f a else a) := by
  induction l with
  | nil => exact List.Forall₂.nil
  | cons a l ih =>
    refine List.Forall₂.cons ?_ ih
    by_cases h : p a
    · simpa [h] using h1 a h
    · simpa [h] using h2 a h

theorem mem_matchedIDs (db : DB) (names : List String) (id : String) :
    id ∈ matchedIDs db names ↔
      ∃ e ∈ db.entities, e.active = true ∧ e.name ∈ names ∧ id = e.id := by
  simp only [matchedIDs, List.mem_map, List.mem_filter, decide_eq_true_eq,
    mem_idx_entities_active]
  constructor
  · rintro ⟨e, ⟨⟨h1, h3⟩, h2⟩, rfl⟩
    exact ⟨e, h1, h3, h2, rfl⟩
  · rintro ⟨e, h1, h3, h2, rfl⟩
    exact ⟨e, ⟨⟨h1, h3⟩, h2⟩, rfl⟩

theorem DeleteEntities_eq_cascadeOnce (env : Env) (db : DB) (names : List String)
    (hf : env.FaultFree) (hs : db.schema = true) :
    ProjectStore.DeleteEntities env db names =
      (.ok (db.entities.countP fun e => e.name ∈ names ∧ e.active),
        cascadeOnce (env.now 2) (cascadeStamp env (matchedIDs db names) 3)
          (env.now (3 + (matchedIDs db names).length)) db names) := by
  unfold ProjectStore.DeleteEntities
  by_cases hn : names.length = 0
  · have hnil : names = [] := List.length_eq_zero.mp hn
    subst hnil
    have hm : matchedIDs db [] = [] := by simp [matchedIDs]
    rw [cascadeOnce_of_no_match _ _ _ _ _ hm]
    simp
  · rw [if_neg hn, Tx.control_ok env _ (hf _)]
    simp only []
    rw [Tx.run_ok env _ _ (hf _) hs]
    simp only [selectEntityIDs]
    change (if (matchedIDs db names).length = 0 then _ else _) = _
    by_cases hm : (matchedIDs db names).length = 0
    · have hnil : matchedIDs db names = [] := List.length_eq_zero.mp hm
      rw [if_pos hm, cascadeOnce_of_no_match _ _ _ _ _ hnil]
      have : (db.entities.filter fun e => decide (e.name ∈ names ∧ e.active = true)) = [] :=
        List.filter_eq_nil_iff.mpr fun e he hp => by
          rw [no_match_of_matchedIDs_nil hnil e he] at hp
          exact absurd hp (by simp)
      rw [List.countP_eq_length_filter, this]
      rfl
    · rw [if_neg hm]
      rw [Tx.run_ok env _ _ (hf _) hs]
      simp only [updateObservations]
      rw [deleteEntities_relations_ok env hf _ _ hs]
      simp only []
      rw [Tx.run_ok env _ _ (hf _) hs]
      simp only [updateEntities]
      rw [Tx.control_ok env _ (hf _)]
      simp only [cascadeOnce]
      simp only [matchedIDs, decide_eq_true_eq]

/-- C1. On a provisioned store and with an engine that does not fail,
`DeleteEntities(names)` succeeds and returns the number of active entities named
in `names`.  The store it leaves is the one obtained by enumerating the ids of
those entities once and tombstoning, over that one id set, the active
observations they own and the active relations they touch as source or target,
and by tombstoning the entities themselves; row by row, exactly these records
are tombstoned and every other record is left as it was.  With no active match
(in particular for an empty list) the count is 0 and nothing changes. -/
theorem DeleteEntities_cascade (env : Env) (db : DB) (names : List String)
    (hf : env.FaultFree) (hs : db.schema = true) :
    ∃ db1 : DB,
      ProjectStore.DeleteEntities env db names =
        (.ok (db.entities.countP fun e => e.name ∈ names ∧ e.active), db1) ∧
      (∃ tO tR tE, db1 = cascadeOnce tO tR tE db names) ∧
      List.Forall₂ (fun e e1 =>
        (e.active = true ∧ e.name ∈ names → ∃ t, e1 = e.tombstone t) ∧
        (¬ (e.active = true ∧ e.name ∈ names) → e1 = e)) db.entities db1.entities ∧
      List.Forall₂ (fun o o1 =>
        (o.active = true ∧ (∃ e ∈ db.entities, e.active = true ∧ e.name ∈ names ∧
            o.entity_id = e.id) → ∃ t, o1 = o.tombstone t) ∧
        (¬ (o.active = true ∧ ∃ e ∈ db.entities, e.active = true ∧ e.name ∈ names ∧
            o.entity_id = e.id) → o1 = o)) db.observations db1.observations ∧
      List.Forall₂ (fun r r1 =>
        (r.active = true ∧ (∃ e ∈ db.entities, e.active = true ∧ e.name ∈ names ∧
            (r.from_entity = e.id ∨ r.to_entity = e.id)) → ∃ t, r1 = r.tombstone t) ∧
        (¬ (r.active = true ∧ ∃ e ∈ db.entities, e.active = true ∧ e.name ∈ names ∧
            (r.from_entity = e.id ∨ r.to_entity = e.id)) → r1 = r)) db.relations db1.relations ∧
      ((∀ e ∈ db.entities, ¬ (e.active = true ∧ e.name ∈ names)) →
        ProjectStore.DeleteEntities env db names = (.ok 0, db)) := by
  refine ⟨_, DeleteEntities_eq_cascadeOnce env db names hf hs, ⟨_, _, _, rfl⟩, ?_, ?_, ?_, ?_⟩
  · apply forall₂_map_ite
    · intro e he
      exact ⟨fun _ => ⟨_, rfl⟩, fun h => absurd ⟨he.2, he.1⟩ h⟩
    · intro e he
      exact ⟨fun h => absurd ⟨h.2, h.1⟩ he, fun _ => rfl⟩
  · apply forall₂_map_ite
    · intro o ho
      exact ⟨fun _ => ⟨_, rfl⟩, fun h => absurd ⟨ho.2, (mem_matchedIDs _ _ _).mp ho.1⟩ h⟩
    · intro o ho
      exact ⟨fun h => absurd ⟨(mem_matchedIDs _ _ _).mpr h.2, h.1⟩ ho, fun _ => rfl⟩
  · have key : ∀ r : RelationRow,
        (r.from_entity ∈ matchedIDs db names ∨ r.to_entity ∈ matchedIDs db names) ↔
          ∃ e ∈ db.entities, e.active = true ∧ e.name ∈ names ∧
            (r.from_entity = e.id ∨ r.to_entity = e.id) := by
      intro r
      rw [mem_matchedIDs, mem_matchedIDs]
      constructor
      · rintro (⟨e, h1, h2, h3, h4⟩ | ⟨e, h1, h2, h3, h4⟩)
        · exact ⟨e, h1, h2, h3, Or.inl h4⟩
        · exact ⟨e, h1, h2, h3, Or.inr h4⟩
      · rintro ⟨e, h1, h2, h3, h4 | h4⟩
        · exact Or.inl ⟨e, h1, h2, h3, h4⟩
        · exact Or.inr ⟨e, h1, h2, h3, h4⟩
    apply forall₂_map_ite
    · intro r hr
      exact ⟨fun _ => ⟨_, rfl⟩, fun h => absurd ⟨hr.2, (key r).mp hr.1⟩ h⟩
    · intro r hr
      exact ⟨fun h => absurd ⟨(key r).mpr h.2, h.1⟩ hr, fun _ => rfl⟩
  · intro hno
    have hm : matchedIDs db names = [] := by
      simp only [matchedIDs, List.map_eq_nil_iff, List.filter_eq_nil_iff, decide_eq_true_eq]
      intro e he h
      have hmem := mem_idx_entities_active.mp he
      exact hno e hmem.1 ⟨hmem.2, h⟩
    have hc : (db.entities.countP fun e => decide (e.name ∈ names ∧ e.active = true)) = 0 := by
      rw [List.countP_eq_zero]
      intro e he
      simpa using fun h1 h2 => hno e he ⟨h2, h1⟩
    rw [DeleteEntities_eq_cascadeOnce env db names hf hs, cascadeOnce_of_no_match _ _ _ _ _ hm, hc]

theorem DeleteEntities_cascade_witness :
    ∃ db1 : DB, ProjectStore.DeleteEntities sampleEnv sampleDB ["X"] = (.ok 1, db1) ∧
      db1.relations.map RelationRow.active = [false] := by
  obtain ⟨db1, h, -, -, -, hr, -⟩ :=
    DeleteEntities_cascade sampleEnv sampleDB ["X"] (fun _ => rfl) rfl
  refine ⟨db1, h, ?_⟩
  have h2 : (ProjectStore.DeleteEntities sampleEnv sampleDB ["X"]).2 = db1 := by rw [h]
  rw [← h2]
  decide

/-! ## Strings and paths -/

theorem hexDigit_ne_slash (n : Nat) : hexDigit n ≠ '/' := by
  have h : n % 16 < 16 := Nat.mod_lt _ (by decide)
  unfold hexDigit
  generalize n % 16 = k at h
  interval_cases k <;> decide

theorem uuidChars_ne_slash (u : Nat) : ∀ c ∈ uuidChars u, c ≠ '/' := by
  intro c hc
  simp only [uuidChars, List.mem_flatMap, List.mem_append, hexByte, List.mem_cons,
    List.mem_singleton, List.not_mem_nil, or_false] at hc
  obtain ⟨i, -, h | h | h⟩ := hc
  · split at h
    · rw [List.mem_singleton.mp h]; decide
    · exact absurd h (List.not_mem_nil _)
  · rw [h]; exact hexDigit_ne_slash _
  · rw [h]; exact hexDigit_ne_slash _

theorem uuidChars_ne_nil (u : Nat) : uuidChars u ≠ [] := by
  simp [uuidChars, List.range_succ_eq_map, hexByte]

theorem UUID.String_ne_empty (u : Nat) : UUID.String u ≠ "" := by
  intro h
  have := congrArg String.data h
  exact uuidChars_ne_nil u this

theorem isFileName_uuid_db (u : Nat) : IsFileName (UUID.String u ++ ".db") := by
  constructor
  · simp [String.data_append, UUID.String, uuidChars_ne_nil]
  · intro c hc
    simp only [String.data_append, UUID.String, List.mem_append] at hc
    rcases hc with h | h
    · exact uuidChars_ne_slash u c h
    · have : c = '.' ∨ c = 'd' ∨ c = 'b' := by simpa using h
      rcases this with rfl | rfl | rfl <;> decide

theorem IsFileName.ne_empty {f : String} (h : IsFileName f) : f ≠ "" := by
  intro he
  exact h.1 (by rw [he])

theorem join_eq {a b : String} (ha : a ≠ "") (hb : b ≠ "") :
    filepath.Join a b = a ++ "/" ++ b := by
  simp [filepath.Join, ha, hb]

theorem join_data {a b : String} (ha : a ≠ "") (hb : b ≠ "") :
    (filepath.Join a b).data = a.data ++ '/' :: b.data := by
  rw [join_eq ha hb]
  simp [String.data_append]

theorem dropWhile_slash_of_fileName (cs rest : List Char) (h1 : cs ≠ [])
    (h2 : ∀ c ∈ cs, c ≠ '/') :
    ((cs.reverse ++ rest).dropWhile fun c => decide (c = '/')) = cs.reverse ++ rest := by
  obtain ⟨x, xs, hx⟩ : ∃ x xs, cs.reverse = x :: xs := by
    cases h : cs.reverse with
    | nil => exact absurd (List.reverse_eq_nil_iff.mp h) h1
    | cons x xs => exact ⟨x, xs, rfl⟩
  have hxm : x ∈ cs := by
    have : x ∈ cs.reverse := by rw [hx]; exact List.mem_cons_self _ _
    exact List.mem_reverse.mp this
  rw [hx]
  simp [List.dropWhile, h2 x hxm]

theorem takeWhile_not_slash (cs rest : List Char) (h2 : ∀ c ∈ cs, c ≠ '/') :
    ((cs ++ '/' :: rest).takeWhile fun c => decide (c ≠ '/')) = cs := by
  induction cs with
  | nil => simp [List.takeWhile]
  | cons c cs ih =>
    have hc : c ≠ '/' := h2 c (List.mem_cons_self _ _)
    have ih2 := ih fun d hd => h2 d (List.mem_cons_of_mem _ hd)
    rw [List.cons_append, List.takeWhile_cons]
    simp only [hc, ne_eq, not_false_eq_true, decide_True, if_true]
    rw [ih2]

theorem base_join {dir f : String} (hd : dir ≠ "") (hf : IsFileName f) :
    filepath.Base (filepath.Join dir f) = f := by
  have hne : filepath.Join dir f ≠ "" := by
    intro h
    have := congrArg String.data h
    rw [join_data hd hf.ne_empty] at this
    simp at this
  unfold filepath.Base
  rw [if_neg hne]
  simp only [filepath.stripTrailing, filepath.lastElement, join_data hd hf.ne_empty]
  have hrev : (dir.data ++ '/' :: f.data).reverse = f.data.reverse ++ ('/' :: dir.data.reverse) := by
    simp
  rw [hrev, dropWhile_slash_of_fileName _ _ hf.1 hf.2, ← hrev, List.reverse_reverse, hrev,
    takeWhile_not_slash _ _ (fun c hc => hf.2 c (List.mem_reverse.mp hc)), List.reverse_reverse]
  simp [hf.1]

theorem join_left_cancel {a x y : String} (hx : x ≠ "") (hy : y ≠ "")
    (h : filepath.Join a x = filepath.Join a y) : x = y := by
  by_cases ha : a = ""
  · simpa [filepath.Join, ha] using h
  · have := congrArg String.data h
    rw [join_data ha hx, join_data ha hy] at this
    have h2 := List.append_cancel_left this
    exact String.ext (List.cons.inj h2).2

theorem projects_ne_archive (x y : String) (hx : x ≠ "") (hy : y ≠ "") :
    filepath.Join "projects" x ≠ filepath.Join "archive" y := by
  intro h
  have := congrArg String.data h
  rw [join_data (by decide) hx, join_data (by decide) hy] at this
  have h0 := congrArg List.head? this
  simp at h0

theorem db_suffix_cancel {a b : String} (h : a ++ ".db" = b ++ ".db") : a = b := by
  have := congrArg String.data h
  simp only [String.data_append] at this
  exact String.ext (List.append_cancel_right this)

/-! ## The registry -/

theorem scanProject_ok {env : Env} {rows : List Project} {proj : Project}
    (h : scanProject env rows = .ok proj) :
    env.fault 0 = none ∧ ∃ rest, rows = proj :: rest := by
  unfold scanProject at h
  cases hf : env.fault 0 with
  | some err =>
    rw [hf] at h
    simp only [] at h
    split at h <;> exact absurd h (by simp)
  | none =>
    rw [hf] at h
    simp only [] at h
    cases rows with
    | nil => exact absurd h (by simp)
    | cons p rest =>
      simp only [Except.ok.injEq] at h
      exact ⟨rfl, rest, by rw [h]⟩

theorem getProjectByName_ok {env : Env} {m : MetaStore} {name : String} {proj : Project}
    (h : m.GetProjectByName env name = .ok proj) :
    env.fault 0 = none ∧ proj ∈ m.projects ∧ proj.Name = name := by
  obtain ⟨hf, rest, hr⟩ := scanProject_ok h
  have hm : proj ∈ m.projects.filter fun p => decide (p.Name = name) := by
    rw [hr]; exact List.mem_cons_self _ _
  have := List.mem_filter.mp hm
  exact ⟨hf, this.1, by simpa using this.2⟩

theorem getProjectByName_of_mem {env : Env} {m : MetaStore} {proj : Project}
    (hf : env.fault 0 = none) (hn : (m.projects.map Project.Name).Nodup)
    (hp : proj ∈ m.projects) : m.GetProjectByName env proj.Name = .ok proj := by
  unfold MetaStore.GetProjectByName scanProject
  rw [hf]
  simp only []
  have hmem : proj ∈ m.projects.filter fun p => decide (p.Name = proj.Name) :=
    List.mem_filter.mpr ⟨hp, by simp⟩
  cases hfl : (m.projects.filter fun p => decide (p.Name = proj.Name)) with
  | nil => rw [hfl] at hmem; exact absurd hmem (List.not_mem_nil _)
  | cons q rest =>
    have hq : q ∈ m.projects.filter fun p => decide (p.Name = proj.Name) := by
      rw [hfl]; exact List.mem_cons_self _ _
    have hq2 := List.mem_filter.mp hq
    have hqn : q.Name = proj.Name := by simpa using hq2.2
    have : q = proj := List.inj_on_of_nodup_map hn hq2.1 hp hqn
    rw [this]

theorem getProjectByName_none (env : Env) {m : MetaStore} {name : String}
    (hf : env.fault 0 = none) (hn : name ∉ m.projects.map Project.Name) :
    m.GetProjectByName env name = .error (errorf "project not found" []) := by
  unfold MetaStore.GetProjectByName scanProject
  rw [hf]
  have : (m.projects.filter fun p => decide (p.Name = name)) = [] := by
    rw [List.filter_eq_nil_iff]
    intro p hp h
    exact hn (List.mem_map.mpr ⟨p, hp, by simpa using h⟩)
  rw [this]

theorem nodup_map_filter {α β : Type} (f : α → β) (p : α → Bool) {l : List α}
    (h : (l.map f).Nodup) : ((l.filter p).map f).Nodup :=
  h.sublist ((List.filter_sublist l).map f)

theorem WellFormed.filter {m : MetaStore} (h : m.WellFormed) (p : Project → Bool) :
    MetaStore.WellFormed { m with projects := m.projects.filter p } :=
  ⟨nodup_map_filter _ _ h.names, nodup_map_filter _ _ h.ids,
    fun q hq => h.placed q (List.mem_filter.mp hq).1⟩

theorem WellFormed.map {m : MetaStore} (h : m.WellFormed) (f : Project → Project)
    (hn : ∀ p, (f p).Name = p.Name) (hi : ∀ p, (f p).ID = p.ID)
    (hp : ∀ p ∈ m.projects, (f p).Placed) :
    MetaStore.WellFormed { m with projects := m.projects.map f } := by
  refine ⟨?_, ?_, ?_⟩
  · have : (m.projects.map f).map Project.Name = m.projects.map Project.Name := by
      rw [List.map_map]; exact List.map_congr_left fun p _ => hn p
    simpa [this] using h.names
  · have : (m.projects.map f).map Project.ID = m.projects.map Project.ID := by
      rw [List.map_map]; exact List.map_congr_left fun p _ => hi p
    simpa [this] using h.ids
  · intro q hq
    obtain ⟨p, hp1, rfl⟩ := List.mem_map.mp hq
    exact hp p hp1

theorem Placed.base {p : Project} (h : p.Placed) : filepath.Base p.DBPath = p.ID ++ ".db" := by
  obtain ⟨u, hu, h1 | h1⟩ := h
  · rw [h1, hu]; exact base_join (by decide) (isFileName_uuid_db u)
  · rw [h1, hu]; exact base_join (by decide) (isFileName_uuid_db u)

theorem createProject_wellFormed (env : Env) (m : MetaStore) (disk : Disk)
    (name description : String) (h : m.WellFormed) :
    (m.CreateProject env disk name description).2.1.WellFormed := by
  unfold MetaStore.CreateProject
  simp only []
  cases hf : env.fault 0 with
  | some err => simpa using h
  | none =>
    simp only []
    unfold insertProject
    by_cases h1 : UUID.String (env.uuid 0) ∈ m.projects.map Project.ID
    · rw [if_pos h1]; simpa using h
    · rw [if_neg h1]
      by_cases h2 : name ∈ m.projects.map Project.Name
      · rw [if_pos h2]; simpa using h
      · rw [if_neg h2]
        simp only []
        have hw1 : MetaStore.WellFormed { m with projects := m.projects ++
            [⟨UUID.String (env.uuid 0), name, description,
              filepath.Join "projects" (UUID.String (env.uuid 0) ++ ".db"), "active",
              env.now 0, env.now 0⟩] } := by
          refine ⟨?_, ?_, ?_⟩
          · simp only [List.map_append, List.map_cons, List.map_nil]
            exact List.Nodup.append h.names (List.nodup_singleton _)
              (by simpa [List.disjoint_singleton] using h2)
          · simp only [List.map_append, List.map_cons, List.map_nil]
            exact List.Nodup.append h.ids (List.nodup_singleton _)
              (by simpa [List.disjoint_singleton] using h1)
          · intro p hp
            rcases List.mem_append.mp hp with hp | hp
            · exact h.placed p hp
            · rw [List.mem_singleton.mp hp]
              exact ⟨env.uuid 0, rfl, Or.inl rfl⟩
        cases hi : initProjectDB (env.shift 1) disk
            (filepath.Join m.dataDir (filepath.Join "projects" (UUID.String (env.uuid 0) ++ ".db")))
          with
        | mk r disk1 =>
          cases r with
          | error err =>
            simp only []
            cases env.fault 4 with
            | some e => exact hw1
            | none => exact WellFormed.filter hw1 _
          | ok u => exact hw1

theorem updateProjectStatus_wellFormed (env : Env) (m : MetaStore) (name status : String)
    (h : m.WellFormed) : (m.UpdateProjectStatus env name status).2.WellFormed := by
  unfold MetaStore.UpdateProjectStatus
  cases env.fault 0 with
  | some err => exact h
  | none =>
    simp only []
    split
    · exact h
    · split
      · exact h
      · refine WellFormed.map h _ ?_ ?_ ?_
        · intro p; split <;> rfl
        · intro p; split <;> rfl
        · intro p hp
          split
          · exact h.placed p hp
          · exact h.placed p hp

theorem relocate_wellFormed {m : MetaStore} (h : m.WellFormed) {env : Env} {name : String}
    {proj : Project} (hg : m.GetProjectByName env name = .ok proj) (now status area : String)
    (ha : area = "projects" ∨ area = "archive") :
    MetaStore.WellFormed { m with projects := (relocateProject now status
      (filepath.Join area (filepath.Base proj.DBPath)) name m.projects) } := by
  obtain ⟨-, hmem, hname⟩ := getProjectByName_ok hg
  refine WellFormed.map h _ ?_ ?_ ?_
  · intro p; split <;> rfl
  · intro p; split <;> rfl
  · intro p hp
    split
    · rename_i hpn
      have hpq : p = proj := List.inj_on_of_nodup_map h.names hp hmem (hpn.trans hname.symm)
      subst hpq
      have hpl := h.placed p hp
      rw [Placed.base hpl]
      obtain ⟨u, hu, -⟩ := hpl
      rcases ha with rfl | rfl
      · exact ⟨u, hu, Or.inl rfl⟩
      · exact ⟨u, hu, Or.inr rfl⟩
    · exact h.placed p hp

theorem archiveProject_wellFormed (env : Env) (m : MetaStore) (disk : Disk) (name : String)
    (h : m.WellFormed) : (m.ArchiveProject env disk name).2.1.WellFormed := by
  unfold MetaStore.ArchiveProject
  cases hg : m.GetProjectByName env name with
  | error err => exact h
  | ok proj =>
    simp only []
    split
    · exact h
    · cases osRename (env.shift 1) disk (filepath.Join m.dataDir proj.DBPath)
          (filepath.Join m.dataDir (filepath.Join "archive" (filepath.Base proj.DBPath))) with
      | mk r disk1 =>
        cases r with
        | error err => exact h
        | ok u =>
          simp only []
          cases env.fault 2 with
          | some err => exact h
          | none => exact relocate_wellFormed h hg _ _ "archive" (Or.inr rfl)

theorem restoreProject_wellFormed (env : Env) (m : MetaStore) (disk : Disk) (name : String)
    (h : m.WellFormed) : (m.RestoreProject env disk name).2.1.WellFormed := by
  unfold MetaStore.RestoreProject
  cases hg : m.GetProjectByName env name with
  | error err => exact h
  | ok proj =>
    simp only []
    split
    · exact h
    · cases osRename (env.shift 1) disk (filepath.Join m.dataDir proj.DBPath)
          (filepath.Join m.dataDir (filepath.Join "projects" (filepath.Base proj.DBPath))) with
      | mk r disk1 =>
        cases r with
        | error err => exact h
        | ok u =>
          simp only []
          cases env.fault 2 with
          | some err => exact h
          | none => exact relocate_wellFormed h hg _ _ "projects" (Or.inl rfl)

theorem deleteProject_wellFormed (env : Env) (m : MetaStore) (disk : Disk) (name : String)
    (h : m.WellFormed) : (m.DeleteProject env disk name).2.1.WellFormed := by
  unfold MetaStore.DeleteProject
  cases hg : m.GetProjectByName env name with
  | error err => exact h
  | ok proj =>
    simp only []
    cases env.fault 4 with
    | some err => exact h
    | none => exact WellFormed.filter h _

theorem Reachable.wellFormed {m : MetaStore} (h : m.Reachable) : m.WellFormed := by
  induction h with
  | opened dataDir => exact ⟨List.nodup_nil, List.nodup_nil, fun p hp => absurd hp (List.not_mem_nil _)⟩
  | createProject env m disk name description _ ih =>
    exact createProject_wellFormed env m disk name description ih
  | updateProjectStatus env m name status _ ih =>
    exact updateProjectStatus_wellFormed env m name status ih
  | archiveProject env m disk name _ ih => exact archiveProject_wellFormed env m disk name ih
  | restoreProject env m disk name _ ih => exact restoreProject_wellFormed env m disk name ih
  | deleteProject env m disk name _ ih => exact deleteProject_wellFormed env m disk name ih

theorem countP_name_eq_one {l : List Project} (hn : (l.map Project.Name).Nodup)
    {p : Project} (hp : p ∈ l) : l.countP (fun q => q.Name = p.Name) = 1 := by
  have h1 : (l.map Project.Name).count p.Name = 1 :=
    List.count_eq_one_of_mem hn (List.mem_map_of_mem _ hp)
  rw [List.count, List.countP_map] at h1
  rw [← h1]
  apply List.countP_congr
  intro q _
  simp [Function.comp]

/-- C3. `CreateProject(name, description)` with a name some project of the
registry already bears, whatever the status of that project, fails and leaves
the registry and the disk as they were; in a reachable registry exactly one
project then bears that name; and no reachable registry holds two projects with
the same name. -/
theorem CreateProject_duplicate_name (env : Env) (m : MetaStore) (disk : Disk)
    (p : Project) (description : String) (hp : p ∈ m.projects) :
    (∃ err, m.CreateProject env disk p.Name description = (.error err, m, disk)) ∧
    (m.Reachable →
      (m.CreateProject env disk p.Name description).2.1.projects.countP
        (fun q => q.Name = p.Name) = 1) ∧
    (∀ m1 : MetaStore, m1.Reachable → (m1.projects.map Project.Name).Nodup) := by
  have hname : p.Name ∈ m.projects.map Project.Name := List.mem_map_of_mem _ hp
  have hfail : ∃ err, m.CreateProject env disk p.Name description = (.error err, m, disk) := by
    unfold MetaStore.CreateProject
    simp only []
    cases env.fault 0 with
    | some err => exact ⟨_, rfl⟩
    | none =>
      obtain ⟨e, he⟩ : ∃ e, insertProject (env.now 0) (UUID.String (env.uuid 0)) p.Name
          description (filepath.Join "projects" (UUID.String (env.uuid 0) ++ ".db"))
          m.projects = .error e := by
        unfold insertProject
        by_cases h1 : UUID.String (env.uuid 0) ∈ m.projects.map Project.ID
        · rw [if_pos h1]
          exact ⟨_, rfl⟩
        · rw [if_neg h1, if_pos hname]
          exact ⟨_, rfl⟩
      simp only [he]
      exact ⟨_, rfl⟩
  refine ⟨hfail, ?_, fun m1 h1 => (Reachable.wellFormed h1).names⟩
  intro hr
  obtain ⟨err, he⟩ := hfail
  rw [he]
  exact countP_name_eq_one (Reachable.wellFormed hr).names hp

theorem CreateProject_duplicate_name_witness :
    ∃ err, sampleRegistry.1.CreateProject sampleEnv sampleRegistry.2 "alpha" "again" =
      (.error err, sampleRegistry.1, sampleRegistry.2) :=
  (CreateProject_duplicate_name sampleEnv sampleRegistry.1 sampleRegistry.2
    ⟨"00000000-0000-0000-0000-000000000000", "alpha", "first",
      "projects/00000000-0000-0000-0000-000000000000.db", "active",
      "2024-05-01 10:00:00", "2024-05-01 10:00:00"⟩ "again" (by decide)).1

/-! ## The session -/

theorem openProject_cases (env : Env) (disk : Disk) (dbPath : String) :
    (∃ err, (env.fault 0 ≠ none ∨ env.fault 1 ≠ none) ∧
      OpenProject env disk dbPath = (.error err, disk)) ∨
    (env.fault 0 = none ∧ env.fault 1 = none ∧
      ∃ disk1, OpenProject env disk dbPath = (.ok ⟨dbPath⟩, disk1)) := by
  unfold OpenProject
  cases h0 : env.fault 0 with
  | some err => exact Or.inl ⟨_, Or.inl (by simp), rfl⟩
  | none =>
    cases h1 : env.fault 1 with
    | some err => exact Or.inl ⟨_, Or.inr (by simp), rfl⟩
    | none =>
      refine Or.inr ⟨rfl, rfl, ?_⟩
      cases disk.read dbPath with
      | none => exact ⟨_, rfl⟩
      | some db => exact ⟨_, rfl⟩

/-- The four ways out of `SwitchProject`. -/
theorem SwitchProject_cases (env : Env) (s : Session) (m : MetaStore) (disk : Disk)
    (name : String) :
    (∃ err, m.GetProjectByName env name = .error err ∧
      Session.SwitchProject env s m disk name = (.error err, s, disk, [])) ∨
    (∃ proj, m.GetProjectByName env name = .ok proj ∧ proj.Status = "archived" ∧
      Session.SwitchProject env s m disk name =
        (.error (errorf "project %q is archived — restore it first" [name]), s, disk, [])) ∨
    (∃ proj err, m.GetProjectByName env name = .ok proj ∧ proj.Status ≠ "archived" ∧
      (env.fault 1 ≠ none ∨ env.fault 2 ≠ none) ∧
      OpenProject (env.shift 1) disk (m.ProjectDBPath proj) = (.error err, disk) ∧
      Session.SwitchProject env s m disk name =
        (.error (wrapf "open project db: %w" [] err), s.closeCurrent.1, disk,
          s.closeCurrent.2)) ∨
    (∃ proj disk1, m.GetProjectByName env name = .ok proj ∧ proj.Status ≠ "archived" ∧
      env.fault 1 = none ∧ env.fault 2 = none ∧
      OpenProject (env.shift 1) disk (m.ProjectDBPath proj) =
        (.ok ⟨m.ProjectDBPath proj⟩, disk1) ∧
      Session.SwitchProject env s m disk name =
        (.ok proj, ⟨proj.ID, proj.Name, some ⟨m.ProjectDBPath proj⟩⟩, disk1,
          s.closeCurrent.2 ++ [StoreEvent.opened ⟨m.ProjectDBPath proj⟩])) := by
  unfold Session.SwitchProject
  cases hg : m.GetProjectByName env name with
  | error err => exact Or.inl ⟨err, rfl, rfl⟩
  | ok proj =>
    simp only []
    by_cases ha : proj.Status = "archived"
    · rw [if_pos ha]
      exact Or.inr (Or.inl ⟨proj, rfl, ha, rfl⟩)
    · rw [if_neg ha]
      rcases openProject_cases (env.shift 1) disk (m.ProjectDBPath proj) with
        ⟨err, hf, ho⟩ | ⟨h1, h2, disk1, ho⟩
      · refine Or.inr (Or.inr (Or.inl ⟨proj, err, rfl, ha, hf, ho, ?_⟩))
        rw [ho]
      · refine Or.inr (Or.inr (Or.inr ⟨proj, disk1, rfl, ha, h1, h2, ho, ?_⟩))
        rw [ho]

theorem closeCurrent_projectDB (s : Session) : s.closeCurrent.1.projectDB = none := by
  unfold Session.closeCurrent
  cases h : s.projectDB with
  | none => simpa using h
  | some p => rfl

theorem closeCurrent_eq (s : Session) :
    s.closeCurrent = ({ s with projectDB := none }, s.projectDB.toList.map StoreEvent.closed) := by
  unfold Session.closeCurrent
  cases h : s.projectDB with
  | none =>
    have : s = { s with projectDB := none } := by
      cases s; simp_all
    simp only [Option.toList, List.map_nil]
    rw [← this]
  | some p => rfl

/-- C4 (as the code has it). After any call of `SwitchProject` one of three
holds: the call succeeded and the session is bound to exactly the requested
project, its store open at the project's location; or the call failed because
the lookup failed or the project is archived, and session and disk are exactly
as before; or the call failed because the store could not be opened, and the
session is the one before the call with no open store: the store it held has
been closed. -/
theorem SwitchProject_outcome (env : Env) (s : Session) (m : MetaStore) (disk : Disk)
    (name : String) :
    (∃ proj disk1, Session.SwitchProject env s m disk name =
        (.ok proj, ⟨proj.ID, proj.Name, some ⟨m.ProjectDBPath proj⟩⟩, disk1,
          s.projectDB.toList.map StoreEvent.closed ++
            [StoreEvent.opened ⟨m.ProjectDBPath proj⟩]) ∧
      proj ∈ m.projects ∧ proj.Name = name) ∨
    (∃ err, Session.SwitchProject env s m disk name = (.error err, s, disk, []) ∧
      (m.GetProjectByName env name = .error err ∨
        ∃ proj, m.GetProjectByName env name = .ok proj ∧ proj.Status = "archived")) ∨
    (∃ err proj, Session.SwitchProject env s m disk name =
        (.error err, { s with projectDB := none }, disk,
          s.projectDB.toList.map StoreEvent.closed) ∧
      m.GetProjectByName env name = .ok proj ∧ proj.Status ≠ "archived" ∧
      (env.fault 1 ≠ none ∨ env.fault 2 ≠ none)) := by
  rcases SwitchProject_cases env s m disk name with
    ⟨err, hg, h⟩ | ⟨proj, hg, ha, h⟩ | ⟨proj, err, hg, ha, hf, -, h⟩ |
    ⟨proj, disk1, hg, ha, -, -, -, h⟩
  · exact Or.inr (Or.inl ⟨err, h, Or.inl hg⟩)
  · exact Or.inr (Or.inl ⟨_, h, Or.inr ⟨proj, hg, ha⟩⟩)
  · rw [closeCurrent_eq] at h
    exact Or.inr (Or.inr ⟨_, proj, h, hg, ha, hf⟩)
  · rw [closeCurrent_eq] at h
    obtain ⟨-, hmem, hname⟩ := getProjectByName_ok hg
    exact Or.inl ⟨proj, disk1, h, hmem, hname⟩

/-- C4, counterexample. The sample session is bound to `alpha` with its store
open; `SwitchProject("beta")` fails because the store of `beta` cannot be
opened, and the session is not the one before the call: its store is closed and
it has no open store. -/
theorem SwitchProject_open_failure_not_reverted :
    sampleSession.projectDB =
        some ⟨"/data/projects/00000000-0000-0000-0000-000000000000.db"⟩ ∧
      (Session.SwitchProject brokenEnv sampleSession sampleRegistry.1 sampleRegistry.2
        "beta").1 = .error (wrapf "open project db: %w" [] (wrapf "open project db: %w" []
          errNoFile)) ∧
      (Session.SwitchProject brokenEnv sampleSession sampleRegistry.1 sampleRegistry.2
        "beta").2.1 ≠ sampleSession ∧
      (Session.SwitchProject brokenEnv sampleSession sampleRegistry.1 sampleRegistry.2
        "beta").2.1.projectDB = none := by
  decide

theorem heldAfter_take_closed_opened (held : Option ProjectStore) (tail : List StoreEvent)
    (ht : tail = [] ∨ ∃ p, tail = [StoreEvent.opened p]) (k : Nat) :
    (heldAfter held.toList ((held.toList.map StoreEvent.closed ++ tail).take k)).length ≤ 1 := by
  cases held with
  | none =>
    rcases ht with rfl | ⟨p, rfl⟩
    · simp [heldAfter]
    · cases k with
      | zero => simp [heldAfter]
      | succ k => simp [heldAfter]
  | some q =>
    rcases ht with rfl | ⟨p, rfl⟩
    · cases k with
      | zero => simp [heldAfter]
      | succ k => simp [heldAfter]
    · cases k with
      | zero => simp [heldAfter]
      | succ k =>
        cases k with
        | zero => simp [heldAfter]
        | succ k => simp [heldAfter]

/-- C5. Whatever the outcome of `SwitchProject`, its store events are the
closing of the store the session held (if it held one) followed by at most one
opening, so that after every one of its events the session holds at most one
open store; and whenever the project is found and not archived but its store
cannot be opened, the call fails and leaves the session unbound: `GetCurrent`
reports no project and `ProjectStore` returns no store. -/
theorem SwitchProject_closes_before_opening (env : Env) (s : Session) (m : MetaStore)
    (disk : Disk) (name : String) :
    ((Session.SwitchProject env s m disk name).2.2.2 = [] ∨
      (Session.SwitchProject env s m disk name).2.2.2 =
        s.projectDB.toList.map StoreEvent.closed ∨
      ∃ p, (Session.SwitchProject env s m disk name).2.2.2 =
        s.projectDB.toList.map StoreEvent.closed ++ [StoreEvent.opened p]) ∧
    (∀ k, (heldAfter s.projectDB.toList
      ((Session.SwitchProject env s m disk name).2.2.2.take k)).length ≤ 1) ∧
    (∀ proj, m.GetProjectByName env name = .ok proj → proj.Status ≠ "archived" →
      (env.fault 1 ≠ none ∨ env.fault 2 ≠ none) →
      (∃ err, (Session.SwitchProject env s m disk name).1 = .error err) ∧
      (Session.SwitchProject env s m disk name).2.1.GetCurrent = ("", "", false) ∧
      (Session.SwitchProject env s m disk name).2.1.ProjectStore = none) := by
  rcases SwitchProject_cases env s m disk name with
    ⟨err, hg, h⟩ | ⟨proj, hg, ha, h⟩ | ⟨proj, err, hg, ha, hf, -, h⟩ |
    ⟨proj, disk1, hg, ha, h1, h2, -, h⟩
  · refine ⟨Or.inl (by rw [h]), ?_, ?_⟩
    · intro k
      rw [h]
      cases hs : s.projectDB <;> simp [heldAfter]
    · intro proj hp
      rw [hg] at hp
      exact absurd hp (by simp)
  · refine ⟨Or.inl (by rw [h]), ?_, ?_⟩
    · intro k
      rw [h]
      cases hs : s.projectDB <;> simp [heldAfter]
    · intro p hp hna
      rw [hg] at hp
      have : proj = p := by simpa using hp
      exact absurd (this ▸ ha) hna
  · rw [closeCurrent_eq] at h
    refine ⟨Or.inr (Or.inl (by rw [h])), ?_, ?_⟩
    · intro k
      rw [h]
      have := heldAfter_take_closed_opened s.projectDB [] (Or.inl rfl) k
      simpa using this
    · intro p _ _ _
      rw [h]
      exact ⟨⟨_, rfl⟩, rfl, rfl⟩
  · rw [closeCurrent_eq] at h
    refine ⟨Or.inr (Or.inr ⟨_, by rw [h]⟩), ?_, ?_⟩
    · intro k
      rw [h]
      exact heldAfter_take_closed_opened s.projectDB _ (Or.inr ⟨_, rfl⟩) k
    · intro p _ _ hf
      rcases hf with hf | hf
      · exact absurd h1 hf
      · exact absurd h2 hf

theorem SwitchProject_closes_before_opening_witness :
    (Session.SwitchProject brokenEnv sampleSession sampleRegistry.1 sampleRegistry.2
        "beta").2.1.GetCurrent = ("", "", false) ∧
      (Session.SwitchProject brokenEnv sampleSession sampleRegistry.1 sampleRegistry.2
        "beta").2.1.ProjectStore = none :=
  ((SwitchProject_closes_before_opening brokenEnv sampleSession sampleRegistry.1
    sampleRegistry.2 "beta").2.2
    ⟨"00000000-0000-0000-0000-000000000007", "beta", "second",
      "projects/00000000-0000-0000-0000-000000000007.db", "active",
      "2024-05-01 10:00:00", "2024-05-01 10:00:00"⟩ (by decide) (by decide)
    (Or.inl (by decide))).2

/-- C6. On a registry whose names are unique (the UNIQUE constraint of the
table) and when the lookup query itself does not fail, `SwitchProject(name)`
fails with `project not found` when no project bears the name, leaving session
and disk as they were; it fails with `project %q is archived — restore it
first` when the project of that name is archived, again changing nothing; and
for the active project of that name, when the store opens, it returns that
project and `GetCurrent` then reports exactly its id and name. -/
theorem SwitchProject_result (env : Env) (s : Session) (m : MetaStore) (disk : Disk)
    (name : String) (hq : env.fault 0 = none) (hu : (m.projects.map Project.Name).Nodup) :
    (name ∉ m.projects.map Project.Name →
      Session.SwitchProject env s m disk name =
        (.error (errorf "project not found" []), s, disk, [])) ∧
    (∀ proj ∈ m.projects, proj.Name = name → proj.Status = "archived" →
      Session.SwitchProject env s m disk name =
        (.error (errorf "project %q is archived — restore it first" [name]), s, disk, [])) ∧
    (∀ proj ∈ m.projects, proj.Name = name → proj.Status = "active" →
      env.fault 1 = none → env.fault 2 = none →
      (Session.SwitchProject env s m disk name).1 = .ok proj ∧
      (Session.SwitchProject env s m disk name).2.1.GetCurrent = (proj.ID, proj.Name, true) ∧
      (Session.SwitchProject env s m disk name).2.1.ProjectStore =
        some ⟨m.ProjectDBPath proj⟩) := by
  refine ⟨?_, ?_, ?_⟩
  · intro hn
    have hg := getProjectByName_none env hq hn
    rcases SwitchProject_cases env s m disk name with
      ⟨err, hg1, h⟩ | ⟨proj, hg1, -, -⟩ | ⟨proj, err, hg1, -, -, -, -⟩ |
      ⟨proj, disk1, hg1, -, -, -, -, -⟩
    · rw [hg] at hg1
      have : errorf "project not found" [] = err := by simpa using hg1
      rw [h, this]
    · rw [hg] at hg1; exact absurd hg1 (by simp)
    · rw [hg] at hg1; exact absurd hg1 (by simp)
    · rw [hg] at hg1; exact absurd hg1 (by simp)
  · intro proj hp hname harch
    have hg : m.GetProjectByName env name = .ok proj := by
      rw [← hname]; exact getProjectByName_of_mem hq hu hp
    rcases SwitchProject_cases env s m disk name with
      ⟨err, hg1, h⟩ | ⟨p, hg1, -, h⟩ | ⟨p, err, hg1, ha, -, -, -⟩ |
      ⟨p, disk1, hg1, ha, -, -, -, -⟩
    · rw [hg] at hg1; exact absurd hg1 (by simp)
    · exact h
    · rw [hg] at hg1
      have : proj = p := by simpa using hg1
      exact absurd (this ▸ harch) ha
    · rw [hg] at hg1
      have : proj = p := by simpa using hg1
      exact absurd (this ▸ harch) ha
  · intro proj hp hname hact h1 h2
    have hg : m.GetProjectByName env name = .ok proj := by
      rw [← hname]; exact getProjectByName_of_mem hq hu hp
    have hna : proj.Status ≠ "archived" := by rw [hact]; decide
    rcases SwitchProject_cases env s m disk name with
      ⟨err, hg1, h⟩ | ⟨p, hg1, ha, h⟩ | ⟨p, err, hg1, ha, hf, -, -⟩ |
      ⟨p, disk1, hg1, ha, -, -, -, h⟩
    · rw [hg] at hg1; exact absurd hg1 (by simp)
    · rw [hg] at hg1
      have : proj = p := by simpa using hg1
      exact absurd (this ▸ ha) hna
    · rcases hf with hf | hf
      · exact absurd h1 hf
      · exact absurd h2 hf
    · rw [hg] at hg1
      have : proj = p := by simpa using hg1
      subst this
      rw [h]
      exact ⟨rfl, rfl, rfl⟩

theorem SwitchProject_result_witness :
    Session.SwitchProject sampleEnv sampleSession sampleRegistry.1 sampleRegistry.2 "gamma" =
      (.error (errorf "project not found" []), sampleSession, sampleRegistry.2, []) :=
  (SwitchProject_result sampleEnv sampleSession sampleRegistry.1 sampleRegistry.2 "gamma"
    rfl (by decide)).1 (by decide)

/-! ## The disk -/

theorem Disk.read_write_same (disk : Disk) (path : String) (db : DB) :
    (disk.write path db).read path = some db := by
  obtain ⟨files⟩ := disk
  simp only [Disk.write, Disk.read]
  induction files with
  | nil => simp [Disk.writeFiles]
  | cons f rest ih =>
    by_cases h : f.1 = path
    · simp [Disk.writeFiles, h]
    · rw [Disk.writeFiles, if_neg h, List.find?_cons]
      simp only [h, decide_False]
      exact ih

theorem Disk.read_write_ne (disk : Disk) {path other : String} (db : DB) (h : other ≠ path) :
    (disk.write path db).read other = disk.read other := by
  obtain ⟨files⟩ := disk
  simp only [Disk.write, Disk.read]
  induction files with
  | nil =>
    have : ¬ path = other := fun e => h e.symm
    simp [Disk.writeFiles, this]
  | cons f rest ih =>
    by_cases hf : f.1 = path
    · have hfo : ¬ f.1 = other := fun e => h (e.symm.trans hf)
      have hpo : ¬ path = other := fun e => h e.symm
      simp [Disk.writeFiles, hf, hfo, hpo]
    · rw [Disk.writeFiles, if_neg hf, List.find?_cons, List.find?_cons]
      by_cases hfo : f.1 = other
      · simp [hfo]
      · simp only [hfo, decide_False]
        exact ih

theorem Disk.read_on_ne {α : Type} (p : ProjectStore) (disk : Disk)
    (method : DB → Except GoError α × DB) {other : String} (h : other ≠ p.path) :
    (p.on disk method).2.read other = disk.read other := by
  unfold ProjectStore.on
  cases disk.read p.path with
  | none => rfl
  | some db => exact Disk.read_write_ne disk _ h

theorem join_ne_empty {a b : String} (ha : a ≠ "") (hb : b ≠ "") : filepath.Join a b ≠ "" := by
  intro h
  have := congrArg String.data h
  rw [join_data ha hb] at this
  simp at this

theorem Placed.dbPath_ne_empty {p : Project} (h : p.Placed) : p.DBPath ≠ "" := by
  obtain ⟨u, hu, h1 | h1⟩ := h
  · rw [h1, hu]; exact join_ne_empty (by decide) (isFileName_uuid_db u).ne_empty
  · rw [h1, hu]; exact join_ne_empty (by decide) (isFileName_uuid_db u).ne_empty

/-- Distinct projects of a well-formed registry have their stores at distinct paths. -/
theorem WellFormed.path_ne {m : MetaStore} (hw : m.WellFormed) {a b : Project}
    (ha : a ∈ m.projects) (hb : b ∈ m.projects) (hne : a.Name ≠ b.Name) :
    m.ProjectDBPath a ≠ m.ProjectDBPath b := by
  intro h
  have hpa := hw.placed a ha
  have hpb := hw.placed b hb
  have hd : a.DBPath = b.DBPath :=
    join_left_cancel (Placed.dbPath_ne_empty hpa) (Placed.dbPath_ne_empty hpb) h
  have hid : a.ID ≠ b.ID := by
    intro e
    have : a = b := List.inj_on_of_nodup_map hw.ids ha hb e
    exact hne (by rw [this])
  obtain ⟨u, hu, h1⟩ := hpa
  obtain ⟨v, hv, h2⟩ := hpb
  have hfa : a.ID ++ ".db" ≠ "" := by rw [hu]; exact (isFileName_uuid_db u).ne_empty
  have hfb : b.ID ++ ".db" ≠ "" := by rw [hv]; exact (isFileName_uuid_db v).ne_empty
  rcases h1 with h1 | h1 <;> rcases h2 with h2 | h2
  · rw [h1, h2] at hd
    exact hid (db_suffix_cancel (join_left_cancel hfa hfb hd))
  · rw [h1, h2] at hd
    exact projects_ne_archive _ _ hfa hfb hd
  · rw [h1, h2] at hd
    exact projects_ne_archive _ _ hfb hfa hd.symm
  · rw [h1, h2] at hd
    exact hid (db_suffix_cancel (join_left_cancel hfa hfb hd))

theorem readGraph_mutate_ne (pA pB : ProjectStore) (h : pB.path ≠ pA.path) (env envR : Env)
    (disk : Disk) (mu : Mutation) :
    pB.readGraph envR (pA.mutate env disk mu) = pB.readGraph envR disk := by
  unfold ProjectStore.readGraph ProjectStore.mutate
  rw [Disk.read_on_ne pA disk _ h]

theorem SwitchProject_ok {env : Env} {s : Session} {m : MetaStore} {disk : Disk}
    {name : String} {proj : Project} {s1 : Session} {disk1 : Disk} {ev : List StoreEvent}
    (h : Session.SwitchProject env s m disk name = (.ok proj, s1, disk1, ev)) :
    proj ∈ m.projects ∧ proj.Name = name ∧ proj.Status ≠ "archived" ∧
      s1 = ⟨proj.ID, proj.Name, some ⟨m.ProjectDBPath proj⟩⟩ ∧
      OpenProject (env.shift 1) disk (m.ProjectDBPath proj) =
        (.ok ⟨m.ProjectDBPath proj⟩, disk1) := by
  rcases SwitchProject_cases env s m disk name with
    ⟨err, -, h1⟩ | ⟨p, -, -, h1⟩ | ⟨p, err, -, -, -, -, h1⟩ |
    ⟨p, d1, hg, ha, -, -, ho, h1⟩
  · rw [h1] at h; exact absurd (congrArg Prod.fst h) (by simp)
  · rw [h1] at h; exact absurd (congrArg Prod.fst h) (by simp)
  · rw [h1] at h; exact absurd (congrArg Prod.fst h) (by simp)
  · rw [h1] at h
    simp only [Prod.mk.injEq, Except.ok.injEq] at h
    obtain ⟨rfl, rfl, rfl, -⟩ := h
    obtain ⟨-, hmem, hname⟩ := getProjectByName_ok hg
    exact ⟨hmem, hname, ha, rfl, ho⟩

/-- C2. In a reachable registry, let a session be bound by `SwitchProject` to
project A and another to a project B of a different name.  The two sessions
hold stores at different paths, and every mutating call (`CreateEntities`,
`AddObservations`, `CreateRelations`, `DeleteEntities`, `DeleteObservations`,
`DeleteRelations`) made through the store of one of them leaves the result of
`ReadGraph` through the store of the other unchanged. -/
theorem project_isolation (m : MetaStore) (hr : m.Reachable) (nameA nameB : String)
    (hne : nameA ≠ nameB) (envA envB : Env) (sA0 sB0 : Session) (diskA diskB : Disk)
    (projA projB : Project) (sA sB : Session) (dA dB : Disk) (evA evB : List StoreEvent)
    (hA : Session.SwitchProject envA sA0 m diskA nameA = (.ok projA, sA, dA, evA))
    (hB : Session.SwitchProject envB sB0 m diskB nameB = (.ok projB, sB, dB, evB)) :
    ∃ pA pB, sA.ProjectStore = some pA ∧ sB.ProjectStore = some pB ∧ pA.path ≠ pB.path ∧
      ∀ (env envR : Env) (disk : Disk) (mu : Mutation),
        pB.readGraph envR (pA.mutate env disk mu) = pB.readGraph envR disk ∧
        pA.readGraph envR (pB.mutate env disk mu) = pA.readGraph envR disk := by
  obtain ⟨hmA, hnA, -, rfl, -⟩ := SwitchProject_ok hA
  obtain ⟨hmB, hnB, -, rfl, -⟩ := SwitchProject_ok hB
  have hp : m.ProjectDBPath projA ≠ m.ProjectDBPath projB :=
    WellFormed.path_ne (Reachable.wellFormed hr) hmA hmB (by rw [hnA, hnB]; exact hne)
  refine ⟨⟨m.ProjectDBPath projA⟩, ⟨m.ProjectDBPath projB⟩, rfl, rfl, hp, ?_⟩
  intro env envR disk mu
  exact ⟨readGraph_mutate_ne _ _ (fun e => hp e.symm) env envR disk mu,
    readGraph_mutate_ne _ _ hp env envR disk mu⟩

theorem project_isolation_witness :
    ∃ pA pB : ProjectStore, pA.path ≠ pB.path ∧
      pB.readGraph sampleEnv (pA.mutate sampleEnv sampleRegistry.2
        (.createEntities [⟨"EntityInA", "thing", []⟩])) =
      pB.readGraph sampleEnv sampleRegistry.2 := by
  obtain ⟨pA, pB, -, -, hp, h⟩ := project_isolation sampleRegistry.1
    (MetaStore.Reachable.createProject _ _ _ _ _
      (MetaStore.Reachable.createProject _ _ _ _ _ (MetaStore.Reachable.opened "/data")))
    "alpha" "beta" (by decide) sampleEnv sampleEnv Session.New Session.New
    sampleRegistry.2 sampleRegistry.2
    ⟨"00000000-0000-0000-0000-000000000000", "alpha", "first",
      "projects/00000000-0000-0000-0000-000000000000.db", "active",
      "2024-05-01 10:00:00", "2024-05-01 10:00:00"⟩
    ⟨"00000000-0000-0000-0000-000000000007", "beta", "second",
      "projects/00000000-0000-0000-0000-000000000007.db", "active",
      "2024-05-01 10:00:00", "2024-05-01 10:00:00"⟩
    (Session.SwitchProject sampleEnv Session.New sampleRegistry.1 sampleRegistry.2 "alpha").2.1
    (Session.SwitchProject sampleEnv Session.New sampleRegistry.1 sampleRegistry.2 "beta").2.1
    (Session.SwitchProject sampleEnv Session.New sampleRegistry.1 sampleRegistry.2 "alpha").2.2.1
    (Session.SwitchProject sampleEnv Session.New sampleRegistry.1 sampleRegistry.2 "beta").2.2.1
    (Session.SwitchProject sampleEnv Session.New sampleRegistry.1 sampleRegistry.2 "alpha").2.2.2
    (Session.SwitchProject sampleEnv Session.New sampleRegistry.1 sampleRegistry.2 "beta").2.2.2
    (by decide) (by decide)
  exact ⟨pA, pB, hp, (h sampleEnv sampleEnv sampleRegistry.2 _).1⟩

/-! ## Archive and restore -/

theorem osRename_ok (env : Env) {disk : Disk} {oldpath newpath : String} {db : DB}
    (hf : env.fault 0 = none) (hr : disk.read oldpath = some db) :
    osRename env disk oldpath newpath = (.ok (), (disk.remove oldpath).write newpath db) := by
  simp [osRename, hf, hr]

theorem openProject_existing (env : Env) {disk : Disk} {dbPath : String} {db : DB}
    (h0 : env.fault 0 = none) (h1 : env.fault 1 = none) (hr : disk.read dbPath = some db) :
    OpenProject env disk dbPath = (.ok ⟨dbPath⟩, disk) := by
  simp [OpenProject, h0, h1, hr]

theorem relocate_lookup (env : Env) {m : MetaStore} {p : Project} (hq : env.fault 0 = none)
    (hw : m.WellFormed) (hp : p ∈ m.projects) (now status dbPath : String) :
    MetaStore.GetProjectByName env
        { m with projects := (relocateProject now status dbPath p.Name m.projects) } p.Name =
      .ok { p with Status := status, DBPath := dbPath, UpdatedAt := now } := by
  have hmem : ({ p with Status := status, DBPath := dbPath, UpdatedAt := now } : Project) ∈
      relocateProject now status dbPath p.Name m.projects := by
    unfold relocateProject
    refine List.mem_map.mpr ⟨p, hp, ?_⟩
    simp
  have hn : ((relocateProject now status dbPath p.Name m.projects).map Project.Name).Nodup := by
    have : (relocateProject now status dbPath p.Name m.projects).map Project.Name =
        m.projects.map Project.Name := by
      unfold relocateProject
      rw [List.map_map]
      apply List.map_congr_left
      intro q _
      simp only [Function.comp]
      split <;> rfl
    rw [this]
    exact hw.names
  exact getProjectByName_of_mem (m := { m with projects :=
    (relocateProject now status dbPath p.Name m.projects) }) hq hn hmem

theorem archiveProject_ok {env : Env} (hf : env.FaultFree) {m : MetaStore} (hw : m.WellFormed)
    (disk : Disk) {p : Project} (hp : p ∈ m.projects) (hs : p.Status ≠ "archived") {db : DB}
    (hr : disk.read (m.ProjectDBPath p) = some db) :
    m.ArchiveProject env disk p.Name =
      (.ok { p with
          Status := "archived"
          DBPath := filepath.Join "archive" (p.ID ++ ".db")
          UpdatedAt := env.now 2 },
        { m with projects := (relocateProject (env.now 2) "archived"
            (filepath.Join "archive" (p.ID ++ ".db")) p.Name m.projects) },
        (disk.remove (m.ProjectDBPath p)).write
          (filepath.Join m.dataDir (filepath.Join "archive" (p.ID ++ ".db"))) db) := by
  unfold MetaStore.ArchiveProject
  rw [getProjectByName_of_mem (hf 0) hw.names hp]
  simp only []
  rw [if_neg hs, Placed.base (hw.placed p hp)]
  have hr1 : disk.read (filepath.Join m.dataDir p.DBPath) = some db := hr
  rw [osRename_ok (env.shift 1) (hf _) hr1]
  simp only [hf 2]
  rw [relocate_lookup (env.shift 3) (hf _) hw hp]
  rfl

theorem restoreProject_ok {env : Env} (hf : env.FaultFree) {m : MetaStore} (hw : m.WellFormed)
    (disk : Disk) {p : Project} (hp : p ∈ m.projects) (hs : p.Status = "archived") {db : DB}
    (hr : disk.read (m.ProjectDBPath p) = some db) :
    m.RestoreProject env disk p.Name =
      (.ok { p with
          Status := "active"
          DBPath := filepath.Join "projects" (p.ID ++ ".db")
          UpdatedAt := env.now 2 },
        { m with projects := (relocateProject (env.now 2) "active"
            (filepath.Join "projects" (p.ID ++ ".db")) p.Name m.projects) },
        (disk.remove (m.ProjectDBPath p)).write
          (filepath.Join m.dataDir (filepath.Join "projects" (p.ID ++ ".db"))) db) := by
  unfold MetaStore.RestoreProject
  rw [getProjectByName_of_mem (hf 0) hw.names hp]
  simp only []
  rw [if_neg (not_not.mpr hs), Placed.base (hw.placed p hp)]
  have hr1 : disk.read (filepath.Join m.dataDir p.DBPath) = some db := hr
  rw [osRename_ok (env.shift 1) (hf _) hr1]
  simp only [hf 2]
  rw [relocate_lookup (env.shift 3) (hf _) hw hp]
  rfl

theorem switchProject_existing {env : Env} (hf : env.FaultFree) (s : Session) {m : MetaStore}
    (hu : (m.projects.map Project.Name).Nodup) {disk : Disk} {p : Project}
    (hp : p ∈ m.projects) (hs : p.Status ≠ "archived") {db : DB}
    (hr : disk.read (m.ProjectDBPath p) = some db) :
    Session.SwitchProject env s m disk p.Name =
      (.ok p, ⟨p.ID, p.Name, some ⟨m.ProjectDBPath p⟩⟩, disk,
        s.closeCurrent.2 ++ [StoreEvent.opened ⟨m.ProjectDBPath p⟩]) := by
  unfold Session.SwitchProject
  rw [getProjectByName_of_mem (hf 0) hu hp]
  simp only []
  rw [if_neg hs, openProject_existing (env.shift 1) (hf _) (hf _) hr]

theorem relocate_mem {m : MetaStore} {p : Project} (hp : p ∈ m.projects)
    (now status dbPath : String) :
    ({ p with Status := status, DBPath := dbPath, UpdatedAt := now } : Project) ∈
      relocateProject now status dbPath p.Name m.projects := by
  unfold relocateProject
  refine List.mem_map.mpr ⟨p, hp, ?_⟩
  simp

theorem archive_step {env : Env} (hf : env.FaultFree) {m : MetaStore} (hw : m.WellFormed)
    (disk : Disk) {p : Project} (hp : p ∈ m.projects) (hs : p.Status ≠ "archived") {db : DB}
    (hr : disk.read (m.ProjectDBPath p) = some db) :
    ∃ a m1 d1, m.ArchiveProject env disk p.Name = (.ok a, m1, d1) ∧ m1.WellFormed ∧
      a ∈ m1.projects ∧ a.ID = p.ID ∧ a.Name = p.Name ∧ a.Status = "archived" ∧
      a.DBPath = filepath.Join "archive" (p.ID ++ ".db") ∧
      d1.read (m1.ProjectDBPath a) = some db := by
  have hA := archiveProject_ok hf hw disk hp hs hr
  have hw1 := archiveProject_wellFormed env m disk p.Name hw
  rw [hA] at hw1
  exact ⟨_, _, _, hA, hw1, relocate_mem hp _ _ _, rfl, rfl, rfl, rfl,
    Disk.read_write_same _ _ _⟩

theorem restore_step {env : Env} (hf : env.FaultFree) {m : MetaStore} (hw : m.WellFormed)
    (disk : Disk) {p : Project} (hp : p ∈ m.projects) (hs : p.Status = "archived") {db : DB}
    (hr : disk.read (m.ProjectDBPath p) = some db) :
    ∃ a m1 d1, m.RestoreProject env disk p.Name = (.ok a, m1, d1) ∧ m1.WellFormed ∧
      a ∈ m1.projects ∧ a.ID = p.ID ∧ a.Name = p.Name ∧ a.Status = "active" ∧
      a.DBPath = filepath.Join "projects" (p.ID ++ ".db") ∧
      d1.read (m1.ProjectDBPath a) = some db := by
  have hA := restoreProject_ok hf hw disk hp hs hr
  have hw1 := restoreProject_wellFormed env m disk p.Name hw
  rw [hA] at hw1
  exact ⟨_, _, _, hA, hw1, relocate_mem hp _ _ _, rfl, rfl, rfl, rfl,
    Disk.read_write_same _ _ _⟩

/-- C7. Let P be an active project of a reachable registry, placed in the
active area, whose store file holds the database `db`, and let the engine and
the file system not fail.  Then `ArchiveProject(P)` succeeds with status
archived, `RestoreProject(P)` succeeds and returns a project with the id, the
name and the storage location P had and status active, `SwitchProject(P)` then
succeeds and binds the session to it, the store file holds `db` again, and
`ReadGraph` through the session's store returns what `ReadGraph` returned on
`db` before archiving. -/
theorem archive_restore_roundtrip (e1 e2 e3 eR : Env) (hf1 : e1.FaultFree)
    (hf2 : e2.FaultFree) (hf3 : e3.FaultFree) (m : MetaStore) (hreach : m.Reachable)
    (disk : Disk) (s : Session) (P : Project) (hP : P ∈ m.projects)
    (hact : P.Status = "active")
    (hloc : P.DBPath = filepath.Join "projects" (P.ID ++ ".db"))
    (db : DB) (hfile : disk.read (m.ProjectDBPath P) = some db) :
    ∃ A m1 d1 R m2 d2 s3 ev,
      m.ArchiveProject e1 disk P.Name = (.ok A, m1, d1) ∧ A.Status = "archived" ∧
      m1.RestoreProject e2 d1 P.Name = (.ok R, m2, d2) ∧
      R.ID = P.ID ∧ R.Name = P.Name ∧ R.Status = "active" ∧ R.DBPath = P.DBPath ∧
      Session.SwitchProject e3 s m2 d2 P.Name = (.ok R, s3, d2, ev) ∧
      s3.GetCurrent = (P.ID, P.Name, true) ∧
      d2.read (m2.ProjectDBPath R) = some db ∧
      ∃ p, s3.ProjectStore = some p ∧
        p.readGraph eR d2 = ProjectStore.ReadGraph eR db := by
  have hw := Reachable.wellFormed hreach
  have hna : P.Status ≠ "archived" := by rw [hact]; decide
  obtain ⟨A, m1, d1, hA, hw1, hAm, hAid, hAn, hAs, -, hr1⟩ :=
    archive_step hf1 hw disk hP hna hfile
  obtain ⟨R, m2, d2, hR, hw2, hRm, hRid, hRn, hRs, hRp, hr2⟩ :=
    restore_step hf2 hw1 d1 hAm hAs hr1
  rw [hAn] at hR
  have hRna : R.Status ≠ "archived" := by rw [hRs]; decide
  have hS := switchProject_existing hf3 s hw2.names hRm hRna hr2
  rw [hRn, hAn] at hS
  refine ⟨A, m1, d1, R, m2, d2, _, _, hA, hAs, hR, hRid.trans hAid, hRn.trans hAn, hRs,
    ?_, hS, ?_, hr2, ⟨m2.ProjectDBPath R⟩, rfl, ?_⟩
  · rw [hRp, hAid, hloc]
  · simp [Session.GetCurrent, hRid, hAid]
  · simp only [ProjectStore.readGraph, hr2]

theorem archive_restore_roundtrip_witness :
    ∃ A m1 d1 R m2 d2,
      sampleRegistry.1.ArchiveProject sampleEnv sampleDisk "alpha" = (.ok A, m1, d1) ∧
      m1.RestoreProject sampleEnv d1 "alpha" = (.ok R, m2, d2) ∧
      R.DBPath = "projects/00000000-0000-0000-0000-000000000000.db" ∧
      d2.read (m2.ProjectDBPath R) = some sampleDB := by
  obtain ⟨A, m1, d1, R, m2, d2, s3, ev, hA, -, hR, -, -, -, hp, -, -, hd, -⟩ :=
    archive_restore_roundtrip sampleEnv sampleEnv sampleEnv sampleEnv (fun _ => rfl)
      (fun _ => rfl) (fun _ => rfl) sampleRegistry.1
      (MetaStore.Reachable.createProject _ _ _ _ _
        (MetaStore.Reachable.createProject _ _ _ _ _ (MetaStore.Reachable.opened "/data")))
      sampleDisk Session.New sampleAlpha (by decide) rfl (by decide) sampleDB (by decide)
  exact ⟨A, m1, d1, R, m2, d2, hA, hR, hp, hd⟩

/-! ## Properties kept by every mutation -/

theorem Tx.run_keeps {α : Type} {I : DB → Prop} {stmt : Stmt α} (h : StmtPreserves I stmt)
    (env : Env) (tx : Tx) (hI : I tx.db) : I (tx.run env stmt).2.db := by
  unfold Tx.run
  cases env.fault tx.n with
  | some e => exact hI
  | none =>
    simp only []
    split
    · cases hs : stmt tx.db with
      | error e => exact hI
      | ok r =>
        obtain ⟨a, db1⟩ := r
        exact h tx.db a db1 hI hs
    · exact hI

theorem Tx.control_db (env : Env) (tx : Tx) : (Tx.control env tx).2.db = tx.db := by
  unfold Tx.control
  cases env.fault tx.n <;> rfl

theorem selectEntityID_preserves (I : DB → Prop) (name : String) :
    StmtPreserves I (selectEntityID name) := by
  intro db a db1 hI h
  unfold selectEntityID at h
  split at h
  · simp only [Except.ok.injEq, Prod.mk.injEq] at h
    exact h.2 ▸ hI
  · exact absurd h (by simp)

theorem selectEntityIDs_preserves (I : DB → Prop) (names : List String) :
    StmtPreserves I (selectEntityIDs names) := by
  intro db a db1 hI h
  simp only [selectEntityIDs, Except.ok.injEq, Prod.mk.injEq] at h
  exact h.2 ▸ hI

theorem selectEntityStamps_preserves (I : DB → Prop) (id : String) :
    StmtPreserves I (selectEntityStamps id) := by
  intro db a db1 hI h
  unfold selectEntityStamps at h
  split at h
  · simp only [Except.ok.injEq, Prod.mk.injEq] at h
    exact h.2 ▸ hI
  · exact absurd h (by simp)

theorem createEntities_observations_keeps {I : DB → Prop} (hP : Preserved I) (env : Env)
    (entityID name : String) :
    ∀ (contents : List String) (tx : Tx), I tx.db →
      I (ProjectStore.CreateEntities.observations env entityID name contents tx).2.db := by
  intro contents
  induction contents with
  | nil => intro tx hI; exact hI
  | cons c rest ih =>
    intro tx hI
    have h1 := Tx.run_keeps (hP.insertObservation (env.now tx.n)
      (UUID.String (env.uuid tx.n)) entityID c) env tx hI
    unfold ProjectStore.CreateEntities.observations
    simp only []
    split
    · rename_i err tx1 heq
      rw [heq] at h1; exact h1
    · rename_i u tx1 heq
      rw [heq] at h1
      have h2 := ih tx1 h1
      split
      · rename_i err tx2 heq2
        rw [heq2] at h2; exact h2
      · rename_i obs tx2 heq2
        rw [heq2] at h2; exact h2

theorem createEntities_loop_keeps {I : DB → Prop} (hP : Preserved I) (env : Env) :
    ∀ (entities : List EntityInput) (tx : Tx), I tx.db →
      I (ProjectStore.CreateEntities.loop env entities tx).2.db := by
  intro entities
  induction entities with
  | nil => intro tx hI; exact hI
  | cons e rest ih =>
    intro tx hI
    have h1 := Tx.run_keeps (hP.insertEntity (env.now tx.n)
      (UUID.String (env.uuid tx.n)) e.Name e.EntityType) env tx hI
    unfold ProjectStore.CreateEntities.loop
    simp only []
    split
    · rename_i err tx1 heq
      rw [heq] at h1; exact h1
    · rename_i u tx1 heq
      rw [heq] at h1
      have h2 := createEntities_observations_keeps hP env (UUID.String (env.uuid tx.n))
        e.Name e.Observations tx1 h1
      split
      · rename_i err tx2 heq2
        rw [heq2] at h2; exact h2
      · rename_i obs tx2 heq2
        rw [heq2] at h2
        have h3 := Tx.run_keeps (selectEntityStamps_preserves I
          (UUID.String (env.uuid tx.n))) env tx2 h2
        have h4 := ih _ h3
        split
        · rename_i err tx4 heq4
          rw [heq4] at h4; exact h4
        · rename_i created tx4 heq4
          rw [heq4] at h4; exact h4

theorem addObservations_loop_keeps {I : DB → Prop} (hP : Preserved I) (env : Env)
    (entityID : String) :
    ∀ (contents : List String) (tx : Tx), I tx.db →
      I (ProjectStore.AddObservations.loop env entityID contents tx).2.db := by
  intro contents
  induction contents with
  | nil => intro tx hI; exact hI
  | cons c rest ih =>
    intro tx hI
    have h1 := Tx.run_keeps (hP.insertObservation (env.now tx.n)
      (UUID.String (env.uuid tx.n)) entityID c) env tx hI
    unfold ProjectStore.AddObservations.loop
    simp only []
    split
    · rename_i err tx1 heq
      rw [heq] at h1; exact h1
    · rename_i u tx1 heq
      rw [heq] at h1
      have h2 := ih tx1 h1
      split
      · rename_i err tx2 heq2
        rw [heq2] at h2; exact h2
      · rename_i obs tx2 heq2
        rw [heq2] at h2; exact h2

theorem createRelations_loop_keeps {I : DB → Prop} (hP : Preserved I) (env : Env) :
    ∀ (relations : List RelationInput) (tx : Tx), I tx.db →
      I (ProjectStore.CreateRelations.loop env relations tx).2.db := by
  intro relations
  induction relations with
  | nil => intro tx hI; exact hI
  | cons r rest ih =>
    intro tx hI
    have h1 := Tx.run_keeps (selectEntityID_preserves I r.From) env tx hI
    unfold ProjectStore.CreateRelations.loop
    split
    · rename_i err tx1 heq
      rw [heq] at h1; exact h1
    · rename_i fromID tx1 heq
      rw [heq] at h1
      have h2 := Tx.run_keeps (selectEntityID_preserves I r.To) env tx1 h1
      split
      · rename_i err tx2 heq2
        rw [heq2] at h2; exact h2
      · rename_i toID tx2 heq2
        rw [heq2] at h2
        have h3 := Tx.run_keeps (hP.insertRelation (env.now tx2.n)
          (UUID.String (env.uuid tx2.n)) fromID toID r.RelationType) env tx2 h2
        simp only []
        split
        · rename_i err tx3 heq3
          rw [heq3] at h3; exact h3
        · rename_i u tx3 heq3
          rw [heq3] at h3
          have h4 := ih tx3 h3
          split
          · rename_i err tx4 heq4
            rw [heq4] at h4; exact h4
          · rename_i created tx4 heq4
            rw [heq4] at h4; exact h4

theorem deleteEntities_relations_keeps {I : DB → Prop} (hP : Preserved I) (env : Env) :
    ∀ (ids : List String) (tx : Tx), I tx.db →
      I (ProjectStore.DeleteEntities.relations env ids tx).2.db := by
  intro ids
  induction ids with
  | nil => intro tx hI; exact hI
  | cons eid rest ih =>
    intro tx hI
    have h1 := Tx.run_keeps (hP.tombstoneRelations
      (fun r => (r.from_entity = eid ∨ r.to_entity = eid) ∧ r.active) (env.now tx.n)) env tx hI
    unfold ProjectStore.DeleteEntities.relations
    split
    · rename_i err tx1 heq
      rw [heq] at h1; exact h1
    · rename_i u tx1 heq
      rw [heq] at h1
      exact ih tx1 h1

theorem deleteObservations_loop_keeps {I : DB → Prop} (hP : Preserved I) (env : Env)
    (entityID : String) :
    ∀ (contents : List String) (tx : Tx), I tx.db →
      I (ProjectStore.DeleteObservations.loop env entityID contents tx).2.db := by
  intro contents
  induction contents with
  | nil => intro tx hI; exact hI
  | cons c rest ih =>
    intro tx hI
    have h1 := Tx.run_keeps (hP.tombstoneObservations
      (fun o => o.entity_id = entityID ∧ o.content = c ∧ o.active) (env.now tx.n)) env tx hI
    unfold ProjectStore.DeleteObservations.loop
    split
    · rename_i err tx1 heq
      rw [heq] at h1; exact h1
    · rename_i n tx1 heq
      rw [heq] at h1
      have h2 := ih tx1 h1
      split
      · rename_i err tx2 heq2
        rw [heq2] at h2; exact h2
      · rename_i total tx2 heq2
        rw [heq2] at h2; exact h2

theorem deleteRelations_loop_keeps {I : DB → Prop} (hP : Preserved I) (env : Env) :
    ∀ (relations : List RelationInput) (tx : Tx), I tx.db →
      I (ProjectStore.DeleteRelations.loop env relations tx).2.db := by
  intro relations
  induction relations with
  | nil => intro tx hI; exact hI
  | cons r rest ih =>
    intro tx hI
    have h1 := Tx.run_keeps (selectEntityID_preserves I r.From) env tx hI
    unfold ProjectStore.DeleteRelations.loop
    split
    · rename_i err tx1 heq
      rw [heq] at h1; exact ih tx1 h1
    · rename_i fromID tx1 heq
      rw [heq] at h1
      have h2 := Tx.run_keeps (selectEntityID_preserves I r.To) env tx1 h1
      split
      · rename_i err tx2 heq2
        rw [heq2] at h2; exact ih tx2 h2
      · rename_i toID tx2 heq2
        rw [heq2] at h2
        have h3 := Tx.run_keeps (hP.tombstoneRelations
          (fun x => x.from_entity = fromID ∧ x.to_entity = toID ∧
            x.relation_type = r.RelationType ∧ x.active) (env.now tx2.n)) env tx2 h2
        split
        · rename_i err tx3 heq3
          rw [heq3] at h3; exact h3
        · rename_i n tx3 heq3
          rw [heq3] at h3
          have h4 := ih tx3 h3
          split
          · rename_i err tx4 heq4
            rw [heq4] at h4; exact h4
          · rename_i total tx4 heq4
            rw [heq4] at h4; exact h4

theorem Tx.control_keeps {I : DB → Prop} (env : Env) (tx : Tx) (hI : I tx.db) :
    I (Tx.control env tx).2.db := by
  rw [Tx.control_db]; exact hI

theorem CreateEntities_keeps {I : DB → Prop} (hP : Preserved I) (env : Env) (db : DB)
    (entities : List EntityInput) (hI : I db) :
    I (ProjectStore.CreateEntities env db entities).2 := by
  have h0 := Tx.control_keeps (I := I) env ⟨db, 0⟩ hI
  unfold ProjectStore.CreateEntities
  split
  · exact hI
  · rename_i u tx heq
    rw [heq] at h0
    have h1 := createEntities_loop_keeps hP env entities tx h0
    split
    · exact hI
    · rename_i created tx1 heq1
      rw [heq1] at h1
      have h2 := Tx.control_keeps (I := I) env tx1 h1
      split
      · exact hI
      · rename_i u2 tx2 heq2
        rw [heq2] at h2; exact h2

theorem AddObservations_keeps {I : DB → Prop} (hP : Preserved I) (env : Env) (db : DB)
    (entityName : String) (contents : List String) (hI : I db) :
    I (ProjectStore.AddObservations env db entityName contents).2 := by
  have h0 := Tx.run_keeps (selectEntityID_preserves I entityName) env ⟨db, 0⟩ hI
  unfold ProjectStore.AddObservations
  split
  · split <;> exact hI
  · rename_i entityID tx heq
    rw [heq] at h0
    have h1 := Tx.control_keeps (I := I) env tx h0
    split
    · exact hI
    · rename_i u tx1 heq1
      rw [heq1] at h1
      have h2 := addObservations_loop_keeps hP env entityID contents tx1 h1
      split
      · exact hI
      · rename_i created tx2 heq2
        rw [heq2] at h2
        have h3 := Tx.control_keeps (I := I) env tx2 h2
        split
        · exact hI
        · rename_i u3 tx3 heq3
          rw [heq3] at h3; exact h3

theorem CreateRelations_keeps {I : DB → Prop} (hP : Preserved I) (env : Env) (db : DB)
    (relations : List RelationInput) (hI : I db) :
    I (ProjectStore.CreateRelations env db relations).2 := by
  have h0 := Tx.control_keeps (I := I) env ⟨db, 0⟩ hI
  unfold ProjectStore.CreateRelations
  split
  · exact hI
  · rename_i u tx heq
    rw [heq] at h0
    have h1 := createRelations_loop_keeps hP env relations tx h0
    split
    · exact hI
    · rename_i created tx1 heq1
      rw [heq1] at h1
      have h2 := Tx.control_keeps (I := I) env tx1 h1
      split
      · exact hI
      · rename_i u2 tx2 heq2
        rw [heq2] at h2; exact h2

theorem DeleteEntities_keeps {I : DB → Prop} (hP : Preserved I) (env : Env) (db : DB)
    (names : List String) (hI : I db) :
    I (ProjectStore.DeleteEntities env db names).2 := by
  have h0 := Tx.control_keeps (I := I) env ⟨db, 0⟩ hI
  unfold ProjectStore.DeleteEntities
  split
  · exact hI
  · split
    · exact hI
    · rename_i u tx heq
      rw [heq] at h0
      have h1 := Tx.run_keeps (selectEntityIDs_preserves I names) env tx h0
      split
      · exact hI
      · rename_i entityIDs tx1 heq1
        rw [heq1] at h1
        split
        · exact hI
        · have h2 := Tx.run_keeps (hP.tombstoneObservations
            (fun o => o.entity_id ∈ entityIDs ∧ o.active) (env.now tx1.n)) env tx1 h1
          split
          · exact hI
          · rename_i n2 tx2 heq2
            rw [heq2] at h2
            have h3 := deleteEntities_relations_keeps hP env entityIDs tx2 h2
            split
            · exact hI
            · rename_i u3 tx3 heq3
              rw [heq3] at h3
              have h4 := Tx.run_keeps (hP.tombstoneEntities
                (fun e => e.name ∈ names ∧ e.active) (env.now tx3.n)) env tx3 h3
              split
              · exact hI
              · rename_i count tx4 heq4
                rw [heq4] at h4
                have h5 := Tx.control_keeps (I := I) env tx4 h4
                split
                · exact hI
                · rename_i u5 tx5 heq5
                  rw [heq5] at h5; exact h5

theorem DeleteObservations_keeps {I : DB → Prop} (hP : Preserved I) (env : Env) (db : DB)
    (entityName : String) (contents : List String) (hI : I db) :
    I (ProjectStore.DeleteObservations env db entityName contents).2 := by
  have h0 := Tx.run_keeps (selectEntityID_preserves I entityName) env ⟨db, 0⟩ hI
  unfold ProjectStore.DeleteObservations
  split
  · split <;> exact hI
  · rename_i entityID tx heq
    rw [heq] at h0
    have h1 := Tx.control_keeps (I := I) env tx h0
    split
    · exact hI
    · rename_i u tx1 heq1
      rw [heq1] at h1
      have h2 := deleteObservations_loop_keeps hP env entityID contents tx1 h1
      split
      · exact hI
      · rename_i total tx2 heq2
        rw [heq2] at h2
        have h3 := Tx.control_keeps (I := I) env tx2 h2
        split
        · exact hI
        · rename_i u3 tx3 heq3
          rw [heq3] at h3; exact h3

theorem DeleteRelations_keeps {I : DB → Prop} (hP : Preserved I) (env : Env) (db : DB)
    (relations : List RelationInput) (hI : I db) :
    I (ProjectStore.DeleteRelations env db relations).2 := by
  have h0 := Tx.control_keeps (I := I) env ⟨db, 0⟩ hI
  unfold ProjectStore.DeleteRelations
  split
  · exact hI
  · rename_i u tx heq
    rw [heq] at h0
    have h1 := deleteRelations_loop_keeps hP env relations tx h0
    split
    · exact hI
    · rename_i total tx1 heq1
      rw [heq1] at h1
      have h2 := Tx.control_keeps (I := I) env tx1 h1
      split
      · exact hI
      · rename_i u2 tx2 heq2
        rw [heq2] at h2; exact h2

/-- A property kept by every writing statement is kept by every mutating method. -/
theorem mutation_keeps {I : DB → Prop} (hP : Preserved I) (env : Env) (db : DB)
    (mu : Mutation) (hI : I db) : I (mu.run env db) := by
  cases mu with
  | createEntities entities => exact CreateEntities_keeps hP env db entities hI
  | addObservations entityName contents =>
    exact AddObservations_keeps hP env db entityName contents hI
  | createRelations relations => exact CreateRelations_keeps hP env db relations hI
  | deleteEntities names => exact DeleteEntities_keeps hP env db names hI
  | deleteObservations entityName contents =>
    exact DeleteObservations_keeps hP env db entityName contents hI
  | deleteRelations relations => exact DeleteRelations_keeps hP env db relations hI

/-- A property of the new store that every writing statement keeps holds in
every reachable store. -/
theorem DB.Reachable.invariant {I : DB → Prop} (h0 : I DB.fresh) (hP : Preserved I) {db : DB}
    (h : db.Reachable) : I db := by
  induction h with
  | fresh => exact h0
  | step env db mu _ ih => exact mutation_keeps hP env db mu ih

/-! ## The full-text index -/

theorem entities_au_foldl_perm (hit : EntityRow → Bool) (now : String) :
    ∀ (l : List EntityRow) (idx : List EntityFts), (∀ e ∈ l, e.fts ∈ idx) →
      (l.foldl (fun idx e => if hit e then entities_au idx e (EntityRow.tombstone now e)
        else idx) idx).Perm idx := by
  intro l
  induction l with
  | nil => intro idx _; exact List.Perm.refl _
  | cons e rest ih =>
    intro idx h
    have he : e.fts ∈ idx := h e (List.mem_cons_self _ _)
    have hstep : (if hit e then entities_au idx e (EntityRow.tombstone now e) else idx).Perm idx := by
      split
      · have : (EntityRow.tombstone now e).fts = e.fts := rfl
        rw [entities_au, this]
        exact (List.perm_append_comm).trans (List.perm_cons_erase he).symm
      · exact List.Perm.refl _
    rw [List.foldl_cons]
    refine (ih _ ?_).trans hstep
    intro e1 h1
    exact hstep.symm.subset (h e1 (List.mem_cons_of_mem _ h1))

theorem observations_au_foldl_perm (hit : ObservationRow → Bool) (now : String) :
    ∀ (l : List ObservationRow) (idx : List ObservationFts), (∀ o ∈ l, o.fts ∈ idx) →
      (l.foldl (fun idx o => if hit o then
        observations_au idx o (ObservationRow.tombstone now o) else idx) idx).Perm idx := by
  intro l
  induction l with
  | nil => intro idx _; exact List.Perm.refl _
  | cons o rest ih =>
    intro idx h
    have ho : o.fts ∈ idx := h o (List.mem_cons_self _ _)
    have hstep : (if hit o then observations_au idx o (ObservationRow.tombstone now o)
        else idx).Perm idx := by
      split
      · have : (ObservationRow.tombstone now o).fts = o.fts := rfl
        rw [observations_au, this]
        exact (List.perm_append_comm).trans (List.perm_cons_erase ho).symm
      · exact List.Perm.refl _
    rw [List.foldl_cons]
    refine (ih _ ?_).trans hstep
    intro o1 h1
    exact hstep.symm.subset (h o1 (List.mem_cons_of_mem _ h1))

theorem indexInSync_preserved : Preserved DB.IndexInSync := by
  refine ⟨?_, ?_, ?_, ?_, ?_, ?_⟩
  · intro now id name entity_type db a db1 hI h
    unfold insertEntity at h
    split at h
    · exact absurd h (by simp)
    · simp only [Except.ok.injEq, Prod.mk.injEq] at h
      rw [← h.2]
      refine ⟨?_, hI.2⟩
      simp only [List.map_append, List.map_cons, List.map_nil]
      exact List.Perm.append_right _ hI.1
  · intro now id entity_id content db a db1 hI h
    unfold insertObservation at h
    split at h
    · exact absurd h (by simp)
    · split at h
      · exact absurd h (by simp)
      · simp only [Except.ok.injEq, Prod.mk.injEq] at h
        rw [← h.2]
        refine ⟨hI.1, ?_⟩
        simp only [List.map_append, List.map_cons, List.map_nil]
        exact List.Perm.append_right _ hI.2
  · intro now id from_entity to_entity relation_type db a db1 hI h
    unfold insertRelation at h
    split at h
    · exact absurd h (by simp)
    · split at h
      · exact absurd h (by simp)
      · split at h
        · exact absurd h (by simp)
        · simp only [Except.ok.injEq, Prod.mk.injEq] at h
          rw [← h.2]
          exact hI
  · intro hit now db a db1 hI h
    simp only [updateEntities, Except.ok.injEq, Prod.mk.injEq] at h
    rw [← h.2]
    refine ⟨?_, hI.2⟩
    have hmap : (db.entities.map fun e => if hit e = true then EntityRow.tombstone now e else e).map
        EntityRow.fts = db.entities.map EntityRow.fts := by
      rw [List.map_map]
      apply List.map_congr_left
      intro e _
      simp only [Function.comp]
      split <;> rfl
    simp only []
    rw [hmap]
    refine (entities_au_foldl_perm hit now db.entities db.entities_fts ?_).trans hI.1
    intro e he
    exact hI.1.symm.subset (List.mem_map_of_mem _ he)
  · intro hit now db a db1 hI h
    simp only [updateObservations, Except.ok.injEq, Prod.mk.injEq] at h
    rw [← h.2]
    refine ⟨hI.1, ?_⟩
    have hmap : (db.observations.map fun o =>
        if hit o = true then ObservationRow.tombstone now o else o).map
        ObservationRow.fts = db.observations.map ObservationRow.fts := by
      rw [List.map_map]
      apply List.map_congr_left
      intro o _
      simp only [Function.comp]
      split <;> rfl
    simp only []
    rw [hmap]
    refine (observations_au_foldl_perm hit now db.observations db.observations_fts ?_).trans hI.2
    intro o ho
    exact hI.2.symm.subset (List.mem_map_of_mem _ ho)
  · intro hit now db a db1 hI h
    simp only [updateRelations, Except.ok.injEq, Prod.mk.injEq] at h
    rw [← h.2]
    exact hI

/-- C8 (as the code has it). In every store state reachable through the graph
operations the full-text index agrees with all stored rows, not only with the
active ones: `entities_fts` holds, up to order, exactly one entry per row of
`entities` with the row's rowid, name and type, and `observations_fts` exactly
one entry per row of `observations` with its rowid and content; in particular
the entry of a row that has been tombstoned is still in the index. -/
theorem index_reflects_all_rows (db : DB) (h : db.Reachable) :
    db.entities_fts.Perm (db.entities.map EntityRow.fts) ∧
    db.observations_fts.Perm (db.observations.map ObservationRow.fts) ∧
    (∀ e ∈ db.entities, e.active = false → e.fts ∈ db.entities_fts) ∧
    (∀ o ∈ db.observations, o.active = false → o.fts ∈ db.observations_fts) := by
  have hI : db.IndexInSync :=
    DB.Reachable.invariant (I := DB.IndexInSync)
      ⟨List.Perm.refl _, List.Perm.refl _⟩ indexInSync_preserved h
  exact ⟨hI.1, hI.2, fun e he _ => hI.1.symm.subset (List.mem_map_of_mem _ he),
    fun o ho _ => hI.2.symm.subset (List.mem_map_of_mem _ ho)⟩

/-- C8, counterexample. The sample store after `DeleteEntities(["X"])` is
reachable through the graph operations; its entity `X` and the two observations
of `X` are tombstoned, and the index still holds the entry of each of them. -/
theorem index_holds_tombstoned_rows :
    (ProjectStore.DeleteEntities sampleEnv sampleDB ["X"]).2.Reachable ∧
    (∃ e ∈ (ProjectStore.DeleteEntities sampleEnv sampleDB ["X"]).2.entities,
      e.name = "X" ∧ e.active = false ∧
      e.fts ∈ (ProjectStore.DeleteEntities sampleEnv sampleDB ["X"]).2.entities_fts) ∧
    (∃ o ∈ (ProjectStore.DeleteEntities sampleEnv sampleDB ["X"]).2.observations,
      o.content = "a" ∧ o.active = false ∧
      o.fts ∈ (ProjectStore.DeleteEntities sampleEnv sampleDB ["X"]).2.observations_fts) :=
  ⟨DB.Reachable.step sampleEnv _ (.deleteEntities ["X"])
      (DB.Reachable.step sampleEnv _ (.createRelations [⟨"X", "Y", "uses"⟩])
        (DB.Reachable.step sampleEnv _
          (.createEntities [⟨"X", "thing", ["a", "b"]⟩, ⟨"Y", "thing", []⟩])
          DB.Reachable.fresh)),
    by decide, by decide⟩

theorem index_reflects_all_rows_witness :
    (ProjectStore.DeleteEntities sampleEnv sampleDB ["X"]).2.entities_fts.Perm
      ((ProjectStore.DeleteEntities sampleEnv sampleDB ["X"]).2.entities.map EntityRow.fts) :=
  (index_reflects_all_rows _
    (DB.Reachable.step sampleEnv _ (.deleteEntities ["X"])
      (DB.Reachable.step sampleEnv _ (.createRelations [⟨"X", "Y", "uses"⟩])
        (DB.Reachable.step sampleEnv _
          (.createEntities [⟨"X", "thing", ["a", "b"]⟩, ⟨"Y", "thing", []⟩])
          DB.Reachable.fresh)))).1

/-! ## Creating relations -/

theorem Tx.run_ok_inv {α : Type} {env : Env} {stmt : Stmt α} {tx tx1 : Tx} {a : α}
    (h : tx.run env stmt = (.ok a, tx1)) :
    ∃ db1, stmt tx.db = .ok (a, db1) ∧ tx1 = ⟨db1, tx.n + 1⟩ ∧ tx.db.schema = true ∧
      env.fault tx.n = none := by
  unfold Tx.run at h
  cases hf : env.fault tx.n with
  | some e => rw [hf] at h; exact absurd (congrArg Prod.fst h) (by simp)
  | none =>
    rw [hf] at h
    simp only [] at h
    by_cases hs : tx.db.schema = true
    · rw [if_pos hs] at h
      cases hst : stmt tx.db with
      | error e => rw [hst] at h; exact absurd (congrArg Prod.fst h) (by simp)
      | ok r =>
        obtain ⟨b, db1⟩ := r
        rw [hst] at h
        simp only [Prod.mk.injEq, Except.ok.injEq] at h
        exact ⟨db1, by rw [h.1], h.2.symm, hs, rfl⟩
    · rw [if_neg hs] at h
      exact absurd (congrArg Prod.fst h) (by simp)

theorem Tx.run_error_inv {α : Type} {env : Env} {stmt : Stmt α} (tx : Tx) {tx1 : Tx}
    {err : GoError}
    (hf : env.fault tx.n = none) (hs : tx.db.schema = true)
    (h : tx.run env stmt = (.error err, tx1)) : stmt tx.db = .error err := by
  rw [Tx.run_ok env stmt tx hf hs] at h
  cases hst : stmt tx.db with
  | error e =>
    rw [hst] at h
    simp only [Prod.mk.injEq, Except.error.injEq] at h
    rw [h.1]
  | ok r =>
    obtain ⟨b, db1⟩ := r
    rw [hst] at h
    exact absurd (congrArg Prod.fst h) (by simp)

theorem selectEntityID_ok_inv {name id : String} {db db1 : DB}
    (h : selectEntityID name db = .ok (id, db1)) :
    db1 = db ∧ ResolvesTo db.entities name id := by
  unfold selectEntityID at h
  cases hfind : (idx_entities_active db.entities).find? (fun e => decide (e.name = name)) with
  | none => rw [hfind] at h; exact absurd h (by simp)
  | some e =>
    rw [hfind] at h
    simp only [Except.ok.injEq, Prod.mk.injEq] at h
    have hp := List.find?_some hfind
    simp only [decide_eq_true_eq] at hp
    have hmem := mem_idx_entities_active.mp (List.mem_of_find?_eq_some hfind)
    exact ⟨h.2.symm, e, hmem.1, hp, hmem.2, h.1⟩

theorem selectEntityID_error_inv {name : String} {db : DB} {err : GoError}
    (h : selectEntityID name db = .error err) :
    err = ErrNoRows ∧ ¬ Resolves db.entities name := by
  unfold selectEntityID at h
  cases hfind : (idx_entities_active db.entities).find? (fun e => decide (e.name = name)) with
  | some e => rw [hfind] at h; exact absurd h (by simp)
  | none =>
    rw [hfind] at h
    simp only [Except.error.injEq] at h
    refine ⟨h.symm, ?_⟩
    rintro ⟨e, he, hn, ha⟩
    have := List.find?_eq_none.mp hfind e (mem_idx_entities_active.mpr ⟨he, ha⟩)
    simp [hn] at this

theorem ResolvesTo.resolves {entities : List EntityRow} {name id : String}
    (h : ResolvesTo entities name id) : Resolves entities name := by
  obtain ⟨e, he, hn, ha, -⟩ := h
  exact ⟨e, he, hn, ha⟩

theorem ResolvesTo.mem_ids {entities : List EntityRow} {name id : String}
    (h : ResolvesTo entities name id) : id ∈ entities.map EntityRow.id := by
  obtain ⟨e, he, -, -, hid⟩ := h
  exact hid ▸ List.mem_map_of_mem _ he

theorem insertRelation_ok_inv {now id f t ty : String} {db db1 : DB} {u : Unit}
    (h : insertRelation now id f t ty db = .ok (u, db1)) :
    db1 = { db with relations := db.relations ++
      [⟨nextRowid (db.relations.map RelationRow.rowid), id, f, t, ty, now, none⟩] } := by
  unfold insertRelation at h
  split at h
  · exact absurd h (by simp)
  · split at h
    · exact absurd h (by simp)
    · split at h
      · exact absurd h (by simp)
      · simp only [Except.ok.injEq, Prod.mk.injEq] at h
        exact h.2.symm

theorem insertRelation_error_inv {now id f t ty : String} {db : DB} {err : GoError}
    (hf : f ∈ db.entities.map EntityRow.id) (ht : t ∈ db.entities.map EntityRow.id)
    (h : insertRelation now id f t ty db = .error err) :
    err = errUnique "relations.id" ∧ id ∈ db.relations.map RelationRow.id := by
  unfold insertRelation at h
  split at h
  · rename_i hid
    simp only [Except.error.injEq] at h
    exact ⟨h.symm, hid⟩
  · simp [hf, ht] at h

theorem createRelations_loop_ok {env : Env} :
    ∀ (rels : List RelationInput) (tx tx1 : Tx) (created : List Relation),
      ProjectStore.CreateRelations.loop env rels tx = (.ok created, tx1) →
      ∃ rows, tx1.db = { tx.db with relations := tx.db.relations ++ rows } ∧
        List.Forall₂ (fun (r : RelationInput) (row : RelationRow) =>
          row.relation_type = r.RelationType ∧ row.active = true ∧
          ResolvesTo tx.db.entities r.From row.from_entity ∧
          ResolvesTo tx.db.entities r.To row.to_entity) rels rows ∧
        List.Forall₂ (fun (rel : Relation) (row : RelationRow) =>
          rel.ID = row.id ∧ rel.FromEntity = row.from_entity ∧
          rel.ToEntity = row.to_entity ∧ rel.RelationType = row.relation_type) created rows := by
  intro rels
  induction rels with
  | nil =>
    intro tx tx1 created h
    simp only [ProjectStore.CreateRelations.loop, Prod.mk.injEq, Except.ok.injEq] at h
    obtain ⟨rfl, rfl⟩ := h
    exact ⟨[], by simp, List.Forall₂.nil, List.Forall₂.nil⟩
  | cons r rest ih =>
    intro tx tx1 created h
    unfold ProjectStore.CreateRelations.loop at h
    split at h
    · exact absurd (congrArg Prod.fst h) (by simp)
    · rename_i fromID txa heq1
      obtain ⟨db1, hs1, rfl, -, -⟩ := Tx.run_ok_inv heq1
      obtain ⟨rfl, hfrom⟩ := selectEntityID_ok_inv hs1
      split at h
      · exact absurd (congrArg Prod.fst h) (by simp)
      · rename_i toID txb heq2
        obtain ⟨db2, hs2, rfl, -, -⟩ := Tx.run_ok_inv heq2
        obtain ⟨rfl, hto⟩ := selectEntityID_ok_inv hs2
        simp only [] at h
        split at h
        · exact absurd (congrArg Prod.fst h) (by simp)
        · rename_i u txc heq3
          obtain ⟨db3, hs3, rfl, -, -⟩ := Tx.run_ok_inv heq3
          have hdb3 := insertRelation_ok_inv hs3
          split at h
          · exact absurd (congrArg Prod.fst h) (by simp)
          · rename_i created1 tx4 heq4
            simp only [Prod.mk.injEq, Except.ok.injEq] at h
            obtain ⟨rfl, rfl⟩ := h
            obtain ⟨rows, hdb4, hin, hout⟩ := ih _ _ _ heq4
            simp only [hdb3] at hdb4 hin
            refine ⟨⟨nextRowid (tx.db.relations.map RelationRow.rowid),
                UUID.String (env.uuid (tx.n + 1 + 1)), fromID, toID, r.RelationType,
                env.now (tx.n + 1 + 1), none⟩ :: rows, ?_,
              List.Forall₂.cons ⟨rfl, rfl, hfrom, hto⟩ hin,
              List.Forall₂.cons ⟨rfl, rfl, rfl, rfl⟩ hout⟩
            rw [hdb4]
            simp

theorem createRelations_loop_error {env : Env} (hf : env.FaultFree) :
    ∀ (rels : List RelationInput) (tx tx1 : Tx) (err : GoError), tx.db.schema = true →
      ProjectStore.CreateRelations.loop env rels tx = (.error err, tx1) →
      (∃ pre r post, rels = pre ++ r :: post ∧
        (∀ x ∈ pre, Resolves tx.db.entities x.From ∧ Resolves tx.db.entities x.To) ∧
        ((¬ Resolves tx.db.entities r.From ∧
            err = wrapf "from entity %q not found: %w" [r.From] ErrNoRows) ∨
          (Resolves tx.db.entities r.From ∧ ¬ Resolves tx.db.entities r.To ∧
            err = wrapf "to entity %q not found: %w" [r.To] ErrNoRows))) ∨
      err = wrapf "insert relation: %w" [] (errUnique "relations.id") := by
  intro rels
  induction rels with
  | nil =>
    intro tx tx1 err _ h
    simp only [ProjectStore.CreateRelations.loop] at h
    exact absurd (congrArg Prod.fst h) (by simp)
  | cons r rest ih =>
    intro tx tx1 err hs h
    unfold ProjectStore.CreateRelations.loop at h
    split at h
    · rename_i e txa heq1
      have he := selectEntityID_error_inv (Tx.run_error_inv tx (hf _) hs heq1)
      simp only [Prod.mk.injEq, Except.error.injEq] at h
      refine Or.inl ⟨[], r, rest, rfl, fun x hx => absurd hx (List.not_mem_nil _),
        Or.inl ⟨he.2, ?_⟩⟩
      rw [← h.1, he.1]
    · rename_i fromID txa heq1
      obtain ⟨db1, hs1, rfl, -, -⟩ := Tx.run_ok_inv heq1
      obtain ⟨rfl, hfrom⟩ := selectEntityID_ok_inv hs1
      split at h
      · rename_i e txb heq2
        have he := selectEntityID_error_inv (Tx.run_error_inv ⟨tx.db, tx.n + 1⟩ (hf _) hs heq2)
        simp only [Prod.mk.injEq, Except.error.injEq] at h
        refine Or.inl ⟨[], r, rest, rfl, fun x hx => absurd hx (List.not_mem_nil _),
          Or.inr ⟨hfrom.resolves, he.2, ?_⟩⟩
        rw [← h.1, he.1]
      · rename_i toID txb heq2
        obtain ⟨db2, hs2, rfl, -, -⟩ := Tx.run_ok_inv heq2
        obtain ⟨rfl, hto⟩ := selectEntityID_ok_inv hs2
        simp only [] at h
        split at h
        · rename_i e txc heq3
          have he := insertRelation_error_inv hfrom.mem_ids hto.mem_ids
            (Tx.run_error_inv ⟨tx.db, tx.n + 1 + 1⟩ (hf _) hs heq3)
          simp only [Prod.mk.injEq, Except.error.injEq] at h
          exact Or.inr (by rw [← h.1, he.1])
        · rename_i u txc heq3
          obtain ⟨db3, hs3, rfl, -, -⟩ := Tx.run_ok_inv heq3
          have hdb3 := insertRelation_ok_inv hs3
          split at h
          · rename_i e tx4 heq4
            simp only [Prod.mk.injEq, Except.error.injEq] at h
            have hs3s : (Tx.mk db3 (tx.n + 1 + 1 + 1)).db.schema = true := by
              simp only [hdb3]; exact hs
            rcases ih _ _ _ hs3s heq4 with ⟨pre, x, post, hrest, hpre, hx⟩ | hcol
            · simp only [hdb3] at hpre hx
              refine Or.inl ⟨r :: pre, x, post, by rw [hrest]; rfl, ?_, ?_⟩
              · intro y hy
                rcases List.mem_cons.mp hy with rfl | hy
                · exact ⟨hfrom.resolves, hto.resolves⟩
                · exact hpre y hy
              · rw [← h.1]; exact hx
            · exact Or.inr (by rw [← h.1]; exact hcol)
          · exact absurd (congrArg Prod.fst h) (by simp)

theorem CreateRelations_cases (env : Env) (db : DB) (rels : List RelationInput) :
    (∃ e, env.fault 0 = some e ∧
      ProjectStore.CreateRelations env db rels = (.error (wrapf "begin tx: %w" [] e), db)) ∨
    (env.fault 0 = none ∧ ∃ e tx1,
      ProjectStore.CreateRelations.loop env rels ⟨db, 1⟩ = (.error e, tx1) ∧
      ProjectStore.CreateRelations env db rels = (.error e, db)) ∨
    (env.fault 0 = none ∧ ∃ created tx1,
      ProjectStore.CreateRelations.loop env rels ⟨db, 1⟩ = (.ok created, tx1) ∧
      ((∃ e, env.fault tx1.n = some e ∧
          ProjectStore.CreateRelations env db rels = (.error (wrapf "commit: %w" [] e), db)) ∨
        (env.fault tx1.n = none ∧
          ProjectStore.CreateRelations env db rels =
            (.ok (ProjectStore.CreateRelations.stamps env created ⟨tx1.db, tx1.n + 1⟩),
              tx1.db)))) := by
  unfold ProjectStore.CreateRelations Tx.control
  cases h0 : env.fault 0 with
  | some e => exact Or.inl ⟨e, rfl, rfl⟩
  | none =>
    simp only [Nat.zero_add]
    cases hl : ProjectStore.CreateRelations.loop env rels ⟨db, 1⟩ with
    | mk res tx1 =>
      cases res with
      | error e => exact Or.inr (Or.inl ⟨trivial, e, tx1, rfl, rfl⟩)
      | ok created =>
        refine Or.inr (Or.inr ⟨trivial, created, tx1, rfl, ?_⟩)
        simp only []
        cases h1 : env.fault tx1.n with
        | some e => exact Or.inl ⟨e, rfl, rfl⟩
        | none => exact Or.inr ⟨rfl, rfl⟩

theorem forall₂_mem_left {α β : Type} {R : α → β → Prop} {l₁ : List α} {l₂ : List β}
    (h : List.Forall₂ R l₁ l₂) {a : α} (ha : a ∈ l₁) : ∃ b ∈ l₂, R a b := by
  induction h with
  | nil => exact absurd ha (List.not_mem_nil _)
  | cons hab _ ih =>
    rcases List.mem_cons.mp ha with rfl | ha
    · exact ⟨_, List.mem_cons_self _ _, hab⟩
    · obtain ⟨b, hb, hr⟩ := ih ha
      exact ⟨b, List.mem_cons_of_mem _ hb, hr⟩

theorem createRelations_stamps_forall₂ (env : Env) {created : List Relation}
    {rows : List RelationRow}
    (h : List.Forall₂ (fun (rel : Relation) (row : RelationRow) =>
      rel.ID = row.id ∧ rel.FromEntity = row.from_entity ∧
      rel.ToEntity = row.to_entity ∧ rel.RelationType = row.relation_type) created rows) :
    ∀ tx : Tx, List.Forall₂ (fun (rel : Relation) (row : RelationRow) =>
      rel.ID = row.id ∧ rel.FromEntity = row.from_entity ∧
      rel.ToEntity = row.to_entity ∧ rel.RelationType = row.relation_type)
      (ProjectStore.CreateRelations.stamps env created tx) rows := by
  induction h with
  | nil => intro tx; exact List.Forall₂.nil
  | cons hab _ ih =>
    intro tx
    unfold ProjectStore.CreateRelations.stamps
    refine List.Forall₂.cons ?_ (ih _)
    split <;> exact hab

/-- C9. `CreateRelations` is atomic per batch.  Whenever it fails the store is
left as it was, the relations of the items before the failing one included.  It
fails whenever some item has a from name or a to name that resolves to no
active entity.  Whenever it succeeds the store has gained exactly one relation
row per item, in order, each active, of the item's type, and with source and
target the ids of active entities bearing the item's from and to names, and the
relations returned are these rows.  And with an engine that does not fail, on a
provisioned store, a failure is reported at the first item with an unresolved
name, as `from entity %q not found` when its from name is unresolved and
otherwise as `to entity %q not found`; the only other failure is the collision
of a drawn id with a stored one. -/
theorem CreateRelations_atomic (env : Env) (db : DB) (rels : List RelationInput) :
    (∀ err, (ProjectStore.CreateRelations env db rels).1 = .error err →
      (ProjectStore.CreateRelations env db rels).2 = db) ∧
    ((∃ r ∈ rels, ¬ Resolves db.entities r.From ∨ ¬ Resolves db.entities r.To) →
      ∃ err, (ProjectStore.CreateRelations env db rels).1 = .error err) ∧
    (∀ created, (ProjectStore.CreateRelations env db rels).1 = .ok created →
      ∃ rows, (ProjectStore.CreateRelations env db rels).2 =
          { db with relations := db.relations ++ rows } ∧
        List.Forall₂ (fun (r : RelationInput) (row : RelationRow) =>
          row.relation_type = r.RelationType ∧ row.active = true ∧
          ResolvesTo db.entities r.From row.from_entity ∧
          ResolvesTo db.entities r.To row.to_entity) rels rows ∧
        List.Forall₂ (fun (rel : Relation) (row : RelationRow) =>
          rel.ID = row.id ∧ rel.FromEntity = row.from_entity ∧
          rel.ToEntity = row.to_entity ∧ rel.RelationType = row.relation_type) created rows) ∧
    (env.FaultFree → db.schema = true →
      ∀ err, (ProjectStore.CreateRelations env db rels).1 = .error err →
        (∃ pre r post, rels = pre ++ r :: post ∧
          (∀ x ∈ pre, Resolves db.entities x.From ∧ Resolves db.entities x.To) ∧
          ((¬ Resolves db.entities r.From ∧
              err = wrapf "from entity %q not found: %w" [r.From] ErrNoRows) ∨
            (Resolves db.entities r.From ∧ ¬ Resolves db.entities r.To ∧
              err = wrapf "to entity %q not found: %w" [r.To] ErrNoRows))) ∨
        err = wrapf "insert relation: %w" [] (errUnique "relations.id")) := by
  rcases CreateRelations_cases env db rels with
    ⟨e, h0, h⟩ | ⟨h0, e, tx1, hl, h⟩ | ⟨h0, created, tx1, hl, ⟨e, h1, h⟩ | ⟨h1, h⟩⟩
  · rw [h]
    refine ⟨fun _ _ => rfl, fun _ => ⟨_, rfl⟩, fun c hc => absurd hc (by simp), ?_⟩
    intro hf
    rw [hf 0] at h0
    exact absurd h0 (by simp)
  · rw [h]
    refine ⟨fun _ _ => rfl, fun _ => ⟨_, rfl⟩, fun c hc => absurd hc (by simp), ?_⟩
    intro hf hs err he
    simp only [Except.error.injEq] at he
    subst he
    exact createRelations_loop_error hf rels ⟨db, 1⟩ tx1 _ hs hl
  · rw [h]
    obtain ⟨rows, -, hin, -⟩ := createRelations_loop_ok rels _ _ _ hl
    refine ⟨fun _ _ => rfl, fun _ => ⟨_, rfl⟩, fun c hc => absurd hc (by simp), ?_⟩
    intro hf
    rw [hf _] at h1
    exact absurd h1 (by simp)
  · rw [h]
    obtain ⟨rows, hdb, hin, hout⟩ := createRelations_loop_ok rels _ _ _ hl
    refine ⟨fun err he => absurd he (by simp), ?_, ?_, fun _ _ err he => absurd he (by simp)⟩
    · rintro ⟨r, hr, hbad⟩
      exfalso
      obtain ⟨row, -, -, -, hfrom, hto⟩ := forall₂_mem_left hin hr
      rcases hbad with hbad | hbad
      · exact hbad hfrom.resolves
      · exact hbad hto.resolves
    · intro c hc
      simp only [Except.ok.injEq] at hc
      subst hc
      exact ⟨rows, hdb, hin, createRelations_stamps_forall₂ env hout _⟩

theorem CreateRelations_atomic_witness :
    (ProjectStore.CreateRelations laterEnv sampleDB
      [⟨"Y", "X", "uses"⟩, ⟨"X", "Z", "uses"⟩]).2 = sampleDB :=
  (CreateRelations_atomic laterEnv sampleDB [⟨"Y", "X", "uses"⟩, ⟨"X", "Z", "uses"⟩]).1
    (wrapf "to entity %q not found: %w" ["Z"] ErrNoRows) (by decide)

/-! ## Creating entities -/

theorem insertEntity_ok_inv {now id name ty : String} {db db1 : DB} {u : Unit}
    (h : insertEntity now id name ty db = .ok (u, db1)) :
    id ∉ db.entities.map EntityRow.id ∧
    db1 = { db with
      entities := db.entities ++
        [⟨nextRowid (db.entities.map EntityRow.rowid), id, name, ty, now, now, none⟩]
      entities_fts := db.entities_fts ++
        [⟨nextRowid (db.entities.map EntityRow.rowid), name, ty⟩] } := by
  unfold insertEntity at h
  split at h
  · exact absurd h (by simp)
  · rename_i hid
    simp only [Except.ok.injEq, Prod.mk.injEq] at h
    exact ⟨hid, h.2.symm⟩

theorem insertObservation_ok_inv {now id entity_id content : String} {db db1 : DB} {u : Unit}
    (h : insertObservation now id entity_id content db = .ok (u, db1)) :
    id ∉ db.observations.map ObservationRow.id ∧
    db1 = { db with
      observations := db.observations ++
        [⟨nextRowid (db.observations.map ObservationRow.rowid), id, entity_id, content, now,
          none⟩]
      observations_fts := db.observations_fts ++
        [⟨nextRowid (db.observations.map ObservationRow.rowid), content⟩] } := by
  unfold insertObservation at h
  split at h
  · exact absurd h (by simp)
  · rename_i hid
    split at h
    · exact absurd h (by simp)
    · simp only [Except.ok.injEq, Prod.mk.injEq] at h
      exact ⟨hid, h.2.symm⟩

theorem createEntities_observations_ok {env : Env} {entityID name : String} :
    ∀ (contents : List String) (tx tx1 : Tx) (obs : List Observation),
      ProjectStore.CreateEntities.observations env entityID name contents tx = (.ok obs, tx1) →
      ∃ orows, tx1.db = { tx.db with
          observations := tx.db.observations ++ orows
          observations_fts := tx.db.observations_fts ++ orows.map ObservationRow.fts } ∧
        List.Forall₂ (fun (o : Observation) (row : ObservationRow) =>
          row.id = o.ID ∧ row.entity_id = o.EntityID ∧ row.content = o.Content ∧
          row.active = true) obs orows ∧
        List.Forall₂ (fun (c : String) (o : Observation) =>
          o.Content = c ∧ o.EntityID = entityID ∧ o.ID ≠ "") contents obs := by
  intro contents
  induction contents with
  | nil =>
    intro tx tx1 obs h
    simp only [ProjectStore.CreateEntities.observations, Prod.mk.injEq, Except.ok.injEq] at h
    obtain ⟨rfl, rfl⟩ := h
    exact ⟨[], by simp, List.Forall₂.nil, List.Forall₂.nil⟩
  | cons c rest ih =>
    intro tx tx1 obs h
    unfold ProjectStore.CreateEntities.observations at h
    simp only [] at h
    split at h
    · exact absurd (congrArg Prod.fst h) (by simp)
    · rename_i u txa heq1
      obtain ⟨db1, hs1, rfl, -, -⟩ := Tx.run_ok_inv heq1
      obtain ⟨-, hdb1⟩ := insertObservation_ok_inv hs1
      split at h
      · exact absurd (congrArg Prod.fst h) (by simp)
      · rename_i obs1 tx2 heq2
        simp only [Prod.mk.injEq, Except.ok.injEq] at h
        obtain ⟨rfl, rfl⟩ := h
        obtain ⟨orows, hdb2, hrow, hin⟩ := ih _ _ _ heq2
        simp only [hdb1] at hdb2
        refine ⟨⟨nextRowid (tx.db.observations.map ObservationRow.rowid),
            UUID.String (env.uuid tx.n), entityID, c, env.now tx.n, none⟩ :: orows, ?_,
          List.Forall₂.cons ⟨rfl, rfl, rfl, rfl⟩ hrow,
          List.Forall₂.cons ⟨rfl, rfl, UUID.String_ne_empty _⟩ hin⟩
        rw [hdb2]
        simp [ObservationRow.fts]

theorem Tx.run_select_db {α : Type} {stmt : Stmt α} (env : Env) (tx : Tx)
    (h : ∀ I : DB → Prop, StmtPreserves I stmt) : (tx.run env stmt).2.db = tx.db :=
  Tx.run_keeps (I := fun db => db = tx.db) (h _) env tx rfl

theorem createEntities_loop_ok {env : Env} :
    ∀ (entities : List EntityInput) (tx tx1 : Tx) (created : List Entity),
      ProjectStore.CreateEntities.loop env entities tx = (.ok created, tx1) →
      ∃ erows orows, tx1.db = { tx.db with
          entities := tx.db.entities ++ erows
          observations := tx.db.observations ++ orows
          entities_fts := tx.db.entities_fts ++ erows.map EntityRow.fts
          observations_fts := tx.db.observations_fts ++ orows.map ObservationRow.fts } ∧
        List.Forall₂ (fun (ent : Entity) (row : EntityRow) =>
          row.id = ent.ID ∧ row.name = ent.Name ∧ row.entity_type = ent.EntityType ∧
          row.active = true) created erows ∧
        List.Forall₂ (fun (o : Observation) (row : ObservationRow) =>
          row.id = o.ID ∧ row.entity_id = o.EntityID ∧ row.content = o.Content ∧
          row.active = true) (created.flatMap Entity.Observations) orows ∧
        List.Forall₂ (fun (e : EntityInput) (ent : Entity) =>
          ent.Name = e.Name ∧ ent.EntityType = e.EntityType ∧ ent.ID ≠ "" ∧
          List.Forall₂ (fun (c : String) (o : Observation) =>
            o.Content = c ∧ o.EntityID = ent.ID ∧ o.ID ≠ "") e.Observations ent.Observations)
          entities created ∧
        (∀ row ∈ erows, row.id ∉ tx.db.entities.map EntityRow.id) ∧
        (erows.map EntityRow.id).Nodup := by
  intro entities
  induction entities with
  | nil =>
    intro tx tx1 created h
    simp only [ProjectStore.CreateEntities.loop, Prod.mk.injEq, Except.ok.injEq] at h
    obtain ⟨rfl, rfl⟩ := h
    exact ⟨[], [], by simp, List.Forall₂.nil, List.Forall₂.nil, List.Forall₂.nil,
      fun _ h => absurd h (List.not_mem_nil _), List.nodup_nil⟩
  | cons e rest ih =>
    intro tx tx1 created h
    unfold ProjectStore.CreateEntities.loop at h
    simp only [] at h
    cases heq1 : tx.run env (insertEntity (env.now tx.n) (UUID.String (env.uuid tx.n)) e.Name
        e.EntityType) with
    | mk res1 txa =>
      rw [heq1] at h
      cases res1 with
      | error err => exact absurd (congrArg Prod.fst h) (by simp)
      | ok u =>
        simp only [] at h
        obtain ⟨db1, hs1, rfl, -, -⟩ := Tx.run_ok_inv heq1
        obtain ⟨hfresh, hdb1⟩ := insertEntity_ok_inv hs1
        cases heq2 : ProjectStore.CreateEntities.observations env (UUID.String (env.uuid tx.n))
            e.Name e.Observations ⟨db1, tx.n + 1⟩ with
        | mk res2 tx2 =>
          rw [heq2] at h
          cases res2 with
          | error err => exact absurd (congrArg Prod.fst h) (by simp)
          | ok obs =>
            simp only [] at h
            obtain ⟨orows0, hdb2, hrow0, hin0⟩ := createEntities_observations_ok _ _ _ _ heq2
            have hsel := Tx.run_select_db env tx2
              (fun I => selectEntityStamps_preserves I (UUID.String (env.uuid tx.n)))
            cases heq4 : ProjectStore.CreateEntities.loop env rest
                (tx2.run env (selectEntityStamps (UUID.String (env.uuid tx.n)))).2 with
            | mk res4 tx4 =>
              rw [heq4] at h
              cases res4 with
              | error err => exact absurd (congrArg Prod.fst h) (by simp)
              | ok created1 =>
                simp only [Prod.mk.injEq, Except.ok.injEq] at h
                obtain ⟨rfl, rfl⟩ := h
                obtain ⟨erows, orows, hdb4, hb, hc, hd, hfr, hnd⟩ := ih _ _ _ heq4
                rw [hsel, hdb2] at hdb4 hfr
                simp only [hdb1] at hdb4 hfr
                have hent : ∀ ent : Entity, ent = (match (tx2.run env (selectEntityStamps
                    (UUID.String (env.uuid tx.n)))).1 with
                    | .ok (c, u) => (⟨UUID.String (env.uuid tx.n), e.Name, e.EntityType, obs,
                        [], c, u⟩ : Entity)
                    | .error _ => ⟨UUID.String (env.uuid tx.n), e.Name, e.EntityType, obs,
                        [], "", ""⟩) →
                    ent.ID = UUID.String (env.uuid tx.n) ∧ ent.Name = e.Name ∧
                    ent.EntityType = e.EntityType ∧ ent.Observations = obs := by
                  intro ent he
                  rw [he]
                  split <;> exact ⟨rfl, rfl, rfl, rfl⟩
                obtain ⟨hID, hName, hType, hObs⟩ := hent _ rfl
                refine ⟨⟨nextRowid (tx.db.entities.map EntityRow.rowid),
                    UUID.String (env.uuid tx.n), e.Name, e.EntityType, env.now tx.n,
                    env.now tx.n, none⟩ :: erows, orows0 ++ orows, ?_,
                  List.Forall₂.cons ⟨hID.symm, hName.symm, hType.symm, rfl⟩ hb, ?_,
                  List.Forall₂.cons ⟨hName, hType, ?_, ?_⟩ hd, ?_, ?_⟩
                · rw [hdb4]
                  simp [EntityRow.fts]
                · rw [List.flatMap_cons, hObs]
                  exact List.rel_append hrow0 hc
                · rw [hID]; exact UUID.String_ne_empty _
                · rw [hObs, hID]; exact hin0
                · intro row hrow
                  rcases List.mem_cons.mp hrow with rfl | hrow
                  · exact hfresh
                  · intro hmem
                    exact hfr row hrow (by
                      rw [List.map_append]
                      exact List.mem_append_left _ hmem)
                · rw [List.map_cons, List.nodup_cons]
                  refine ⟨?_, hnd⟩
                  intro hmem
                  obtain ⟨row, hrow, hid⟩ := List.mem_map.mp hmem
                  exact hfr row hrow (by
                    rw [List.map_append, hid]
                    exact List.mem_append_right _ (by simp))

theorem CreateEntities_cases (env : Env) (db : DB) (entities : List EntityInput) :
    (∃ e, ProjectStore.CreateEntities env db entities = (.error e, db)) ∨
    (∃ created tx1,
      ProjectStore.CreateEntities.loop env entities ⟨db, 1⟩ = (.ok created, tx1) ∧
      ProjectStore.CreateEntities env db entities = (.ok created, tx1.db)) := by
  unfold ProjectStore.CreateEntities Tx.control
  cases h0 : env.fault 0 with
  | some e => exact Or.inl ⟨_, rfl⟩
  | none =>
    simp only [Nat.zero_add]
    cases hl : ProjectStore.CreateEntities.loop env entities ⟨db, 1⟩ with
    | mk res tx1 =>
      cases res with
      | error e => exact Or.inl ⟨_, rfl⟩
      | ok created =>
        simp only []
        cases h1 : env.fault tx1.n with
        | some e => exact Or.inl ⟨_, rfl⟩
        | none => exact Or.inr ⟨created, tx1, rfl, rfl⟩

theorem forall₂_map_eq {α β γ : Type} (f : α → γ) (g : β → γ) {l₁ : List α} {l₂ : List β}
    (h : List.Forall₂ (fun a b => f a = g b) l₁ l₂) : l₁.map f = l₂.map g := by
  induction h with
  | nil => rfl
  | cons hab _ ih => rw [List.map_cons, List.map_cons, hab, ih]

/-- C10. `CreateEntities` is one atomic unit.  Whenever it fails the store is
left as it was: no entity and no observation of the batch is stored.  Whenever
it succeeds it returns exactly one entity per input item, in input order, with
the item's name and type and a non-empty id that no stored entity had before
and no other entity of the batch has, carrying exactly one observation per
initial observation text, in order, with that text, a non-empty id and the
entity's id as owner; and the store has gained exactly one active entity row
per returned entity and one active observation row per returned observation
(with their index entries), everything else being as before. -/
theorem CreateEntities_atomic (env : Env) (db : DB) (entities : List EntityInput) :
    (∀ err, (ProjectStore.CreateEntities env db entities).1 = .error err →
      (ProjectStore.CreateEntities env db entities).2 = db) ∧
    (∀ created, (ProjectStore.CreateEntities env db entities).1 = .ok created →
      List.Forall₂ (fun (e : EntityInput) (ent : Entity) =>
          ent.Name = e.Name ∧ ent.EntityType = e.EntityType ∧ ent.ID ≠ "" ∧
          List.Forall₂ (fun (c : String) (o : Observation) =>
            o.Content = c ∧ o.EntityID = ent.ID ∧ o.ID ≠ "") e.Observations ent.Observations)
          entities created ∧
      (∀ ent ∈ created, ent.ID ∉ db.entities.map EntityRow.id) ∧
      (created.map Entity.ID).Nodup ∧
      ∃ erows orows, (ProjectStore.CreateEntities env db entities).2 = { db with
          entities := db.entities ++ erows
          observations := db.observations ++ orows
          entities_fts := db.entities_fts ++ erows.map EntityRow.fts
          observations_fts := db.observations_fts ++ orows.map ObservationRow.fts } ∧
        List.Forall₂ (fun (ent : Entity) (row : EntityRow) =>
          row.id = ent.ID ∧ row.name = ent.Name ∧ row.entity_type = ent.EntityType ∧
          row.active = true) created erows ∧
        List.Forall₂ (fun (o : Observation) (row : ObservationRow) =>
          row.id = o.ID ∧ row.entity_id = o.EntityID ∧ row.content = o.Content ∧
          row.active = true) (created.flatMap Entity.Observations) orows) := by
  rcases CreateEntities_cases env db entities with ⟨e, h⟩ | ⟨created, tx1, hl, h⟩
  · rw [h]
    exact ⟨fun _ _ => rfl, fun c hc => absurd hc (by simp)⟩
  · rw [h]
    refine ⟨fun err he => absurd he (by simp), ?_⟩
    intro c hc
    simp only [Except.ok.injEq] at hc
    subst hc
    obtain ⟨erows, orows, hdb, hb, hc, hd, hfr, hnd⟩ := createEntities_loop_ok _ _ _ _ hl
    have hids : created.map Entity.ID = erows.map EntityRow.id :=
      forall₂_map_eq Entity.ID EntityRow.id (hb.imp fun _ _ h => h.1.symm)
    refine ⟨hd, ?_, by rw [hids]; exact hnd, erows, orows, hdb, hb, hc⟩
    intro ent hent
    obtain ⟨row, hrow, hr⟩ := forall₂_mem_left hb hent
    rw [← hr.1]
    exact hfr row hrow

theorem CreateEntities_atomic_witness :
    (ProjectStore.CreateEntities collidingEnv DB.fresh
      [⟨"A", "thing", ["a"]⟩, ⟨"B", "thing", []⟩]).2 = DB.fresh :=
  (CreateEntities_atomic collidingEnv DB.fresh [⟨"A", "thing", ["a"]⟩, ⟨"B", "thing", []⟩]).1
    (wrapf "insert entity %q: %w" ["B"] (errUnique "entities.id")) (by decide)

/-! ## Keys of reachable stores -/

theorem le_foldr_max {l : List Nat} {x : Nat} (h : x ∈ l) : x ≤ l.foldr max 0 := by
  induction l with
  | nil => exact absurd h (List.not_mem_nil _)
  | cons a l ih =>
    rw [List.foldr_cons]
    rcases List.mem_cons.mp h with rfl | h
    · exact Nat.le_max_left _ _
    · exact Nat.le_trans (ih h) (Nat.le_max_right _ _)

theorem nextRowid_not_mem (l : List Nat) : nextRowid l ∉ l := by
  intro h
  have := le_foldr_max h
  unfold nextRowid at this
  omega

theorem nodup_map_update {α β : Type} (key : α → β) (hit : α → Bool) (f : α → α)
    (hk : ∀ a, key (f a) = key a) {l : List α} (h : (l.map key).Nodup) :
    ((l.map fun a => if hit a then f a else a).map key).Nodup := by
  have : (l.map fun a => if hit a then f a else a).map key = l.map key := by
    rw [List.map_map]
    apply List.map_congr_left
    intro a _
    simp only [Function.comp]
    split
    · exact hk a
    · rfl
  rw [this]; exact h

theorem keyed_preserved : Preserved DB.Keyed := by
  refine ⟨?_, ?_, ?_, ?_, ?_, ?_⟩
  · intro now id name entity_type db a db1 hI h
    obtain ⟨hid, rfl⟩ := insertEntity_ok_inv h
    refine ⟨hI.schema, ?_, hI.observationRowids, ?_, hI.observationIDs, hI.relationIDs⟩
    · simp only [List.map_append, List.map_cons, List.map_nil]
      exact List.Nodup.append hI.entityRowids (List.nodup_singleton _)
        (List.disjoint_singleton.mpr (nextRowid_not_mem _))
    · simp only [List.map_append, List.map_cons, List.map_nil]
      exact List.Nodup.append hI.entityIDs (List.nodup_singleton _)
        (List.disjoint_singleton.mpr hid)
  · intro now id entity_id content db a db1 hI h
    obtain ⟨hid, rfl⟩ := insertObservation_ok_inv h
    refine ⟨hI.schema, hI.entityRowids, ?_, hI.entityIDs, ?_, hI.relationIDs⟩
    · simp only [List.map_append, List.map_cons, List.map_nil]
      exact List.Nodup.append hI.observationRowids (List.nodup_singleton _)
        (List.disjoint_singleton.mpr (nextRowid_not_mem _))
    · simp only [List.map_append, List.map_cons, List.map_nil]
      exact List.Nodup.append hI.observationIDs (List.nodup_singleton _)
        (List.disjoint_singleton.mpr hid)
  · intro now id from_entity to_entity relation_type db a db1 hI h
    have hid : id ∉ db.relations.map RelationRow.id := by
      intro hmem
      unfold insertRelation at h
      rw [if_pos hmem] at h
      exact absurd h (by simp)
    have := insertRelation_ok_inv h
    subst this
    refine ⟨hI.schema, hI.entityRowids, hI.observationRowids, hI.entityIDs, hI.observationIDs,
      ?_⟩
    simp only [List.map_append, List.map_cons, List.map_nil]
    exact List.Nodup.append hI.relationIDs (List.nodup_singleton _)
      (List.disjoint_singleton.mpr hid)
  · intro hit now db a db1 hI h
    simp only [updateEntities, Except.ok.injEq, Prod.mk.injEq] at h
    rw [← h.2]
    exact ⟨hI.schema,
      nodup_map_update EntityRow.rowid hit (EntityRow.tombstone now) (fun _ => rfl)
        hI.entityRowids,
      hI.observationRowids,
      nodup_map_update EntityRow.id hit (EntityRow.tombstone now) (fun _ => rfl) hI.entityIDs,
      hI.observationIDs, hI.relationIDs⟩
  · intro hit now db a db1 hI h
    simp only [updateObservations, Except.ok.injEq, Prod.mk.injEq] at h
    rw [← h.2]
    exact ⟨hI.schema, hI.entityRowids,
      nodup_map_update ObservationRow.rowid hit (ObservationRow.tombstone now) (fun _ => rfl)
        hI.observationRowids, hI.entityIDs,
      nodup_map_update ObservationRow.id hit (ObservationRow.tombstone now) (fun _ => rfl)
        hI.observationIDs,
      hI.relationIDs⟩
  · intro hit now db a db1 hI h
    simp only [updateRelations, Except.ok.injEq, Prod.mk.injEq] at h
    rw [← h.2]
    exact ⟨hI.schema, hI.entityRowids, hI.observationRowids, hI.entityIDs,
      hI.observationIDs,
      nodup_map_update RelationRow.id hit (RelationRow.tombstone now) (fun _ => rfl)
        hI.relationIDs⟩

theorem keyed_of_reachable {db : DB} (h : db.Reachable) : db.Keyed :=
  DB.Reachable.invariant (I := DB.Keyed)
    ⟨rfl, List.nodup_nil, List.nodup_nil, List.nodup_nil, List.nodup_nil, List.nodup_nil⟩
    keyed_preserved h

theorem indexInSync_of_reachable {db : DB} (h : db.Reachable) : db.IndexInSync :=
  DB.Reachable.invariant (I := DB.IndexInSync)
    ⟨List.Perm.refl _, List.Perm.refl _⟩ indexInSync_preserved h

/-! ## Reading entities -/

theorem getObservations_ok (env : Env) (entityID : String) (tx : Tx)
    (hf : env.fault tx.n = none) (hs : tx.db.schema = true) :
    ProjectStore.getObservations env entityID tx =
      (.ok (tx.db.observationsOf entityID), ⟨tx.db, tx.n + 1⟩) := by
  unfold ProjectStore.getObservations
  rw [Tx.run_ok env _ tx hf hs]
  rfl

theorem getRelations_ok (env : Env) (entityID : String) (tx : Tx)
    (hf : env.fault tx.n = none) (hs : tx.db.schema = true) :
    ProjectStore.getRelations env entityID tx =
      (.ok (tx.db.relationsOf entityID), ⟨tx.db, tx.n + 1⟩) := by
  unfold ProjectStore.getRelations
  rw [Tx.run_ok env _ tx hf hs]
  rfl

theorem getEntities_load_ok (env : Env) (hf : env.FaultFree) (db : DB) (hs : db.schema = true) :
    ∀ (rows : List EntityRow) (n : Nat),
      ProjectStore.GetEntities.load env (rows.map EntityRow.toModel) ⟨db, n⟩ =
        (.ok (rows.map db.populated), ⟨db, n + 2 * rows.length⟩) := by
  intro rows
  induction rows with
  | nil => intro n; rfl
  | cons e rest ih =>
    intro n
    rw [List.map_cons, ProjectStore.GetEntities.load,
      getObservations_ok env _ ⟨db, n⟩ (hf _) hs]
    simp only []
    rw [getRelations_ok env _ ⟨db, n + 1⟩ (hf _) hs]
    simp only []
    rw [ih (n + 1 + 1)]
    simp only [List.map_cons, List.length_cons]
    refine Prod.ext ?_ ?_
    · rfl
    · simp only [Tx.mk.injEq, true_and]
      omega

theorem getEntities_ok (env : Env) (hf : env.FaultFree) (db : DB) (hs : db.schema = true)
    (names : List String) :
    ProjectStore.GetEntities env db names =
      .ok (((idx_entities_active db.entities).filter fun e => e.name ∈ names).map
        db.populated) := by
  unfold ProjectStore.GetEntities
  by_cases hn : names.length = 0
  · rw [if_pos hn]
    have : names = [] := List.length_eq_zero.mp hn
    subst this
    simp
  · rw [if_neg hn, Tx.run_ok env _ _ (hf _) hs]
    simp only [selectEntitiesNamed]
    rw [getEntities_load_ok env hf db hs]

theorem idx_entities_active_named_perm (entities : List EntityRow) (names : List String) :
    ((idx_entities_active entities).filter fun e => e.name ∈ names).Perm
      (entities.filter fun e => e.name ∈ names ∧ e.active) := by
  refine ((idx_entities_active_perm entities).filter _).trans ?_
  rw [List.filter_filter]
  refine List.Perm.of_eq (List.filter_congr fun e _ => ?_)
  by_cases h1 : e.name ∈ names <;> by_cases h2 : e.active = true <;> simp [h1, h2]

theorem observationsOf_perm (db : DB) (entityID : String) :
    (db.observationsOf entityID).Perm
      ((db.observations.filter fun o => o.entity_id = entityID ∧ o.active).map
        ObservationRow.toModel) :=
  (List.perm_insertionSort _ _).map _

theorem relationsOf_perm (db : DB) (entityID : String) :
    (db.relationsOf entityID).Perm
      ((db.relations.filter fun r =>
        (r.from_entity = entityID ∨ r.to_entity = entityID) ∧ r.active).map
        RelationRow.toModel) := by
  refine List.Perm.map _ ((List.perm_insertionSort _ _).trans ?_)
  refine ((idx_relations_type_perm db.relations).filter _).trans ?_
  rw [List.filter_filter]
  refine List.Perm.of_eq (List.filter_congr fun r _ => ?_)
  by_cases h1 : r.from_entity = entityID ∨ r.to_entity = entityID <;>
    by_cases h2 : r.active = true <;> simp [h1, h2]

/-- C15. On a provisioned store and with an engine that does not fail,
`GetEntities(names)` returns, in some order, exactly the active entity rows
whose name is one of `names`: each row once however often its name occurs in
the list, nothing for a name no active entity bears.  Each returned entity
carries the row's id, name and type, as observations exactly the active
observations owned by it and as relations exactly the active relations whose
source or target it is. -/
theorem GetEntities_exact (env : Env) (db : DB) (names : List String) (hf : env.FaultFree)
    (hs : db.schema = true) :
    ∃ (res : List Entity) (rows : List EntityRow),
      ProjectStore.GetEntities env db names = .ok res ∧
      rows.Perm (db.entities.filter fun e => e.name ∈ names ∧ e.active) ∧
      List.Forall₂ (fun (e : EntityRow) (ent : Entity) =>
        ent.ID = e.id ∧ ent.Name = e.name ∧ ent.EntityType = e.entity_type ∧
        ent.Observations.Perm ((db.observations.filter fun o =>
          o.entity_id = e.id ∧ o.active).map ObservationRow.toModel) ∧
        ent.Relations.Perm ((db.relations.filter fun r =>
          (r.from_entity = e.id ∨ r.to_entity = e.id) ∧ r.active).map RelationRow.toModel))
        rows res := by
  refine ⟨_, _, getEntities_ok env hf db hs names,
    idx_entities_active_named_perm db.entities names, ?_⟩
  rw [List.forall₂_map_right_iff]
  apply List.forall₂_same.mpr
  intro e _
  exact ⟨rfl, rfl, rfl, observationsOf_perm db e.id, relationsOf_perm db e.id⟩

theorem GetEntities_exact_witness :
    ∃ res, ProjectStore.GetEntities sampleEnv sampleDB ["X", "Z", "X"] = .ok res ∧
      res.map Entity.Name = ["X"] ∧
      res.map (fun e => e.Observations.map Observation.Content) = [["a", "b"]] ∧
      res.map (fun e => e.Relations.map Relation.RelationType) = [["uses"]] := by
  obtain ⟨res, -, h, -⟩ :=
    GetEntities_exact sampleEnv sampleDB ["X", "Z", "X"] (fun _ => rfl) rfl
  refine ⟨res, h, ?_⟩
  have h2 : (ProjectStore.GetEntities sampleEnv sampleDB ["X", "Z", "X"]).toOption.map
      (fun res => (res.map Entity.Name,
        res.map (fun e => e.Observations.map Observation.Content),
        res.map (fun e => e.Relations.map Relation.RelationType))) =
      some (["X"], [["a", "b"]], [["uses"]]) := by decide
  rw [h] at h2
  simpa [Except.toOption] using h2


/-! ## The order of `ORDER BY` -/

theorem lexLe_total : ∀ a b : List Nat, lexLe a b = true ∨ lexLe b a = true
  | [], _ => Or.inl rfl
  | _ :: _, [] => Or.inr rfl
  | a :: as, b :: bs => by
    simp only [lexLe, Bool.or_eq_true, Bool.and_eq_true, decide_eq_true_eq, beq_iff_eq]
    rcases Nat.lt_trichotomy a b with h | h | h
    · exact Or.inl (Or.inl h)
    · rcases lexLe_total as bs with h1 | h1
      · exact Or.inl (Or.inr ⟨h, h1⟩)
      · exact Or.inr (Or.inr ⟨h.symm, h1⟩)
    · exact Or.inr (Or.inl h)

theorem lexLe_trans : ∀ a b c : List Nat, lexLe a b = true → lexLe b c = true → lexLe a c = true
  | [], _, _, _, _ => rfl
  | _ :: _, [], _, h, _ => by simp [lexLe] at h
  | _ :: _, _ :: _, [], _, h => by simp [lexLe] at h
  | a :: as, b :: bs, c :: cs, h1, h2 => by
    simp only [lexLe, Bool.or_eq_true, Bool.and_eq_true, decide_eq_true_eq, beq_iff_eq] at *
    rcases h1 with h1 | ⟨h1, h1r⟩
    · rcases h2 with h2 | ⟨h2, -⟩
      · exact Or.inl (Nat.lt_trans h1 h2)
      · exact Or.inl (h2 ▸ h1)
    · rcases h2 with h2 | ⟨h2, h2r⟩
      · exact Or.inl (h1 ▸ h2)
      · exact Or.inr ⟨h1.trans h2, lexLe_trans as bs cs h1r h2r⟩

theorem sorted_insertionSort_by {α : Type} (key : α → String) (l : List α) :
    (l.insertionSort fun a b => textLe (key a) (key b) = true).Sorted
      fun a b => textLe (key a) (key b) = true := by
  haveI : IsTotal α (fun a b => textLe (key a) (key b) = true) :=
    ⟨fun a b => lexLe_total _ _⟩
  haveI : IsTrans α (fun a b => textLe (key a) (key b) = true) :=
    ⟨fun a b c => lexLe_trans _ _ _⟩
  exact List.sorted_insertionSort _ l

theorem eq_of_perm_of_strictly_sorted {α : Type} (key : α → String) {l s : List α}
    (hp : s.Perm l) (hs : s.Sorted fun a b => textLe (key a) (key b) = true)
    (hl : l.Sorted fun a b => textLe (key b) (key a) = false) : s = l := by
  have hsym : l.Pairwise (fun a b =>
      textLe (key b) (key a) = false ∨ textLe (key a) (key b) = false) :=
    List.Pairwise.imp Or.inl hl
  have hs2 : s.Pairwise (fun a b =>
      textLe (key b) (key a) = false ∨ textLe (key a) (key b) = false) :=
    (hp.pairwise_iff (fun {a b} h => h.symm)).mpr hsym
  have hs3 : s.Pairwise (fun a b => textLe (key b) (key a) = false) := by
    refine List.Pairwise.imp ?_ (List.Pairwise.and hs hs2)
    rintro a b ⟨h1, h2 | h2⟩
    · exact h2
    · rw [h1] at h2
      exact absurd h2 (by simp)
  haveI : IsAntisymm α (fun a b => textLe (key b) (key a) = false) :=
    ⟨fun a b h1 h2 => by
      rcases lexLe_total ((key a).data.map Char.toNat) ((key b).data.map Char.toNat) with h | h
      · exact absurd (h2.symm.trans h) (by simp)
      · exact absurd (h1.symm.trans h) (by simp)⟩
  exact List.eq_of_perm_of_sorted hp hs3 hl

/-! ## `ReadGraph` -/

theorem readGraph_observations_ok (env : Env) (hf : env.FaultFree) (db : DB)
    (hs : db.schema = true) :
    ∀ (rows : List EntityRow) (n : Nat),
      ProjectStore.ReadGraph.observations env (rows.map EntityRow.toModel) ⟨db, n⟩ =
        (.ok (rows.map fun e => { e.toModel with Observations := db.observationsOf e.id }),
          ⟨db, n + rows.length⟩) := by
  intro rows
  induction rows with
  | nil => intro n; rfl
  | cons e rest ih =>
    intro n
    rw [List.map_cons, ProjectStore.ReadGraph.observations,
      getObservations_ok env _ ⟨db, n⟩ (hf _) hs]
    simp only []
    rw [ih (n + 1)]
    simp only [List.map_cons, List.length_cons]
    refine Prod.ext ?_ ?_
    · rfl
    · simp only [Tx.mk.injEq, true_and]
      omega

theorem readGraph_ok (env : Env) (hf : env.FaultFree) (db : DB) (hs : db.schema = true) :
    ProjectStore.ReadGraph env db =
      .ok ⟨(idx_entities_active db.entities).map
          fun e => { e.toModel with Observations := db.observationsOf e.id },
        ((idx_relations_type db.relations).insertionSort
          fun a b => textLe a.created_at b.created_at = true).map RelationRow.toModel⟩ := by
  unfold ProjectStore.ReadGraph
  rw [Tx.run_ok env _ _ (hf _) hs]
  simp only [selectActiveEntities]
  rw [readGraph_observations_ok env hf db hs]
  simp only []
  rw [Tx.run_ok env _ _ (hf _) hs]
  rfl

/-- C16 (as the code has it). On a provisioned store and with an engine that
does not fail, `ReadGraph` succeeds; its entities are the active entity rows,
each once, in ascending order of name, each with its id, name and type, with
exactly the active observations it owns and with no relations; its relations
are the active relation rows, each once, in ascending order of their creation
stamp, which is the order in which they were created whenever the stamps of the
active relations strictly increase along the table, no two of them being
equal.  No tombstoned row contributes. -/
theorem ReadGraph_exact (env : Env) (db : DB) (hf : env.FaultFree) (hs : db.schema = true) :
    ∃ (g : KnowledgeGraph) (rows : List EntityRow) (rels : List RelationRow),
      ProjectStore.ReadGraph env db = .ok g ∧
      rows.Perm (db.entities.filter fun e => e.active) ∧
      rows.Sorted (fun a b => textLe a.name b.name = true) ∧
      List.Forall₂ (fun (e : EntityRow) (ent : Entity) =>
        ent.ID = e.id ∧ ent.Name = e.name ∧ ent.EntityType = e.entity_type ∧
        ent.Relations = [] ∧
        ent.Observations.Perm ((db.observations.filter fun o =>
          o.entity_id = e.id ∧ o.active).map ObservationRow.toModel)) rows g.Entities ∧
      rels.Perm (db.relations.filter fun r => r.active) ∧
      rels.Sorted (fun a b => textLe a.created_at b.created_at = true) ∧
      g.Relations = rels.map RelationRow.toModel ∧
      ((db.relations.filter fun r => r.active).Sorted
          (fun a b => textLe b.created_at a.created_at = false) →
        rels = db.relations.filter fun r => r.active) := by
  have hperm : ((idx_relations_type db.relations).insertionSort
      fun a b => textLe a.created_at b.created_at = true).Perm
      (db.relations.filter fun r => r.active) :=
    (List.perm_insertionSort _ _).trans (idx_relations_type_perm db.relations)
  refine ⟨_, _, _, readGraph_ok env hf db hs, idx_entities_active_perm db.entities,
    sorted_insertionSort_by EntityRow.name _, ?_, hperm,
    sorted_insertionSort_by RelationRow.created_at _, rfl, ?_⟩
  · simp only []
    rw [List.forall₂_map_right_iff]
    apply List.forall₂_same.mpr
    intro e _
    exact ⟨rfl, rfl, rfl, rfl, observationsOf_perm db e.id⟩
  · intro h
    exact eq_of_perm_of_strictly_sorted RelationRow.created_at hperm
      (sorted_insertionSort_by RelationRow.created_at _) h

theorem ReadGraph_exact_witness :
    ∃ g : KnowledgeGraph, ProjectStore.ReadGraph sampleEnv sampleDB = .ok g ∧
      g.Entities.map Entity.Name = ["X", "Y"] ∧
      g.Entities.map (fun e => e.Observations.map Observation.Content) = [["a", "b"], []] ∧
      g.Relations.map Relation.RelationType = ["uses"] := by
  obtain ⟨g, -, -, h, -⟩ := ReadGraph_exact sampleEnv sampleDB (fun _ => rfl) rfl
  refine ⟨g, h, ?_⟩
  have h2 : (ProjectStore.ReadGraph sampleEnv sampleDB).toOption.map (fun g =>
      (g.Entities.map Entity.Name,
        g.Entities.map (fun e => e.Observations.map Observation.Content),
        g.Relations.map Relation.RelationType)) =
      some (["X", "Y"], [["a", "b"], []], ["uses"]) := by decide
  rw [h] at h2
  simpa [Except.toOption] using h2

/-- C16, counterexample. In the store `tiedDB`, reached by one `CreateEntities`
and one `CreateRelations`, the relation `uses` was created before the relation
`backs`, as `CreateRelations` reports and as the rowids tell; both bear the
stamp of the same second and both are active; and `ReadGraph` returns `backs`
before `uses`. -/
theorem ReadGraph_same_second_by_type :
    tiedDB.Reachable ∧
    (ProjectStore.CreateRelations sampleEnv threeEntities
      [⟨"X", "Y", "uses"⟩, ⟨"X", "Z", "backs"⟩]).1.toOption.map
        (fun created => created.map Relation.RelationType) = some ["uses", "backs"] ∧
    tiedDB.relations.map (fun r => (r.rowid, r.relation_type, r.created_at, r.active)) =
      [(1, "uses", "2024-05-01 10:00:00", true), (2, "backs", "2024-05-01 10:00:00", true)] ∧
    (ProjectStore.ReadGraph sampleEnv tiedDB).toOption.map
      (fun g => g.Relations.map Relation.RelationType) = some ["backs", "uses"] :=
  ⟨DB.Reachable.step sampleEnv _ (.createRelations [⟨"X", "Y", "uses"⟩, ⟨"X", "Z", "backs"⟩])
    (DB.Reachable.step sampleEnv _
      (.createEntities [⟨"X", "thing", []⟩, ⟨"Y", "thing", []⟩, ⟨"Z", "thing", []⟩])
      DB.Reachable.fresh),
    by decide, by decide, by decide⟩

/-! ## `Search` -/

theorem sampleDB_reachable : sampleDB.Reachable :=
  DB.Reachable.step sampleEnv _ (.createRelations [⟨"X", "Y", "uses"⟩])
    (DB.Reachable.step sampleEnv _
      (.createEntities [⟨"X", "thing", ["a", "b"]⟩, ⟨"Y", "thing", []⟩])
      DB.Reachable.fresh)

theorem find_active_entity {db : DB} (hk : db.Keyed) (id : String) (e : EntityRow) :
    (db.entities.find? fun e => e.id = id ∧ e.active) = some e ↔
      e ∈ db.entities ∧ e.id = id ∧ e.active = true := by
  constructor
  · intro h
    have h1 := List.find?_some h
    simp only [decide_eq_true_eq] at h1
    exact ⟨List.mem_of_find?_eq_some h, h1.1, h1.2⟩
  · rintro ⟨he, hid, ha⟩
    cases hfind : db.entities.find? fun e => e.id = id ∧ e.active with
    | none =>
      have := List.find?_eq_none.mp hfind e he
      simp [hid, ha] at this
    | some e1 =>
      have h1 := List.find?_some hfind
      simp only [decide_eq_true_eq] at h1
      have := List.inj_on_of_nodup_map hk.entityIDs (List.mem_of_find?_eq_some hfind) he
        (h1.1.trans hid.symm)
      rw [this]

theorem selectActiveEntity_run (env : Env) (hf : env.FaultFree) (db : DB)
    (hs : db.schema = true) (id : String) (n : Nat) :
    Tx.run env (selectActiveEntity id) ⟨db, n⟩ =
      match db.entities.find? fun e => e.id = id ∧ e.active with
      | some e => (.ok e.toModel, ⟨db, n + 1⟩)
      | none => (.error ErrNoRows, ⟨db, n + 1⟩) := by
  rw [Tx.run_ok env _ _ (hf _) hs]
  simp only [selectActiveEntity]
  cases db.entities.find? fun e => e.id = id ∧ e.active <;> rfl

theorem search_load_ok (env : Env) (hf : env.FaultFree) (db : DB) (hs : db.schema = true) :
    ∀ (keys : List String) (n : Nat), ∃ m,
      ProjectStore.Search.load env keys ⟨db, n⟩ =
        (.ok (keys.filterMap fun id =>
          (db.entities.find? fun e => e.id = id ∧ e.active).map db.populated), ⟨db, m⟩) := by
  intro keys
  induction keys with
  | nil => intro n; exact ⟨n, rfl⟩
  | cons id rest ih =>
    intro n
    rw [ProjectStore.Search.load, selectActiveEntity_run env hf db hs]
    cases hfind : db.entities.find? fun e => e.id = id ∧ e.active with
    | none =>
      obtain ⟨m, hm⟩ := ih (n + 1)
      refine ⟨m, ?_⟩
      simp only [hm, List.filterMap_cons, hfind, Option.map_none']
    | some e =>
      simp only []
      rw [getObservations_ok env _ ⟨db, n + 1⟩ (hf _) hs]
      simp only []
      rw [getRelations_ok env _ ⟨db, n + 1 + 1⟩ (hf _) hs]
      simp only []
      obtain ⟨m, hm⟩ := ih (n + 1 + 1 + 1)
      refine ⟨m, ?_⟩
      rw [hm]
      simp only [List.filterMap_cons, hfind, Option.map_some']
      rfl

theorem mem_mapRange (rank : String → Nat) (keys : List String) (id : String) :
    id ∈ mapRange rank keys ↔ id ∈ keys := by
  unfold mapRange
  rw [(List.perm_insertionSort _ _).mem_iff, List.mem_dedup]

theorem nodup_mapRange (rank : String → Nat) (keys : List String) :
    (mapRange rank keys).Nodup :=
  (List.perm_insertionSort _ _).nodup_iff.mpr (List.nodup_dedup _)

theorem search_ok (env : Env) (hf : env.FaultFree) (fts : Fts5) (rank : String → Nat)
    (db : DB) (hs : db.schema = true) (query : String) (ids1 ids2 : List String)
    (h1 : searchEntitiesFts fts query db = .ok (ids1, db))
    (h2 : searchObservationsFts fts query db = .ok (ids2, db)) :
    ProjectStore.Search env fts rank db query =
      .ok ((mapRange rank (ids1 ++ ids2)).filterMap fun id =>
        (db.entities.find? fun e => e.id = id ∧ e.active).map db.populated) := by
  unfold ProjectStore.Search
  rw [Tx.run_ok env _ _ (hf _) hs]
  simp only [h1]
  rw [Tx.run_ok env _ _ (hf _) hs]
  simp only [h2]
  by_cases he : (ids1 ++ ids2).length = 0
  · rw [if_pos he, List.length_eq_zero.mp he]
    rfl
  · rw [if_neg he]
    obtain ⟨m, hm⟩ := search_load_ok env hf db hs (mapRange rank (ids1 ++ ids2)) (0 + 1 + 1)
    rw [hm]

theorem searchEntitiesFts_mem {db : DB} (hk : db.Keyed) (hi : db.IndexInSync)
    (hit : List String → Bool) (id : String) :
    id ∈ ((db.entities_fts.filter fun x => hit [x.name, x.entity_type]).flatMap fun x =>
        (db.entities.filter fun e => e.rowid = x.rowid ∧ e.active).map EntityRow.id) ↔
      ∃ e ∈ db.entities, e.id = id ∧ e.active = true ∧ hit [e.name, e.entity_type] = true := by
  simp only [List.mem_flatMap, List.mem_filter, List.mem_map, decide_eq_true_eq]
  constructor
  · rintro ⟨x, ⟨hx, hhit⟩, e, ⟨he, hrow, ha⟩, hid⟩
    obtain ⟨e1, he1, rfl⟩ := List.mem_map.mp (hi.1.subset hx)
    have : e = e1 := List.inj_on_of_nodup_map hk.entityRowids he he1 hrow
    subst this
    exact ⟨e, he, hid, ha, hhit⟩
  · rintro ⟨e, he, hid, ha, hhit⟩
    exact ⟨e.fts, ⟨hi.1.symm.subset (List.mem_map_of_mem _ he), hhit⟩, e, ⟨he, rfl, ha⟩, hid⟩

theorem searchObservationsFts_mem {db : DB} (hk : db.Keyed) (hi : db.IndexInSync)
    (hit : List String → Bool) (id : String) :
    id ∈ ((db.observations_fts.filter fun x => hit [x.content]).flatMap fun x =>
        (db.observations.filter fun o => o.rowid = x.rowid ∧ o.active).map
          ObservationRow.entity_id).dedup ↔
      ∃ o ∈ db.observations, o.entity_id = id ∧ o.active = true ∧ hit [o.content] = true := by
  simp only [List.mem_dedup, List.mem_flatMap, List.mem_filter, List.mem_map,
    decide_eq_true_eq]
  constructor
  · rintro ⟨x, ⟨hx, hhit⟩, o, ⟨ho, hrow, ha⟩, hid⟩
    obtain ⟨o1, ho1, rfl⟩ := List.mem_map.mp (hi.2.subset hx)
    have : o = o1 := List.inj_on_of_nodup_map hk.observationRowids ho ho1 hrow
    subst this
    exact ⟨o, ho, hid, ha, hhit⟩
  · rintro ⟨o, ho, hid, ha, hhit⟩
    exact ⟨o.fts, ⟨hi.2.symm.subset (List.mem_map_of_mem _ ho), hhit⟩, o, ⟨ho, rfl, ha⟩, hid⟩

theorem populated_injOn {db : DB} (hk : db.Keyed) :
    ∀ a ∈ db.entities, ∀ b ∈ db.entities, db.populated a = db.populated b → a = b :=
  fun _ ha _ hb h =>
    List.inj_on_of_nodup_map hk.entityIDs ha hb (congrArg Entity.ID h)

/-- C11. In a store reached through the graph operations, with an engine that
does not fail and a query the index engine accepts, `Search(query)` succeeds and
returns, in some order, exactly the active entity rows whose index entry of
name and type matches the query or that own an active observation whose
content matches it: each such entity exactly once, whatever the number of its
matches, no two results sharing an id, and a tombstoned observation counting
for nothing.  Each returned entity carries the row's id, name and type, as
observations exactly the active observations owned by it and as relations
exactly the active relations whose source or target it is, and it is, with the
same observations and relations, among the entities `GetEntities` returns for
its name. -/
theorem Search_exact (env : Env) (fts : Fts5) (rank : String → Nat) (db : DB) (query : String)
    (hit : List String → Bool) (hf : env.FaultFree) (hr : db.Reachable)
    (hq : fts query = some hit) :
    ∃ (res : List Entity) (rows : List EntityRow),
      ProjectStore.Search env fts rank db query = .ok res ∧
      rows.Perm (db.entities.filter fun e => db.matched hit e) ∧
      List.Forall₂ (fun (e : EntityRow) (ent : Entity) =>
        ent.ID = e.id ∧ ent.Name = e.name ∧ ent.EntityType = e.entity_type ∧
        ent.Observations.Perm ((db.observations.filter fun o =>
          o.entity_id = e.id ∧ o.active).map ObservationRow.toModel) ∧
        ent.Relations.Perm ((db.relations.filter fun r =>
          (r.from_entity = e.id ∨ r.to_entity = e.id) ∧ r.active).map RelationRow.toModel))
        rows res ∧
      (res.map Entity.ID).Nodup ∧
      (∀ e ∈ db.entities, db.matched hit e = true ↔
        e.active = true ∧ (hit [e.name, e.entity_type] = true ∨
          ∃ o ∈ db.observations, o.active = true ∧ o.entity_id = e.id ∧
            hit [o.content] = true)) ∧
      ∀ ent ∈ res, ∃ got, ProjectStore.GetEntities env db [ent.Name] = .ok got ∧ ent ∈ got := by
  have hk := keyed_of_reachable hr
  have hi := indexInSync_of_reachable hr
  have hs := hk.schema
  have hnd : db.entities.Nodup := List.Nodup.of_map _ hk.entityIDs
  have hmatched : ∀ e, db.matched hit e = true ↔
      e.active = true ∧ (hit [e.name, e.entity_type] = true ∨
        ∃ o ∈ db.observations, o.active = true ∧ o.entity_id = e.id ∧
          hit [o.content] = true) := by
    intro e
    simp only [DB.matched, Bool.and_eq_true, Bool.or_eq_true, List.any_eq_true, beq_iff_eq]
  have hres := search_ok env hf fts rank db hs query _ _
    (by unfold searchEntitiesFts; rw [hq]) (by unfold searchObservationsFts; rw [hq])
  have hperm0 : ∀ keys : List String,
      (∀ id, id ∈ keys ↔
        (∃ e ∈ db.entities, e.id = id ∧ e.active = true ∧ hit [e.name, e.entity_type] = true) ∨
        ∃ o ∈ db.observations, o.entity_id = id ∧ o.active = true ∧ hit [o.content] = true) →
      ((mapRange rank keys).filterMap fun id =>
        db.entities.find? fun e => e.id = id ∧ e.active).Perm
      (db.entities.filter fun e => db.matched hit e) := by
    intro keys hkeys
    rw [List.perm_ext_iff_of_nodup]
    · intro e
      simp only [List.mem_filterMap, List.mem_filter,
        mem_mapRange, hkeys, find_active_entity hk, hmatched]
      constructor
      · rintro ⟨id, hid, he, rfl, ha⟩
        refine ⟨he, ha, ?_⟩
        rcases hid with ⟨e1, he1, hid1, -, hh⟩ | ⟨o, ho, ho1, ho2, ho3⟩
        · have : e1 = e := List.inj_on_of_nodup_map hk.entityIDs he1 he hid1
          subst this
          exact Or.inl hh
        · exact Or.inr ⟨o, ho, ho2, ho1, ho3⟩
      · rintro ⟨he, ha, hm⟩
        refine ⟨e.id, ?_, he, rfl, ha⟩
        rcases hm with hh | ⟨o, ho, ho1, ho2, ho3⟩
        · exact Or.inl ⟨e, he, rfl, ha, hh⟩
        · exact Or.inr ⟨o, ho, ho2, ho1, ho3⟩
    · refine List.Nodup.filterMap ?_ (nodup_mapRange _ _)
      intro _ _ b hb hb1
      simp only [Option.mem_def, find_active_entity hk] at hb hb1
      exact hb.2.1.symm.trans hb1.2.1
    · exact hnd.filter _
  have hperm := hperm0 _ fun id => List.mem_append.trans
    (or_congr (searchEntitiesFts_mem hk hi hit id) (searchObservationsFts_mem hk hi hit id))
  rw [← List.map_filterMap] at hres
  refine ⟨_, _, hres, hperm, ?_, ?_, fun e _ => hmatched e, ?_⟩
  · rw [List.forall₂_map_right_iff]
    apply List.forall₂_same.mpr
    intro e _
    exact ⟨rfl, rfl, rfl, observationsOf_perm db e.id, relationsOf_perm db e.id⟩
  · rw [List.map_map, ((hperm.map (Entity.ID ∘ db.populated)).nodup_iff)]
    exact (hk.entityIDs.sublist ((List.filter_sublist _).map EntityRow.id) : _)
  · intro ent hent
    refine ⟨_, getEntities_ok env hf db hs [ent.Name], ?_⟩
    obtain ⟨e, he, rfl⟩ := List.mem_map.mp hent
    have he1 := List.mem_filter.mp (hperm.subset he)
    have ha := ((hmatched e).mp he1.2).1
    refine List.mem_map_of_mem _ (List.mem_filter.mpr
      ⟨mem_idx_entities_active.mpr ⟨he1.1, ha⟩, ?_⟩)
    simp [DB.populated, EntityRow.toModel]

theorem Search_exact_witness :
    ∃ res, ProjectStore.Search sampleEnv sampleFts (fun _ => 0) sampleDB "a" = .ok res ∧
      res.map Entity.Name = ["X"] ∧
      res.map (fun e => e.Observations.map Observation.Content) = [["a", "b"]] ∧
      res.map (fun e => e.Relations.map Relation.RelationType) = [["uses"]] := by
  obtain ⟨res, -, h, -⟩ := Search_exact sampleEnv sampleFts (fun _ => 0) sampleDB "a"
    (fun columns => decide ("a" ∈ columns)) (fun _ => rfl) sampleDB_reachable rfl
  refine ⟨res, h, ?_⟩
  have h2 : (ProjectStore.Search sampleEnv sampleFts (fun _ => 0) sampleDB "a").toOption.map
      (fun res => (res.map Entity.Name,
        res.map (fun e => e.Observations.map Observation.Content),
        res.map (fun e => e.Relations.map Relation.RelationType))) =
      some (["X"], [["a", "b"]], [["uses"]]) := by decide
  rw [h] at h2
  simpa [Except.toOption] using h2

/-! ## Deleting observations and relations -/

theorem map_update_twice {α : Type} (l : List α) (p q : α → Prop) [DecidablePred p]
    [DecidablePred q] (f g : α → α) (hq : ∀ a, p a → ¬ q (f a)) :
    (l.map fun a => if p a then f a else a).map (fun a => if q a then g a else a) =
      l.map fun a => if p a ∨ q a then (if p a then f a else g a) else a := by
  rw [List.map_map]
  apply List.map_congr_left
  intro a _
  by_cases hp : p a
  · simp [hp, hq a hp]
  · simp [hp]

theorem countP_update_twice {α : Type} (l : List α) (p q : α → Prop) [DecidablePred p]
    [DecidablePred q] (f : α → α) (hq : ∀ a, p a → ¬ q (f a)) :
    (l.countP fun a => decide (p a)) +
        (l.map fun a => if p a then f a else a).countP (fun a => decide (q a)) =
      l.countP fun a => decide (p a ∨ q a) := by
  induction l with
  | nil => rfl
  | cons a rest ih =>
    simp only [List.map_cons, List.countP_cons]
    by_cases hp : p a
    · have := hq a hp
      simp only [hp, if_true, this, true_or, decide_True, decide_False, Bool.false_eq_true,
        if_false]
      omega
    · by_cases hqa : q a
      · simp only [hp, hqa, if_false, if_true, or_true, decide_True, decide_False,
          Bool.false_eq_true]
        omega
      · simp only [hp, hqa, if_false, or_self, decide_False, Bool.false_eq_true]
        omega

theorem selectEntityID_eq (name : String) (db : DB) :
    selectEntityID name db =
      match resolveName db.entities name with
      | some id => .ok (id, db)
      | none => .error ErrNoRows := by
  unfold selectEntityID resolveName
  cases (idx_entities_active db.entities).find? fun e => e.name = name <;> rfl

theorem resolveName_some {entities : List EntityRow} {name id : String} :
    resolveName entities name = some id → ResolvesTo entities name id := by
  unfold resolveName
  intro h
  obtain ⟨e, he, rfl⟩ := Option.map_eq_some'.mp h
  have hp := List.find?_some he
  simp only [decide_eq_true_eq] at hp
  have hmem := mem_idx_entities_active.mp (List.mem_of_find?_eq_some he)
  exact ⟨e, hmem.1, hp, hmem.2, rfl⟩

theorem resolveName_none {entities : List EntityRow} {name : String} :
    resolveName entities name = none ↔ ¬ Resolves entities name := by
  unfold resolveName Resolves
  rw [Option.map_eq_none', List.find?_eq_none]
  simp only [decide_eq_true_eq, not_exists, not_and, mem_idx_entities_active]
  exact ⟨fun h e he hn ha => h e ⟨he, ha⟩ hn, fun h e he hn => h e he.1 hn he.2⟩

theorem updateObservations_spec (hit : ObservationRow → Bool)
    (set : ObservationRow → ObservationRow) (db : DB) :
    ∃ db1, updateObservations hit set db = .ok (db.observations.countP hit, db1) ∧
      db1.observations = db.observations.map (fun o => if hit o then set o else o) ∧
      db1.entities = db.entities ∧ db1.relations = db.relations ∧
      db1.entities_fts = db.entities_fts ∧ db1.schema = db.schema :=
  ⟨_, rfl, rfl, rfl, rfl, rfl, rfl⟩

theorem deleteObservations_loop_ok (env : Env) (hf : env.FaultFree) (entityID : String) :
    ∀ (contents : List String) (tx : Tx), tx.db.schema = true →
      ∃ (tx1 : Tx) (stamp : ObservationRow → String),
        ProjectStore.DeleteObservations.loop env entityID contents tx =
          (.ok (tx.db.observations.countP fun o =>
            o.entity_id = entityID ∧ o.content ∈ contents ∧ o.active), tx1) ∧
        tx1.db.observations = tx.db.observations.map (fun o =>
          if o.entity_id = entityID ∧ o.content ∈ contents ∧ o.active = true
          then o.tombstone (stamp o) else o) ∧
        tx1.db.entities = tx.db.entities ∧ tx1.db.relations = tx.db.relations ∧
        tx1.db.entities_fts = tx.db.entities_fts ∧
        tx1.db.schema = true ∧ tx1.n = tx.n + contents.length := by
  intro contents
  induction contents with
  | nil =>
    intro tx hs
    refine ⟨tx, fun _ => "", ?_, ?_, rfl, rfl, rfl, hs, rfl⟩
    · simp [ProjectStore.DeleteObservations.loop]
    · simp
  | cons c rest ih =>
    intro tx hs
    rw [ProjectStore.DeleteObservations.loop, Tx.run_ok env _ tx (hf _) hs]
    obtain ⟨db1, hu, ho, he, hr, hx, hs0⟩ := updateObservations_spec
      (fun o => o.entity_id = entityID ∧ o.content = c ∧ o.active)
      (ObservationRow.tombstone (env.now tx.n)) tx.db
    rw [hu]
    simp only []
    obtain ⟨tx1, stamp, hloop, hobs, hent, hrel, hfts, hs1, hn⟩ :=
      ih ⟨db1, tx.n + 1⟩ (hs0.trans hs)
    rw [hloop]
    simp only [] at hobs hent hrel hfts hn
    refine ⟨tx1, fun o => if o.content = c then env.now tx.n else stamp o, ?_, ?_,
      hent.trans he, hrel.trans hr, hfts.trans hx, hs1, ?_⟩
    · simp only [Prod.mk.injEq, Except.ok.injEq, and_true]
      rw [ho]
      simp only [decide_eq_true_eq]
      rw [countP_update_twice tx.db.observations
        (fun o : ObservationRow => o.entity_id = entityID ∧ o.content = c ∧ o.active = true)
        (fun o : ObservationRow => o.entity_id = entityID ∧ o.content ∈ rest ∧ o.active = true)
        (ObservationRow.tombstone (env.now tx.n))
        (fun a _ => by simp [ObservationRow.tombstone, ObservationRow.active])]
      apply List.countP_congr
      intro o _
      simp only [decide_eq_true_eq, List.mem_cons]
      tauto
    · rw [hobs, ho]
      simp only [decide_eq_true_eq]
      rw [map_update_twice tx.db.observations
        (fun o : ObservationRow => o.entity_id = entityID ∧ o.content = c ∧ o.active = true)
        (fun o : ObservationRow => o.entity_id = entityID ∧ o.content ∈ rest ∧ o.active = true)
        (ObservationRow.tombstone (env.now tx.n)) (fun o => o.tombstone (stamp o))
        (fun a _ => by simp [ObservationRow.tombstone, ObservationRow.active])]
      apply List.map_congr_left
      intro o _
      beta_reduce
      by_cases h1 : o.entity_id = entityID ∧ o.content = c ∧ o.active = true
      · have h3 : o.entity_id = entityID ∧ o.content ∈ c :: rest ∧ o.active = true :=
          ⟨h1.1, List.mem_cons.mpr (Or.inl h1.2.1), h1.2.2⟩
        rw [if_pos (Or.inl h1), if_pos h1, if_pos h3, if_pos h1.2.1]
      · by_cases h2 : o.entity_id = entityID ∧ o.content ∈ rest ∧ o.active = true
        · have hc : ¬ o.content = c := fun hc => h1 ⟨h2.1, hc, h2.2.2⟩
          have h3 : o.entity_id = entityID ∧ o.content ∈ c :: rest ∧ o.active = true :=
            ⟨h2.1, List.mem_cons.mpr (Or.inr h2.2.1), h2.2.2⟩
          rw [if_pos (Or.inr h2), if_neg h1, if_pos h3, if_neg hc]
        · have h3 : ¬ (o.entity_id = entityID ∧ o.content ∈ c :: rest ∧ o.active = true) := by
            rw [List.mem_cons]
            tauto
          rw [if_neg (not_or.mpr ⟨h1, h2⟩), if_neg h3]
    · rw [hn]
      simp only [List.length_cons]
      omega

/-- C12. On a provisioned store and with an engine that does not fail:
when no active entity bears `entityName`, `DeleteObservations(entityName,
contents)` fails with `entity "…" not found` and the store is unchanged;
otherwise the name resolves to the id of an active entity of that name, the
call succeeds, the observation rows that were active, owned by that id and with
content equal to one of `contents` are tombstoned, every other observation row
- of another content, of another entity, or already tombstoned - is left as it
was, as are all entities and relations, and the value returned is the number of
rows tombstoned, so 0 when nothing matches. -/
theorem DeleteObservations_exact (env : Env) (db : DB) (entityName : String)
    (contents : List String) (hf : env.FaultFree) (hs : db.schema = true) :
    (¬ Resolves db.entities entityName →
      ProjectStore.DeleteObservations env db entityName contents =
        (.error (errorf "entity %q not found" [entityName]), db)) ∧
    (Resolves db.entities entityName →
      ∃ (id : String) (stamp : ObservationRow → String) (db1 : DB),
        ResolvesTo db.entities entityName id ∧
        ProjectStore.DeleteObservations env db entityName contents =
          (.ok (db.observations.countP fun o =>
            o.entity_id = id ∧ o.content ∈ contents ∧ o.active), db1) ∧
        db1.observations = db.observations.map (fun o =>
          if o.entity_id = id ∧ o.content ∈ contents ∧ o.active = true
          then o.tombstone (stamp o) else o) ∧
        db1.entities = db.entities ∧ db1.relations = db.relations) := by
  constructor
  · intro hno
    unfold ProjectStore.DeleteObservations
    rw [Tx.run_ok env _ _ (hf _) hs, selectEntityID_eq, resolveName_none.mpr hno]
    simp
  · intro hyes
    cases hres : resolveName db.entities entityName with
    | none => exact absurd hyes (resolveName_none.mp hres)
    | some id =>
      obtain ⟨tx1, stamp, hloop, hobs, hent, hrel, -, -, -⟩ :=
        deleteObservations_loop_ok env hf id contents ⟨db, 0 + 1 + 1⟩ hs
      refine ⟨id, stamp, tx1.db, resolveName_some hres, ?_, hobs, hent, hrel⟩
      unfold ProjectStore.DeleteObservations
      rw [Tx.run_ok env _ _ (hf _) hs, selectEntityID_eq, hres]
      simp only []
      rw [Tx.control_ok env _ (hf _)]
      simp only []
      rw [hloop]
      simp only []
      rw [Tx.control_ok env _ (hf _)]

theorem DeleteObservations_exact_witness :
    ∃ db1, ProjectStore.DeleteObservations sampleEnv sampleDB "X" ["a", "c"] = (.ok 1, db1) ∧
      db1.observations.map ObservationRow.active = [false, true] := by
  obtain ⟨_, _, db1, -, h, -⟩ :=
    (DeleteObservations_exact sampleEnv sampleDB "X" ["a", "c"] (fun _ => rfl) rfl).2
      (by unfold Resolves; decide)
  have h1 : (ProjectStore.DeleteObservations sampleEnv sampleDB "X" ["a", "c"]).1 = .ok 1 := by
    decide
  have h2 : (ProjectStore.DeleteObservations sampleEnv sampleDB "X" ["a", "c"]).2.observations.map
      ObservationRow.active = [false, true] := by decide
  rw [h] at h1 h2
  rw [h]
  simp only [] at h1 h2
  exact ⟨db1, by rw [h1], h2⟩

theorem targeted_inactive (resolve : String → Option String) (items : List RelationInput)
    (r : RelationRow) (h : r.active = false) : targeted resolve items r = false := by
  simp [targeted, h]

theorem updateRelations_spec (hit : RelationRow → Bool) (set : RelationRow → RelationRow)
    (db : DB) :
    updateRelations hit set db = .ok (db.relations.countP hit,
      { db with relations := db.relations.map fun r => if hit r then set r else r }) := rfl

theorem deleteRelations_loop_ok (env : Env) (hf : env.FaultFree) :
    ∀ (items : List RelationInput) (tx : Tx), tx.db.schema = true →
      ∃ (n1 : Nat) (stamp : RelationRow → String),
        ProjectStore.DeleteRelations.loop env items tx =
          (.ok (tx.db.relations.countP (targeted (resolveName tx.db.entities) items)),
            ⟨{ tx.db with relations := (tx.db.relations.map fun r =>
              if targeted (resolveName tx.db.entities) items r = true then r.tombstone (stamp r) else r) },
              n1⟩) := by
  intro items
  induction items with
  | nil =>
    intro tx _
    refine ⟨tx.n, fun _ => "", ?_⟩
    have ht : targeted (resolveName tx.db.entities) [] = fun _ => false := rfl
    simp [ProjectStore.DeleteRelations.loop, ht]
  | cons i rest ih =>
    intro tx hs
    rw [ProjectStore.DeleteRelations.loop, Tx.run_ok env _ tx (hf _) hs, selectEntityID_eq]
    cases hfrom : resolveName tx.db.entities i.From with
    | none =>
      simp only []
      obtain ⟨n1, stamp, h⟩ := ih ⟨tx.db, tx.n + 1⟩ hs
      have ht : targeted (resolveName tx.db.entities) (i :: rest) = targeted (resolveName tx.db.entities) rest := by
        funext r
        simp [targeted, hfrom]
      exact ⟨n1, stamp, by rw [h, ht]⟩
    | some f =>
      simp only []
      rw [Tx.run_ok env _ _ (hf _) (by exact hs), selectEntityID_eq]
      simp only []
      cases hto : resolveName tx.db.entities i.To with
      | none =>
        simp only []
        obtain ⟨n1, stamp, h⟩ := ih ⟨tx.db, tx.n + 1 + 1⟩ hs
        have ht : targeted (resolveName tx.db.entities) (i :: rest) = targeted (resolveName tx.db.entities) rest := by
          funext r
          simp [targeted, hto]
        exact ⟨n1, stamp, by rw [h, ht]⟩
      | some t =>
        simp only []
        rw [Tx.run_ok env _ _ (hf _) (by exact hs), updateRelations_spec]
        simp only []
        obtain ⟨n1, stamp, h⟩ := ih ⟨{ tx.db with relations := (tx.db.relations.map fun r =>
          if decide (r.from_entity = f ∧ r.to_entity = t ∧
            r.relation_type = i.RelationType ∧ r.active = true) = true
          then r.tombstone (env.now (tx.n + 1 + 1)) else r) }, tx.n + 1 + 1 + 1⟩ hs
        rw [h]
        have ht : ∀ r, targeted (resolveName tx.db.entities) (i :: rest) r = true ↔
            (r.from_entity = f ∧ r.to_entity = t ∧ r.relation_type = i.RelationType ∧
              r.active = true) ∨ targeted (resolveName tx.db.entities) rest r = true := by
          intro r
          simp only [targeted, List.any_cons, hfrom, hto, Bool.or_eq_true, Bool.and_eq_true,
            beq_iff_eq, Option.some.injEq]
          constructor
          · rintro (⟨h1, h2, h3, h4⟩ | h)
            · exact Or.inl ⟨h1.symm, h2.symm, h3, h4⟩
            · exact Or.inr h
          · rintro (⟨h1, h2, h3, h4⟩ | h)
            · exact Or.inl ⟨h1.symm, h2.symm, h3, h4⟩
            · exact Or.inr h
        refine ⟨n1, fun r => if r.from_entity = f ∧ r.to_entity = t ∧
          r.relation_type = i.RelationType ∧ r.active = true
          then env.now (tx.n + 1 + 1) else stamp r, ?_⟩
        simp only [decide_eq_true_eq]
        refine Prod.ext (congrArg Except.ok ?_) ?_
        · have := countP_update_twice tx.db.relations
            (fun r : RelationRow => r.from_entity = f ∧ r.to_entity = t ∧
              r.relation_type = i.RelationType ∧ r.active = true)
            (fun r : RelationRow => targeted (resolveName tx.db.entities) rest r = true)
            (RelationRow.tombstone (env.now (tx.n + 1 + 1)))
            (fun a _ => by simp [targeted_inactive])
          simp only [Bool.decide_eq_true] at this
          rw [this]
          apply List.countP_congr
          intro r _
          simp only [decide_eq_true_eq]
          exact (ht r).symm
        · simp only [Tx.mk.injEq, and_true]
          have := map_update_twice tx.db.relations
            (fun r : RelationRow => r.from_entity = f ∧ r.to_entity = t ∧
              r.relation_type = i.RelationType ∧ r.active = true)
            (fun r : RelationRow => targeted (resolveName tx.db.entities) rest r = true)
            (RelationRow.tombstone (env.now (tx.n + 1 + 1))) (fun r => r.tombstone (stamp r))
            (fun a _ => by simp [targeted_inactive])
          rw [this]
          congr 1
          apply List.map_congr_left
          intro r _
          beta_reduce
          by_cases h1 : r.from_entity = f ∧ r.to_entity = t ∧
              r.relation_type = i.RelationType ∧ r.active = true
          · rw [if_pos (Or.inl h1), if_pos h1, if_pos ((ht r).mpr (Or.inl h1)), if_pos h1]
          · by_cases h2 : targeted (resolveName tx.db.entities) rest r = true
            · rw [if_pos (Or.inr h2), if_neg h1, if_pos ((ht r).mpr (Or.inr h2)), if_neg h1]
            · rw [if_neg (not_or.mpr ⟨h1, h2⟩), if_neg (fun h => (not_or.mpr ⟨h1, h2⟩) ((ht r).mp h))]

/-- C13. On a provisioned store and with an engine that does not fail,
`DeleteRelations(items)` succeeds; it tombstones exactly the relation rows that
were active and whose source, target and type are, for some item, the id the
item's `From` resolves to, the id its `To` resolves to and its type, and leaves
every other relation row - of another type, of the opposite direction, or
already tombstoned - and everything else in the store as it was; the value
returned is the number of rows tombstoned.  A name resolves, in the same way
for every item of the call, to the id of an active entity bearing it, the only
one when active names are distinct; an item with a name no active entity bears
resolves to nothing, selects no row and does not make the call fail. -/
theorem DeleteRelations_exact (env : Env) (db : DB) (items : List RelationInput)
    (hf : env.FaultFree) (hs : db.schema = true) :
    ∃ (resolve : String → Option String) (stamp : RelationRow → String),
      ProjectStore.DeleteRelations env db items =
        (.ok (db.relations.countP (targeted resolve items)),
          { db with relations := (db.relations.map fun r =>
            if targeted resolve items r = true then r.tombstone (stamp r) else r) }) ∧
      (∀ r, targeted resolve items r = true ↔
        r.active = true ∧ ∃ i ∈ items, resolve i.From = some r.from_entity ∧
          resolve i.To = some r.to_entity ∧ r.relation_type = i.RelationType) ∧
      (∀ name, resolve name = none ↔ ¬ Resolves db.entities name) ∧
      (∀ name id, resolve name = some id → ResolvesTo db.entities name id) ∧
      ((∀ a ∈ db.entities, ∀ b ∈ db.entities, a.active = true → b.active = true →
          a.name = b.name → a = b) →
        ∀ name id, ResolvesTo db.entities name id → resolve name = some id) := by
  obtain ⟨n1, stamp, h⟩ := deleteRelations_loop_ok env hf items ⟨db, 0 + 1⟩ hs
  refine ⟨resolveName db.entities, stamp, ?_, ?_, fun _ => resolveName_none,
    fun _ _ => resolveName_some, ?_⟩
  · unfold ProjectStore.DeleteRelations
    rw [Tx.control_ok env _ (hf _)]
    simp only []
    rw [h]
    simp only []
    rw [Tx.control_ok env _ (hf _)]
  · intro r
    simp only [targeted, List.any_eq_true, Bool.and_eq_true, beq_iff_eq]
    constructor
    · rintro ⟨i, hi, h1, h2, h3, h4⟩
      exact ⟨h4, i, hi, h1, h2, h3⟩
    · rintro ⟨h4, i, hi, h1, h2, h3⟩
      exact ⟨i, hi, h1, h2, h3, h4⟩
  · rintro huniq name id ⟨e, he, hn, ha, rfl⟩
    cases hres : resolveName db.entities name with
    | none => exact absurd ⟨e, he, hn, ha⟩ (resolveName_none.mp hres)
    | some id1 =>
      obtain ⟨e1, he1, hn1, ha1, rfl⟩ := resolveName_some hres
      rw [huniq e he e1 he1 ha ha1 (hn.trans hn1.symm)]

theorem DeleteRelations_exact_witness :
    ∃ db1, ProjectStore.DeleteRelations sampleEnv homonymDB
        [⟨"X", "Y", "uses"⟩, ⟨"X", "Z", "uses"⟩, ⟨"Y", "X", "uses"⟩] = (.ok 1, db1) ∧
      homonymDB.relations.map RelationRow.active = [true, true] ∧
      db1.relations.map RelationRow.active = [true, false] := by
  obtain ⟨_, _, h, -⟩ := DeleteRelations_exact sampleEnv homonymDB
    [⟨"X", "Y", "uses"⟩, ⟨"X", "Z", "uses"⟩, ⟨"Y", "X", "uses"⟩] (fun _ => rfl) rfl
  have h1 : (ProjectStore.DeleteRelations sampleEnv homonymDB
      [⟨"X", "Y", "uses"⟩, ⟨"X", "Z", "uses"⟩, ⟨"Y", "X", "uses"⟩]).1 = .ok 1 := by decide
  have h2 : (ProjectStore.DeleteRelations sampleEnv homonymDB
      [⟨"X", "Y", "uses"⟩, ⟨"X", "Z", "uses"⟩, ⟨"Y", "X", "uses"⟩]).2.relations.map
      RelationRow.active = [true, false] := by decide
  rw [h] at h1 h2
  rw [h]
  simp only [] at h1 h2
  exact ⟨_, by rw [h1], by decide, h2⟩

/-! ## Adding observations -/

theorem insertObservation_fresh (now id entity_id content : String) (db : DB)
    (hid : id ∉ db.observations.map ObservationRow.id)
    (he : entity_id ∈ db.entities.map EntityRow.id) :
    ∃ row : ObservationRow, ∃ db1 : DB,
      insertObservation now id entity_id content db = .ok ((), db1) ∧
      db1.observations = db.observations ++ [row] ∧
      row.id = id ∧ row.entity_id = entity_id ∧ row.content = content ∧ row.active = true ∧
      db1.entities = db.entities ∧ db1.relations = db.relations ∧ db1.schema = db.schema := by
  have h : insertObservation now id entity_id content db = .ok ((), { db with
      observations := db.observations ++
        [⟨nextRowid (db.observations.map ObservationRow.rowid), id, entity_id, content, now,
          none⟩]
      observations_fts := db.observations_fts ++
        [⟨nextRowid (db.observations.map ObservationRow.rowid), content⟩] }) := by
    unfold insertObservation
    rw [if_neg hid, if_neg (not_not.mpr he)]
    rfl
  exact ⟨_, _, h, rfl, rfl, rfl, rfl, rfl, rfl, rfl, rfl⟩

theorem addObservations_loop_fresh (env : Env) (hf : env.FaultFree) (entityID : String) :
    ∀ (contents : List String) (tx : Tx), tx.db.schema = true →
      entityID ∈ tx.db.entities.map EntityRow.id →
      (∀ k, k < contents.length →
        UUID.String (env.uuid (tx.n + k)) ∉ tx.db.observations.map ObservationRow.id ∧
        ∀ j, j < k → UUID.String (env.uuid (tx.n + j)) ≠ UUID.String (env.uuid (tx.n + k))) →
      ∃ (created : List Observation) (rows : List ObservationRow) (tx1 : Tx),
        ProjectStore.AddObservations.loop env entityID contents tx = (.ok created, tx1) ∧
        tx1.db.observations = tx.db.observations ++ rows ∧
        List.Forall₂ (fun (c : String) (row : ObservationRow) =>
          row.content = c ∧ row.entity_id = entityID ∧ row.active = true) contents rows ∧
        List.Forall₂ (fun (o : Observation) (row : ObservationRow) =>
          o.ID = row.id ∧ o.EntityID = row.entity_id ∧ o.Content = row.content ∧
          row.entity_id = entityID ∧ row.active = true) created rows ∧
        tx1.db.entities = tx.db.entities ∧ tx1.db.relations = tx.db.relations ∧
        tx1.db.schema = true := by
  intro contents
  induction contents with
  | nil =>
    intro tx hs _ _
    exact ⟨[], [], tx, rfl, by simp, List.Forall₂.nil, List.Forall₂.nil, rfl, rfl, hs⟩
  | cons c rest ih =>
    intro tx hs he hfresh
    have h0 := (hfresh 0 (by simp)).1
    rw [Nat.add_zero] at h0
    obtain ⟨row, db1, hins, hobs, hrid, hreid, hrc, hra, hent, hrel, hsch⟩ :=
      insertObservation_fresh (env.now tx.n) (UUID.String (env.uuid tx.n)) entityID c tx.db h0 he
    obtain ⟨created, rows, tx1, hloop, hobs1, hf1, hf2, hent1, hrel1, hs1⟩ :=
      ih ⟨db1, tx.n + 1⟩ (hsch.trans hs) (by rw [hent]; exact he) (by
        intro k hk
        have hk1 := hfresh (k + 1) (by simp only [List.length_cons]; omega)
        have e1 : tx.n + 1 + k = tx.n + (k + 1) := by omega
        refine ⟨?_, ?_⟩
        · show UUID.String (env.uuid (tx.n + 1 + k)) ∉ db1.observations.map ObservationRow.id
          rw [hobs, List.map_append, List.mem_append, e1]
          rintro (h | h)
          · exact hk1.1 h
          · simp only [List.map_cons, List.map_nil, List.mem_singleton, hrid] at h
            exact hk1.2 0 (by omega) h.symm
        · intro j hj
          show UUID.String (env.uuid (tx.n + 1 + j)) ≠ UUID.String (env.uuid (tx.n + 1 + k))
          have e2 : tx.n + 1 + j = tx.n + (j + 1) := by omega
          rw [e1, e2]
          exact hk1.2 (j + 1) (by omega))
    refine ⟨⟨UUID.String (env.uuid tx.n), entityID, c, ""⟩ :: created, row :: rows, tx1, ?_, ?_,
      List.Forall₂.cons ⟨hrc, hreid, hra⟩ hf1,
      List.Forall₂.cons ⟨hrid.symm, hreid.symm, hrc.symm, hreid, hra⟩ hf2,
      hent1.trans hent, hrel1.trans hrel, hs1⟩
    · rw [ProjectStore.AddObservations.loop]
      rw [Tx.run_ok env _ tx (hf _) hs, hins]
      simp only []
      rw [hloop]
    · rw [hobs1]
      show db1.observations ++ rows = _
      rw [hobs, List.append_assoc]
      rfl

theorem addObservations_loop_error (env : Env) (entityID : String) :
    ∀ (contents : List String) (tx tx1 : Tx) (err : GoError),
      ProjectStore.AddObservations.loop env entityID contents tx = (.error err, tx1) →
      ∃ e, err = wrapf "insert observation: %w" [] e := by
  intro contents
  induction contents with
  | nil =>
    intro tx tx1 err h
    exact absurd (congrArg Prod.fst h) (by simp [ProjectStore.AddObservations.loop])
  | cons c rest ih =>
    intro tx tx1 err h
    rw [ProjectStore.AddObservations.loop] at h
    split at h
    · rename_i e _ _
      exact ⟨e, (Except.error.inj (congrArg Prod.fst h)).symm⟩
    · split at h
      · rename_i e tx2 heq
        have := Except.error.inj (congrArg Prod.fst h)
        subst this
        exact ih _ _ _ heq
      · exact absurd (congrArg Prod.fst h) (by simp)

theorem addObservations_stamps_keep (env : Env) :
    ∀ (created : List Observation) (tx : Tx),
      List.Forall₂ (fun (o r : Observation) =>
        r.ID = o.ID ∧ r.EntityID = o.EntityID ∧ r.Content = o.Content) created
        (ProjectStore.AddObservations.stamps env created tx) := by
  intro created
  induction created with
  | nil => intro tx; exact List.Forall₂.nil
  | cons o rest ih =>
    intro tx
    rw [ProjectStore.AddObservations.stamps]
    refine List.Forall₂.cons ?_ (ih _)
    split <;> exact ⟨rfl, rfl, rfl⟩

theorem AddObservations_error_unchanged (env : Env) (db : DB) (entityName : String)
    (contents : List String) (err : GoError)
    (h : (ProjectStore.AddObservations env db entityName contents).1 = .error err) :
    (ProjectStore.AddObservations env db entityName contents).2 = db := by
  unfold ProjectStore.AddObservations at h ⊢
  rcases h1 : Tx.run env (selectEntityID entityName) ⟨db, 0⟩ with ⟨_ | id, tx⟩
  · simp only []
    split <;> rfl
  · rw [h1] at h
    simp only [] at h ⊢
    rcases h2 : Tx.control env tx with ⟨_ | _, tx1⟩
    · rfl
    · rw [h2] at h
      simp only [] at h ⊢
      rcases h3 : ProjectStore.AddObservations.loop env id contents tx1 with ⟨_ | created, tx2⟩
      · rfl
      · rw [h3] at h
        simp only [] at h ⊢
        rcases h4 : Tx.control env tx2 with ⟨_ | _, tx3⟩
        · rfl
        · rw [h4] at h
          exact absurd h (by simp)

theorem forall₂_swap {α β : Type} {R : α → β → Prop} {l₁ : List α} {l₂ : List β}
    (h : List.Forall₂ R l₁ l₂) : List.Forall₂ (fun b a => R a b) l₂ l₁ := by
  induction h with
  | nil => exact List.Forall₂.nil
  | cons hab _ ih => exact List.Forall₂.cons hab ih

theorem forall₂_comp {α β γ : Type} {R : α → β → Prop} {S : β → γ → Prop} {l₁ : List α}
    {l₂ : List β} (h : List.Forall₂ R l₁ l₂) :
    ∀ {l₃ : List γ}, List.Forall₂ S l₂ l₃ →
      List.Forall₂ (fun a c => ∃ b, R a b ∧ S b c) l₁ l₃ := by
  induction h with
  | nil =>
    intro l₃ h2
    cases h2
    exact List.Forall₂.nil
  | cons hab _ ih =>
    intro l₃ h2
    cases h2 with
    | cons hbc hrest => exact List.Forall₂.cons ⟨_, hab, hbc⟩ (ih hrest)

theorem AddObservations_resolved (env : Env) (hf : env.FaultFree) (db : DB)
    (hs : db.schema = true) (entityName : String) (contents : List String) (id : String)
    (hres : resolveName db.entities entityName = some id) :
    ProjectStore.AddObservations env db entityName contents =
      match ProjectStore.AddObservations.loop env id contents ⟨db, 0 + 1 + 1⟩ with
      | (.error err, _) => (.error err, db)
      | (.ok created, tx2) =>
        (.ok (ProjectStore.AddObservations.stamps env created ⟨tx2.db, tx2.n + 1⟩), tx2.db) := by
  unfold ProjectStore.AddObservations
  rw [Tx.run_ok env _ _ (hf _) hs, selectEntityID_eq, hres]
  simp only []
  rw [Tx.control_ok env _ (hf _)]
  simp only []
  rcases h3 : ProjectStore.AddObservations.loop env id contents ⟨db, 0 + 1 + 1⟩ with
    ⟨_ | created, tx2⟩
  · rfl
  · simp only []
    rw [Tx.control_ok env _ (hf _)]

/-- C14. On a provisioned store and with an engine that does not fail:
`AddObservations(entityName, contents)` fails with `entity "…" not found`
exactly when no active entity bears the name, a tombstoned entity of the name
not counting; whenever it fails the store is unchanged; and when the name
resolves and the ids drawn for the new rows are unused and distinct, it
succeeds and returns one observation per content string, in order, each with
that text and owned by the resolved entity, the rows of these observations
being appended, active, to the table: the active observations of the resolved
entity are the previous ones followed by the new ones, and the observations of
every other entity, all entities and all relations are as before. -/
theorem AddObservations_exact (env : Env) (db : DB) (entityName : String)
    (contents : List String) (hf : env.FaultFree) (hs : db.schema = true) :
    ((ProjectStore.AddObservations env db entityName contents).1 =
        .error (errorf "entity %q not found" [entityName]) ↔
      ¬ ∃ e ∈ db.entities, e.name = entityName ∧ e.active = true) ∧
    (∀ err, (ProjectStore.AddObservations env db entityName contents).1 = .error err →
      (ProjectStore.AddObservations env db entityName contents).2 = db) ∧
    ((∃ e ∈ db.entities, e.name = entityName ∧ e.active = true) →
      (∀ k, k < contents.length →
        UUID.String (env.uuid (2 + k)) ∉ db.observations.map ObservationRow.id ∧
        ∀ j, j < k → UUID.String (env.uuid (2 + j)) ≠ UUID.String (env.uuid (2 + k))) →
      ∃ (id : String) (created : List Observation) (rows : List ObservationRow) (db1 : DB),
        ResolvesTo db.entities entityName id ∧
        ProjectStore.AddObservations env db entityName contents = (.ok created, db1) ∧
        List.Forall₂ (fun (c : String) (o : Observation) =>
          o.Content = c ∧ o.EntityID = id) contents created ∧
        List.Forall₂ (fun (o : Observation) (row : ObservationRow) =>
          row.id = o.ID ∧ row.content = o.Content ∧ row.entity_id = id ∧
          row.active = true) created rows ∧
        db1.observations = db.observations ++ rows ∧
        (db1.observations.filter fun o => o.entity_id = id ∧ o.active) =
          (db.observations.filter fun o => o.entity_id = id ∧ o.active) ++ rows ∧
        (∀ other, other ≠ id →
          (db1.observations.filter fun o => o.entity_id = other) =
            db.observations.filter fun o => o.entity_id = other) ∧
        db1.entities = db.entities ∧ db1.relations = db.relations) := by
  refine ⟨?_, AddObservations_error_unchanged env db entityName contents, ?_⟩
  · constructor
    · intro h hyes
      cases hres : resolveName db.entities entityName with
      | none => exact resolveName_none.mp hres hyes
      | some id =>
        rw [AddObservations_resolved env hf db hs entityName contents id hres] at h
        rcases h3 : ProjectStore.AddObservations.loop env id contents ⟨db, 0 + 1 + 1⟩ with
          ⟨err | created, tx2⟩
        · obtain ⟨e, rfl⟩ := addObservations_loop_error env id contents _ _ _ h3
          rw [h3] at h
          simp [wrapf, errorf] at h
        · rw [h3] at h
          exact absurd h (by simp)
    · intro hno
      unfold ProjectStore.AddObservations
      rw [Tx.run_ok env _ _ (hf _) hs, selectEntityID_eq, resolveName_none.mpr hno]
      simp
  · intro hyes hfresh
    cases hres : resolveName db.entities entityName with
    | none => exact absurd hyes (resolveName_none.mp hres)
    | some id =>
      have hrt := resolveName_some hres
      obtain ⟨e, he, -, -, heid⟩ := hrt
      obtain ⟨created, rows, tx1, hloop, hobs, hf1, hf2, hent, hrel, -⟩ :=
        addObservations_loop_fresh env hf id contents ⟨db, 0 + 1 + 1⟩ hs
          (List.mem_map.mpr ⟨e, he, heid⟩) (by simpa using hfresh)
      have hst := addObservations_stamps_keep env created ⟨tx1.db, tx1.n + 1⟩
      have hrows : ∀ row ∈ rows, row.entity_id = id ∧ row.active = true := by
        intro row hrow
        obtain ⟨c, -, h⟩ := forall₂_mem_left (forall₂_swap hf1) hrow
        exact ⟨h.2.1, h.2.2⟩
      refine ⟨id, ProjectStore.AddObservations.stamps env created ⟨tx1.db, tx1.n + 1⟩, rows,
        tx1.db, resolveName_some hres, ?_, ?_, ?_, hobs, ?_, ?_, hent, hrel⟩
      · rw [AddObservations_resolved env hf db hs entityName contents id hres, hloop]
      · refine (forall₂_comp hf1 (forall₂_comp (forall₂_swap hf2) hst)).imp ?_
        rintro c o ⟨row, ⟨h1, h2, -⟩, o1, ⟨-, h4, h5, -⟩, -, h7, h8⟩
        exact ⟨h8.trans (h5.trans h1), h7.trans (h4.trans h2)⟩
      · refine (forall₂_comp (forall₂_swap hst) hf2).imp ?_
        rintro o row ⟨o1, ⟨h1, -, h3⟩, h4, -, h6, h7, h8⟩
        exact ⟨(h1.trans h4).symm, (h3.trans h6).symm, h7, h8⟩
      · rw [hobs, List.filter_append]
        congr 1
        rw [List.filter_eq_self]
        intro row hrow
        simp [hrows row hrow]
      · intro other hother
        rw [hobs, List.filter_append]
        have : (rows.filter fun o => decide (o.entity_id = other)) = [] := by
          rw [List.filter_eq_nil_iff]
          intro row hrow
          simp only [decide_eq_true_eq, (hrows row hrow).1]
          exact fun h => hother h.symm
        rw [this, List.append_nil]

theorem AddObservations_exact_witness :
    ∃ created db1,
      ProjectStore.AddObservations laterEnv sampleDB "X" ["c", "d"] = (.ok created, db1) ∧
      created.map Observation.Content = ["c", "d"] ∧
      db1.observations.map ObservationRow.content = ["a", "b", "c", "d"] := by
  obtain ⟨_, created, _, db1, -, h, -⟩ :=
    (AddObservations_exact laterEnv sampleDB "X" ["c", "d"] (fun _ => rfl) rfl).2.2
      (by decide) (by decide)
  have h1 : (ProjectStore.AddObservations laterEnv sampleDB "X" ["c", "d"]).1.toOption.map
      (fun l => l.map Observation.Content) = some ["c", "d"] := by decide
  have h2 : (ProjectStore.AddObservations laterEnv sampleDB "X" ["c", "d"]).2.observations.map
      ObservationRow.content = ["a", "b", "c", "d"] := by decide
  rw [h] at h1 h2
  exact ⟨created, db1, h, by simpa [Except.toOption] using h1, h2⟩

/-! ## Archiving and restoring, case by case -/

theorem Disk.read_remove_same (disk : Disk) (path : String) :
    (disk.remove path).read path = none := by
  simp only [Disk.remove, Disk.read, Option.map_eq_none', List.find?_eq_none, List.mem_filter]
  rintro f ⟨-, h1⟩ h2
  simp only [decide_eq_true_eq] at h1 h2
  exact h1 h2

theorem Disk.read_remove_ne (disk : Disk) {path other : String} (h : other ≠ path) :
    (disk.remove path).read other = disk.read other := by
  obtain ⟨files⟩ := disk
  simp only [Disk.remove, Disk.read]
  induction files with
  | nil => rfl
  | cons f rest ih =>
    have ih1 : Option.map Prod.snd (List.find? (fun g => decide (g.1 = other))
        (List.filter (fun g => decide (g.1 ≠ path)) rest)) =
        Option.map Prod.snd (List.find? (fun g => decide (g.1 = other)) rest) := ih
    by_cases hf : f.1 = path
    · have hfo : ¬ f.1 = other := fun e => h (e.symm.trans hf)
      rw [List.filter_cons_of_neg (by simpa using hf), List.find?_cons_of_neg _ (by simpa using hfo)]
      exact ih1
    · rw [List.filter_cons_of_pos (by simpa using hf)]
      by_cases hfo : f.1 = other
      · rw [List.find?_cons_of_pos _ (by simpa using hfo),
          List.find?_cons_of_pos _ (by simpa using hfo)]
      · rw [List.find?_cons_of_neg _ (by simpa using hfo),
          List.find?_cons_of_neg _ (by simpa using hfo)]
        exact ih1

theorem relocate_other {m : MetaStore} {q : Project} (hq : q ∈ m.projects) {name : String}
    (hne : q.Name ≠ name) (now status dbPath : String) :
    q ∈ relocateProject now status dbPath name m.projects := by
  unfold relocateProject
  exact List.mem_map.mpr ⟨q, hq, by rw [if_neg hne]⟩

theorem area_path_ne {dataDir : String} {p : Project} (hp : p.Placed) :
    filepath.Join dataDir (filepath.Join "projects" (p.ID ++ ".db")) ≠
      filepath.Join dataDir (filepath.Join "archive" (p.ID ++ ".db")) := by
  obtain ⟨u, hu, -⟩ := hp
  have hf : p.ID ++ ".db" ≠ "" := by rw [hu]; exact (isFileName_uuid_db u).ne_empty
  intro h
  exact projects_ne_archive _ _ hf hf
    (join_left_cancel (join_ne_empty (by decide) hf) (join_ne_empty (by decide) hf) h)

/-- C17. In a registry reached through the registry operations and with an
engine and a file system that do not fail: `ArchiveProject(name)` fails with
`project not found` when no project is registered under the name, and with
`project "…" is already archived` when the project's status is `archived`, the
registry and the disk being unchanged in both cases; for a project that is not
archived and whose store lies in the active area, it returns the project with
its id, name and description, status `archived` and location `archive/<id>.db`,
the file name being the one it had, the registry then answers
`GetProjectByName(name)` with that project and holds every other project as
before, and on disk the store is at the new location, nothing is left at the
old one, and every other path is as before. -/
theorem ArchiveProject_contract (env : Env) (m : MetaStore) (disk : Disk) (name : String)
    (hf : env.FaultFree) (hreach : m.Reachable) :
    (name ∉ m.projects.map Project.Name →
      m.ArchiveProject env disk name = (.error (errorf "project not found" []), m, disk)) ∧
    (∀ p ∈ m.projects, p.Name = name → p.Status = "archived" →
      m.ArchiveProject env disk name =
        (.error (errorf "project %q is already archived" [name]), m, disk)) ∧
    (∀ p ∈ m.projects, p.Name = name → p.Status ≠ "archived" →
      p.DBPath = filepath.Join "projects" (p.ID ++ ".db") →
      ∀ db, disk.read (m.ProjectDBPath p) = some db →
      ∃ a m1 d1, m.ArchiveProject env disk name = (.ok a, m1, d1) ∧
        a.ID = p.ID ∧ a.Name = name ∧ a.Description = p.Description ∧
        a.Status = "archived" ∧
        a.DBPath = filepath.Join "archive" (p.ID ++ ".db") ∧
        filepath.Base a.DBPath = filepath.Base p.DBPath ∧
        m1.GetProjectByName env name = .ok a ∧
        (∀ q ∈ m.projects, q.Name ≠ name → q ∈ m1.projects) ∧
        d1.read (m1.ProjectDBPath a) = some db ∧
        d1.read (m.ProjectDBPath p) = none ∧
        ∀ other, other ≠ m.ProjectDBPath p → other ≠ m1.ProjectDBPath a →
          d1.read other = disk.read other) := by
  have hw := Reachable.wellFormed hreach
  refine ⟨?_, ?_, ?_⟩
  · intro hn
    unfold MetaStore.ArchiveProject
    rw [getProjectByName_none env (hf 0) hn]
  · rintro p hp rfl hs
    unfold MetaStore.ArchiveProject
    rw [getProjectByName_of_mem (hf 0) hw.names hp]
    simp only []
    rw [if_pos hs]
  · rintro p hp rfl hs hloc db hr
    have hA := archiveProject_ok hf hw disk hp hs hr
    have hw1 := archiveProject_wellFormed env m disk p.Name hw
    rw [hA] at hw1
    have hpl := hw.placed p hp
    have hne : m.ProjectDBPath p ≠
        filepath.Join m.dataDir (filepath.Join "archive" (p.ID ++ ".db")) := by
      unfold MetaStore.ProjectDBPath
      rw [hloc]
      exact area_path_ne hpl
    refine ⟨_, _, _, hA, rfl, rfl, rfl, rfl, rfl, ?_, ?_, ?_, Disk.read_write_same _ _ _, ?_, ?_⟩
    · rw [Placed.base hpl]
      exact Placed.base ⟨hpl.choose, hpl.choose_spec.1, Or.inr rfl⟩
    · exact relocate_lookup env (hf 0) hw hp _ _ _
    · intro q hq hqn
      exact relocate_other hq hqn _ _ _
    · rw [Disk.read_write_ne _ _ hne, Disk.read_remove_same]
    · intro other h1 h2
      exact (Disk.read_write_ne _ _ h2).trans (Disk.read_remove_ne _ h1)

theorem ArchiveProject_contract_witness :
    ∃ a m1 d1, sampleRegistry.1.ArchiveProject sampleEnv sampleDisk "alpha" = (.ok a, m1, d1) ∧
      a.Status = "archived" ∧
      a.DBPath = "archive/00000000-0000-0000-0000-000000000000.db" ∧
      d1.read "/data/archive/00000000-0000-0000-0000-000000000000.db" = some sampleDB ∧
      d1.read "/data/projects/00000000-0000-0000-0000-000000000000.db" = none := by
  obtain ⟨a, m1, d1, h, -, -, -, hs, hp, -, -, -, hd, hn, -⟩ :=
    (ArchiveProject_contract sampleEnv sampleRegistry.1 sampleDisk "alpha" (fun _ => rfl)
      (MetaStore.Reachable.createProject _ _ _ _ _
        (MetaStore.Reachable.createProject _ _ _ _ _ (MetaStore.Reachable.opened "/data")))).2.2
      sampleAlpha (by decide) rfl (by decide) rfl sampleDB (by decide)
  refine ⟨a, m1, d1, h, hs, hp, ?_, hn⟩
  have e : m1.ProjectDBPath a = "/data/archive/00000000-0000-0000-0000-000000000000.db" := by
    have h1 : (sampleRegistry.1.ArchiveProject sampleEnv sampleDisk "alpha").2.1.dataDir =
        "/data" := by decide
    rw [h] at h1
    simp only [] at h1
    unfold MetaStore.ProjectDBPath
    rw [hp, h1]
    decide
  rw [← e]
  exact hd

/-- C18. In a registry reached through the registry operations and with an
engine and a file system that do not fail: `RestoreProject(name)` fails with
`project not found` when no project is registered under the name, and with
`project "…" is not archived` when the project's status is not `archived`, the
registry and the disk being unchanged in both cases; for an archived project
whose store lies in the archive area, it returns the project with its id, name
and description, status `active` and location `projects/<id>.db`, the file
name being the one it had, the registry then answers `GetProjectByName(name)`
with that project and holds every other project as before, and on disk the
store is at the new location, nothing is left at the old one, and every other
path is as before. -/
theorem RestoreProject_contract (env : Env) (m : MetaStore) (disk : Disk) (name : String)
    (hf : env.FaultFree) (hreach : m.Reachable) :
    (name ∉ m.projects.map Project.Name →
      m.RestoreProject env disk name = (.error (errorf "project not found" []), m, disk)) ∧
    (∀ p ∈ m.projects, p.Name = name → p.Status ≠ "archived" →
      m.RestoreProject env disk name =
        (.error (errorf "project %q is not archived" [name]), m, disk)) ∧
    (∀ p ∈ m.projects, p.Name = name → p.Status = "archived" →
      p.DBPath = filepath.Join "archive" (p.ID ++ ".db") →
      ∀ db, disk.read (m.ProjectDBPath p) = some db →
      ∃ a m1 d1, m.RestoreProject env disk name = (.ok a, m1, d1) ∧
        a.ID = p.ID ∧ a.Name = name ∧ a.Description = p.Description ∧
        a.Status = "active" ∧
        a.DBPath = filepath.Join "projects" (p.ID ++ ".db") ∧
        filepath.Base a.DBPath = filepath.Base p.DBPath ∧
        m1.GetProjectByName env name = .ok a ∧
        (∀ q ∈ m.projects, q.Name ≠ name → q ∈ m1.projects) ∧
        d1.read (m1.ProjectDBPath a) = some db ∧
        d1.read (m.ProjectDBPath p) = none ∧
        ∀ other, other ≠ m.ProjectDBPath p → other ≠ m1.ProjectDBPath a →
          d1.read other = disk.read other) := by
  have hw := Reachable.wellFormed hreach
  refine ⟨?_, ?_, ?_⟩
  · intro hn
    unfold MetaStore.RestoreProject
    rw [getProjectByName_none env (hf 0) hn]
  · rintro p hp rfl hs
    unfold MetaStore.RestoreProject
    rw [getProjectByName_of_mem (hf 0) hw.names hp]
    simp only []
    rw [if_pos hs]
  · rintro p hp rfl hs hloc db hr
    have hA := restoreProject_ok hf hw disk hp hs hr
    have hw1 := restoreProject_wellFormed env m disk p.Name hw
    rw [hA] at hw1
    have hpl := hw.placed p hp
    have hne : m.ProjectDBPath p ≠
        filepath.Join m.dataDir (filepath.Join "projects" (p.ID ++ ".db")) := by
      unfold MetaStore.ProjectDBPath
      rw [hloc]
      exact (area_path_ne hpl).symm
    refine ⟨_, _, _, hA, rfl, rfl, rfl, rfl, rfl, ?_, ?_, ?_, Disk.read_write_same _ _ _, ?_, ?_⟩
    · rw [Placed.base hpl]
      exact Placed.base ⟨hpl.choose, hpl.choose_spec.1, Or.inl rfl⟩
    · exact relocate_lookup env (hf 0) hw hp _ _ _
    · intro q hq hqn
      exact relocate_other hq hqn _ _ _
    · rw [Disk.read_write_ne _ _ hne, Disk.read_remove_same]
    · intro other h1 h2
      exact (Disk.read_write_ne _ _ h2).trans (Disk.read_remove_ne _ h1)

theorem RestoreProject_contract_witness :
    ∃ a m1 d1,
      archivedRegistry.1.RestoreProject sampleEnv archivedRegistry.2 "alpha" = (.ok a, m1, d1) ∧
      a.Status = "active" ∧
      a.DBPath = "projects/00000000-0000-0000-0000-000000000000.db" ∧
      d1.read "/data/archive/00000000-0000-0000-0000-000000000000.db" = none := by
  obtain ⟨a, m1, d1, h, -, -, -, hs, hp, -, -, -, -, hn, -⟩ :=
    (RestoreProject_contract sampleEnv archivedRegistry.1 archivedRegistry.2 "alpha"
      (fun _ => rfl)
      (MetaStore.Reachable.archiveProject sampleEnv _ sampleDisk "alpha"
        (MetaStore.Reachable.createProject _ _ _ _ _
          (MetaStore.Reachable.createProject _ _ _ _ _
            (MetaStore.Reachable.opened "/data"))))).2.2
      archivedAlpha (by decide) rfl (by decide) rfl sampleDB (by decide)
  exact ⟨a, m1, d1, h, hs, hp, hn⟩

/-! ## Deleting a project -/

theorem join_data_suffix (a : String) {b : String} (hb : b ≠ "") :
    ∃ pre, (filepath.Join a b).data = pre ++ b.data := by
  by_cases ha : a = ""
  · exact ⟨[], by simp [filepath.Join, ha]⟩
  · exact ⟨a.data ++ ['/'], by rw [join_data ha hb]; simp⟩

theorem placed_path_last (dataDir : String) {p : Project} (hp : p.Placed) :
    (filepath.Join dataDir p.DBPath).data.getLast? = some 'b' := by
  obtain ⟨pre, h⟩ := join_data_suffix dataDir (Placed.dbPath_ne_empty hp)
  obtain ⟨u, hu, h1⟩ := hp
  have hf : p.ID ++ ".db" ≠ "" := by rw [hu]; exact (isFileName_uuid_db u).ne_empty
  have h2 : ∃ pre2, p.DBPath.data = pre2 ++ (p.ID ++ ".db").data := by
    rcases h1 with h1 | h1 <;> rw [h1] <;> exact join_data_suffix _ hf
  obtain ⟨pre2, h2⟩ := h2
  rw [h, h2, String.data_append]
  have : (".db" : String).data = ['.', 'd', 'b'] := rfl
  rw [this]
  simp [List.getLast?_append]

theorem placed_path_ne_suffixed (m : MetaStore) {p : Project} (hp : p.Placed) (x : String) :
    m.ProjectDBPath p ≠ x ++ "-wal" ∧ m.ProjectDBPath p ≠ x ++ "-shm" := by
  have h : (m.ProjectDBPath p).data.getLast? = some 'b' := placed_path_last m.dataDir hp
  constructor
  · intro e
    rw [e, String.data_append] at h
    have : ("-wal" : String).data = ['-', 'w', 'a', 'l'] := rfl
    rw [this] at h
    simp [List.getLast?_append] at h
  · intro e
    rw [e, String.data_append] at h
    have : ("-shm" : String).data = ['-', 's', 'h', 'm'] := rfl
    rw [this] at h
    simp [List.getLast?_append] at h

theorem osRemove_ok (env : Env) (hf : env.fault 0 = none) (disk : Disk) (path : String) :
    osRemove env disk path = disk.remove path := by
  simp [osRemove, hf]

theorem deleteProject_ok {env : Env} (hf : env.FaultFree) {m : MetaStore} (hw : m.WellFormed)
    (disk : Disk) {p : Project} (hp : p ∈ m.projects) :
    m.DeleteProject env disk p.Name =
      (.ok (), { m with projects := m.projects.filter fun q => q.Name ≠ p.Name },
        ((disk.remove (m.ProjectDBPath p)).remove (m.ProjectDBPath p ++ "-wal")).remove
          (m.ProjectDBPath p ++ "-shm")) := by
  unfold MetaStore.DeleteProject
  rw [getProjectByName_of_mem (hf 0) hw.names hp]
  simp only [hf 4]
  rw [osRemove_ok (env.shift 1) (hf _), osRemove_ok (env.shift 2) (hf _),
    osRemove_ok (env.shift 3) (hf _)]
  rfl

/-- C19. In a registry reached through the registry operations and with an
engine and a file system that do not fail: for every registered project,
whatever its status and whether or not its store file is on disk,
`DeleteProject(name)` succeeds; afterwards no file is at the store's path,
`GetProjectByName(name)` fails with `project not found`, `ListProjects("all")`
holds no project of that name and holds every other project, and the row and
the store file of every other project are as before.  `DeleteProject` of a name
that is not registered fails with `project not found` and changes neither the
registry nor the disk. -/
theorem DeleteProject_contract (env : Env) (m : MetaStore) (disk : Disk) (name : String)
    (hf : env.FaultFree) (hreach : m.Reachable) :
    (∀ p ∈ m.projects, p.Name = name →
      ∃ m1 d1, m.DeleteProject env disk name = (.ok (), m1, d1) ∧
        d1.read (m.ProjectDBPath p) = none ∧
        m1.GetProjectByName env name = .error (errorf "project not found" []) ∧
        (∃ l, m1.ListProjects env "all" = .ok l ∧ name ∉ l.map Project.Name ∧
          ∀ q ∈ m.projects, q.Name ≠ name → q ∈ l) ∧
        (∀ q, q ∈ m1.projects ↔ q ∈ m.projects ∧ q.Name ≠ name) ∧
        ∀ q ∈ m.projects, q.Name ≠ name →
          d1.read (m.ProjectDBPath q) = disk.read (m.ProjectDBPath q)) ∧
    (name ∉ m.projects.map Project.Name →
      m.DeleteProject env disk name = (.error (errorf "project not found" []), m, disk)) := by
  have hw := Reachable.wellFormed hreach
  refine ⟨?_, ?_⟩
  · rintro p hp rfl
    have hmem : ∀ q, q ∈ (m.projects.filter fun q => q.Name ≠ p.Name) ↔
        q ∈ m.projects ∧ q.Name ≠ p.Name := by
      intro q
      simp [List.mem_filter]
    have hn : p.Name ∉ (m.projects.filter fun q => q.Name ≠ p.Name).map Project.Name := by
      intro h
      obtain ⟨q, hq, hqn⟩ := List.mem_map.mp h
      exact ((hmem q).mp hq).2 hqn
    refine ⟨_, _, deleteProject_ok hf hw disk hp, ?_, getProjectByName_none env (hf 0) hn, ?_,
      hmem, ?_⟩
    · have h1 := (placed_path_ne_suffixed m (hw.placed p hp) (m.ProjectDBPath p)).1
      have h2 := (placed_path_ne_suffixed m (hw.placed p hp) (m.ProjectDBPath p)).2
      rw [Disk.read_remove_ne _ h2, Disk.read_remove_ne _ h1]
      exact Disk.read_remove_same _ _
    · refine ⟨_, by simp only [MetaStore.ListProjects, hf 0, if_true]; rfl, ?_, ?_⟩
      · intro h
        obtain ⟨q, hq, hqn⟩ := List.mem_map.mp h
        exact hn (List.mem_map.mpr ⟨q, (List.perm_insertionSort _ _).subset hq, hqn⟩)
      · intro q hq hqn
        exact (List.perm_insertionSort _ _).symm.subset ((hmem q).mpr ⟨hq, hqn⟩)
    · intro q hq hqn
      have h0 : m.ProjectDBPath q ≠ m.ProjectDBPath p := WellFormed.path_ne hw hq hp hqn
      have h1 := (placed_path_ne_suffixed m (hw.placed q hq) (m.ProjectDBPath p)).1
      have h2 := (placed_path_ne_suffixed m (hw.placed q hq) (m.ProjectDBPath p)).2
      rw [Disk.read_remove_ne _ h2, Disk.read_remove_ne _ h1, Disk.read_remove_ne _ h0]
  · intro hn
    unfold MetaStore.DeleteProject
    rw [getProjectByName_none env (hf 0) hn]

theorem DeleteProject_contract_witness :
    ∃ m1 d1, archivedRegistry.1.DeleteProject sampleEnv archivedRegistry.2 "alpha" =
        (.ok (), m1, d1) ∧
      m1.projects.map Project.Name = ["beta"] ∧
      d1.read "/data/archive/00000000-0000-0000-0000-000000000000.db" = none := by
  obtain ⟨m1, d1, h, hd, -⟩ :=
    (DeleteProject_contract sampleEnv archivedRegistry.1 archivedRegistry.2 "alpha"
      (fun _ => rfl)
      (MetaStore.Reachable.archiveProject sampleEnv _ sampleDisk "alpha"
        (MetaStore.Reachable.createProject _ _ _ _ _
          (MetaStore.Reachable.createProject _ _ _ _ _
            (MetaStore.Reachable.opened "/data"))))).1 archivedAlpha (by decide) rfl
  have h1 : (archivedRegistry.1.DeleteProject sampleEnv archivedRegistry.2 "alpha").2.1.projects.map
      Project.Name = ["beta"] := by decide
  rw [h] at h1
  exact ⟨m1, d1, h, h1, hd⟩

/-! ## Creating a project -/

theorem initProjectDB_ok_inv {env : Env} {disk disk1 : Disk} {dbPath : String} {u : Unit}
    (h : initProjectDB env disk dbPath = (.ok u, disk1)) :
    ∃ db, disk1.read dbPath = some db ∧ db.schema = true := by
  unfold initProjectDB at h
  cases h0 : env.fault 0 with
  | some e => rw [h0] at h; exact absurd (congrArg Prod.fst h) (by simp)
  | none =>
    cases h1 : env.fault 1 with
    | some e => rw [h0, h1] at h; exact absurd (congrArg Prod.fst h) (by simp)
    | none =>
      cases h2 : env.fault 2 with
      | some e => rw [h0, h1, h2] at h; exact absurd (congrArg Prod.fst h) (by simp)
      | none =>
        rw [h0, h1, h2] at h
        simp only [] at h
        cases hr : disk.read dbPath with
        | none =>
          rw [hr] at h
          have := congrArg Prod.snd h
          simp only [] at this
          rw [← this]
          exact ⟨_, Disk.read_write_same _ _ _, rfl⟩
        | some db =>
          rw [hr] at h
          have := congrArg Prod.snd h
          simp only [] at this
          rw [← this]
          exact ⟨_, Disk.read_write_same _ _ _, rfl⟩

theorem initProjectDB_ok (env : Env) (hf : env.FaultFree) (disk : Disk) (dbPath : String) :
    ∃ disk1, initProjectDB env disk dbPath = (.ok (), disk1) := by
  unfold initProjectDB
  rw [hf 0, hf 1, hf 2]
  simp only []
  cases disk.read dbPath with
  | none => exact ⟨_, rfl⟩
  | some db => exact ⟨_, rfl⟩

theorem lookup_new_by_name (env : Env) (hf : env.fault 0 = none) (rows : List Project)
    (new : Project) (hn : new.Name ∉ rows.map Project.Name) (dataDir : String) :
    MetaStore.GetProjectByName env ⟨rows ++ [new], dataDir⟩ new.Name = .ok new := by
  unfold MetaStore.GetProjectByName scanProject
  rw [hf]
  have : ((rows ++ [new]).filter fun p => decide (p.Name = new.Name)) = [new] := by
    rw [List.filter_append]
    have h1 : (rows.filter fun p => decide (p.Name = new.Name)) = [] := by
      rw [List.filter_eq_nil_iff]
      intro p hp h
      exact hn (List.mem_map.mpr ⟨p, hp, by simpa using h⟩)
    rw [h1]
    simp
  simp only [this]

theorem lookup_new_by_id (env : Env) (hf : env.fault 0 = none) (rows : List Project)
    (new : Project) (hn : new.ID ∉ rows.map Project.ID) (dataDir : String) :
    MetaStore.GetProjectByID env ⟨rows ++ [new], dataDir⟩ new.ID = .ok new := by
  unfold MetaStore.GetProjectByID scanProject
  rw [hf]
  have : ((rows ++ [new]).filter fun p => decide (p.ID = new.ID)) = [new] := by
    rw [List.filter_append]
    have h1 : (rows.filter fun p => decide (p.ID = new.ID)) = [] := by
      rw [List.filter_eq_nil_iff]
      intro p hp h
      exact hn (List.mem_map.mpr ⟨p, hp, by simpa using h⟩)
    rw [h1]
    simp
  simp only [this]

theorem createProject_ok_inv {env : Env} {m m1 : MetaStore} {disk d1 : Disk}
    {name description : String} {proj : Project}
    (h : m.CreateProject env disk name description = (.ok proj, m1, d1)) :
    env.fault 0 = none ∧ UUID.String (env.uuid 0) ∉ m.projects.map Project.ID ∧
    name ∉ m.projects.map Project.Name ∧
    m1 = ⟨m.projects ++ [⟨UUID.String (env.uuid 0), name, description,
      filepath.Join "projects" (UUID.String (env.uuid 0) ++ ".db"), "active",
      env.now 0, env.now 0⟩], m.dataDir⟩ ∧
    (∃ u, initProjectDB (env.shift 1) disk (filepath.Join m.dataDir
      (filepath.Join "projects" (UUID.String (env.uuid 0) ++ ".db"))) = (.ok u, d1)) ∧
    m1.GetProjectByName (env.shift 4) name = .ok proj := by
  unfold MetaStore.CreateProject at h
  simp only [] at h
  cases hf : env.fault 0 with
  | some err => rw [hf] at h; exact absurd (congrArg Prod.fst h) (by simp)
  | none =>
    rw [hf] at h
    simp only [] at h
    unfold insertProject at h
    by_cases h1 : UUID.String (env.uuid 0) ∈ m.projects.map Project.ID
    · rw [if_pos h1] at h; exact absurd (congrArg Prod.fst h) (by simp)
    · rw [if_neg h1] at h
      by_cases h2 : name ∈ m.projects.map Project.Name
      · rw [if_pos h2] at h; exact absurd (congrArg Prod.fst h) (by simp)
      · rw [if_neg h2] at h
        simp only [] at h
        cases hi : initProjectDB (env.shift 1) disk
            (filepath.Join m.dataDir (filepath.Join "projects" (UUID.String (env.uuid 0) ++ ".db")))
          with
        | mk r disk1 =>
          rw [hi] at h
          cases r with
          | error err => exact absurd (congrArg Prod.fst h) (by simp)
          | ok u =>
            simp only [Prod.mk.injEq] at h
            obtain ⟨hp, hm, hd⟩ := h
            subst hm hd
            exact ⟨rfl, h1, h2, rfl, ⟨u, rfl⟩, hp⟩

/-- C20. For a name that is not registered: whenever `CreateProject(name,
description)` succeeds, the project it returns has that name and description,
status `active`, a non-empty id that no registered project had, and the
location `projects/<id>.db`, at which a provisioned store then exists; and
right afterwards `GetProjectByName(name)` and `GetProjectByID(id)`, when the
engine answers, both return that same project.  It does succeed when the
engine and the file system do not fail and the id drawn is not in use. -/
theorem CreateProject_success (env : Env) (m : MetaStore) (disk : Disk)
    (name description : String) (hn : name ∉ m.projects.map Project.Name) :
    (∀ proj m1 d1, m.CreateProject env disk name description = (.ok proj, m1, d1) →
      proj.Name = name ∧ proj.Description = description ∧ proj.Status = "active" ∧
      proj.ID ≠ "" ∧ proj.ID ∉ m.projects.map Project.ID ∧
      proj.DBPath = filepath.Join "projects" (proj.ID ++ ".db") ∧
      (∃ db, d1.read (m1.ProjectDBPath proj) = some db ∧ db.schema = true) ∧
      ∀ env2 : Env, env2.fault 0 = none →
        m1.GetProjectByName env2 name = .ok proj ∧ m1.GetProjectByID env2 proj.ID = .ok proj) ∧
    (env.FaultFree → UUID.String (env.uuid 0) ∉ m.projects.map Project.ID →
      ∃ proj m1 d1, m.CreateProject env disk name description = (.ok proj, m1, d1)) := by
  constructor
  · intro proj m1 d1 h
    obtain ⟨-, hid, -, rfl, ⟨u, hi⟩, hg⟩ := createProject_ok_inv h
    obtain ⟨-, hmem, hname⟩ := getProjectByName_ok hg
    have hproj : proj = ⟨UUID.String (env.uuid 0), name, description,
        filepath.Join "projects" (UUID.String (env.uuid 0) ++ ".db"), "active",
        env.now 0, env.now 0⟩ := by
      rcases List.mem_append.mp hmem with hp | hp
      · exact absurd (List.mem_map.mpr ⟨proj, hp, hname⟩) hn
      · exact List.mem_singleton.mp hp
    subst hproj
    refine ⟨rfl, rfl, rfl, UUID.String_ne_empty _, hid, rfl, initProjectDB_ok_inv hi, ?_⟩
    intro env2 h2
    exact ⟨lookup_new_by_name env2 h2 m.projects _ hn m.dataDir,
      lookup_new_by_id env2 h2 m.projects _ hid m.dataDir⟩
  · intro hf hid
    obtain ⟨d1, hi⟩ := initProjectDB_ok (env.shift 1) (fun _ => hf _) disk
      (filepath.Join m.dataDir (filepath.Join "projects" (UUID.String (env.uuid 0) ++ ".db")))
    refine ⟨⟨UUID.String (env.uuid 0), name, description,
        filepath.Join "projects" (UUID.String (env.uuid 0) ++ ".db"), "active",
        env.now 0, env.now 0⟩,
      ⟨m.projects ++ [⟨UUID.String (env.uuid 0), name, description,
        filepath.Join "projects" (UUID.String (env.uuid 0) ++ ".db"), "active",
        env.now 0, env.now 0⟩], m.dataDir⟩, d1, ?_⟩
    unfold MetaStore.CreateProject
    simp only [hf 0]
    unfold insertProject
    rw [if_neg hid, if_neg hn]
    simp only []
    rw [hi]
    simp only []
    rw [lookup_new_by_name (env.shift 4) (hf _) m.projects
      ⟨UUID.String (env.uuid 0), name, description,
        filepath.Join "projects" (UUID.String (env.uuid 0) ++ ".db"), "active",
        env.now 0, env.now 0⟩ hn m.dataDir]

theorem CreateProject_success_witness :
    ∃ proj m1 d1, sampleRegistry.1.CreateProject laterEnv sampleRegistry.2 "gamma" "third" =
        (.ok proj, m1, d1) ∧
      proj.Name = "gamma" ∧ proj.Status = "active" ∧
      proj.DBPath = filepath.Join "projects" (proj.ID ++ ".db") ∧
      m1.GetProjectByID sampleEnv proj.ID = .ok proj := by
  have hc := CreateProject_success laterEnv sampleRegistry.1 sampleRegistry.2 "gamma" "third"
    (by decide)
  obtain ⟨proj, m1, d1, h⟩ := hc.2 (fun _ => rfl) (by decide)
  obtain ⟨h1, -, h3, -, -, h6, -, h8⟩ := hc.1 proj m1 d1 h
  exact ⟨proj, m1, d1, h, h1, h3, h6, (h8 sampleEnv rfl).2⟩

/-! ## Listing projects -/

/-- C24. When the query does not fail, `ListProjects(filter)` returns the
registered projects whose status is the filter, all of them when the filter is
`all`: each row exactly once, nothing else, in ascending order of name. -/
theorem ListProjects_exact (env : Env) (m : MetaStore) (filter : String)
    (hf : env.fault 0 = none) :
    ∃ l, m.ListProjects env filter = .ok l ∧
      l.Perm (if filter = "all" then m.projects
        else m.projects.filter fun p => p.Status = filter) ∧
      l.Sorted (fun a b => textLe a.Name b.Name = true) ∧
      (∀ p, p ∈ l ↔ p ∈ m.projects ∧ (filter = "all" ∨ p.Status = filter)) := by
  refine ⟨_, by simp only [MetaStore.ListProjects, hf], List.perm_insertionSort _ _,
    sorted_insertionSort_by Project.Name _, ?_⟩
  intro p
  rw [(List.perm_insertionSort _ _).mem_iff]
  by_cases h : filter = "all"
  · simp [h]
  · simp [h, List.mem_filter]

theorem ListProjects_exact_witness :
    ∃ l, archivedRegistry.1.ListProjects sampleEnv "active" = .ok l ∧
      l.map Project.Name = ["beta"] := by
  obtain ⟨l, h, -⟩ := ListProjects_exact sampleEnv archivedRegistry.1 "active" rfl
  have h1 : (archivedRegistry.1.ListProjects sampleEnv "active").toOption.map
      (fun l => l.map Project.Name) = some ["beta"] := by decide
  rw [h] at h1
  exact ⟨l, h, by simpa [Except.toOption] using h1⟩

/-! ## Failed provisioning -/

theorem filter_id_append_new (rows : List Project) (new : Project)
    (hid : new.ID ∉ rows.map Project.ID) :
    ((rows ++ [new]).filter fun p => p.ID ≠ new.ID) = rows := by
  rw [List.filter_append]
  have h1 : (rows.filter fun p => decide (p.ID ≠ new.ID)) = rows := by
    rw [List.filter_eq_self]
    intro p hp
    simp only [ne_eq, decide_eq_true_eq]
    exact fun h => hid (List.mem_map.mpr ⟨p, hp, h⟩)
  rw [h1]
  simp

theorem createProject_of_insert_error (env : Env) (m : MetaStore) (disk : Disk)
    (name description : String)
    (h : env.fault 0 ≠ none ∨ UUID.String (env.uuid 0) ∈ m.projects.map Project.ID ∨
      name ∈ m.projects.map Project.Name) :
    ∃ err, m.CreateProject env disk name description = (.error err, m, disk) := by
  unfold MetaStore.CreateProject
  simp only []
  cases h0 : env.fault 0 with
  | some err => exact ⟨_, rfl⟩
  | none =>
    simp only []
    unfold insertProject
    by_cases h1 : UUID.String (env.uuid 0) ∈ m.projects.map Project.ID
    · rw [if_pos h1]
      exact ⟨_, rfl⟩
    · rw [if_neg h1]
      by_cases h2 : name ∈ m.projects.map Project.Name
      · rw [if_pos h2]
        exact ⟨_, rfl⟩
      · rcases h with h | h | h
        · exact absurd h0 h
        · exact absurd h h1
        · exact absurd h h2

theorem createProject_of_provision_error (env : Env) (m : MetaStore) (disk d1 : Disk)
    (name description : String) (e : GoError) (h0 : env.fault 0 = none)
    (h1 : UUID.String (env.uuid 0) ∉ m.projects.map Project.ID)
    (h2 : name ∉ m.projects.map Project.Name)
    (hi : initProjectDB (env.shift 1) disk (filepath.Join m.dataDir
      (filepath.Join "projects" (UUID.String (env.uuid 0) ++ ".db"))) = (.error e, d1)) :
    m.CreateProject env disk name description =
      (.error (wrapf "init project db: %w" [] e),
        (match env.fault 4 with
          | some _ => ⟨m.projects ++ [⟨UUID.String (env.uuid 0), name, description,
              filepath.Join "projects" (UUID.String (env.uuid 0) ++ ".db"), "active",
              env.now 0, env.now 0⟩], m.dataDir⟩
          | none => m), d1) := by
  unfold MetaStore.CreateProject
  simp only [h0]
  unfold insertProject
  rw [if_neg h1, if_neg h2]
  simp only [hi]
  cases env.fault 4 with
  | some e4 => rfl
  | none =>
    simp only []
    rw [filter_id_append_new m.projects
      ⟨UUID.String (env.uuid 0), name, description,
        filepath.Join "projects" (UUID.String (env.uuid 0) ++ ".db"), "active",
        env.now 0, env.now 0⟩ h1]

/-- C21 (as the code has it). `CreateProject` inserts the registry row first
and provisions the store afterwards.  Whenever provisioning fails the call
fails; the registry then holds the same rows as before when the DELETE that
undoes the INSERT is executed, and, the INSERT having succeeded, it holds the
rows of before followed by the row of the new project when that DELETE
fails. -/
theorem CreateProject_provisioning_failure (env : Env) (m : MetaStore) (disk : Disk)
    (name description : String) (e : GoError)
    (hprov : (initProjectDB (env.shift 1) disk (filepath.Join m.dataDir
      (filepath.Join "projects" (UUID.String (env.uuid 0) ++ ".db")))).1 = .error e) :
    (∃ err, (m.CreateProject env disk name description).1 = .error err) ∧
    (env.fault 4 = none → (m.CreateProject env disk name description).2.1 = m) ∧
    (env.fault 0 = none → UUID.String (env.uuid 0) ∉ m.projects.map Project.ID →
      name ∉ m.projects.map Project.Name →
      (m.CreateProject env disk name description).1 =
        .error (wrapf "init project db: %w" [] e) ∧
      (env.fault 4 ≠ none →
        (m.CreateProject env disk name description).2.1.projects =
          m.projects ++ [⟨UUID.String (env.uuid 0), name, description,
            filepath.Join "projects" (UUID.String (env.uuid 0) ++ ".db"), "active",
            env.now 0, env.now 0⟩])) := by
  rcases hi : initProjectDB (env.shift 1) disk (filepath.Join m.dataDir
      (filepath.Join "projects" (UUID.String (env.uuid 0) ++ ".db"))) with ⟨r, d1⟩
  rw [hi] at hprov
  simp only [] at hprov
  subst hprov
  have hgood : env.fault 0 = none → UUID.String (env.uuid 0) ∉ m.projects.map Project.ID →
      name ∉ m.projects.map Project.Name → _ :=
    fun h0 h1 h2 => createProject_of_provision_error env m disk d1 name description e h0 h1 h2 hi
  by_cases hins : env.fault 0 ≠ none ∨ UUID.String (env.uuid 0) ∈ m.projects.map Project.ID ∨
      name ∈ m.projects.map Project.Name
  · obtain ⟨err, h⟩ := createProject_of_insert_error env m disk name description hins
    refine ⟨⟨err, by rw [h]⟩, fun _ => by rw [h], ?_⟩
    intro h0 h1 h2
    rcases hins with h | h | h
    · exact absurd h0 h
    · exact absurd h h1
    · exact absurd h h2
  · simp only [not_or, not_not] at hins
    obtain ⟨h0, h1, h2⟩ := hins
    have h := hgood h0 h1 h2
    refine ⟨⟨_, by rw [h]⟩, ?_, ?_⟩
    · intro h4
      rw [h, h4]
    · intro _ _ _
      refine ⟨by rw [h], ?_⟩
      intro h4
      rw [h]
      cases h4' : env.fault 4 with
      | none => exact absurd h4' h4
      | some e4 => rfl

theorem CreateProject_provisioning_failure_witness :
    (∃ err, (sampleRegistry.1.CreateProject provisionFailEnv sampleRegistry.2 "gamma"
      "third").1 = .error err) ∧
    (sampleRegistry.1.CreateProject provisionFailEnv sampleRegistry.2 "gamma" "third").2.1 =
      sampleRegistry.1 :=
  ⟨(CreateProject_provisioning_failure provisionFailEnv sampleRegistry.1 sampleRegistry.2
      "gamma" "third" errNoFile rfl).1,
    (CreateProject_provisioning_failure provisionFailEnv sampleRegistry.1 sampleRegistry.2
      "gamma" "third" errNoFile rfl).2.1 rfl⟩

/-- C21, counterexample. On the sample registry, when provisioning fails and
the DELETE that undoes the INSERT fails too, `CreateProject("gamma")` fails and
the registry holds a row for `gamma` that it did not hold before: the row was
inserted before the store was provisioned. -/
theorem CreateProject_leaves_row_behind :
    (∃ e, (initProjectDB (rollbackFailEnv.shift 1) sampleRegistry.2
      (filepath.Join sampleRegistry.1.dataDir (filepath.Join "projects"
        (UUID.String (rollbackFailEnv.uuid 0) ++ ".db")))).1 = .error e) ∧
    (∃ err, (sampleRegistry.1.CreateProject rollbackFailEnv sampleRegistry.2 "gamma"
      "third").1 = .error err) ∧
    "gamma" ∉ sampleRegistry.1.projects.map Project.Name ∧
    "gamma" ∈ (sampleRegistry.1.CreateProject rollbackFailEnv sampleRegistry.2 "gamma"
      "third").2.1.projects.map Project.Name ∧
    (sampleRegistry.1.CreateProject rollbackFailEnv sampleRegistry.2 "gamma" "third").2.1 ≠
      sampleRegistry.1 := by
  refine ⟨⟨_, rfl⟩, ⟨_, rfl⟩, by decide, by decide, by decide⟩

/-! ## Placement by status -/

theorem Lifecycle.reachable {m : MetaStore} (h : m.Lifecycle) : m.Reachable := by
  induction h with
  | opened dataDir => exact MetaStore.Reachable.opened dataDir
  | createProject env m disk name description _ ih =>
    exact MetaStore.Reachable.createProject env m disk name description ih
  | archiveProject env m disk name _ ih => exact MetaStore.Reachable.archiveProject env m disk name ih
  | restoreProject env m disk name _ ih => exact MetaStore.Reachable.restoreProject env m disk name ih
  | deleteProject env m disk name _ ih => exact MetaStore.Reachable.deleteProject env m disk name ih

theorem createProject_sited (env : Env) (m : MetaStore) (disk : Disk)
    (name description : String) (h : ∀ p ∈ m.projects, p.Sited) :
    ∀ p ∈ (m.CreateProject env disk name description).2.1.projects, p.Sited := by
  unfold MetaStore.CreateProject
  simp only []
  cases hf : env.fault 0 with
  | some err => simpa using h
  | none =>
    simp only []
    unfold insertProject
    by_cases h1 : UUID.String (env.uuid 0) ∈ m.projects.map Project.ID
    · rw [if_pos h1]; simpa using h
    · rw [if_neg h1]
      by_cases h2 : name ∈ m.projects.map Project.Name
      · rw [if_pos h2]; simpa using h
      · rw [if_neg h2]
        simp only []
        have hnew : ∀ p ∈ m.projects ++
            [(⟨UUID.String (env.uuid 0), name, description,
              filepath.Join "projects" (UUID.String (env.uuid 0) ++ ".db"), "active",
              env.now 0, env.now 0⟩ : Project)], p.Sited := by
          intro p hp
          rcases List.mem_append.mp hp with hp | hp
          · exact h p hp
          · rw [List.mem_singleton.mp hp]
            exact Or.inl ⟨rfl, rfl⟩
        cases hi : initProjectDB (env.shift 1) disk
            (filepath.Join m.dataDir (filepath.Join "projects" (UUID.String (env.uuid 0) ++ ".db")))
          with
        | mk r disk1 =>
          cases r with
          | error err =>
            simp only []
            cases env.fault 4 with
            | some e => exact hnew
            | none => exact fun p hp => hnew p (List.mem_of_mem_filter hp)
          | ok u => exact hnew

theorem relocate_sited {m : MetaStore} (hw : m.WellFormed) (h : ∀ p ∈ m.projects, p.Sited)
    {env : Env} {name : String} {proj : Project}
    (hg : m.GetProjectByName env name = .ok proj) (now status area : String)
    (ha : (status = "active" ∧ area = "projects") ∨ (status = "archived" ∧ area = "archive")) :
    ∀ p ∈ relocateProject now status (filepath.Join area (filepath.Base proj.DBPath)) name
      m.projects, p.Sited := by
  obtain ⟨-, hmem, hname⟩ := getProjectByName_ok hg
  intro p hp
  unfold relocateProject at hp
  obtain ⟨q, hq, rfl⟩ := List.mem_map.mp hp
  split
  · rename_i hqn
    have hpq : q = proj := List.inj_on_of_nodup_map hw.names hq hmem (hqn.trans hname.symm)
    subst hpq
    rw [Placed.base (hw.placed q hq)]
    rcases ha with ⟨rfl, rfl⟩ | ⟨rfl, rfl⟩
    · exact Or.inl ⟨rfl, rfl⟩
    · exact Or.inr ⟨rfl, rfl⟩
  · exact h q hq

theorem archiveProject_sited (env : Env) (m : MetaStore) (disk : Disk) (name : String)
    (hw : m.WellFormed) (h : ∀ p ∈ m.projects, p.Sited) :
    ∀ p ∈ (m.ArchiveProject env disk name).2.1.projects, p.Sited := by
  unfold MetaStore.ArchiveProject
  cases hg : m.GetProjectByName env name with
  | error err => exact h
  | ok proj =>
    simp only []
    split
    · exact h
    · cases osRename (env.shift 1) disk (filepath.Join m.dataDir proj.DBPath)
          (filepath.Join m.dataDir (filepath.Join "archive" (filepath.Base proj.DBPath))) with
      | mk r disk1 =>
        cases r with
        | error err => exact h
        | ok u =>
          simp only []
          cases env.fault 2 with
          | some err => exact h
          | none => exact relocate_sited hw h hg _ _ "archive" (Or.inr ⟨rfl, rfl⟩)

theorem restoreProject_sited (env : Env) (m : MetaStore) (disk : Disk) (name : String)
    (hw : m.WellFormed) (h : ∀ p ∈ m.projects, p.Sited) :
    ∀ p ∈ (m.RestoreProject env disk name).2.1.projects, p.Sited := by
  unfold MetaStore.RestoreProject
  cases hg : m.GetProjectByName env name with
  | error err => exact h
  | ok proj =>
    simp only []
    split
    · exact h
    · cases osRename (env.shift 1) disk (filepath.Join m.dataDir proj.DBPath)
          (filepath.Join m.dataDir (filepath.Join "projects" (filepath.Base proj.DBPath))) with
      | mk r disk1 =>
        cases r with
        | error err => exact h
        | ok u =>
          simp only []
          cases env.fault 2 with
          | some err => exact h
          | none => exact relocate_sited hw h hg _ _ "projects" (Or.inl ⟨rfl, rfl⟩)

theorem deleteProject_sited (env : Env) (m : MetaStore) (disk : Disk) (name : String)
    (h : ∀ p ∈ m.projects, p.Sited) :
    ∀ p ∈ (m.DeleteProject env disk name).2.1.projects, p.Sited := by
  unfold MetaStore.DeleteProject
  cases hg : m.GetProjectByName env name with
  | error err => exact h
  | ok proj =>
    simp only []
    cases env.fault 4 with
    | some err => exact h
    | none => exact fun p hp => h p (List.mem_of_mem_filter hp)

/-- C28 (as the code has it). In every registry state reachable through
`CreateProject`, `ArchiveProject`, `RestoreProject` and `DeleteProject`, each
project's location is the one its status selects: every project has status
`active` and location `projects/<id>.db`, in the active area, or status
`archived` and location `archive/<id>.db`, in the archive area. -/
theorem location_selected_by_status (m : MetaStore) (h : m.Lifecycle) :
    ∀ p ∈ m.projects,
      (p.Status = "active" ∧ p.DBPath = filepath.Join "projects" (p.ID ++ ".db")) ∨
      (p.Status = "archived" ∧ p.DBPath = filepath.Join "archive" (p.ID ++ ".db")) := by
  have key : ∀ p ∈ m.projects, p.Sited := by
    induction h with
    | opened dataDir => exact fun p hp => absurd hp (List.not_mem_nil _)
    | createProject env m disk name description _ ih =>
      exact createProject_sited env m disk name description ih
    | archiveProject env m disk name hm ih =>
      exact archiveProject_sited env m disk name (Reachable.wellFormed (Lifecycle.reachable hm)) ih
    | restoreProject env m disk name hm ih =>
      exact restoreProject_sited env m disk name (Reachable.wellFormed (Lifecycle.reachable hm)) ih
    | deleteProject env m disk name _ ih => exact deleteProject_sited env m disk name ih
  exact key

theorem location_selected_by_status_witness :
    archivedRegistry.1.Lifecycle ∧ archivedAlpha ∈ archivedRegistry.1.projects ∧
    ((archivedAlpha.Status = "active" ∧
        archivedAlpha.DBPath = filepath.Join "projects" (archivedAlpha.ID ++ ".db")) ∨
      (archivedAlpha.Status = "archived" ∧
        archivedAlpha.DBPath = filepath.Join "archive" (archivedAlpha.ID ++ ".db"))) :=
  have hl : archivedRegistry.1.Lifecycle :=
    MetaStore.Lifecycle.archiveProject sampleEnv _ sampleDisk "alpha"
      (MetaStore.Lifecycle.createProject _ _ _ _ _
        (MetaStore.Lifecycle.createProject _ _ _ _ _ (MetaStore.Lifecycle.opened "/data")))
  ⟨hl, by decide, location_selected_by_status archivedRegistry.1 hl archivedAlpha (by decide)⟩

/-- C28, counterexample. The sample registry after `UpdateProjectStatus("alpha",
"archived")` is reachable through the mutating operations of `MetaStore`, and
its project `alpha` has status `archived` and a location in the active area. -/
theorem UpdateProjectStatus_leaves_location :
    (sampleRegistry.1.UpdateProjectStatus sampleEnv "alpha" "archived").2.Reachable ∧
    ∃ p ∈ (sampleRegistry.1.UpdateProjectStatus sampleEnv "alpha" "archived").2.projects,
      p.Name = "alpha" ∧ p.Status = "archived" ∧
      p.DBPath = "projects/00000000-0000-0000-0000-000000000000.db" ∧
      p.DBPath = filepath.Join "projects" (p.ID ++ ".db") :=
  ⟨MetaStore.Reachable.updateProjectStatus sampleEnv _ "alpha" "archived"
      (MetaStore.Reachable.createProject _ _ _ _ _
        (MetaStore.Reachable.createProject _ _ _ _ _ (MetaStore.Reachable.opened "/data"))),
    by decide⟩

/-! ## Soft deletion -/

theorem EntityRow.KeptAs.entity_trans {a b c : EntityRow} (h1 : a.KeptAs b) (h2 : b.KeptAs c) :
    a.KeptAs c := by
  rcases h2 with rfl | ⟨t, rfl⟩
  · exact h1
  · rcases h1 with rfl | ⟨t1, rfl⟩
    · exact Or.inr ⟨t, rfl⟩
    · exact Or.inr ⟨t, rfl⟩

theorem ObservationRow.KeptAs.observation_trans {a b c : ObservationRow} (h1 : a.KeptAs b)
    (h2 : b.KeptAs c) : a.KeptAs c := by
  rcases h2 with rfl | ⟨t, rfl⟩
  · exact h1
  · rcases h1 with rfl | ⟨t1, rfl⟩
    · exact Or.inr ⟨t, rfl⟩
    · exact Or.inr ⟨t, rfl⟩

theorem RelationRow.KeptAs.relation_trans {a b c : RelationRow} (h1 : a.KeptAs b) (h2 : b.KeptAs c) :
    a.KeptAs c := by
  rcases h2 with rfl | ⟨t, rfl⟩
  · exact h1
  · rcases h1 with rfl | ⟨t1, rfl⟩
    · exact Or.inr ⟨t, rfl⟩
    · exact Or.inr ⟨t, rfl⟩

theorem DB.Extends.extends_refl (db : DB) : db.Extends db :=
  ⟨fun e he => ⟨e, he, Or.inl rfl⟩, fun o ho => ⟨o, ho, Or.inl rfl⟩,
    fun r hr => ⟨r, hr, Or.inl rfl⟩⟩

theorem DB.Extends.extends_trans {a b c : DB} (h1 : a.Extends b) (h2 : b.Extends c) : a.Extends c := by
  refine ⟨?_, ?_, ?_⟩
  · intro e he
    obtain ⟨e1, he1, k1⟩ := h1.1 e he
    obtain ⟨e2, he2, k2⟩ := h2.1 e1 he1
    exact ⟨e2, he2, k1.entity_trans k2⟩
  · intro o ho
    obtain ⟨o1, ho1, k1⟩ := h1.2.1 o ho
    obtain ⟨o2, ho2, k2⟩ := h2.2.1 o1 ho1
    exact ⟨o2, ho2, k1.observation_trans k2⟩
  · intro r hr
    obtain ⟨r1, hr1, k1⟩ := h1.2.2 r hr
    obtain ⟨r2, hr2, k2⟩ := h2.2.2 r1 hr1
    exact ⟨r2, hr2, k1.relation_trans k2⟩

theorem extends_preserved (db0 : DB) : Preserved (DB.Extends db0) := by
  refine ⟨?_, ?_, ?_, ?_, ?_, ?_⟩
  · intro now id name entity_type db a db1 hI h
    obtain ⟨-, rfl⟩ := insertEntity_ok_inv h
    exact hI.extends_trans ⟨fun e he => ⟨e, List.mem_append_left _ he, Or.inl rfl⟩,
      fun o ho => ⟨o, ho, Or.inl rfl⟩, fun r hr => ⟨r, hr, Or.inl rfl⟩⟩
  · intro now id entity_id content db a db1 hI h
    obtain ⟨-, rfl⟩ := insertObservation_ok_inv h
    exact hI.extends_trans ⟨fun e he => ⟨e, he, Or.inl rfl⟩,
      fun o ho => ⟨o, List.mem_append_left _ ho, Or.inl rfl⟩, fun r hr => ⟨r, hr, Or.inl rfl⟩⟩
  · intro now id from_entity to_entity relation_type db a db1 hI h
    obtain ⟨-, -, -, rfl⟩ := insertRelation_ok_inv h
    exact hI.extends_trans ⟨fun e he => ⟨e, he, Or.inl rfl⟩, fun o ho => ⟨o, ho, Or.inl rfl⟩,
      fun r hr => ⟨r, List.mem_append_left _ hr, Or.inl rfl⟩⟩
  · intro hit now db a db1 hI h
    simp only [updateEntities, Except.ok.injEq, Prod.mk.injEq] at h
    obtain ⟨-, rfl⟩ := h
    refine hI.extends_trans ⟨fun e he => ⟨_, List.mem_map_of_mem _ he, ?_⟩,
      fun o ho => ⟨o, ho, Or.inl rfl⟩, fun r hr => ⟨r, hr, Or.inl rfl⟩⟩
    split
    · exact Or.inr ⟨now, rfl⟩
    · exact Or.inl rfl
  · intro hit now db a db1 hI h
    simp only [updateObservations, Except.ok.injEq, Prod.mk.injEq] at h
    obtain ⟨-, rfl⟩ := h
    refine hI.extends_trans ⟨fun e he => ⟨e, he, Or.inl rfl⟩,
      fun o ho => ⟨_, List.mem_map_of_mem _ ho, ?_⟩, fun r hr => ⟨r, hr, Or.inl rfl⟩⟩
    split
    · exact Or.inr ⟨now, rfl⟩
    · exact Or.inl rfl
  · intro hit now db a db1 hI h
    simp only [updateRelations, Except.ok.injEq, Prod.mk.injEq] at h
    obtain ⟨-, rfl⟩ := h
    refine hI.extends_trans ⟨fun e he => ⟨e, he, Or.inl rfl⟩, fun o ho => ⟨o, ho, Or.inl rfl⟩,
      fun r hr => ⟨_, List.mem_map_of_mem _ hr, ?_⟩⟩
    split
    · exact Or.inr ⟨now, rfl⟩
    · exact Or.inl rfl

/-- C23. No mutating graph operation erases a record, whatever the environment
and whether it succeeds or fails: every entity, observation and relation row
stored before the call is stored after it, either unchanged or with a tombstone
written and nothing else of the record changed (an entity's `updated_at`
apart); hence the ids stored before are among the ids stored after, and a row
that was tombstoned is still tombstoned.  The reading operations `GetEntities`,
`ReadGraph` and `Search` are queries: they return no store. -/
theorem no_record_erased (env : Env) (db : DB) (mu : Mutation) :
    (∀ e ∈ db.entities, ∃ e1 ∈ (mu.run env db).entities,
      (e1 = e ∨ ∃ t, e1 = e.tombstone t) ∧ e1.id = e.id ∧
        (e.active = false → e1.active = false)) ∧
    (∀ o ∈ db.observations, ∃ o1 ∈ (mu.run env db).observations,
      (o1 = o ∨ ∃ t, o1 = o.tombstone t) ∧ o1.id = o.id ∧
        (o.active = false → o1.active = false)) ∧
    (∀ r ∈ db.relations, ∃ r1 ∈ (mu.run env db).relations,
      (r1 = r ∨ ∃ t, r1 = r.tombstone t) ∧ r1.id = r.id ∧
        (r.active = false → r1.active = false)) ∧
    db.entities.map EntityRow.id ⊆ (mu.run env db).entities.map EntityRow.id ∧
    db.observations.map ObservationRow.id ⊆
      (mu.run env db).observations.map ObservationRow.id ∧
    db.relations.map RelationRow.id ⊆ (mu.run env db).relations.map RelationRow.id := by
  have h := mutation_keeps (extends_preserved db) env db mu (DB.Extends.extends_refl db)
  have he : ∀ e ∈ db.entities, ∃ e1 ∈ (mu.run env db).entities,
      (e1 = e ∨ ∃ t, e1 = e.tombstone t) ∧ e1.id = e.id ∧
        (e.active = false → e1.active = false) := by
    intro e hmem
    obtain ⟨e1, h1, k⟩ := h.1 e hmem
    refine ⟨e1, h1, k, ?_, ?_⟩
    · rcases k with rfl | ⟨t, rfl⟩ <;> rfl
    · rcases k with rfl | ⟨t, rfl⟩
      · exact id
      · exact fun _ => rfl
  have ho : ∀ o ∈ db.observations, ∃ o1 ∈ (mu.run env db).observations,
      (o1 = o ∨ ∃ t, o1 = o.tombstone t) ∧ o1.id = o.id ∧
        (o.active = false → o1.active = false) := by
    intro o hmem
    obtain ⟨o1, h1, k⟩ := h.2.1 o hmem
    refine ⟨o1, h1, k, ?_, ?_⟩
    · rcases k with rfl | ⟨t, rfl⟩ <;> rfl
    · rcases k with rfl | ⟨t, rfl⟩
      · exact id
      · exact fun _ => rfl
  have hr : ∀ r ∈ db.relations, ∃ r1 ∈ (mu.run env db).relations,
      (r1 = r ∨ ∃ t, r1 = r.tombstone t) ∧ r1.id = r.id ∧
        (r.active = false → r1.active = false) := by
    intro r hmem
    obtain ⟨r1, h1, k⟩ := h.2.2 r hmem
    refine ⟨r1, h1, k, ?_, ?_⟩
    · rcases k with rfl | ⟨t, rfl⟩ <;> rfl
    · rcases k with rfl | ⟨t, rfl⟩
      · exact id
      · exact fun _ => rfl
  refine ⟨he, ho, hr, ?_, ?_, ?_⟩
  · intro x hx
    obtain ⟨e, hmem, rfl⟩ := List.mem_map.mp hx
    obtain ⟨e1, h1, -, hid, -⟩ := he e hmem
    exact List.mem_map.mpr ⟨e1, h1, hid⟩
  · intro x hx
    obtain ⟨o, hmem, rfl⟩ := List.mem_map.mp hx
    obtain ⟨o1, h1, -, hid, -⟩ := ho o hmem
    exact List.mem_map.mpr ⟨o1, h1, hid⟩
  · intro x hx
    obtain ⟨r, hmem, rfl⟩ := List.mem_map.mp hx
    obtain ⟨r1, h1, -, hid, -⟩ := hr r hmem
    exact List.mem_map.mpr ⟨r1, h1, hid⟩

/-! ## Handlers without an active project -/

theorem requireProject_unbound {s : Session} (h : s.GetCurrent.2.2 = false) :
    KnowledgeTools.requireProject s =
      .error (toolError "No active project. Use switch_project to select one." []) := by
  unfold KnowledgeTools.requireProject Session.ProjectStore
  unfold Session.GetCurrent at h
  cases hp : s.projectDB with
  | none => rfl
  | some p => rw [hp] at h; exact absurd h (by simp)

/-- C25. When the session is Unbound, each of the nine knowledge-graph
handlers, whatever its input and the environment, returns the error result
with the text `No active project. Use switch_project to select one.` and
leaves the disk, hence every store, as it was; none of them has access to the
registry. -/
theorem handlers_require_project (envs : ToolEnv) (fts : Fts5) (rank : String → Nat)
    (s : Session) (disk : Disk) (h : s.GetCurrent.2.2 = false) :
    (∀ entities, KnowledgeTools.CreateEntities envs s disk entities =
      (⟨ToolContent.text "No active project. Use switch_project to select one." [], true⟩,
        disk)) ∧
    (∀ observations, KnowledgeTools.AddObservations envs s disk observations =
      (⟨ToolContent.text "No active project. Use switch_project to select one." [], true⟩,
        disk)) ∧
    (∀ relations, KnowledgeTools.CreateRelations envs s disk relations =
      (⟨ToolContent.text "No active project. Use switch_project to select one." [], true⟩,
        disk)) ∧
    (∀ query, KnowledgeTools.SearchNodes envs fts rank s disk query =
      (⟨ToolContent.text "No active project. Use switch_project to select one." [], true⟩,
        disk)) ∧
    (∀ names, KnowledgeTools.OpenNodes envs s disk names =
      (⟨ToolContent.text "No active project. Use switch_project to select one." [], true⟩,
        disk)) ∧
    (KnowledgeTools.ReadGraph envs s disk =
      (⟨ToolContent.text "No active project. Use switch_project to select one." [], true⟩,
        disk)) ∧
    (∀ names, KnowledgeTools.DeleteEntities envs s disk names =
      (⟨ToolContent.text "No active project. Use switch_project to select one." [], true⟩,
        disk)) ∧
    (∀ deletions, KnowledgeTools.DeleteObservations envs s disk deletions =
      (⟨ToolContent.text "No active project. Use switch_project to select one." [], true⟩,
        disk)) ∧
    (∀ relations, KnowledgeTools.DeleteRelations envs s disk relations =
      (⟨ToolContent.text "No active project. Use switch_project to select one." [], true⟩,
        disk)) := by
  have hr := requireProject_unbound h
  refine ⟨?_, ?_, ?_, ?_, ?_, ?_, ?_, ?_, ?_⟩
  · intro entities
    unfold KnowledgeTools.CreateEntities
    rw [hr]
    rfl
  · intro observations
    unfold KnowledgeTools.AddObservations
    rw [hr]
    rfl
  · intro relations
    unfold KnowledgeTools.CreateRelations
    rw [hr]
    rfl
  · intro query
    unfold KnowledgeTools.SearchNodes
    rw [hr]
    rfl
  · intro names
    unfold KnowledgeTools.OpenNodes
    rw [hr]
    rfl
  · unfold KnowledgeTools.ReadGraph
    rw [hr]
    rfl
  · intro names
    unfold KnowledgeTools.DeleteEntities
    rw [hr]
    rfl
  · intro deletions
    unfold KnowledgeTools.DeleteObservations
    rw [hr]
    rfl
  · intro relations
    unfold KnowledgeTools.DeleteRelations
    rw [hr]
    rfl

theorem handlers_require_project_witness :
    KnowledgeTools.ReadGraph (fun _ => sampleEnv) Session.New sampleDisk =
      (⟨ToolContent.text "No active project. Use switch_project to select one." [], true⟩,
        sampleDisk) :=
  (handlers_require_project (fun _ => sampleEnv) sampleFts (fun _ => 0) Session.New sampleDisk
    rfl).2.2.2.2.2.1

/-! ## The handler `create_project` -/

theorem createProject_ok_new {env : Env} {m m1 : MetaStore} {disk d1 : Disk}
    {name description : String} {proj : Project}
    (h : m.CreateProject env disk name description = (.ok proj, m1, d1)) :
    proj = ⟨UUID.String (env.uuid 0), name, description,
      filepath.Join "projects" (UUID.String (env.uuid 0) ++ ".db"), "active",
      env.now 0, env.now 0⟩ ∧
    m1 = ⟨m.projects ++ [proj], m.dataDir⟩ ∧
    proj.ID ∉ m.projects.map Project.ID ∧ proj.Name ∉ m.projects.map Project.Name := by
  obtain ⟨-, hid, hn, rfl, -, hg⟩ := createProject_ok_inv h
  obtain ⟨-, hmem, hname⟩ := getProjectByName_ok hg
  have hproj : proj = ⟨UUID.String (env.uuid 0), name, description,
      filepath.Join "projects" (UUID.String (env.uuid 0) ++ ".db"), "active",
      env.now 0, env.now 0⟩ := by
    rcases List.mem_append.mp hmem with hp | hp
    · exact absurd (List.mem_map.mpr ⟨proj, hp, hname⟩) hn
    · exact List.mem_singleton.mp hp
  subst hproj
  exact ⟨rfl, rfl, hid, hn⟩

/-- C26. Whenever the handler `create_project` succeeds, whatever the session
was bound to before: the result is the JSON of the project created, a project
of the requested name whose id and name no registered project had, which is
registered afterwards, and the session is bound to it: `GetCurrent` reports its
id and its name, and the session holds the store at its location. -/
theorem create_project_binds (envs : ToolEnv) (m : MetaStore) (s : Session) (disk : Disk)
    (name description : String)
    (hok : (ProjectTools.CreateProject envs m s disk name description).1.IsError = false) :
    ∃ proj : Project,
      (ProjectTools.CreateProject envs m s disk name description).1 =
        ⟨ToolContent.json (ToolValue.project proj), false⟩ ∧
      proj.Name = name ∧ proj.ID ∉ m.projects.map Project.ID ∧
      name ∉ m.projects.map Project.Name ∧
      (ProjectTools.CreateProject envs m s disk name description).2.1.projects =
        m.projects ++ [proj] ∧
      (ProjectTools.CreateProject envs m s disk name description).2.2.1.GetCurrent =
        (proj.ID, proj.Name, true) ∧
      (ProjectTools.CreateProject envs m s disk name description).2.2.1.ProjectStore =
        some ⟨filepath.Join m.dataDir proj.DBPath⟩ := by
  unfold ProjectTools.CreateProject at hok ⊢
  by_cases hn : name = ""
  · rw [if_pos hn] at hok
    exact absurd hok (by simp [toolError])
  · rw [if_neg hn] at hok ⊢
    rcases hc : m.CreateProject (envs 0) disk name description with ⟨r, m1, disk1⟩
    rw [hc] at hok
    cases r with
    | error err => exact absurd hok (by simp [toolError])
    | ok proj =>
      simp only [] at hok ⊢
      obtain ⟨hproj, rfl, hid, hname⟩ := createProject_ok_new hc
      have hpn : proj.Name = name := by rw [hproj]
      rcases hs : s.SwitchProject (envs 1) ⟨m.projects ++ [proj], m.dataDir⟩ disk1 proj.Name with
        ⟨r2, s1, disk2, ev⟩
      rw [hs] at hok
      cases r2 with
      | error err => exact absurd hok (by simp [toolError])
      | ok proj2 =>
        simp only []
        obtain ⟨hmem, hn2, -, rfl, -⟩ := SwitchProject_ok hs
        have h2 : proj2 = proj := by
          rcases List.mem_append.mp hmem with hp | hp
          · exact absurd (List.mem_map.mpr ⟨proj2, hp, hn2⟩) hname
          · exact List.mem_singleton.mp hp
        subst h2
        exact ⟨proj2, rfl, hpn, hid, hpn ▸ hname, rfl, rfl, rfl⟩

theorem create_project_binds_witness :
    ∃ proj : Project,
      (ProjectTools.CreateProject (fun _ => laterEnv) sampleRegistry.1 sampleSession
        sampleRegistry.2 "gamma" "third").1 =
          ⟨ToolContent.json (ToolValue.project proj), false⟩ ∧
      proj.Name = "gamma" ∧
      (ProjectTools.CreateProject (fun _ => laterEnv) sampleRegistry.1 sampleSession
        sampleRegistry.2 "gamma" "third").2.2.1.GetCurrent = (proj.ID, "gamma", true) ∧
      sampleSession.GetCurrent.2.1 = "alpha" := by
  obtain ⟨proj, h1, h2, -, -, -, h6, -⟩ :=
    create_project_binds (fun _ => laterEnv) sampleRegistry.1 sampleSession sampleRegistry.2
      "gamma" "third" (by decide)
  rw [h2] at h6
  exact ⟨proj, h1, h2, h6, by decide⟩

/-! ## Nil and empty collections -/

theorem Slice.collected_nil_iff {α : Type} (l : List α) :
    Slice.collected l = Slice.nil ↔ l = [] := by
  cases l with
  | nil => exact ⟨fun _ => rfl, fun _ => rfl⟩
  | cons a rest => exact ⟨fun h => Slice.noConfusion h, fun h => List.noConfusion h⟩

theorem Slice.toList_collected {α : Type} (l : List α) : (Slice.collected l).toList = l := by
  cases l <;> rfl

theorem map_collected_ok {α : Type} {r : Except GoError (List α)} {sl : Slice α}
    (h : r.map Slice.collected = .ok sl) :
    r = .ok sl.toList ∧ (sl = Slice.nil ↔ sl.toList = []) := by
  cases r with
  | error e => exact absurd h (by simp [Except.map])
  | ok l =>
    simp only [Except.map, Except.ok.injEq] at h
    subst h
    rw [Slice.toList_collected]
    exact ⟨rfl, Slice.collected_nil_iff l⟩

/-- C22 (as the code has it). The handler `list_projects` never returns a null
collection: unless the query fails, its result is the JSON of a non-nil slice
holding the projects `ListProjects` found, the empty one when nothing matches.
The storage operations `ListProjects`, `GetEntities`, `Search` and `ReadGraph`
(for its entities and for its relations) return on success the nil slice
exactly when nothing matches, and a non-nil slice of what they found
otherwise. -/
theorem list_projects_never_null (envs : ToolEnv) (m : MetaStore) (status : String) :
    ((∃ err, m.ListProjects (envs 0) (if status = "" then "active" else status) = .error err ∧
        ProjectTools.ListProjects envs m status =
          ⟨ToolContent.text "Failed to list projects: %v" [FmtArg.err err], true⟩) ∨
      (∃ l, m.ListProjects (envs 0) (if status = "" then "active" else status) = .ok l ∧
        ProjectTools.ListProjects envs m status =
          ⟨ToolContent.json (ToolValue.projects (Slice.items l)), false⟩)) ∧
    (∀ env filter sl, MetaStore.ListProjects.slice env m filter = .ok sl →
      m.ListProjects env filter = .ok sl.toList ∧ (sl = Slice.nil ↔ sl.toList = [])) ∧
    (∀ env db names sl, ProjectStore.GetEntities.slice env db names = .ok sl →
      ProjectStore.GetEntities env db names = .ok sl.toList ∧
        (sl = Slice.nil ↔ sl.toList = [])) ∧
    (∀ env fts rank db query sl, ProjectStore.Search.slice env fts rank db query = .ok sl →
      ProjectStore.Search env fts rank db query = .ok sl.toList ∧
        (sl = Slice.nil ↔ sl.toList = [])) ∧
    (∀ env db es rs, ProjectStore.ReadGraph.slices env db = .ok (es, rs) →
      ProjectStore.ReadGraph env db = .ok ⟨es.toList, rs.toList⟩ ∧
        (es = Slice.nil ↔ es.toList = []) ∧ (rs = Slice.nil ↔ rs.toList = [])) := by
  refine ⟨?_, ?_, ?_, ?_, ?_⟩
  · unfold ProjectTools.ListProjects MetaStore.ListProjects.slice
    simp only []
    cases hl : m.ListProjects (envs 0) (if status = "" then "active" else status) with
    | error err => exact Or.inl ⟨err, rfl, rfl⟩
    | ok l =>
      refine Or.inr ⟨l, rfl, ?_⟩
      cases l <;> rfl
  · intro env filter sl h
    exact map_collected_ok h
  · intro env db names sl h
    unfold ProjectStore.GetEntities.slice at h
    by_cases hn : names.length = 0
    · rw [if_pos hn] at h
      have hsl : sl = Slice.nil := (Except.ok.inj h).symm
      subst hsl
      refine ⟨?_, Iff.intro (fun _ => rfl) (fun _ => rfl)⟩
      unfold ProjectStore.GetEntities
      rw [if_pos hn]
      rfl
    · rw [if_neg hn] at h
      exact map_collected_ok h
  · intro env fts rank db query sl h
    exact map_collected_ok h
  · intro env db es rs h
    unfold ProjectStore.ReadGraph.slices at h
    cases hg : ProjectStore.ReadGraph env db with
    | error e => rw [hg] at h; exact absurd h (by simp [Except.map])
    | ok g =>
      rw [hg] at h
      simp only [Except.map, Except.ok.injEq, Prod.mk.injEq] at h
      obtain ⟨rfl, rfl⟩ := h
      rw [Slice.toList_collected, Slice.toList_collected]
      exact ⟨rfl, Slice.collected_nil_iff _, Slice.collected_nil_iff _⟩

/-- C22, counterexample. On the sample store, `GetEntities` of a name no entity
bears and `Search` of a query nothing matches return the nil slice;
`ReadGraph` on a new store returns nil for its entities and for its relations;
`ListProjects` on an empty registry returns nil; and the handlers `open_nodes`
and `search_nodes`, run in the sample session, and `read_graph`, run on the new
store of project `alpha`, give that nil to `toolJSON`, which renders it as
`null`. -/
theorem read_paths_return_nil :
    ProjectStore.GetEntities.slice sampleEnv sampleDB ["nobody"] = .ok Slice.nil ∧
    ProjectStore.Search.slice sampleEnv sampleFts (fun _ => 0) sampleDB "nothing" =
      .ok Slice.nil ∧
    ProjectStore.ReadGraph.slices sampleEnv DB.fresh = .ok (Slice.nil, Slice.nil) ∧
    MetaStore.ListProjects.slice sampleEnv ⟨[], "/data"⟩ "all" = .ok Slice.nil ∧
    (KnowledgeTools.OpenNodes (fun _ => sampleEnv) sampleSession sampleDisk ["nobody"]).1 =
      ⟨ToolContent.json (ToolValue.entities Slice.nil), false⟩ ∧
    (KnowledgeTools.SearchNodes (fun _ => sampleEnv) sampleFts (fun _ => 0) sampleSession
      sampleDisk "nothing").1 = ⟨ToolContent.json (ToolValue.entities Slice.nil), false⟩ ∧
    (KnowledgeTools.ReadGraph (fun _ => sampleEnv) sampleSession sampleRegistry.2).1 =
      ⟨ToolContent.json (ToolValue.graph Slice.nil Slice.nil), false⟩ := by
  refine ⟨by decide, by decide, by decide, by decide, by decide, by decide, by decide⟩

/-! ## The handler `add_observations` -/

theorem Disk.read_write_self (disk : Disk) {path : String} {db : DB}
    (h : disk.read path = some db) (other : String) :
    (disk.write path db).read other = disk.read other := by
  by_cases ho : other = path
  · rw [ho, Disk.read_write_same, h]
  · exact Disk.read_write_ne disk db ho

theorem on_error_read {α : Type} (p : ProjectStore) (disk : Disk)
    (method : DB → Except GoError α × DB)
    (hm : ∀ db err, (method db).1 = .error err → (method db).2 = db) {err : GoError}
    (h : (p.on disk method).1 = .error err) (other : String) :
    (p.on disk method).2.read other = disk.read other := by
  unfold ProjectStore.on at h ⊢
  cases hr : disk.read p.path with
  | none => rfl
  | some db =>
    rw [hr] at h
    simp only [] at h ⊢
    rw [hm db err h]
    exact Disk.read_write_self disk hr other

theorem add_observations_loop_error (envs : ToolEnv) (ps : ProjectStore) :
    ∀ (items : List ObservationInput) (k : Nat) (disk d : Disk) (r : CallToolResult),
      KnowledgeTools.AddObservations.loop envs ps items k disk = (.error r, d) →
      ∃ pre bad post created disk1 err,
        items = pre ++ bad :: post ∧
        KnowledgeTools.AddObservations.loop envs ps pre k disk = (.ok created, disk1) ∧
        (ps.on disk1 fun db => ProjectStore.AddObservations (envs (k + pre.length)) db
          bad.EntityName bad.Contents).1 = .error err ∧
        r = ⟨ToolContent.text "Failed to add observations for %q: %v"
          [FmtArg.str bad.EntityName, FmtArg.err err], true⟩ ∧
        ∀ path, d.read path = disk1.read path := by
  intro items
  induction items with
  | nil =>
    intro k disk d r h
    exact absurd (congrArg Prod.fst h) (by simp [KnowledgeTools.AddObservations.loop])
  | cons item rest ih =>
    intro k disk d r h
    rw [KnowledgeTools.AddObservations.loop] at h
    rcases hon : (ps.on disk fun db =>
        ProjectStore.AddObservations (envs k) db item.EntityName item.Contents) with ⟨res, disk1⟩
    rw [hon] at h
    cases res with
    | error err =>
      simp only [Prod.mk.injEq, Except.error.injEq] at h
      obtain ⟨rfl, rfl⟩ := h
      refine ⟨[], item, rest, [], disk, err, rfl, rfl, ?_, rfl, ?_⟩
      · simp only [List.length_nil, Nat.add_zero]
        rw [hon]
      · intro path
        have := @on_error_read _ ps disk (fun db =>
          ProjectStore.AddObservations (envs k) db item.EntityName item.Contents)
          (fun db e he => AddObservations_error_unchanged (envs k) db item.EntityName
            item.Contents e he) err (by rw [hon]) path
        rw [hon] at this
        exact this
    | ok created =>
      simp only [] at h
      rcases hrest : KnowledgeTools.AddObservations.loop envs ps rest (k + 1) disk1 with
        ⟨res2, disk2⟩
      rw [hrest] at h
      cases res2 with
      | ok all => exact absurd (congrArg Prod.fst h) (by simp)
      | error r2 =>
        simp only [Prod.mk.injEq, Except.error.injEq] at h
        obtain ⟨rfl, rfl⟩ := h
        obtain ⟨pre, bad, post, created1, disk3, err, hitems, hpre, hbad, hr, hread⟩ :=
          ih (k + 1) disk1 disk2 r2 hrest
        refine ⟨item :: pre, bad, post, Slice.collected created :: created1, disk3, err, ?_, ?_,
          ?_, hr, hread⟩
        · rw [hitems]
          rfl
        · rw [KnowledgeTools.AddObservations.loop, hon]
          simp only []
          rw [hpre]
        · have e : k + (item :: pre).length = k + 1 + pre.length := by
            simp only [List.length_cons]
            omega
          rw [e]
          exact hbad

/-- C30 (as the code has it). A request to add observations is applied item by
item, each item in a transaction of its own.  When the handler
`add_observations`, run in a bound session, fails, it fails on one item of the
list: the items before it have been applied, in order and successfully, that
item is refused by `AddObservations`, which stores none of its observations,
and no later item is attempted; the disk after the request holds what it held
after the items that precede the failing one. -/
theorem add_observations_per_item (envs : ToolEnv) (s : Session) (disk : Disk)
    (items : List ObservationInput) (ps : ProjectStore) (hb : s.ProjectStore = some ps)
    (hfail : (KnowledgeTools.AddObservations envs s disk items).1.IsError = true) :
    ∃ pre bad post created disk1 err,
      items = pre ++ bad :: post ∧
      KnowledgeTools.AddObservations.loop envs ps pre 0 disk = (.ok created, disk1) ∧
      (ps.on disk1 fun db => ProjectStore.AddObservations (envs pre.length) db
        bad.EntityName bad.Contents).1 = .error err ∧
      (KnowledgeTools.AddObservations envs s disk items).1 =
        ⟨ToolContent.text "Failed to add observations for %q: %v"
          [FmtArg.str bad.EntityName, FmtArg.err err], true⟩ ∧
      ∀ path, (KnowledgeTools.AddObservations envs s disk items).2.read path =
        disk1.read path := by
  unfold KnowledgeTools.AddObservations at hfail ⊢
  unfold KnowledgeTools.requireProject at hfail ⊢
  rw [hb] at hfail ⊢
  simp only [] at hfail ⊢
  rcases hl : KnowledgeTools.AddObservations.loop envs ps items 0 disk with ⟨res, d⟩
  rw [hl] at hfail
  cases res with
  | ok all => exact absurd hfail (by simp [toolJSON])
  | error r =>
    obtain ⟨pre, bad, post, created, disk1, err, h1, h2, h3, h4, h5⟩ :=
      add_observations_loop_error envs ps items 0 disk d r hl
    rw [Nat.zero_add] at h3
    exact ⟨pre, bad, post, created, disk1, err, h1, h2, h3, h4, h5⟩

theorem add_observations_per_item_witness :
    ∃ pre bad post created disk1,
      [(⟨"X", ["c"]⟩ : ObservationInput), ⟨"Z", ["d"]⟩] = pre ++ bad :: post ∧
      KnowledgeTools.AddObservations.loop (fun _ => laterEnv)
        ⟨"/data/projects/00000000-0000-0000-0000-000000000000.db"⟩ pre 0 sampleDisk =
          (.ok created, disk1) ∧
      ∀ path, (KnowledgeTools.AddObservations (fun _ => laterEnv) sampleSession sampleDisk
        [⟨"X", ["c"]⟩, ⟨"Z", ["d"]⟩]).2.read path = disk1.read path := by
  obtain ⟨pre, bad, post, created, disk1, err, h1, h2, -, -, h5⟩ :=
    add_observations_per_item (fun _ => laterEnv) sampleSession sampleDisk
      [⟨"X", ["c"]⟩, ⟨"Z", ["d"]⟩]
      ⟨"/data/projects/00000000-0000-0000-0000-000000000000.db"⟩ (by decide) (by decide)
  exact ⟨pre, bad, post, created, disk1, h1, h2, h5⟩

/-- C30, counterexample. In the sample session, bound to project `alpha` whose
store holds the observations `a` and `b` of entity `X`, the request to add `c`
to `X` and `d` to the unknown entity `Z` fails on its second item, and the
store then holds the observation `c` of the first item. -/
theorem add_observations_partial :
    (KnowledgeTools.AddObservations (fun _ => laterEnv) sampleSession sampleDisk
      [⟨"X", ["c"]⟩, ⟨"Z", ["d"]⟩]).1.IsError = true ∧
    (sampleDisk.read "/data/projects/00000000-0000-0000-0000-000000000000.db").map
      (fun db => db.observations.map ObservationRow.content) = some ["a", "b"] ∧
    ((KnowledgeTools.AddObservations (fun _ => laterEnv) sampleSession sampleDisk
      [⟨"X", ["c"]⟩, ⟨"Z", ["d"]⟩]).2.read
        "/data/projects/00000000-0000-0000-0000-000000000000.db").map
      (fun db => db.observations.map ObservationRow.content) = some ["a", "b", "c"] := by
  refine ⟨by decide, by decide, by decide⟩

/-! ## The bound project through handler calls -/

theorem lifecycle_sited {m : MetaStore} (h : m.Lifecycle) : ∀ p ∈ m.projects, p.Sited := by
  induction h with
  | opened dataDir => exact fun p hp => absurd hp (List.not_mem_nil _)
  | createProject env m disk name description _ ih =>
    exact createProject_sited env m disk name description ih
  | archiveProject env m disk name hm ih =>
    exact archiveProject_sited env m disk name (Reachable.wellFormed (Lifecycle.reachable hm)) ih
  | restoreProject env m disk name hm ih =>
    exact restoreProject_sited env m disk name (Reachable.wellFormed (Lifecycle.reachable hm)) ih
  | deleteProject env m disk name _ ih => exact deleteProject_sited env m disk name ih

theorem Sited.active_of_not_archived {p : Project} (h : p.Sited) (hs : p.Status ≠ "archived") :
    p.Status = "active" := by
  rcases h with h | h
  · exact h.1
  · exact absurd h.1 hs

theorem call_lifecycle (envs : ToolEnv) (m : MetaStore) (s : Session) (disk : Disk)
    (c : ProjectCall) (h : m.Lifecycle) : (c.run envs m s disk).2.1.Lifecycle := by
  cases c with
  | createProject name description =>
    have h1 := MetaStore.Lifecycle.createProject (envs 0) m disk name description h
    simp only [ProjectCall.run, ProjectTools.CreateProject]
    split
    · exact h
    · rcases hc : m.CreateProject (envs 0) disk name description with ⟨r, m1, disk1⟩
      rw [hc] at h1
      cases r with
      | error err => exact h1
      | ok proj =>
        simp only []
        rcases s.SwitchProject (envs 1) m1 disk1 proj.Name with ⟨r2, s1, disk2, ev⟩
        cases r2 <;> exact h1
  | switchProject name =>
    simp only [ProjectCall.run, ProjectTools.SwitchProject]
    split
    · exact h
    · rcases s.SwitchProject (envs 0) m disk name with ⟨r2, s1, disk2, ev⟩
      cases r2 <;> exact h
  | archiveProject name =>
    have h1 := MetaStore.Lifecycle.archiveProject (envs 0) m disk name h
    simp only [ProjectCall.run, ProjectTools.ArchiveProject]
    split
    · exact h
    · rcases hc : m.ArchiveProject (envs 0) disk name with ⟨r, m1, disk1⟩
      rw [hc] at h1
      cases r <;> exact h1
  | restoreProject name =>
    have h1 := MetaStore.Lifecycle.restoreProject (envs 0) m disk name h
    simp only [ProjectCall.run, ProjectTools.RestoreProject]
    split
    · exact h
    · rcases hc : m.RestoreProject (envs 0) disk name with ⟨r, m1, disk1⟩
      rw [hc] at h1
      cases r <;> exact h1
  | deleteProject name =>
    have h1 := MetaStore.Lifecycle.deleteProject (envs 0) m disk name h
    simp only [ProjectCall.run, ProjectTools.DeleteProject]
    split
    · exact h
    · rcases hc : m.DeleteProject (envs 0) disk name with ⟨r, m1, disk1⟩
      rw [hc] at h1
      cases r <;> exact h1

theorem served_lifecycle {m : MetaStore} {s : Session} {disk : Disk} (h : Served m s disk) :
    m.Lifecycle := by
  induction h with
  | start m disk hm => exact hm
  | call envs m s disk c _ ih => exact call_lifecycle envs m s disk c ih

theorem createProject_mem (env : Env) (m : MetaStore) (disk : Disk) (name description : String)
    {p : Project} (hp : p ∈ m.projects) :
    p ∈ (m.CreateProject env disk name description).2.1.projects := by
  by_cases hins : env.fault 0 ≠ none ∨ UUID.String (env.uuid 0) ∈ m.projects.map Project.ID ∨
      name ∈ m.projects.map Project.Name
  · obtain ⟨err, h⟩ := createProject_of_insert_error env m disk name description hins
    rw [h]
    exact hp
  · simp only [not_or, not_not] at hins
    obtain ⟨h0, h1, h2⟩ := hins
    rcases hi : initProjectDB (env.shift 1) disk (filepath.Join m.dataDir
        (filepath.Join "projects" (UUID.String (env.uuid 0) ++ ".db"))) with ⟨r, d1⟩
    cases r with
    | error e =>
      rw [createProject_of_provision_error env m disk d1 name description e h0 h1 h2 hi]
      simp only []
      cases env.fault 4 with
      | none => exact hp
      | some e4 => exact List.mem_append_left _ hp
    | ok u =>
      unfold MetaStore.CreateProject
      simp only [h0]
      unfold insertProject
      rw [if_neg h1, if_neg h2]
      simp only [hi]
      exact List.mem_append_left _ hp

theorem archiveProject_mem_other (env : Env) (m : MetaStore) (disk : Disk) (name : String)
    {p : Project} (hp : p ∈ m.projects) (hne : p.Name ≠ name) :
    p ∈ (m.ArchiveProject env disk name).2.1.projects := by
  unfold MetaStore.ArchiveProject
  cases hg : m.GetProjectByName env name with
  | error err => exact hp
  | ok proj =>
    simp only []
    split
    · exact hp
    · cases osRename (env.shift 1) disk (filepath.Join m.dataDir proj.DBPath)
          (filepath.Join m.dataDir (filepath.Join "archive" (filepath.Base proj.DBPath))) with
      | mk r disk1 =>
        cases r with
        | error err => exact hp
        | ok u =>
          simp only []
          cases env.fault 2 with
          | some err => exact hp
          | none => exact relocate_other hp hne _ _ _

theorem restoreProject_keeps_active (env : Env) (m : MetaStore) (disk : Disk) (name : String)
    {p : Project} (hp : p ∈ m.projects) (hs : p.Status = "active") :
    ∃ q ∈ (m.RestoreProject env disk name).2.1.projects,
      q.ID = p.ID ∧ q.Name = p.Name ∧ q.Status = "active" := by
  unfold MetaStore.RestoreProject
  cases hg : m.GetProjectByName env name with
  | error err => exact ⟨p, hp, rfl, rfl, hs⟩
  | ok proj =>
    simp only []
    split
    · exact ⟨p, hp, rfl, rfl, hs⟩
    · cases osRename (env.shift 1) disk (filepath.Join m.dataDir proj.DBPath)
          (filepath.Join m.dataDir (filepath.Join "projects" (filepath.Base proj.DBPath))) with
      | mk r disk1 =>
        cases r with
        | error err => exact ⟨p, hp, rfl, rfl, hs⟩
        | ok u =>
          simp only []
          cases env.fault 2 with
          | some err => exact ⟨p, hp, rfl, rfl, hs⟩
          | none =>
            simp only []
            refine ⟨_, List.mem_map_of_mem _ hp, ?_⟩
            split
            · exact ⟨rfl, rfl, rfl⟩
            · exact ⟨rfl, rfl, hs⟩

theorem deleteProject_mem_other (env : Env) (m : MetaStore) (disk : Disk) (name : String)
    {p : Project} (hp : p ∈ m.projects) (hne : p.Name ≠ name) :
    p ∈ (m.DeleteProject env disk name).2.1.projects := by
  unfold MetaStore.DeleteProject
  cases hg : m.GetProjectByName env name with
  | error err => exact hp
  | ok proj =>
    simp only []
    cases env.fault 4 with
    | some err => exact hp
    | none => exact List.mem_filter.mpr ⟨hp, by simpa using hne⟩

theorem switchProject_boundIn (env : Env) (s : Session) (m : MetaStore) (disk : Disk)
    (name : String) (hn : name ≠ "") (hm : ∀ p ∈ m.projects, p.Sited) (hb : s.BoundIn m) :
    (s.SwitchProject env m disk name).2.1.BoundIn m := by
  rcases SwitchProject_cases env s m disk name with
    ⟨err, -, h1⟩ | ⟨p, -, -, h1⟩ | ⟨p, err, -, -, -, -, h1⟩ | ⟨p, d1, hg, ha, -, -, -, h1⟩
  · rw [h1]; exact hb
  · rw [h1]; exact hb
  · rw [h1]
    intro hne
    exact absurd (closeCurrent_projectDB s) hne
  · rw [h1]
    obtain ⟨-, hmem, hname⟩ := getProjectByName_ok hg
    intro _
    exact ⟨by rw [show p.Name = name from hname]; exact hn, p, hmem, rfl, rfl,
      Sited.active_of_not_archived (hm p hmem) ha⟩

theorem clearIfCurrent_cases (s : Session) (name : String) :
    (s.projectDB ≠ none ∧ s.currentProjectName = name ∧
      ProjectTools.clearIfCurrent s name = ⟨"", "", none⟩) ∨
    ((s.projectDB = none ∨ s.currentProjectName ≠ name) ∧
      ProjectTools.clearIfCurrent s name = s) := by
  unfold ProjectTools.clearIfCurrent Session.GetCurrent Session.Clear
  cases hp : s.projectDB with
  | none =>
    refine Or.inr ⟨Or.inl rfl, ?_⟩
    simp
  | some ps =>
    by_cases hn : s.currentProjectName = name
    · refine Or.inl ⟨by simp, hn, ?_⟩
      simp only [hn, and_self, if_true]
      have := closeCurrent_projectDB s
      cases hc : s.closeCurrent.1 with
      | mk a b c =>
        rw [hc] at this
        simp only [] at this
        subst this
        rfl
    · refine Or.inr ⟨Or.inr hn, ?_⟩
      simp [hn]

theorem archive_project_session (envs : ToolEnv) (m : MetaStore) (s : Session) (disk : Disk)
    (name : String) :
    (ProjectTools.ArchiveProject envs m s disk name).2.2.1 =
      if name = "" then s else ProjectTools.clearIfCurrent s name := by
  unfold ProjectTools.ArchiveProject
  split
  · rfl
  · rcases m.ArchiveProject (envs 0) disk name with ⟨r, m1, disk1⟩
    cases r <;> rfl

theorem delete_project_session (envs : ToolEnv) (m : MetaStore) (s : Session) (disk : Disk)
    (name : String) :
    (ProjectTools.DeleteProject envs m s disk name).2.2.1 =
      if name = "" then s else ProjectTools.clearIfCurrent s name := by
  unfold ProjectTools.DeleteProject
  split
  · rfl
  · rcases m.DeleteProject (envs 0) disk name with ⟨r, m1, disk1⟩
    cases r <;> rfl

theorem restore_project_session (envs : ToolEnv) (m : MetaStore) (s : Session) (disk : Disk)
    (name : String) : (ProjectTools.RestoreProject envs m s disk name).2.2.1 = s := by
  unfold ProjectTools.RestoreProject
  split
  · rfl
  · rcases m.RestoreProject (envs 0) disk name with ⟨r, m1, disk1⟩
    cases r <;> rfl

theorem archive_project_registry (envs : ToolEnv) (m : MetaStore) (s : Session) (disk : Disk)
    (name : String) :
    (ProjectTools.ArchiveProject envs m s disk name).2.1 =
      if name = "" then m else (m.ArchiveProject (envs 0) disk name).2.1 := by
  unfold ProjectTools.ArchiveProject
  split
  · rfl
  · rcases m.ArchiveProject (envs 0) disk name with ⟨r, m1, disk1⟩
    cases r <;> rfl

theorem delete_project_registry (envs : ToolEnv) (m : MetaStore) (s : Session) (disk : Disk)
    (name : String) :
    (ProjectTools.DeleteProject envs m s disk name).2.1 =
      if name = "" then m else (m.DeleteProject (envs 0) disk name).2.1 := by
  unfold ProjectTools.DeleteProject
  split
  · rfl
  · rcases m.DeleteProject (envs 0) disk name with ⟨r, m1, disk1⟩
    cases r <;> rfl

theorem restore_project_registry (envs : ToolEnv) (m : MetaStore) (s : Session) (disk : Disk)
    (name : String) :
    (ProjectTools.RestoreProject envs m s disk name).2.1 =
      if name = "" then m else (m.RestoreProject (envs 0) disk name).2.1 := by
  unfold ProjectTools.RestoreProject
  split
  · rfl
  · rcases m.RestoreProject (envs 0) disk name with ⟨r, m1, disk1⟩
    cases r <;> rfl

theorem boundIn_unbound (m : MetaStore) : (⟨"", "", none⟩ : Session).BoundIn m :=
  fun h => absurd rfl h

theorem call_boundIn (envs : ToolEnv) (m : MetaStore) (s : Session) (disk : Disk)
    (c : ProjectCall) (hm : m.Lifecycle) (hb : s.BoundIn m) :
    (c.run envs m s disk).2.2.1.BoundIn (c.run envs m s disk).2.1 := by
  cases c with
  | createProject name description =>
    simp only [ProjectCall.run, ProjectTools.CreateProject]
    by_cases hn : name = ""
    · rw [if_pos hn]; exact hb
    · rw [if_neg hn]
      have hkeep : s.BoundIn (m.CreateProject (envs 0) disk name description).2.1 := by
        intro hne
        obtain ⟨h1, p, hp, h2⟩ := hb hne
        exact ⟨h1, p, createProject_mem (envs 0) m disk name description hp, h2⟩
      have hl := MetaStore.Lifecycle.createProject (envs 0) m disk name description hm
      rcases hc : m.CreateProject (envs 0) disk name description with ⟨r, m1, disk1⟩
      rw [hc] at hkeep hl
      cases r with
      | error err => exact hkeep
      | ok proj =>
        simp only []
        have hpn : proj.Name = name := by
          obtain ⟨-, -, -, -, -, hg⟩ := createProject_ok_inv hc
          exact (getProjectByName_ok hg).2.2
        have hsw := switchProject_boundIn (envs 1) s m1 disk1 proj.Name (by rw [hpn]; exact hn)
          (lifecycle_sited hl) hkeep
        rcases hs : s.SwitchProject (envs 1) m1 disk1 proj.Name with ⟨r2, s1, disk2, ev⟩
        rw [hs] at hsw
        cases r2 <;> exact hsw
  | switchProject name =>
    simp only [ProjectCall.run, ProjectTools.SwitchProject]
    by_cases hn : name = ""
    · rw [if_pos hn]; exact hb
    · rw [if_neg hn]
      have hsw := switchProject_boundIn (envs 0) s m disk name hn (lifecycle_sited hm) hb
      rcases hs : s.SwitchProject (envs 0) m disk name with ⟨r2, s1, disk2, ev⟩
      rw [hs] at hsw
      cases r2 <;> exact hsw
  | archiveProject name =>
    simp only [ProjectCall.run]
    rw [archive_project_session, archive_project_registry]
    by_cases hn : name = ""
    · rw [if_pos hn, if_pos hn]; exact hb
    · rw [if_neg hn, if_neg hn]
      rcases clearIfCurrent_cases s name with ⟨-, -, h⟩ | ⟨h1, h⟩
      · rw [h]; exact boundIn_unbound _
      · rw [h]
        intro hne
        obtain ⟨h2, p, hp, h3, h4, h5⟩ := hb hne
        rcases h1 with h1 | h1
        · exact absurd h1 hne
        · exact ⟨h2, p, archiveProject_mem_other (envs 0) m disk name hp (by rw [h4]; exact h1),
            h3, h4, h5⟩
  | restoreProject name =>
    simp only [ProjectCall.run]
    rw [restore_project_session, restore_project_registry]
    by_cases hn : name = ""
    · rw [if_pos hn]; exact hb
    · rw [if_neg hn]
      intro hne
      obtain ⟨h2, p, hp, h3, h4, h5⟩ := hb hne
      obtain ⟨q, hq, hq1, hq2, hq3⟩ := restoreProject_keeps_active (envs 0) m disk name hp h5
      exact ⟨h2, q, hq, hq1.trans h3, hq2.trans h4, hq3⟩
  | deleteProject name =>
    simp only [ProjectCall.run]
    rw [delete_project_session, delete_project_registry]
    by_cases hn : name = ""
    · rw [if_pos hn, if_pos hn]; exact hb
    · rw [if_neg hn, if_neg hn]
      rcases clearIfCurrent_cases s name with ⟨-, -, h⟩ | ⟨h1, h⟩
      · rw [h]; exact boundIn_unbound _
      · rw [h]
        intro hne
        obtain ⟨h2, p, hp, h3, h4, h5⟩ := hb hne
        rcases h1 with h1 | h1
        · exact absurd h1 hne
        · exact ⟨h2, p, deleteProject_mem_other (envs 0) m disk name hp (by rw [h4]; exact h1),
            h3, h4, h5⟩

theorem served_boundIn {m : MetaStore} {s : Session} {disk : Disk} (h : Served m s disk) :
    s.BoundIn m := by
  induction h with
  | start m disk hm => exact boundIn_unbound m
  | call envs m s disk c hs ih => exact call_boundIn envs m s disk c (served_lifecycle hs) ih

theorem getCurrent_bound {s : Session} (h : s.GetCurrent.2.2 = true) :
    s.projectDB ≠ none ∧ s.GetCurrent = (s.currentProjectID, s.currentProjectName, true) := by
  unfold Session.GetCurrent at h ⊢
  cases hp : s.projectDB with
  | none => rw [hp] at h; exact absurd h (by simp)
  | some p => exact ⟨by simp, rfl⟩

theorem getCurrent_unbound {s : Session} (h : s.GetCurrent.2.2 = false) :
    s.projectDB = none := by
  unfold Session.GetCurrent at h
  cases hp : s.projectDB with
  | none => rfl
  | some p => rw [hp] at h; exact absurd h (by simp)

/-- C29. For a session that started Unbound on a registry produced by the
lifecycle operations and went through any sequence of calls of the handlers
`create_project`, `switch_project`, `archive_project`, `restore_project` and
`delete_project`, whatever the environment of each: whenever the session is
Bound, the project whose id and name `GetCurrent` reports is registered and has
status `active`; the handlers `archive_project` and `delete_project` called
with the name of the bound project leave the session Unbound, `GetCurrent`
reporting no project; and `archive_project` and `delete_project` called with
another name, and `restore_project` called with any name, leave the session as
it is. -/
theorem bound_project_active (m : MetaStore) (s : Session) (disk : Disk)
    (h : Served m s disk) :
    (s.GetCurrent.2.2 = true →
      ∃ p ∈ m.projects, p.ID = s.GetCurrent.1 ∧ p.Name = s.GetCurrent.2.1 ∧
        p.Status = "active") ∧
    (∀ envs name, s.GetCurrent.2.2 = true → s.GetCurrent.2.1 = name →
      (ProjectTools.ArchiveProject envs m s disk name).2.2.1.GetCurrent = ("", "", false) ∧
      (ProjectTools.DeleteProject envs m s disk name).2.2.1.GetCurrent = ("", "", false)) ∧
    (∀ envs name, s.GetCurrent.2.2 = false ∨ s.GetCurrent.2.1 ≠ name →
      (ProjectTools.ArchiveProject envs m s disk name).2.2.1 = s ∧
      (ProjectTools.DeleteProject envs m s disk name).2.2.1 = s) ∧
    (∀ envs name, (ProjectTools.RestoreProject envs m s disk name).2.2.1 = s) := by
  have hb := served_boundIn h
  refine ⟨?_, ?_, ?_, fun envs name => restore_project_session envs m s disk name⟩
  · intro hcur
    obtain ⟨hne, hg⟩ := getCurrent_bound hcur
    obtain ⟨-, p, hp, h1, h2, h3⟩ := hb hne
    rw [hg]
    exact ⟨p, hp, h1, h2, h3⟩
  · intro envs name hcur hname
    obtain ⟨hne, hg⟩ := getCurrent_bound hcur
    rw [hg] at hname
    simp only [] at hname
    obtain ⟨hnonempty, -⟩ := hb hne
    have hn : name ≠ "" := by rw [← hname]; exact hnonempty
    rw [archive_project_session, delete_project_session, if_neg hn]
    rcases clearIfCurrent_cases s name with ⟨-, -, hc⟩ | ⟨h1, -⟩
    · rw [hc]
      exact ⟨rfl, rfl⟩
    · rcases h1 with h1 | h1
      · exact absurd h1 hne
      · exact absurd hname h1
  · intro envs name hor
    have hc : ProjectTools.clearIfCurrent s name = s := by
      rcases clearIfCurrent_cases s name with ⟨h1, h2, -⟩ | ⟨-, hc⟩
      · rcases hor with hu | hd
        · exact absurd (getCurrent_unbound hu) h1
        · have hcur : s.GetCurrent.2.2 = true := by
            unfold Session.GetCurrent
            cases hp : s.projectDB with
            | none => exact absurd hp h1
            | some p => rfl
          rw [(getCurrent_bound hcur).2] at hd
          exact absurd h2 hd
      · exact hc
    rw [archive_project_session, delete_project_session, hc]
    exact ⟨by split <;> rfl, by split <;> rfl⟩

theorem bound_project_active_witness :
    ∃ p ∈ sampleRegistry.1.projects, p.ID = sampleSession.GetCurrent.1 ∧
      p.Name = sampleSession.GetCurrent.2.1 ∧ p.Status = "active" := by
  have h := Served.call (fun _ => sampleEnv) sampleRegistry.1 Session.New sampleRegistry.2
    (ProjectCall.switchProject "alpha")
    (Served.start _ _ (MetaStore.Lifecycle.createProject _ _ _ _ _
      (MetaStore.Lifecycle.createProject _ _ _ _ _ (MetaStore.Lifecycle.opened "/data"))))
  have e : (ProjectCall.run (fun _ => sampleEnv) sampleRegistry.1 Session.New sampleRegistry.2
      (ProjectCall.switchProject "alpha")).2 =
      (sampleRegistry.1, sampleSession, sampleRegistry.2) := by decide
  rw [e] at h
  exact (bound_project_active sampleRegistry.1 sampleSession sampleRegistry.2 h).1 (by decide)

/-! ## Relations between entities that are not tombstoned -/

theorem Linked.of_thins {db d : DB} (hl : db.Linked) (ht : db.Thins d) : d.Linked := by
  intro r hr ha e he hid
  rw [ht.1] at he
  exact hl r (ht.2 r hr ha) ha e he hid

theorem thins_refl (db : DB) : db.Thins db :=
  ⟨rfl, fun _ hr _ => hr⟩

theorem thins_insertObservation (db0 : DB) (now id entity_id content : String) :
    StmtPreserves (DB.Thins db0) (insertObservation now id entity_id content) := by
  intro db a db1 hI h
  obtain ⟨-, rfl⟩ := insertObservation_ok_inv h
  exact hI

theorem thins_tombstoneObservations (db0 : DB) (hit : ObservationRow → Bool) (now : String) :
    StmtPreserves (DB.Thins db0) (updateObservations hit (ObservationRow.tombstone now)) := by
  intro db a db1 hI h
  simp only [updateObservations, Except.ok.injEq, Prod.mk.injEq] at h
  obtain ⟨-, rfl⟩ := h
  exact hI

theorem thins_tombstoneRelations (db0 : DB) (hit : RelationRow → Bool) (now : String) :
    StmtPreserves (DB.Thins db0) (updateRelations hit (RelationRow.tombstone now)) := by
  intro db a db1 hI h
  simp only [updateRelations, Except.ok.injEq, Prod.mk.injEq] at h
  obtain ⟨-, rfl⟩ := h
  refine ⟨hI.1, ?_⟩
  intro r hr ha
  obtain ⟨r0, hr0, rfl⟩ := List.mem_map.mp hr
  by_cases hh : hit r0 = true
  · rw [if_pos hh] at ha
    exact absurd ha (by simp)
  · rw [if_neg hh] at ha ⊢
    exact hI.2 r0 hr0 ha

theorem addObservations_loop_thins (db0 : DB) (env : Env) (entityID : String) :
    ∀ (contents : List String) (tx : Tx), db0.Thins tx.db →
      db0.Thins (ProjectStore.AddObservations.loop env entityID contents tx).2.db := by
  intro contents
  induction contents with
  | nil => intro tx hI; exact hI
  | cons c rest ih =>
    intro tx hI
    have h1 := Tx.run_keeps (thins_insertObservation db0 (env.now tx.n)
      (UUID.String (env.uuid tx.n)) entityID c) env tx hI
    unfold ProjectStore.AddObservations.loop
    simp only []
    split
    · rename_i err tx1 heq
      rw [heq] at h1; exact h1
    · rename_i u tx1 heq
      rw [heq] at h1
      have h2 := ih tx1 h1
      split
      · rename_i err tx2 heq2
        rw [heq2] at h2; exact h2
      · rename_i obs tx2 heq2
        rw [heq2] at h2; exact h2

theorem AddObservations_thins (env : Env) (db : DB) (entityName : String)
    (contents : List String) :
    db.Thins (ProjectStore.AddObservations env db entityName contents).2 := by
  have hI := thins_refl db
  have h0 := Tx.run_keeps (selectEntityID_preserves (DB.Thins db) entityName) env ⟨db, 0⟩ hI
  unfold ProjectStore.AddObservations
  split
  · split <;> exact hI
  · rename_i entityID tx heq
    rw [heq] at h0
    have h1 := Tx.control_keeps (I := DB.Thins db) env tx h0
    split
    · exact hI
    · rename_i u tx1 heq1
      rw [heq1] at h1
      have h2 := addObservations_loop_thins db env entityID contents tx1 h1
      split
      · exact hI
      · rename_i created tx2 heq2
        rw [heq2] at h2
        have h3 := Tx.control_keeps (I := DB.Thins db) env tx2 h2
        split
        · exact hI
        · rename_i u3 tx3 heq3
          rw [heq3] at h3; exact h3

theorem deleteObservations_loop_thins (db0 : DB) (env : Env) (entityID : String) :
    ∀ (contents : List String) (tx : Tx), db0.Thins tx.db →
      db0.Thins (ProjectStore.DeleteObservations.loop env entityID contents tx).2.db := by
  intro contents
  induction contents with
  | nil => intro tx hI; exact hI
  | cons c rest ih =>
    intro tx hI
    have h1 := Tx.run_keeps (thins_tombstoneObservations db0
      (fun o => o.entity_id = entityID ∧ o.content = c ∧ o.active) (env.now tx.n)) env tx hI
    unfold ProjectStore.DeleteObservations.loop
    split
    · rename_i err tx1 heq
      rw [heq] at h1; exact h1
    · rename_i n tx1 heq
      rw [heq] at h1
      have h2 := ih tx1 h1
      split
      · rename_i err tx2 heq2
        rw [heq2] at h2; exact h2
      · rename_i total tx2 heq2
        rw [heq2] at h2; exact h2

theorem DeleteObservations_thins (env : Env) (db : DB) (entityName : String)
    (contents : List String) :
    db.Thins (ProjectStore.DeleteObservations env db entityName contents).2 := by
  have hI := thins_refl db
  have h0 := Tx.run_keeps (selectEntityID_preserves (DB.Thins db) entityName) env ⟨db, 0⟩ hI
  unfold ProjectStore.DeleteObservations
  split
  · split <;> exact hI
  · rename_i entityID tx heq
    rw [heq] at h0
    have h1 := Tx.control_keeps (I := DB.Thins db) env tx h0
    split
    · exact hI
    · rename_i u tx1 heq1
      rw [heq1] at h1
      have h2 := deleteObservations_loop_thins db env entityID contents tx1 h1
      split
      · exact hI
      · rename_i total tx2 heq2
        rw [heq2] at h2
        have h3 := Tx.control_keeps (I := DB.Thins db) env tx2 h2
        split
        · exact hI
        · rename_i u3 tx3 heq3
          rw [heq3] at h3; exact h3

theorem deleteRelations_loop_thins (db0 : DB) (env : Env) :
    ∀ (relations : List RelationInput) (tx : Tx), db0.Thins tx.db →
      db0.Thins (ProjectStore.DeleteRelations.loop env relations tx).2.db := by
  intro relations
  induction relations with
  | nil => intro tx hI; exact hI
  | cons r rest ih =>
    intro tx hI
    have h1 := Tx.run_keeps (selectEntityID_preserves (DB.Thins db0) r.From) env tx hI
    unfold ProjectStore.DeleteRelations.loop
    split
    · rename_i err tx1 heq
      rw [heq] at h1; exact ih tx1 h1
    · rename_i fromID tx1 heq
      rw [heq] at h1
      have h2 := Tx.run_keeps (selectEntityID_preserves (DB.Thins db0) r.To) env tx1 h1
      split
      · rename_i err tx2 heq2
        rw [heq2] at h2; exact ih tx2 h2
      · rename_i toID tx2 heq2
        rw [heq2] at h2
        have h3 := Tx.run_keeps (thins_tombstoneRelations db0
          (fun x => x.from_entity = fromID ∧ x.to_entity = toID ∧
            x.relation_type = r.RelationType ∧ x.active) (env.now tx2.n)) env tx2 h2
        split
        · rename_i err tx3 heq3
          rw [heq3] at h3; exact h3
        · rename_i n tx3 heq3
          rw [heq3] at h3
          have h4 := ih tx3 h3
          split
          · rename_i err tx4 heq4
            rw [heq4] at h4; exact h4
          · rename_i total tx4 heq4
            rw [heq4] at h4; exact h4

theorem DeleteRelations_thins (env : Env) (db : DB) (relations : List RelationInput) :
    db.Thins (ProjectStore.DeleteRelations env db relations).2 := by
  have hI := thins_refl db
  have h0 := Tx.control_keeps (I := DB.Thins db) env ⟨db, 0⟩ hI
  unfold ProjectStore.DeleteRelations
  split
  · exact hI
  · rename_i u tx heq
    rw [heq] at h0
    have h1 := deleteRelations_loop_thins db env relations tx h0
    split
    · exact hI
    · rename_i total tx1 heq1
      rw [heq1] at h1
      have h2 := Tx.control_keeps (I := DB.Thins db) env tx1 h1
      split
      · exact hI
      · rename_i u2 tx2 heq2
        rw [heq2] at h2; exact h2

theorem CreateEntities_linked (env : Env) (db : DB) (entities : List EntityInput)
    (hl : db.Linked) : (ProjectStore.CreateEntities env db entities).2.Linked := by
  rcases CreateEntities_cases env db entities with ⟨e, h⟩ | ⟨created, tx1, hloop, h⟩
  · rw [h]; exact hl
  · rw [h]
    obtain ⟨erows, orows, hdb, hrows, -⟩ := createEntities_loop_ok entities _ _ _ hloop
    rw [hdb]
    intro r hr ha e he hid
    rcases List.mem_append.mp he with he | he
    · exact hl r hr ha e he hid
    · obtain ⟨ent, -, hx⟩ := forall₂_mem_left (forall₂_swap hrows) he
      exact hx.2.2.2

theorem CreateRelations_linked (env : Env) (db : DB) (rels : List RelationInput)
    (hk : db.Keyed) (hl : db.Linked) : (ProjectStore.CreateRelations env db rels).2.Linked := by
  rcases CreateRelations_cases env db rels with
    ⟨e, -, h⟩ | ⟨-, e, tx1, -, h⟩ | ⟨-, created, tx1, hloop, ⟨e, -, h⟩ | ⟨-, h⟩⟩
  · rw [h]; exact hl
  · rw [h]; exact hl
  · rw [h]; exact hl
  · rw [h]
    obtain ⟨rows, hdb, hrows, -⟩ := createRelations_loop_ok rels _ _ _ hloop
    rw [hdb]
    intro r hr ha e he hid
    rcases List.mem_append.mp hr with hr | hr
    · exact hl r hr ha e he hid
    · obtain ⟨inp, -, -, -, ⟨e1, he1, -, ha1, hid1⟩, ⟨e2, he2, -, ha2, hid2⟩⟩ :=
        forall₂_mem_left (forall₂_swap hrows) hr
      rcases hid with hid | hid
      · have : e = e1 := List.inj_on_of_nodup_map hk.entityIDs he he1 (hid.trans hid1.symm)
        rw [this]; exact ha1
      · have : e = e2 := List.inj_on_of_nodup_map hk.entityIDs he he2 (hid.trans hid2.symm)
        rw [this]; exact ha2

theorem deleteEntities_relations_shape (env : Env) :
    ∀ (ids : List String) (tx tx1 : Tx) (u : Unit),
      ProjectStore.DeleteEntities.relations env ids tx = (.ok u, tx1) →
      tx1.db.entities = tx.db.entities ∧
      ∀ r ∈ tx1.db.relations, r.active = true →
        r ∈ tx.db.relations ∧ r.from_entity ∉ ids ∧ r.to_entity ∉ ids := by
  intro ids
  induction ids with
  | nil =>
    intro tx tx1 u h
    simp only [ProjectStore.DeleteEntities.relations, Prod.mk.injEq] at h
    obtain ⟨-, rfl⟩ := h
    exact ⟨rfl, fun r hr _ => ⟨hr, List.not_mem_nil _, List.not_mem_nil _⟩⟩
  | cons eid rest ih =>
    intro tx tx1 u h
    rw [ProjectStore.DeleteEntities.relations] at h
    split at h
    · exact absurd (congrArg Prod.fst h) (by simp)
    · rename_i n txa heq
      obtain ⟨db1, hs, rfl, -, -⟩ := Tx.run_ok_inv heq
      simp only [updateRelations, Except.ok.injEq, Prod.mk.injEq] at hs
      obtain ⟨-, rfl⟩ := hs
      obtain ⟨he, hr⟩ := ih _ _ _ h
      refine ⟨he, ?_⟩
      intro r hmem ha
      obtain ⟨h1, h2, h3⟩ := hr r hmem ha
      obtain ⟨r0, hr0, hr0e⟩ := List.mem_map.mp h1
      by_cases hh : decide ((r0.from_entity = eid ∨ r0.to_entity = eid) ∧ r0.active = true) = true
      · rw [if_pos hh] at hr0e
        rw [← hr0e] at ha
        exact absurd ha (by simp)
      · rw [if_neg hh] at hr0e
        subst hr0e
        simp only [decide_eq_true_eq, not_and, not_or] at hh
        have hne : ¬ (r0.from_entity = eid ∨ r0.to_entity = eid) := fun hx => hh hx ha
        simp only [not_or] at hne
        refine ⟨hr0, ?_, ?_⟩
        · intro hx
          rcases List.mem_cons.mp hx with hx | hx
          · exact hne.1 hx
          · exact h2 hx
        · intro hx
          rcases List.mem_cons.mp hx with hx | hx
          · exact hne.2 hx
          · exact h3 hx

theorem DeleteEntities_shape (env : Env) (db : DB) (names : List String) :
    (ProjectStore.DeleteEntities env db names).2 = db ∨
    ∃ tE, (ProjectStore.DeleteEntities env db names).2.entities =
        db.entities.map (fun e =>
          if e.name ∈ names ∧ e.active = true then EntityRow.tombstone tE e else e) ∧
      ∀ r ∈ (ProjectStore.DeleteEntities env db names).2.relations, r.active = true →
        r ∈ db.relations ∧ r.from_entity ∉ matchedIDs db names ∧
          r.to_entity ∉ matchedIDs db names := by
  unfold ProjectStore.DeleteEntities
  split
  · exact Or.inl rfl
  · split
    · exact Or.inl rfl
    · rename_i u tx heq
      have hdb0 : tx.db = db := by
        have := Tx.control_db env ⟨db, 0⟩
        rw [heq] at this
        exact this
      split
      · exact Or.inl rfl
      · rename_i entityIDs tx1 heq1
        obtain ⟨db1, hs1, rfl, -, -⟩ := Tx.run_ok_inv heq1
        simp only [selectEntityIDs, Except.ok.injEq, Prod.mk.injEq] at hs1
        obtain ⟨hids, rfl⟩ := hs1
        split
        · exact Or.inl rfl
        · split
          · exact Or.inl rfl
          · rename_i n2 tx2 heq2
            obtain ⟨db2, hs2, rfl, -, -⟩ := Tx.run_ok_inv heq2
            simp only [updateObservations, Except.ok.injEq, Prod.mk.injEq] at hs2
            obtain ⟨-, rfl⟩ := hs2
            split
            · exact Or.inl rfl
            · rename_i u3 tx3 heq3
              obtain ⟨he3, hr3⟩ := deleteEntities_relations_shape env _ _ _ _ heq3
              split
              · exact Or.inl rfl
              · rename_i count tx4 heq4
                obtain ⟨db4, hs4, rfl, -, -⟩ := Tx.run_ok_inv heq4
                simp only [updateEntities, Except.ok.injEq, Prod.mk.injEq] at hs4
                obtain ⟨-, rfl⟩ := hs4
                split
                · exact Or.inl rfl
                · rename_i u5 tx5 heq5
                  have hdb5 := (congrArg (fun p => p.2.db) heq5).symm.trans (Tx.control_db env _)
                  simp only [] at hdb5
                  refine Or.inr ⟨env.now tx3.n, ?_, ?_⟩
                  · rw [hdb5]
                    simp only [] at he3 ⊢
                    rw [he3, hdb0]
                    apply List.map_congr_left
                    intro e _
                    simp only [decide_eq_true_eq]
                  · rw [hdb5]
                    simp only [] at hr3 ⊢
                    intro r hr ha
                    obtain ⟨h1, h2, h3⟩ := hr3 r hr ha
                    rw [hdb0] at h1
                    have hm : entityIDs = matchedIDs db names := by
                      rw [← hids, hdb0]
                      rfl
                    rw [hm] at h2 h3
                    exact ⟨h1, h2, h3⟩

theorem DeleteEntities_linked (env : Env) (db : DB) (names : List String) (hl : db.Linked) :
    (ProjectStore.DeleteEntities env db names).2.Linked := by
  rcases DeleteEntities_shape env db names with h | ⟨tE, he, hr⟩
  · rw [h]; exact hl
  · intro r hmem ha e hmemE hid
    obtain ⟨h1, h2, h3⟩ := hr r hmem ha
    rw [he] at hmemE
    obtain ⟨e0, he0, rfl⟩ := List.mem_map.mp hmemE
    have hid0 : e0.id = r.from_entity ∨ e0.id = r.to_entity := by
      split at hid
      · exact hid
      · exact hid
    have ha0 := hl r h1 ha e0 he0 hid0
    by_cases hh : e0.name ∈ names ∧ e0.active = true
    · have hm : e0.id ∈ matchedIDs db names :=
        (mem_matchedIDs db names e0.id).mpr ⟨e0, he0, hh.2, hh.1, rfl⟩
      rcases hid0 with hx | hx
      · exact absurd (hx ▸ hm) h2
      · exact absurd (hx ▸ hm) h3
    · rw [if_neg hh]
      exact ha0

theorem mutation_linked (env : Env) (db : DB) (mu : Mutation) (hk : db.Keyed) (hl : db.Linked) :
    (mu.run env db).Linked := by
  cases mu with
  | createEntities entities => exact CreateEntities_linked env db entities hl
  | addObservations entityName contents =>
    exact Linked.of_thins hl (AddObservations_thins env db entityName contents)
  | createRelations relations => exact CreateRelations_linked env db relations hk hl
  | deleteEntities names => exact DeleteEntities_linked env db names hl
  | deleteObservations entityName contents =>
    exact Linked.of_thins hl (DeleteObservations_thins env db entityName contents)
  | deleteRelations relations =>
    exact Linked.of_thins hl (DeleteRelations_thins env db relations)

theorem linked_of_reachable {db : DB} (h : db.Reachable) : db.Linked := by
  induction h with
  | fresh => exact fun r hr => absurd hr (List.not_mem_nil _)
  | step env db mu hdb ih => exact mutation_linked env db mu (keyed_of_reachable hdb) ih

/-! ## What the read paths show -/

theorem liveRelation_of_row {db : DB} (hk : db.Keyed) (hl : db.Linked) {row : RelationRow}
    (hr : row ∈ db.relations) (ha : row.active = true) : db.LiveRelation row.toModel := by
  refine ⟨⟨row, hr, rfl, ha⟩, ?_, ?_⟩
  · intro row1 hr1 hid
    have : row1 = row := List.inj_on_of_nodup_map hk.relationIDs hr1 hr hid
    rw [this]; exact ha
  · exact hl row hr ha

theorem liveObservation_of_row {db : DB} (hk : db.Keyed) {row : ObservationRow}
    (hr : row ∈ db.observations) (ha : row.active = true) {e : EntityRow}
    (he : e ∈ db.entities) (hea : e.active = true) (ho : row.entity_id = e.id) :
    db.LiveObservation row.toModel := by
  refine ⟨⟨row, hr, rfl, ha⟩, ?_, ⟨e, he, ho.symm, hea⟩, ?_⟩
  · intro row1 hr1 hid
    have : row1 = row := List.inj_on_of_nodup_map hk.observationIDs hr1 hr hid
    rw [this]; exact ha
  · intro e1 he1 hid
    have : e1 = e := List.inj_on_of_nodup_map hk.entityIDs he1 he (hid.trans ho)
    rw [this]; exact hea

theorem observationsOf_live {db : DB} (hk : db.Keyed) {e : EntityRow} (he : e ∈ db.entities)
    (hea : e.active = true) :
    ∀ o ∈ db.observationsOf e.id, db.LiveObservation o ∧ o.EntityID = e.id := by
  intro o ho
  obtain ⟨row, hrow, rfl⟩ := List.mem_map.mp ((observationsOf_perm db e.id).subset ho)
  obtain ⟨hmem, hp⟩ := List.mem_filter.mp hrow
  simp only [decide_eq_true_eq] at hp
  exact ⟨liveObservation_of_row hk hmem hp.2 he hea hp.1, hp.1⟩

theorem relationsOf_live {db : DB} (hk : db.Keyed) (hl : db.Linked) (id : String) :
    ∀ r ∈ db.relationsOf id, db.LiveRelation r := by
  intro r hr
  obtain ⟨row, hrow, rfl⟩ := List.mem_map.mp ((relationsOf_perm db id).subset hr)
  obtain ⟨hmem, hp⟩ := List.mem_filter.mp hrow
  simp only [decide_eq_true_eq] at hp
  exact liveRelation_of_row hk hl hmem hp.2

theorem populated_live {db : DB} (hk : db.Keyed) (hl : db.Linked) {e : EntityRow}
    (he : e ∈ db.entities) (hea : e.active = true) : db.LiveEntity (db.populated e) := by
  refine ⟨⟨e, he, rfl, rfl, hea⟩, ?_, observationsOf_live hk he hea, relationsOf_live hk hl e.id⟩
  intro e1 he1 hid
  have : e1 = e := List.inj_on_of_nodup_map hk.entityIDs he1 he hid
  rw [this]; exact hea

theorem search_result_mem (env : Env) (hf : env.FaultFree) (fts : Fts5) (rank : String → Nat)
    (db : DB) (hs : db.schema = true) (query : String) (hit : List String → Bool)
    (hq : fts query = some hit) :
    ∃ res, ProjectStore.Search env fts rank db query = .ok res ∧
      ∀ ent ∈ res, ∃ e ∈ db.entities, e.active = true ∧ ent = db.populated e := by
  refine ⟨_, search_ok env hf fts rank db hs query _ _
    (by unfold searchEntitiesFts; rw [hq]) (by unfold searchObservationsFts; rw [hq]), ?_⟩
  intro ent hent
  obtain ⟨id, -, hfind⟩ := List.mem_filterMap.mp hent
  obtain ⟨e, he, rfl⟩ := Option.map_eq_some'.mp hfind
  have hp := List.find?_some he
  simp only [decide_eq_true_eq] at hp
  exact ⟨e, List.mem_of_find?_eq_some he, hp.2, rfl⟩

/-- C27. In every store reachable through the graph operations, with an engine
that does not fail: every entity that `GetEntities`, `Search` or `ReadGraph`
returns is an entity of the store that is not tombstoned; every observation it
carries is stored, not tombstoned and owned by that entity; every relation it
carries, and every relation of the graph `ReadGraph` returns, is stored, not
tombstoned, and neither its source nor its target is tombstoned.  In
particular `DeleteEntities(names)` succeeds and leaves a reachable store, to
which all this applies, in which every entity that bore one of the names is
tombstoned and `GetEntities(names)` is empty. -/
theorem tombstones_hidden (env : Env) (fts : Fts5) (rank : String → Nat) (db : DB)
    (hf : env.FaultFree) (hr : db.Reachable) :
    (∀ names, ∃ res, ProjectStore.GetEntities env db names = .ok res ∧
      ∀ ent ∈ res, db.LiveEntity ent) ∧
    (∀ query hit, fts query = some hit →
      ∃ res, ProjectStore.Search env fts rank db query = .ok res ∧
        ∀ ent ∈ res, db.LiveEntity ent) ∧
    (∃ g, ProjectStore.ReadGraph env db = .ok g ∧
      (∀ ent ∈ g.Entities, db.LiveEntity ent) ∧ ∀ r ∈ g.Relations, db.LiveRelation r) ∧
    (∀ env1 names, env1.FaultFree →
      ∃ n db1, ProjectStore.DeleteEntities env1 db names = (.ok n, db1) ∧ db1.Reachable ∧
        ProjectStore.GetEntities env db1 names = .ok [] ∧
        (∀ e ∈ db.entities, e.name ∈ names →
          ∀ e1 ∈ db1.entities, e1.id = e.id → e1.active = false) ∧
        ∀ ent, db1.LiveEntity ent → ∀ e ∈ db.entities, e.name ∈ names →
          ent.ID ≠ e.id ∧ (∀ o ∈ ent.Observations, o.EntityID ≠ e.id) ∧
          ∀ r ∈ ent.Relations, r.FromEntity ≠ e.id ∧ r.ToEntity ≠ e.id) := by
  have hk := keyed_of_reachable hr
  have hl := linked_of_reachable hr
  have hs := hk.schema
  refine ⟨?_, ?_, ?_, ?_⟩
  · intro names
    refine ⟨_, getEntities_ok env hf db hs names, ?_⟩
    intro ent hent
    obtain ⟨e, he, rfl⟩ := List.mem_map.mp hent
    obtain ⟨hmem, hp⟩ := mem_idx_entities_active.mp (List.mem_filter.mp he).1
    exact populated_live hk hl hmem hp
  · intro query hit hq
    obtain ⟨res, hres, hmem⟩ := search_result_mem env hf fts rank db hs query hit hq
    refine ⟨res, hres, ?_⟩
    intro ent hent
    obtain ⟨e, he, hea, rfl⟩ := hmem ent hent
    exact populated_live hk hl he hea
  · refine ⟨_, readGraph_ok env hf db hs, ?_, ?_⟩
    · intro ent hent
      obtain ⟨e, he, rfl⟩ := List.mem_map.mp hent
      obtain ⟨hmem, hp⟩ := mem_idx_entities_active.mp he
      refine ⟨⟨e, hmem, rfl, rfl, hp⟩, ?_, observationsOf_live hk hmem hp, ?_⟩
      · intro e1 he1 hid
        have : e1 = e := List.inj_on_of_nodup_map hk.entityIDs he1 hmem hid
        rw [this]; exact hp
      · intro r hrel
        exact absurd hrel (List.not_mem_nil _)
    · intro r hrel
      obtain ⟨row, hrow, rfl⟩ := List.mem_map.mp hrel
      have h1 := (List.perm_insertionSort _ _).subset hrow
      obtain ⟨hmem, hp⟩ := mem_idx_relations_type.mp h1
      exact liveRelation_of_row hk hl hmem hp
  · intro env1 names hf1
    have hdel := DeleteEntities_eq_cascadeOnce env1 db names hf1 hs
    have hreach : (ProjectStore.DeleteEntities env1 db names).2.Reachable :=
      DB.Reachable.step env1 db (Mutation.deleteEntities names) hr
    rw [hdel] at hreach
    have hdead : ∀ e1 ∈ (cascadeOnce (env1.now 2) (cascadeStamp env1 (matchedIDs db names) 3)
        (env1.now (3 + (matchedIDs db names).length)) db names).entities,
        e1.name ∈ names → e1.active = false := by
      intro e1 he1 hn
      simp only [cascadeOnce] at he1
      obtain ⟨e0, he0, rfl⟩ := List.mem_map.mp he1
      by_cases hh : e0.name ∈ names ∧ e0.active = true
      · rw [if_pos hh]
        rfl
      · rw [if_neg hh] at hn ⊢
        cases ha : e0.active with
        | false => rfl
        | true => exact absurd ⟨hn, ha⟩ hh
    have hgone : ∀ e ∈ db.entities, e.name ∈ names →
        ∃ e1 ∈ (cascadeOnce (env1.now 2) (cascadeStamp env1 (matchedIDs db names) 3)
          (env1.now (3 + (matchedIDs db names).length)) db names).entities,
          e1.id = e.id ∧ e1.active = false := by
      intro e he hn
      have hmem : (if e.name ∈ names ∧ e.active = true
          then e.tombstone (env1.now (3 + (matchedIDs db names).length)) else e) ∈
          (cascadeOnce (env1.now 2) (cascadeStamp env1 (matchedIDs db names) 3)
            (env1.now (3 + (matchedIDs db names).length)) db names).entities := by
        simp only [cascadeOnce]
        exact List.mem_map.mpr ⟨e, he, rfl⟩
      refine ⟨_, hmem, ?_, hdead _ hmem ?_⟩
      · split <;> rfl
      · split
        · exact hn
        · exact hn
    refine ⟨_, _, hdel, hreach, ?_, ?_, ?_⟩
    rotate_left 2
    · intro ent hent e he hn
      obtain ⟨e1, he1, hid1, hina⟩ := hgone e he hn
      have hno : ∀ id, id = e.id → (∀ x ∈ (cascadeOnce (env1.now 2)
          (cascadeStamp env1 (matchedIDs db names) 3)
          (env1.now (3 + (matchedIDs db names).length)) db names).entities,
          x.id = id → x.active = true) → False := by
        intro id hid hall
        have := hall e1 he1 (hid1.trans hid.symm)
        rw [hina] at this
        exact absurd this (by simp)
      refine ⟨fun h => hno _ h hent.2.1, ?_, ?_⟩
      · intro o ho h
        exact hno _ h ((hent.2.2.1 o ho).1.2.2.2)
      · intro r hr
        have hlr := (hent.2.2.2 r hr).2.2
        exact ⟨fun h => hno _ h fun x hx hxid => hlr x hx (Or.inl hxid),
          fun h => hno _ h fun x hx hxid => hlr x hx (Or.inr hxid)⟩
    · rw [getEntities_ok env hf _ (keyed_of_reachable hreach).schema names]
      have : (List.filter (fun e => decide (e.name ∈ names))
          (idx_entities_active (cascadeOnce (env1.now 2)
            (cascadeStamp env1 (matchedIDs db names) 3)
            (env1.now (3 + (matchedIDs db names).length)) db names).entities)) = [] := by
        rw [List.filter_eq_nil_iff]
        intro e1 he1 hp
        simp only [decide_eq_true_eq] at hp
        obtain ⟨hmem, ha⟩ := mem_idx_entities_active.mp he1
        have := hdead e1 hmem hp
        rw [ha] at this
        exact absurd this (by simp)
      rw [this]
      rfl
    · intro e he hn e1 he1 hid
      have he1' := he1
      simp only [cascadeOnce] at he1'
      obtain ⟨e0, he0, hfe⟩ := List.mem_map.mp he1'
      have hid0 : e0.id = e.id := by
        rw [← hid, ← hfe]
        split <;> rfl
      have : e0 = e := List.inj_on_of_nodup_map hk.entityIDs he0 he hid0
      subst this
      apply hdead e1 he1
      rw [← hfe]
      split
      · exact hn
      · exact hn

theorem tombstones_hidden_witness :
    ∃ n db1, ProjectStore.DeleteEntities sampleEnv sampleDB ["X"] = (.ok n, db1) ∧
      ProjectStore.GetEntities sampleEnv db1 ["X"] = .ok [] ∧
      (ProjectStore.GetEntities sampleEnv db1 ["Y"]).toOption.map
        (fun l => l.map fun e => (e.Name, e.Relations.length)) = some [("Y", 0)] ∧
      (ProjectStore.ReadGraph sampleEnv db1).toOption.map
        (fun g => (g.Entities.map fun e => (e.Name, e.Observations.length), g.Relations.length)) =
          some ([("Y", 0)], 0) := by
  obtain ⟨n, db1, h, -, hx, -, -⟩ :=
    (tombstones_hidden sampleEnv sampleFts (fun _ => 0) sampleDB (fun _ => rfl)
      sampleDB_reachable).2.2.2 sampleEnv ["X"] (fun _ => rfl)
  have hdb : db1 = (ProjectStore.DeleteEntities sampleEnv sampleDB ["X"]).2 := by rw [h]
  refine ⟨n, db1, h, hx, ?_, ?_⟩
  · rw [hdb]; decide
  · rw [hdb]; decide

end MemoryCloud
